import Mathlib

/-!
# Panzer local mesh partitioning: a shallow embedding

Embedding of `panzer::partitioning_utilities::setupSubLocalMeshInfo`,
`panzer::partitioning_utilities::splitMeshInfo`, `panzer::generateLocalMeshPartitions` and
`panzer::fillLocalCellIDs` (file `disc-fe/src/Panzer_LocalPartitioningUtilities.cpp`), of
`panzer::buildWorksets`, the one-sided and the two-sided `panzer::buildBCWorkset`,
`panzer::impl::associateCellsBySideIds`, `panzer::impl::subset` and
`panzer::impl::buildBCWorksetForUniqueSideId` (file
`disc-fe/src/Panzer_Workset_Builder_impl.hpp`), of
`panzer_stk::WorksetFactory::generateWorksets` (file
`adapters-stk/src/Panzer_STK_WorksetFactory.cpp`), and the properties they satisfy.

Conventions of the embedding.

* `panzer::LocalOrdinal` (`LO`) and `panzer::GlobalOrdinal` (`GO`) are `Int`.  Counts and
  indices are taken in the range in which the C++ `int` arithmetic does not overflow (signed
  overflow has no defined behaviour that could be embedded).
* A conversion between integer types that C++ defines is embedded as such: a `std::size_t`
  used as a key of a `std::map<unsigned, _>` is taken modulo `2^32`, and an `unsigned` key
  stored in the `int` member `subcell_index` of a workset is taken in two's complement.
* A Kokkos view is a list; its leading extent is the length of the list.  The second extent
  of `cell_to_faces` and the second and third extents of `cell_vertices` are kept as fields.
  Reading or writing a view outside its extents is the failure `Failure.outOfBounds`.
* Vertex coordinates are values of an arbitrary type `R`: the code only copies them.
* A thrown exception (`TEUCHOS_ASSERT`, `TEUCHOS_TEST_FOR_EXCEPT_MSG`, `std::length_error`)
  is a value of `Failure`; `setupSubLocalMeshInfo` and `splitMeshInfo` return
  `Except Failure _`, and `generateLocalMeshPartitions` returns an `Outcome`, which also tells
  the value of its in/out argument `partitions` when an assertion rejects the descriptor.
* A `std::unordered_set` / `std::unordered_map` is the list of its distinct keys in insertion
  order; the order in which the container is iterated is not fixed by C++, so it is a
  parameter (`IterationOrder`) that is only known to enumerate each entry once.  The two-level
  map `faces_set[cell_0][subcell_index_0]` is kept as one list of entries keyed by the pair
  `(cell_0, subcell_index_0)`; every iteration order of the nested map is an iteration order
  of that list.
* A `std::map` that the code fills is the list of its entries in increasing key order, the
  order in which it is iterated; the maps of a `LocalMeshInfo`, which the code only
  searches, are lists of entries searched with `List.lookup`.
* An integer division or remainder with divisor zero, which has no defined behaviour, is the
  failure `Failure.divisionByZero`; the `int` division and remainder of C++ truncate towards
  zero (`Int.tdiv`, `Int.tmod`).
* The class `panzer::Workset` is declared in a header that is not among the sources; a
  default-constructed workset is a parameter `fresh` of the functions that make one and leave
  some of its members as constructed.  The two overloads of `panzer::buildBCWorkset` are
  `buildBCWorkset` (one side) and `buildBCWorksetInterface` (two sides).
* `fillLocalCellIDs` is run on one rank of a communicator whose ranks all run it; what a
  rank reads from the connection manager and from `FaceToElement` is a `RankMesh`, and the
  collective sum-reduction receives the buffers that the same code sends on every rank.
* The `while` loop of `splitMeshInfo` is run with a bound on its number of iterations
  (`num_owned_cells`, one cell at least per iteration); the bound is shown never to be hit.

The definitions come first, the theorems after them.
-/

namespace Panzer

section setup

variable {R : Type}

/-! ## Definitions: the embedding of the code and the predicates used to state its properties -/

/-- Ways in which the embedded functions fail. -/
inductive Failure where
  /-- Line 100: `owned_parent_cells` is empty. -/
  | noOwnedParentCells
  /-- Line 103: the parent info has no owned cells. -/
  | parentWithoutOwnedCells
  /-- Lines 110, 207-209: a leading extent of the parent differs from its cell count. -/
  | parentExtentMismatch
  /-- Line 153: the cell across a face is negative. -/
  | negativeNeighbor
  /-- Line 296: `lower_bound` returned `end()`. -/
  | neighborNotFound
  /-- Line 371: the splitting size is neither positive nor `ALL_ELEMENTS`. -/
  | badSplittingSize
  /-- Line 389: a chunk of size zero. -/
  | nullPartition
  /-- Lines 378, 393 (and `Panzer_STK_WorksetFactory.cpp`, line 209): `std::vector::resize`
  with a negative size. -/
  | lengthError
  /-- Line 419: the workset size of the descriptor is `CLASSIC_MODE`. -/
  | classicWorksetSize
  /-- Line 420: the workset size of the descriptor is 0. -/
  | zeroWorksetSize
  /-- Line 423: the descriptor does not require partitioning. -/
  | partitioningNotRequired
  /-- `Panzer_Workset_Builder_impl.hpp`, line 213: `local_side_ids` and `local_cell_ids` differ
  in size. -/
  | sideIdsSize
  /-- `Panzer_Workset_Builder_impl.hpp`, line 214: `local_side_ids` and the leading extent of
  `vertex_coordinates` differ. -/
  | vertexCoordinatesSize
  /-- `Panzer_Workset_Builder_impl.hpp`, line 302: the two lists of side ids differ in size. -/
  | sideIdListsSize
  /-- `Panzer_Workset_Builder_impl.hpp`, line 160: the cell ids handed out do not end at the
  end of `local_cell_ids`. -/
  | localCellIdsEnd
  /-- `Panzer_Workset_Builder_impl.hpp`, line 177: the rows copied do not end at the leading
  extent of `vertex_coordinates`. -/
  | vertexCoordinatesEnd
  /-- `Panzer_Workset_Builder_impl.hpp`, line 336: the two lists of cell ids differ in size. -/
  | cellIdListsSize
  /-- `Panzer_Workset_Builder_impl.hpp`, line 342: one of the two workset maps does not hold
  exactly one workset. -/
  | worksetMapSize
  /-- `Panzer_Workset_Builder_impl.hpp`, line 345: a workset does not hold all the cells of its
  side. -/
  | worksetCellCount
  /-- `Panzer_Workset_Builder_impl.hpp`, line 421: the map made for one pair of side ids does
  not hold exactly one workset. -/
  | pairWorksetMapSize
  /-- An integer division or remainder with divisor zero (`Panzer_Workset_Builder_impl.hpp`,
  lines 119 and 121; `Panzer_STK_WorksetFactory.cpp`, lines 206-207), which has no defined
  behaviour. -/
  | divisionByZero
  /-- A view is read or written outside its extents. -/
  | outOfBounds
  /-- The bound on the number of iterations of the embedded `while` loop of `splitMeshInfo`
  was reached with cells left (shown not to happen: `splitLoop_spec`, `splitLoop_ok`). -/
  | loopBound
  deriving DecidableEq, Repr

/-- Modelled from the spec: the record `panzer::LocalMeshInfoBase`, declared in a header that
is not among the sources; its fields are those of the data model (`global_cells`,
`local_cells`, `cell_vertices`, `cell_to_faces`, `face_to_cells`, `face_to_lidx` and the three
counts), which are the ones `setupSubLocalMeshInfo` reads and writes. -/
structure LocalMeshInfoBase (R : Type) where
  num_owned_cells : Int
  num_ghstd_cells : Int
  num_virtual_cells : Int
  /-- View `global_cells(cell)`. -/
  global_cells : List Int
  /-- View `local_cells(cell)`. -/
  local_cells : List Int
  /-- View `cell_vertices(cell, vertex, dim)`. -/
  cell_vertices : List (List (List R))
  /-- Value of `cell_vertices.extent(1)`. -/
  num_vertices_per_cell : Nat
  /-- Value of `cell_vertices.extent(2)`. -/
  num_dims : Nat
  /-- View `cell_to_faces(cell, local_face)`. -/
  cell_to_faces : List (List Int)
  /-- Value of `cell_to_faces.extent(1)`. -/
  num_faces_per_cell : Nat
  /-- View `face_to_cells(face, side)`. -/
  face_to_cells : List (Int × Int)
  /-- View `face_to_lidx(face, side)`. -/
  face_to_lidx : List (Int × Int)

/-- The local struct `face_t` of `setupSubLocalMeshInfo` (lines 247-259). -/
structure face_t where
  cell_0 : Int
  cell_1 : Int
  subcell_index_0 : Int
  subcell_index_1 : Int
  deriving DecidableEq, Repr

/-- An entry of `faces_set`: `(cell_0, subcell_index_0)` mapped to `(cell_1, subcell_index_1)`. -/
abbrev FaceEntry := (Int × Int) × (Int × Int)

/-- The order in which the unordered containers of `setupSubLocalMeshInfo` are iterated:
`cells` for the two `std::unordered_set<LO>` (lines 176-177), `faces` for the two-level
`std::unordered_map` flattened to its entries (lines 318-326).  Each receives the entries in
insertion order and returns them in iteration order. -/
structure IterationOrder where
  cells : List Int → List Int
  faces : List FaceEntry → List FaceEntry
  cells_perm : ∀ l, (cells l).Perm l
  faces_perm : ∀ l, (faces l).Perm l

/-- Iteration in insertion order. -/
def IterationOrder.insertion : IterationOrder where
  cells := id
  faces := id
  cells_perm := fun _ => List.Perm.refl _
  faces_perm := fun _ => List.Perm.refl _

/-- Iteration in reverse insertion order. -/
def IterationOrder.reversed : IterationOrder where
  cells := List.reverse
  faces := List.reverse
  cells_perm := fun l => List.reverse_perm l
  faces_perm := fun l => List.reverse_perm l

/-- Entry `i` of a view, when `i` is inside its extent. -/
def look {α : Type} (v : List α) (i : Int) : Option α :=
  if 0 ≤ i then v[i.toNat]? else none

/-- Entry `(i, j)` of a rank-two view. -/
def look2 {α : Type} (v : List (List α)) (i j : Int) : Option α :=
  (look v i).bind fun row => look row j

/-- Reading `v(i)`. -/
def viewAt {α : Type} (v : List α) (i : Int) : Except Failure α :=
  match look v i with
  | some a => .ok a
  | none => .error .outOfBounds

/-- Reading `v(i, j)`. -/
def viewAt2 {α : Type} (v : List (List α)) (i j : Int) : Except Failure α :=
  match look2 v i j with
  | some a => .ok a
  | none => .error .outOfBounds

/-- Writing `v(i, j) = a`. -/
def viewSet2 {α : Type} (v : List (List α)) (i j : Int) (a : α) : Except Failure (List (List α)) :=
  match look2 v i j with
  | some _ => .ok (v.set i.toNat ((v.getD i.toNat []).set j.toNat a))
  | none => .error .outOfBounds

/-- Column `side` of a row of a `View<LO*[2]>`. -/
def side (row : Int × Int) (s : Int) : Int :=
  if s = 0 then row.1 else row.2

/-- Value of `num_parent_total_cells` (line 107). -/
def LocalMeshInfoBase.totalCells (P : LocalMeshInfoBase R) : Int :=
  P.num_owned_cells + P.num_ghstd_cells + P.num_virtual_cells

/-- Insertion into a `std::unordered_set<LO>`. -/
def setInsert (s : List Int) (x : Int) : List Int :=
  if x ∈ s then s else s ++ [x]

/-- Lines 139-150 (and again 280-289): the parent face at slot `local_face` of `parent_cell`;
`none` when it is negative (`continue`), otherwise the face, the side of the neighbour and the
neighbour cell. -/
def acrossFace (P : LocalMeshInfoBase R) (parent_cell : Int) (local_face : Nat) :
    Except Failure (Option (Int × Int × Int)) :=
  match viewAt2 P.cell_to_faces parent_cell local_face with
  | .error e => .error e
  | .ok parent_face =>
    if parent_face < 0 then .ok none
    else
      match viewAt P.face_to_cells parent_face with
      | .error e => .error e
      | .ok row =>
        let neighbor_side : Int := if side row 0 = parent_cell then 1 else 0
        .ok (some (parent_face, neighbor_side, side row neighbor_side))

/-- Lines 156-169: the neighbour is recorded as virtual, as ghost, or not at all. -/
def classifyNeighbor (P : LocalMeshInfoBase R) (owned_parent_cells : List Int)
    (sets : List Int × List Int) (neighbor_parent_cell : Int) : List Int × List Int :=
  if neighbor_parent_cell ≥ P.num_owned_cells + P.num_ghstd_cells then
    (sets.1, setInsert sets.2 neighbor_parent_cell)
  else if neighbor_parent_cell ≥ P.num_owned_cells then
    (setInsert sets.1 neighbor_parent_cell, sets.2)
  else if neighbor_parent_cell ∈ owned_parent_cells then
    sets
  else
    (setInsert sets.1 neighbor_parent_cell, sets.2)

/-- Body of the inner loop of lines 138-170, on the pair
`(ghstd_parent_cells_set, virtual_parent_cells_set)`. -/
def classifyFace (P : LocalMeshInfoBase R) (owned_parent_cells : List Int) (parent_cell_index : Int)
    (sets : List Int × List Int) (local_face_index : Nat) : Except Failure (List Int × List Int) :=
  match acrossFace P parent_cell_index local_face_index with
  | .error e => .error e
  | .ok none => .ok sets
  | .ok (some (_, _, neighbor_parent_cell)) =>
    if neighbor_parent_cell < 0 then .error .negativeNeighbor
    else .ok (classifyNeighbor P owned_parent_cells sets neighbor_parent_cell)

/-- The inner loop of lines 138-170 over the face slots `slots`. -/
def classifyCell (P : LocalMeshInfoBase R) (owned_parent_cells : List Int) (parent_cell_index : Int) :
    List Nat → List Int × List Int → Except Failure (List Int × List Int)
  | [], sets => .ok sets
  | k :: slots, sets =>
    match classifyFace P owned_parent_cells parent_cell_index sets k with
    | .error e => .error e
    | .ok sets1 => classifyCell P owned_parent_cells parent_cell_index slots sets1

/-- The outer loop of lines 136-171 over the cells `cells` still to be visited. -/
def classifyCells (P : LocalMeshInfoBase R) (owned_parent_cells : List Int) :
    List Int → List Int × List Int → Except Failure (List Int × List Int)
  | [], sets => .ok sets
  | p :: cells, sets =>
    match classifyCell P owned_parent_cells p (List.range P.num_faces_per_cell) sets with
    | .error e => .error e
    | .ok sets1 => classifyCells P owned_parent_cells cells sets1

/-- Lines 130-171: the sets `ghstd_parent_cells_set` and `virtual_parent_cells_set`, each in
insertion order. -/
def classifyPass (P : LocalMeshInfoBase R) (owned_parent_cells : List Int) :
    Except Failure (List Int × List Int) :=
  classifyCells P owned_parent_cells owned_parent_cells ([], [])

/-- Lines 186-198: `all_parent_cells`, the pairs `(parent index, child index)` of the cells
`parents` numbered from `start`. -/
def numberCells : Nat → List Int → List (Int × Int)
  | _, [] => []
  | start, p :: parents => (p, (start : Int)) :: numberCells (start + 1) parents

/-- The order `operator<=` of `std::pair<LO, LO>`. -/
def pairLE (a b : Int × Int) : Prop :=
  a.1 < b.1 ∨ (a.1 = b.1 ∧ a.2 ≤ b.2)

instance : DecidableRel pairLE := fun a b => by
  unfold pairLE; exact inferInstance

/-- The order `operator<` of `std::pair<LO, LO>`. -/
def pairLT (a b : Int × Int) : Prop :=
  a.1 < b.1 ∨ (a.1 = b.1 ∧ a.2 < b.2)

instance : DecidableRel pairLT := fun a b => by
  unfold pairLT; exact inferInstance

/-- Line 269: `std::sort(all_parent_cells.begin(), all_parent_cells.end())`. -/
def sortCells (all_parent_cells : List (Int × Int)) : List (Int × Int) :=
  List.insertionSort pairLE all_parent_cells

/-- Line 294: `std::lower_bound` on the sorted range, the first entry not less than
`search_point`; `none` is `end()`. -/
def lower_bound (sorted : List (Int × Int)) (search_point : Int × Int) : Option (Int × Int) :=
  sorted.find? fun entry => decide (¬ pairLT entry search_point)

/-- Line 314: `faces_set[cell_0][subcell_index_0] = value`. -/
def facesAssign : List FaceEntry → Int × Int → Int × Int → List FaceEntry
  | [], key, value => [(key, value)]
  | (key1, value1) :: rest, key, value =>
    if key1 = key then (key, value) :: rest
    else (key1, value1) :: facesAssign rest key value

/-- Body of the inner loop of lines 279-315. -/
def createFace (P : LocalMeshInfoBase R) (sorted : List (Int × Int)) (owned_cell : Nat)
    (owned_parent_cell : Int) (faces_set : List FaceEntry) (local_face : Nat) :
    Except Failure (List FaceEntry) :=
  match acrossFace P owned_parent_cell local_face with
  | .error e => .error e
  | .ok none => .ok faces_set
  | .ok (some (parent_face, neighbor_side, neighbor_parent_cell)) =>
    match viewAt P.face_to_lidx parent_face with
    | .error e => .error e
    | .ok lidx =>
      let neighbor_subcell_index := side lidx neighbor_side
      match lower_bound sorted (neighbor_parent_cell, 0) with
      | none => .error .neighborNotFound
      | some entry =>
        let neighbor_cell := entry.2
        if (owned_cell : Int) < neighbor_cell then
          .ok (facesAssign faces_set ((owned_cell : Int), (local_face : Int))
            (neighbor_cell, neighbor_subcell_index))
        else
          .ok (facesAssign faces_set (neighbor_cell, neighbor_subcell_index)
            ((owned_cell : Int), (local_face : Int)))

/-- The inner loop of lines 279-315 over the face slots `slots`. -/
def createCellFaces (P : LocalMeshInfoBase R) (sorted : List (Int × Int)) (owned_cell : Nat)
    (owned_parent_cell : Int) : List Nat → List FaceEntry → Except Failure (List FaceEntry)
  | [], faces_set => .ok faces_set
  | k :: slots, faces_set =>
    match createFace P sorted owned_cell owned_parent_cell faces_set k with
    | .error e => .error e
    | .ok faces_set1 => createCellFaces P sorted owned_cell owned_parent_cell slots faces_set1

/-- The outer loop of lines 277-316, from child cell `owned_cell` on. -/
def createFaces (P : LocalMeshInfoBase R) (sorted : List (Int × Int)) :
    Nat → List Int → List FaceEntry → Except Failure (List FaceEntry)
  | _, [], faces_set => .ok faces_set
  | owned_cell, p :: cells, faces_set =>
    match createCellFaces P sorted owned_cell p (List.range P.num_faces_per_cell) faces_set with
    | .error e => .error e
    | .ok faces_set1 => createFaces P sorted (owned_cell + 1) cells faces_set1

/-- Lines 318-326: an entry of `faces_set` as a `face_t`. -/
def toFace (entry : FaceEntry) : face_t :=
  { cell_0 := entry.1.1, cell_1 := entry.2.1,
    subcell_index_0 := entry.1.2, subcell_index_1 := entry.2.2 }

/-- Lines 342-354: the loop over the faces from `face_index` on, acting on `cell_to_faces_h`. -/
def fillCellToFaces : Nat → List face_t → List (List Int) → Except Failure (List (List Int))
  | _, [], cell_to_faces_h => .ok cell_to_faces_h
  | face_index, face :: faces, cell_to_faces_h =>
    match viewSet2 cell_to_faces_h face.cell_0 face.subcell_index_0 (face_index : Int) with
    | .error e => .error e
    | .ok h1 =>
      match viewSet2 h1 face.cell_1 face.subcell_index_1 (face_index : Int) with
      | .error e => .error e
      | .ok h2 => fillCellToFaces (face_index + 1) faces h2

/-- Lines 228-237: the values copied from the parent for the child cells `parents`. -/
def copyCells {α : Type} (parent_view : List α) : List Int → Except Failure (List α)
  | [] => .ok []
  | parent_cell :: parents =>
    match viewAt parent_view parent_cell with
    | .error e => .error e
    | .ok a =>
      match copyCells parent_view parents with
      | .error e => .error e
      | .ok rest => .ok (a :: rest)

/-- The function `panzer::partitioning_utilities::setupSubLocalMeshInfo` (lines 77-360): the
value left in `sub_info`, or the failure. -/
def setupSubLocalMeshInfo (order : IterationOrder) (parent_info : LocalMeshInfoBase R)
    (owned_parent_cells : List Int) : Except Failure (LocalMeshInfoBase R) :=
  if owned_parent_cells.length = 0 then .error .noOwnedParentCells
  else if parent_info.num_owned_cells ≤ 0 then .error .parentWithoutOwnedCells
  else if (parent_info.cell_to_faces.length : Int) ≠ parent_info.totalCells then
    .error .parentExtentMismatch
  else
    match classifyPass parent_info owned_parent_cells with
    | .error e => .error e
    | .ok (ghstd_parent_cells_set, virtual_parent_cells_set) =>
      let ghstd_parent_cells := order.cells ghstd_parent_cells_set
      let virtual_parent_cells := order.cells virtual_parent_cells_set
      let parents := owned_parent_cells ++ ghstd_parent_cells ++ virtual_parent_cells
      let all_parent_cells := numberCells 0 parents
      if (parent_info.cell_vertices.length : Int) ≠ parent_info.totalCells
          ∨ (parent_info.local_cells.length : Int) ≠ parent_info.totalCells
          ∨ (parent_info.global_cells.length : Int) ≠ parent_info.totalCells then
        .error .parentExtentMismatch
      else
        match copyCells parent_info.global_cells parents,
              copyCells parent_info.local_cells parents,
              copyCells parent_info.cell_vertices parents with
        | .ok global_cells, .ok local_cells, .ok cell_vertices =>
          match createFaces parent_info (sortCells all_parent_cells) 0 owned_parent_cells [] with
          | .error e => .error e
          | .ok faces_set =>
            let faces := (order.faces faces_set).map toFace
            match fillCellToFaces 0 faces
                (List.replicate parents.length
                  (List.replicate parent_info.num_faces_per_cell (-1))) with
            | .error e => .error e
            | .ok cell_to_faces =>
              .ok { num_owned_cells := (owned_parent_cells.length : Int)
                    num_ghstd_cells := (ghstd_parent_cells.length : Int)
                    num_virtual_cells := (virtual_parent_cells.length : Int)
                    global_cells := global_cells
                    local_cells := local_cells
                    cell_vertices := cell_vertices
                    num_vertices_per_cell := parent_info.num_vertices_per_cell
                    num_dims := parent_info.num_dims
                    cell_to_faces := cell_to_faces
                    num_faces_per_cell := parent_info.num_faces_per_cell
                    face_to_cells := faces.map fun face => (face.cell_0, face.cell_1)
                    face_to_lidx := faces.map fun face =>
                      (face.subcell_index_0, face.subcell_index_1) }
        | _, _, _ => .error .outOfBounds

/-- The parent indices of the child cells in child order (the first components of
`all_parent_cells` before it is sorted): owned, then ghost, then virtual. -/
def childParents (order : IterationOrder) (owned_parent_cells : List Int)
    (sets : List Int × List Int) : List Int :=
  owned_parent_cells ++ order.cells sets.1 ++ order.cells sets.2

/-- The shape of a rank-two view: its leading extent and the common length of its rows. -/
def HasShape {α : Type} (v : List (List α)) (n m : Nat) : Prop :=
  v.length = n ∧ ∀ row ∈ v, row.length = m

/-- The entry written by `createFace` for child cell `owned_cell` (parent cell
`owned_parent_cell`) at slot `local_face`. -/
def IsRecord (P : LocalMeshInfoBase R) (sorted : List (Int × Int)) (owned_cell : Nat)
    (owned_parent_cell : Int) (local_face : Nat) (e : FaceEntry) : Prop :=
  ∃ parent_face neighbor_side neighbor_parent_cell lidx entry,
    acrossFace P owned_parent_cell local_face
      = .ok (some (parent_face, neighbor_side, neighbor_parent_cell)) ∧
    look P.face_to_lidx parent_face = some lidx ∧
    lower_bound sorted (neighbor_parent_cell, 0) = some entry ∧
    e = if (owned_cell : Int) < entry.2 then
          (((owned_cell : Int), (local_face : Int)), (entry.2, side lidx neighbor_side))
        else ((entry.2, side lidx neighbor_side), ((owned_cell : Int), (local_face : Int)))

/-- The face `face` occupies slot `j` of cell `i`. -/
def face_t.HasSlot (face : face_t) (i j : Int) : Prop :=
  (face.cell_0 = i ∧ face.subcell_index_0 = j) ∨ (face.cell_1 = i ∧ face.subcell_index_1 = j)

/-- The cell `n` is the one the code finds across the face at slot `k` of parent cell `p`
(lines 139-150): the slot holds a face `f >= 0` and `n` is `face_to_cells(f, side)` with
`side = 1` when `face_to_cells(f, 0) == p` and `side = 0` otherwise. -/
def Across (P : LocalMeshInfoBase R) (p : Int) (k : Nat) (n : Int) : Prop :=
  ∃ f cells, look2 P.cell_to_faces p k = some f ∧ 0 ≤ f ∧ look P.face_to_cells f = some cells ∧
    n = side cells (if cells.1 = p then 1 else 0)

/-- The neighbour `n` is classified as a ghost cell (lines 158-168). -/
def IsGhostOf (P : LocalMeshInfoBase R) (owned : List Int) (n : Int) : Prop :=
  n < P.num_owned_cells + P.num_ghstd_cells ∧ (P.num_owned_cells ≤ n ∨ n ∉ owned)

/-- The neighbour `n` is classified as a virtual cell (line 156). -/
def IsVirtualOf (P : LocalMeshInfoBase R) (n : Int) : Prop :=
  P.num_owned_cells + P.num_ghstd_cells ≤ n

/-- What the classification loops guarantee about the sets `out` reached from `sets` after the
events `ev` (pairs of a parent cell and a face slot). -/
structure Classified (P : LocalMeshInfoBase R) (owned : List Int) (ev : Int → Nat → Prop)
    (sets out : List Int × List Int) : Prop where
  nodup_ghstd : sets.1.Nodup → out.1.Nodup
  nodup_virtual : sets.2.Nodup → out.2.Nodup
  mem_ghstd : ∀ m, m ∈ out.1 ↔ m ∈ sets.1 ∨ ((∃ p k, ev p k ∧ Across P p k m) ∧ IsGhostOf P owned m)
  mem_virtual : ∀ m, m ∈ out.2 ↔ m ∈ sets.2 ∨ ((∃ p k, ev p k ∧ Across P p k m) ∧ IsVirtualOf P m)
  readable : ∀ p k, ev p k → ∃ r, acrossFace P p k = .ok r
  nonneg : ∀ p k m, ev p k → Across P p k m → 0 ≤ m

/-- Side `s` of face `f` is slot `k` of cell `c`. -/
def FaceHas (P : LocalMeshInfoBase R) (f : Int) (c : Int) (k : Int) (s : Int) : Prop :=
  (look P.face_to_cells f).map (fun cells => side cells s) = some c ∧
  (look P.face_to_lidx f).map (fun lidx => side lidx s) = some k

instance (P : LocalMeshInfoBase R) (f c k s : Int) : Decidable (FaceHas P f c k s) := by
  unfold FaceHas; exact inferInstance

/-- Slot `k` of cell `c` is negative or points to a face that has `(c, k)` on one side. -/
def CellSlotOK (P : LocalMeshInfoBase R) (c k : Nat) : Prop :=
  ∀ f ∈ look2 P.cell_to_faces c k, 0 ≤ f → FaceHas P f c k 0 ∨ FaceHas P f c k 1

instance (P : LocalMeshInfoBase R) (c k : Nat) : Decidable (CellSlotOK P c k) := by
  unfold CellSlotOK; exact inferInstance

/-- Face symmetry at side `s` of face `f`:
`cell_to_faces(face_to_cells(f, s), face_to_lidx(f, s)) == f`. -/
def FaceSideOK (P : LocalMeshInfoBase R) (f : Nat) (s : Int) : Prop :=
  ((look P.face_to_cells f).bind fun cells =>
    (look P.face_to_lidx f).bind fun lidx =>
      look2 P.cell_to_faces (side cells s) (side lidx s)) = some (f : Int)

instance (P : LocalMeshInfoBase R) (f : Nat) (s : Int) : Decidable (FaceSideOK P f s) := by
  unfold FaceSideOK; exact inferInstance

/-- The data-model invariants used of a parent mesh info: non-negative counts, views whose
leading extent is `owned + ghost + virtual`, a rectangular `cell_to_faces`, `face_to_lidx` as
long as `face_to_cells`, every non-negative entry of `cell_to_faces` pointing to a face that
has this cell and slot on one side, and face symmetry on both sides of every face. -/
def WellFormed (P : LocalMeshInfoBase R) : Prop :=
  0 ≤ P.num_owned_cells ∧ 0 ≤ P.num_ghstd_cells ∧ 0 ≤ P.num_virtual_cells ∧
  (P.global_cells.length : Int) = P.totalCells ∧
  (P.local_cells.length : Int) = P.totalCells ∧
  (P.cell_vertices.length : Int) = P.totalCells ∧
  (P.cell_to_faces.length : Int) = P.totalCells ∧
  (∀ row ∈ P.cell_to_faces, row.length = P.num_faces_per_cell) ∧
  P.face_to_lidx.length = P.face_to_cells.length ∧
  (∀ c < P.cell_to_faces.length, ∀ k < P.num_faces_per_cell, CellSlotOK P c k) ∧
  (∀ f < P.face_to_cells.length, FaceSideOK P f 0 ∧ FaceSideOK P f 1)

instance (P : LocalMeshInfoBase R) : Decidable (WellFormed P) := by
  unfold WellFormed; exact inferInstance

instance : IsTotal (Int × Int) pairLE where
  total a b := by
    unfold pairLE
    rcases lt_trichotomy a.1 b.1 with h | h | h
    · exact Or.inl (Or.inl h)
    · rcases le_total a.2 b.2 with h2 | h2
      · exact Or.inl (Or.inr ⟨h, h2⟩)
      · exact Or.inr (Or.inr ⟨h.symm, h2⟩)
    · exact Or.inr (Or.inl h)

instance : IsTrans (Int × Int) pairLE where
  trans a b c := by
    unfold pairLE
    rintro (h1 | ⟨h1, h1b⟩) (h2 | ⟨h2, h2b⟩)
    · exact Or.inl (lt_trans h1 h2)
    · exact Or.inl (h2 ▸ h1)
    · exact Or.inl (h1 ▸ h2)
    · exact Or.inr ⟨h1.trans h2, le_trans h1b h2b⟩

/-- Face symmetry of a mesh info: for every face `f` and both sides,
`cell_to_faces[face_to_cells[f][s]][face_to_lidx[f][s]] == f`. -/
def FaceSymmetric (M : LocalMeshInfoBase R) : Prop :=
  ∀ (f : Int) (cells lidx : Int × Int), look M.face_to_cells f = some cells →
    look M.face_to_lidx f = some lidx →
    look2 M.cell_to_faces cells.1 lidx.1 = some f ∧ look2 M.cell_to_faces cells.2 lidx.2 = some f

/-- The data of child cell `c` is the parent's data at parent cell `n`. -/
def CopiedFrom (P child : LocalMeshInfoBase R) (c : Nat) (n : Int) : Prop :=
  child.global_cells[c]? = look P.global_cells n ∧
  child.local_cells[c]? = look P.local_cells n ∧
  child.cell_vertices[c]? = look P.cell_vertices n

/-- Modelled from the spec: the enumerator `panzer::WorksetSizeType::ALL_ELEMENTS`, declared in
a header that is not among the sources ("`chunk_size == ALL` (sentinel, not a positive
integer)"); line 464 passes `-1` for it. -/
def ALL_ELEMENTS : Int := -1

/-- Modelled from the spec: the record `panzer::LocalMeshPartition`, declared in a header that
is not among the sources ("a MeshInfoBase subset plus the owning element-block name, optional
sideset name, shared cell topology, and a `has_connectivity` flag"). -/
structure LocalMeshPartition (R : Type) extends LocalMeshInfoBase R where
  element_block_name : String
  sideset_name : String
  cell_topology : Option String
  has_connectivity : Bool

/-- Lines 400-403: a default-constructed `LocalMeshPartition` whose mesh info has been filled
by `setupSubLocalMeshInfo`. -/
def newPartition (sub_info : LocalMeshInfoBase R) : LocalMeshPartition R :=
  { sub_info with
    element_block_name := ""
    sideset_name := ""
    cell_topology := none
    has_connectivity := false }

/-- Lines 396-397: `partition_cells[i] = cell_count + i` for `i < partition_size`. -/
def partitionCells (cell_count partition_size : Int) : List Int :=
  (List.range partition_size.toNat).map fun (i : Nat) => cell_count + (i : Int)

/-- The `while` loop of lines 382-407, run for at most `fuel` iterations from the state
`(cell_count, partitions)`. -/
def splitLoop (order : IterationOrder) (mesh_info : LocalMeshInfoBase R)
    (base_partition_size : Int) :
    Nat → Int → List (LocalMeshPartition R) → Except Failure (List (LocalMeshPartition R))
  | 0, cell_count, partitions =>
    if cell_count < mesh_info.num_owned_cells then .error .loopBound else .ok partitions
  | fuel + 1, cell_count, partitions =>
    if cell_count < mesh_info.num_owned_cells then
      let partition_size :=
        if cell_count + base_partition_size > mesh_info.num_owned_cells then
          mesh_info.num_owned_cells - cell_count
        else base_partition_size
      if partition_size = 0 then .error .nullPartition
      else if partition_size < 0 then .error .lengthError
      else
        match setupSubLocalMeshInfo order mesh_info (partitionCells cell_count partition_size) with
        | .error e => .error e
        | .ok sub_info =>
          splitLoop order mesh_info base_partition_size fuel (cell_count + partition_size)
            (partitions ++ [newPartition sub_info])
    else .ok partitions

/-- The function `panzer::partitioning_utilities::splitMeshInfo` (lines 362-409): the value
left in `partitions`, or the failure.  Every iteration of the loop takes at least one cell,
so `num_owned_cells` iterations are enough. -/
def splitMeshInfo (order : IterationOrder) (mesh_info : LocalMeshInfoBase R)
    (splitting_size : Int) (partitions : List (LocalMeshPartition R)) :
    Except Failure (List (LocalMeshPartition R)) :=
  if ¬ (splitting_size > 0 ∨ splitting_size = ALL_ELEMENTS) then .error .badSplittingSize
  else
    let base_partition_size :=
      min mesh_info.num_owned_cells
        (if splitting_size > 0 then splitting_size else mesh_info.num_owned_cells)
    if base_partition_size < 0 then .error .lengthError
    else
      splitLoop order mesh_info base_partition_size mesh_info.num_owned_cells.toNat 0 partitions

/-- The list of indices `a, a+1, ..., b-1`. -/
def indexRange (a b : Int) : List Int :=
  (List.range (b - a).toNat).map fun (i : Nat) => a + (i : Int)

/-- The owned cells of the child `q` are the parent cells `cells`, in this order. -/
def OwnsCells (P q : LocalMeshInfoBase R) (cells : List Int) : Prop :=
  q.num_owned_cells = (cells.length : Int) ∧
  ∀ (i : Nat) (p : Int), cells[i]? = some p → CopiedFrom P q i p

/-- The partition `q` is the one `splitMeshInfo` appends for the chunk `cells`: a fresh
partition filled by `setupSubLocalMeshInfo` on `cells`. -/
def BuiltFrom (order : IterationOrder) (P : LocalMeshInfoBase R) (cells : List Int)
    (q : LocalMeshPartition R) : Prop :=
  setupSubLocalMeshInfo order P cells = .ok q.toLocalMeshInfoBase ∧
  q = newPartition q.toLocalMeshInfoBase ∧ OwnsCells P q.toLocalMeshInfoBase cells

/-- Value of `base_partition_size` (line 374). -/
def basePartitionSize (mesh_info : LocalMeshInfoBase R) (splitting_size : Int) : Int :=
  min mesh_info.num_owned_cells
    (if splitting_size > 0 then splitting_size else mesh_info.num_owned_cells)

/-- The scenario parent: a chain of four owned cells 0..3, two face slots per cell (slot 0
to the left, slot 1 to the right), no ghost cell, and the virtual cells 4 and 5 across the
left face of cell 0 and the right face of cell 3. -/
def scenarioParent : LocalMeshInfoBase Int where
  num_owned_cells := 4
  num_ghstd_cells := 0
  num_virtual_cells := 2
  global_cells := [100, 101, 102, 103, 104, 105]
  local_cells := [0, 1, 2, 3, 4, 5]
  cell_vertices := [[[0], [1]], [[1], [2]], [[2], [3]], [[3], [4]], [[0], [0]], [[0], [0]]]
  num_vertices_per_cell := 2
  num_dims := 1
  cell_to_faces := [[3, 0], [0, 1], [1, 2], [2, 4], [3, -1], [4, -1]]
  num_faces_per_cell := 2
  face_to_cells := [(0, 1), (1, 2), (2, 3), (0, 4), (3, 5)]
  face_to_lidx := [(1, 0), (1, 0), (1, 0), (0, 0), (1, 0)]

/-- The child of the scenario parent for the owned list `[1, 2]` when the unordered containers
are iterated in insertion order. -/
def scenarioChild : LocalMeshInfoBase Int where
  num_owned_cells := 2
  num_ghstd_cells := 2
  num_virtual_cells := 0
  global_cells := [101, 102, 100, 103]
  local_cells := [1, 2, 0, 3]
  cell_vertices := [[[1], [2]], [[2], [3]], [[0], [1]], [[3], [4]]]
  num_vertices_per_cell := 2
  num_dims := 1
  cell_to_faces := [[0, 1], [1, 2], [-1, 0], [2, -1]]
  num_faces_per_cell := 2
  face_to_cells := [(0, 2), (0, 1), (1, 3)]
  face_to_lidx := [(0, 1), (1, 0), (1, 0)]

/-- The child of the scenario parent for the owned list `[3, 0]` when the unordered containers
are iterated in insertion order: two owned, two ghost and two virtual cells. -/
def scenarioEndsChild : LocalMeshInfoBase Int where
  num_owned_cells := 2
  num_ghstd_cells := 2
  num_virtual_cells := 2
  global_cells := [103, 100, 102, 101, 105, 104]
  local_cells := [3, 0, 2, 1, 5, 4]
  cell_vertices := [[[3], [4]], [[0], [1]], [[2], [3]], [[1], [2]], [[0], [0]], [[0], [0]]]
  num_vertices_per_cell := 2
  num_dims := 1
  cell_to_faces := [[0, 1], [2, 3], [-1, 0], [3, -1], [1, -1], [2, -1]]
  num_faces_per_cell := 2
  face_to_cells := [(0, 2), (0, 4), (1, 5), (1, 3)]
  face_to_lidx := [(0, 1), (1, 0), (0, 0), (1, 0)]

/-- A chain of `n` owned cells `0..n-1` with two face slots per cell (slot 0 to the left, slot
1 to the right), no ghost cell, and the virtual cells `n` and `n+1` across the left face of
cell 0 and the right face of cell `n-1`. -/
def chainParent (n : Nat) : LocalMeshInfoBase Int where
  num_owned_cells := n
  num_ghstd_cells := 0
  num_virtual_cells := 2
  global_cells := (List.range (n + 2)).map fun (i : Nat) => 100 + (i : Int)
  local_cells := (List.range (n + 2)).map fun (i : Nat) => (i : Int)
  cell_vertices :=
    ((List.range n).map fun (i : Nat) => [[(i : Int)], [(i : Int) + 1]]) ++ [[[0], [0]], [[0], [0]]]
  num_vertices_per_cell := 2
  num_dims := 1
  cell_to_faces :=
    ((List.range n).map fun (i : Nat) =>
      [if i = 0 then (n : Int) - 1 else (i : Int) - 1, if i + 1 = n then (n : Int) else (i : Int)])
    ++ [[(n : Int) - 1, -1], [(n : Int), -1]]
  num_faces_per_cell := 2
  face_to_cells :=
    ((List.range (n - 1)).map fun (i : Nat) => ((i : Int), (i : Int) + 1))
    ++ [(0, (n : Int)), ((n : Int) - 1, (n : Int) + 1)]
  face_to_lidx := ((List.range (n - 1)).map fun (_ : Nat) => ((1 : Int), (0 : Int))) ++ [(0, 0), (1, 0)]

/-- A mesh info without cells. -/
def emptyMeshInfo : LocalMeshInfoBase Int where
  num_owned_cells := 0
  num_ghstd_cells := 0
  num_virtual_cells := 0
  global_cells := []
  local_cells := []
  cell_vertices := []
  num_vertices_per_cell := 2
  num_dims := 1
  cell_to_faces := []
  num_faces_per_cell := 2
  face_to_cells := []
  face_to_lidx := []

/-- A periodic chain of one cell: the single owned cell 0 is its own neighbour across the one
face of the mesh, which has slot 1 of cell 0 on side 0 and slot 0 of cell 0 on side 1. -/
def periodicParent : LocalMeshInfoBase Int where
  num_owned_cells := 1
  num_ghstd_cells := 0
  num_virtual_cells := 0
  global_cells := [100]
  local_cells := [0]
  cell_vertices := [[[0], [1]]]
  num_vertices_per_cell := 2
  num_dims := 1
  cell_to_faces := [[0, 0]]
  num_faces_per_cell := 2
  face_to_cells := [(0, 0)]
  face_to_lidx := [(1, 0)]

/-- A mesh info with one owned cell whose only face has no cell on its other side
(`face_to_cells = (0, -1)`): a boundary face for which no virtual cell was made. -/
def danglingParent : LocalMeshInfoBase Int where
  num_owned_cells := 1
  num_ghstd_cells := 0
  num_virtual_cells := 0
  global_cells := [100]
  local_cells := [0]
  cell_vertices := [[[0], [1]]]
  num_vertices_per_cell := 2
  num_dims := 1
  cell_to_faces := [[0]]
  num_faces_per_cell := 1
  face_to_cells := [(0, -1)]
  face_to_lidx := [(0, 0)]

/-- The distinct parent faces that occur with index `>= 0` in the `cell_to_faces` row of some
input cell. -/
def inputFaces (P : LocalMeshInfoBase R) (owned : List Int) : List Int :=
  (owned.flatMap fun p =>
    (List.range P.num_faces_per_cell).filterMap fun (k : Nat) =>
      (look2 P.cell_to_faces p k).filter fun f => decide (0 ≤ f)).dedup

/-- The parent face behind the key `(cell_0, subcell_index_0)` of an entry of `faces_set`:
the entry of the parent's `cell_to_faces` at the parent cell of child cell `cell_0` and slot
`subcell_index_0` (and `-1` when there is none). -/
def keyFace (P : LocalMeshInfoBase R) (parents : List Int) (key : Int × Int) : Int :=
  ((look parents key.1).bind fun parent_cell => look2 P.cell_to_faces parent_cell key.2).getD (-1)

/-! ### `generateLocalMeshPartitions` -/

/-- Modelled from the spec: the enumerator `panzer::WorksetSizeType::CLASSIC_MODE`, declared in
a header that is not among the sources (the size policy "`CLASSIC` (caller supplies pre-built
worksets outside this component)", a sentinel that is neither `ALL_ELEMENTS` nor a size). -/
def CLASSIC_MODE : Int := -2

/-- Modelled from the spec: the class `panzer::WorksetDescriptor`, declared in a header that is
not among the sources ("`descriptor` names either `(element_block)` or
`(element_block, sideset)`, and a size policy"); the fields are the values of the accessors
that `generateLocalMeshPartitions` calls. -/
structure WorksetDescriptor where
  getElementBlock : String
  getSideset : String
  useSideset : Bool
  getWorksetSize : Int
  requiresPartitioning : Bool

/-- Modelled from the spec: the record `panzer::LocalMeshSidesetInfo`, declared in a header
that is not among the sources: the mesh info of one sideset of one element block, with the
cell topology read at line 449. -/
structure LocalMeshSidesetInfo (R : Type) extends LocalMeshInfoBase R where
  cell_topology : Option String

/-- Modelled from the spec: the record `panzer::LocalMeshBlockInfo`, declared in a header that
is not among the sources: the mesh info of one element block, with the cell topology read at
line 475. -/
structure LocalMeshBlockInfo (R : Type) extends LocalMeshInfoBase R where
  cell_topology : Option String

/-- Modelled from the spec: the record `panzer::LocalMeshInfo`, declared in a header that is
not among the sources ("a mapping `sideset → block → MeshInfoBase` and
`block → MeshInfoBase`"): the map `sidesets` from element block names to maps from sideset
names to mesh infos, and the map `element_blocks`.  A `std::map` is the list of its entries;
`find` is `List.lookup`. -/
structure LocalMeshInfo (R : Type) where
  sidesets : List (String × List (String × LocalMeshSidesetInfo R))
  element_blocks : List (String × LocalMeshBlockInfo R)

/-- How a call of `generateLocalMeshPartitions` ends, with the value of its in/out argument
`partitions` then. -/
inductive Outcome (R : Type) where
  /-- Normal return; `partitions` is the value left in the argument. -/
  | returned (partitions : List (LocalMeshPartition R))
  /-- An assertion of lines 419-423 failed; nothing was done to the argument, which still has
  the value `partitions` it was given. -/
  | rejected (e : Failure) (partitions : List (LocalMeshPartition R))
  /-- The call of `splitMeshInfo` threw; the embedding does not follow the argument then (it
  may hold a partly filled partition). -/
  | failed (e : Failure)

/-- Lines 446-451: the tags of a sideset partition. -/
def tagSideset (sideset_name element_block_name : String) (cell_topology : Option String)
    (partition : LocalMeshPartition R) : LocalMeshPartition R :=
  { partition with
    sideset_name := sideset_name
    element_block_name := element_block_name
    cell_topology := cell_topology
    has_connectivity := true }

/-- Lines 473-477: the tags of an element block partition. -/
def tagBlock (element_block_name : String) (cell_topology : Option String)
    (partition : LocalMeshPartition R) : LocalMeshPartition R :=
  { partition with
    element_block_name := element_block_name
    cell_topology := cell_topology
    has_connectivity := true }

/-- The function `panzer::generateLocalMeshPartitions` (lines 413-480). -/
def generateLocalMeshPartitions (order : IterationOrder) (mesh_info : LocalMeshInfo R)
    (description : WorksetDescriptor) (partitions : List (LocalMeshPartition R)) : Outcome R :=
  if description.getWorksetSize = CLASSIC_MODE then .rejected .classicWorksetSize partitions
  else if description.getWorksetSize = 0 then .rejected .zeroWorksetSize partitions
  else if description.requiresPartitioning = false then
    .rejected .partitioningNotRequired partitions
  else
    let element_block_name := description.getElementBlock
    if description.useSideset = true then
      match mesh_info.sidesets.lookup element_block_name with
      | none => .returned partitions
      | some sideset_map =>
        let sideset_name := description.getSideset
        match sideset_map.lookup sideset_name with
        | none => .returned partitions
        | some sideset_info =>
          match splitMeshInfo order sideset_info.toLocalMeshInfoBase description.getWorksetSize
              partitions with
          | .error e => .failed e
          | .ok split =>
            .returned (split.map
              (tagSideset sideset_name element_block_name sideset_info.cell_topology))
    else
      match mesh_info.element_blocks.lookup element_block_name with
      | none => .returned partitions
      | some block_info =>
        match (if description.getWorksetSize = ALL_ELEMENTS then
            splitMeshInfo order block_info.toLocalMeshInfoBase (-1) partitions
          else
            splitMeshInfo order block_info.toLocalMeshInfoBase description.getWorksetSize
              partitions) with
        | .error e => .failed e
        | .ok split => .returned (split.map (tagBlock element_block_name block_info.cell_topology))

/-- A mesh-wide info with the scenario parent as the element block `"block"` and as its
sideset `"left"`. -/
def scenarioMesh : LocalMeshInfo Int where
  sidesets := [("block", [("left", { scenarioParent with cell_topology := some "Line_2" })])]
  element_blocks := [("block", { scenarioParent with cell_topology := some "Line_2" })]

/-! ### Renumbering of cells and faces -/

/-- The child cell index `c` renumbered by `σ`. -/
def renumberCell (σ : Nat → Nat) (c : Int) : Int :=
  ((σ c.toNat : Nat) : Int)

/-- An entry of `cell_to_faces` renumbered by `τ`; a negative entry (no face) is kept. -/
def renumberFace (τ : Nat → Nat) (f : Int) : Int :=
  if f < 0 then f else ((τ f.toNat : Nat) : Int)

/-- An entry of `faces_set` with its two cells renumbered by `σ`. -/
def renumberEntry (σ : Nat → Nat) (e : FaceEntry) : FaceEntry :=
  ((renumberCell σ e.1.1, e.1.2), (renumberCell σ e.2.1, e.2.2))

/-- The position in `l2` of the image under `g` of entry `i` of `l1`. -/
def positionOf {α β : Type} [DecidableEq β] (g : α → β) (l1 : List α) (l2 : List β) (d : α)
    (i : Nat) : Nat :=
  l2.indexOf (g (l1.getD i d))

/-- The mesh info `b` is the mesh info `a` with its cells renumbered by `σ` and its faces
renumbered by `τ`: the counts and extents agree; `σ` keeps every owned cell, sends ghost cells
to ghost cells and virtual cells to virtual cells, one-to-one; `τ` sends faces to faces,
one-to-one; cell `σ c` of `b` has the global index, local index and vertices of cell `c` of
`a`; face `τ f` of `b` joins the renumbered cells of face `f` of `a` through the same slots;
and row `σ c` of `cell_to_faces` in `b` is row `c` in `a` with its faces renumbered. -/
structure SameUpToRenumbering (σ τ : Nat → Nat) (a b : LocalMeshInfoBase R) : Prop where
  num_owned_cells : b.num_owned_cells = a.num_owned_cells
  num_ghstd_cells : b.num_ghstd_cells = a.num_ghstd_cells
  num_virtual_cells : b.num_virtual_cells = a.num_virtual_cells
  num_vertices_per_cell : b.num_vertices_per_cell = a.num_vertices_per_cell
  num_dims : b.num_dims = a.num_dims
  num_faces_per_cell : b.num_faces_per_cell = a.num_faces_per_cell
  global_cells_length : b.global_cells.length = a.global_cells.length
  local_cells_length : b.local_cells.length = a.local_cells.length
  cell_vertices_length : b.cell_vertices.length = a.cell_vertices.length
  cell_to_faces_length : b.cell_to_faces.length = a.cell_to_faces.length
  face_to_cells_length : b.face_to_cells.length = a.face_to_cells.length
  face_to_lidx_length : b.face_to_lidx.length = a.face_to_lidx.length
  owned_fixed : ∀ c : Nat, (c : Int) < a.num_owned_cells → σ c = c
  ghstd_to_ghstd : ∀ c : Nat, a.num_owned_cells ≤ (c : Int) →
    (c : Int) < a.num_owned_cells + a.num_ghstd_cells →
    a.num_owned_cells ≤ (σ c : Int) ∧ (σ c : Int) < a.num_owned_cells + a.num_ghstd_cells
  virtual_to_virtual : ∀ c : Nat, a.num_owned_cells + a.num_ghstd_cells ≤ (c : Int) →
    (c : Int) < a.totalCells →
    a.num_owned_cells + a.num_ghstd_cells ≤ (σ c : Int) ∧ (σ c : Int) < a.totalCells
  cells_injective : ∀ c d : Nat, (c : Int) < a.totalCells → (d : Int) < a.totalCells →
    σ c = σ d → c = d
  faces_bound : ∀ f : Nat, f < a.face_to_cells.length → τ f < a.face_to_cells.length
  faces_injective : ∀ f g : Nat, f < a.face_to_cells.length → g < a.face_to_cells.length →
    τ f = τ g → f = g
  global_cells : ∀ c : Nat, (c : Int) < a.totalCells → b.global_cells[σ c]? = a.global_cells[c]?
  local_cells : ∀ c : Nat, (c : Int) < a.totalCells → b.local_cells[σ c]? = a.local_cells[c]?
  cell_vertices : ∀ c : Nat, (c : Int) < a.totalCells →
    b.cell_vertices[σ c]? = a.cell_vertices[c]?
  face_to_cells : ∀ (f : Nat) (cells : Int × Int), a.face_to_cells[f]? = some cells →
    b.face_to_cells[τ f]? = some (renumberCell σ cells.1, renumberCell σ cells.2)
  face_to_lidx : ∀ f : Nat, f < a.face_to_cells.length →
    b.face_to_lidx[τ f]? = a.face_to_lidx[f]?
  cell_to_faces : ∀ c : Nat, (c : Int) < a.totalCells → ∀ k : Int,
    look2 b.cell_to_faces (σ c) k = (look2 a.cell_to_faces c k).map (renumberFace τ)

/-- Lines 382-407, the calls of line 403: the arguments `partition_cells` of the calls of
`setupSubLocalMeshInfo` that the loop makes from `cell_count` on, in order, up to and
including the first call that throws (no call is made once `partition_size` is found to be
zero or negative). -/
def splitCalls (order : IterationOrder) (mesh_info : LocalMeshInfoBase R)
    (base_partition_size : Int) : Nat → Int → List (List Int)
  | 0, _ => []
  | fuel + 1, cell_count =>
    if cell_count < mesh_info.num_owned_cells then
      let partition_size :=
        if cell_count + base_partition_size > mesh_info.num_owned_cells then
          mesh_info.num_owned_cells - cell_count
        else base_partition_size
      if partition_size = 0 then []
      else if partition_size < 0 then []
      else
        partitionCells cell_count partition_size ::
          match setupSubLocalMeshInfo order mesh_info
              (partitionCells cell_count partition_size) with
          | .error _ => []
          | .ok _ =>
            splitCalls order mesh_info base_partition_size fuel (cell_count + partition_size)
    else []

/-- The arguments of the calls of `setupSubLocalMeshInfo` made by `splitMeshInfo`
(lines 362-409), in order. -/
def splitMeshInfoCalls (order : IterationOrder) (mesh_info : LocalMeshInfoBase R)
    (splitting_size : Int) : List (List Int) :=
  if ¬ (splitting_size > 0 ∨ splitting_size = ALL_ELEMENTS) then []
  else
    let base_partition_size :=
      min mesh_info.num_owned_cells
        (if splitting_size > 0 then splitting_size else mesh_info.num_owned_cells)
    if base_partition_size < 0 then []
    else splitCalls order mesh_info base_partition_size mesh_info.num_owned_cells.toNat 0

/-! ### `fillLocalCellIDs` -/

/-- Modelled from the spec: what `fillLocalCellIDs` obtains on one rank from its
collaborators, which are declared in headers that are not among the sources: the views
`conn->getOwnedGlobalCellID()` and `conn->getGhostGlobalCellID()`, and the map
`faceToElement->getFaceToElementsMap()` ("global face adjacency", a negative entry being
"a missing opposite cell"). -/
structure RankMesh where
  getOwnedGlobalCellID : List Int
  getGhostGlobalCellID : List Int
  getFaceToElementsMap : List (Int × Int)

instance : Inhabited RankMesh := ⟨⟨[], [], []⟩⟩

/-- The three views that `fillLocalCellIDs` fills. -/
structure LocalCellIDs where
  owned_cells : List Int
  ghost_cells : List Int
  virtual_cells : List Int

/-- Lines 515-521: `all_boundary_faces`, the faces with a negative cell on side 0 or on
side 1, in the order of the scan. -/
def all_boundary_faces (elems_by_face : List (Int × Int)) : List Nat :=
  (List.range elems_by_face.length).filter fun face =>
    decide ((elems_by_face.getD face (0, 0)).1 < 0 ∨ (elems_by_face.getD face (0, 0)).2 < 0)

/-- Line 504: `num_owned_cells` on the rank that holds `mesh`. -/
def RankMesh.num_owned_cells (mesh : RankMesh) : Int :=
  (mesh.getOwnedGlobalCellID.length : Int)

/-- Line 522: `num_virtual_cells` on the rank that holds `mesh`. -/
def RankMesh.num_virtual_cells (mesh : RankMesh) : Int :=
  ((all_boundary_faces mesh.getFaceToElementsMap).length : Int)

/-- Lines 536-537 and 544-545: the buffer a rank sends, `num_ranks` zeros with `count` at
position `rank`. -/
def my_distribution (num_ranks rank : Nat) (count : Int) : List Int :=
  (List.replicate num_ranks 0).set rank count

/-- Modelled from the spec: `Teuchos::reduceAll` with `Teuchos::REDUCE_SUM` over `count`
entries, declared in a header that is not among the sources ("collective sum-reduction across
all ranks"): entry `i` of the buffer received, the same on every rank, is the sum of the
entries `i` of the buffers the ranks send. -/
def reduceAll (count : Nat) (sendBuffers : List (List Int)) : List Int :=
  (List.range count).map fun (i : Nat) => (sendBuffers.map fun buffer => buffer.getD i 0).sum

/-- The function `panzer::fillLocalCellIDs` (lines 483-565) on rank `rank` of a communicator
whose ranks hold the meshes `world`: every rank runs the same code, so the reductions of
lines 539 and 547 receive from rank `q` the buffer that lines 536-537 and 544-545 make
there. -/
def fillLocalCellIDs (world : List RankMesh) (rank : Nat) : LocalCellIDs :=
  let conn := world.getD rank default
  let owned_cells := conn.getOwnedGlobalCellID
  let ghost_cells := conn.getGhostGlobalCellID
  let num_virtual_cells := (all_boundary_faces conn.getFaceToElementsMap).length
  let num_ranks := world.length
  let owned_cell_distribution := reduceAll num_ranks
    ((List.range num_ranks).map fun (q : Nat) =>
      my_distribution num_ranks q (world.getD q default).num_owned_cells)
  let virtual_cell_distribution := reduceAll num_ranks
    ((List.range num_ranks).map fun (q : Nat) =>
      my_distribution num_ranks q (world.getD q default).num_virtual_cells)
  let num_global_real_cells := (List.range num_ranks).foldl
    (fun (acc : Int) (i : Nat) => acc + owned_cell_distribution.getD i 0) 0
  let global_virtual_start_idx := (List.range rank).foldl
    (fun (acc : Int) (i : Nat) => acc + virtual_cell_distribution.getD i 0)
    num_global_real_cells
  { owned_cells := owned_cells
    ghost_cells := ghost_cells
    virtual_cells := (List.range num_virtual_cells).map fun (i : Nat) =>
      global_virtual_start_idx + (i : Int) }

/-- A one-rank world whose two cells have the global ids 1 and 2: a chain of two cells with
a boundary face at each end. -/
def oneBasedWorld : List RankMesh :=
  [{ getOwnedGlobalCellID := [1, 2], getGhostGlobalCellID := []
     getFaceToElementsMap := [(0, -1), (0, 1), (1, -1)] }]

/-- A world of three ranks: a chain of five cells with the global ids 0..4, two cells on
rank 0, one on rank 1 and two on rank 2; the faces towards a cell of another rank have that
cell as a ghost cell (local index after the owned cells). -/
def chainWorld : List RankMesh :=
  [{ getOwnedGlobalCellID := [0, 1], getGhostGlobalCellID := [2]
     getFaceToElementsMap := [(-1, 0), (0, 1), (1, 2)] },
   { getOwnedGlobalCellID := [2], getGhostGlobalCellID := [1, 3]
     getFaceToElementsMap := [(1, 0), (0, 2)] },
   { getOwnedGlobalCellID := [3, 4], getGhostGlobalCellID := [2]
     getFaceToElementsMap := [(2, 0), (0, 1), (1, -1)] }]

/-! ### Worksets of a boundary condition -/

/-- The statement `m[key].push_back(a)` on a `std::map` whose values are vectors; the map is
the list of its entries in increasing key order, the order in which it is iterated. -/
def mapPushBack {κ α : Type} [LinearOrder κ] :
    List (κ × List α) → κ → α → List (κ × List α)
  | [], key, a => [(key, [a])]
  | (key1, value1) :: rest, key, a =>
    if key < key1 then (key, [a]) :: (key1, value1) :: rest
    else if key = key1 then (key1, value1 ++ [a]) :: rest
    else (key1, value1) :: mapPushBack rest key a

/-- The statement `m[key] = value` on a `std::map`, the list of its entries in increasing key
order. -/
def mapAssign {κ β : Type} [LinearOrder κ] : List (κ × β) → κ → β → List (κ × β)
  | [], key, value => [(key, value)]
  | (key1, value1) :: rest, key, value =>
    if key < key1 then (key, value) :: (key1, value1) :: rest
    else if key = key1 then (key, value) :: rest
    else (key1, value1) :: mapAssign rest key value

/-- Conversion of a `std::size_t` to `unsigned`, the key type of the maps of lines 205 and
217 of `Panzer_Workset_Builder_impl.hpp`. -/
def toUnsigned (x : Nat) : Nat :=
  x % 2 ^ 32

/-- Conversion of a `std::size_t` to `int` (lines 257-259), in two's complement. -/
def sizeToInt (x : Nat) : Int :=
  (((x + 2 ^ 31) % 2 ^ 32 : Nat) : Int) - 2 ^ 31

/-- Conversion of an `unsigned` to `int`, in two's complement: line 267 assigns the key of
the map, an `unsigned`, to the member `subcell_index`, an `int`.  A key below `2^31` keeps
its value, a key `k` from `2^31` on becomes `k - 2^32`. -/
def unsignedToInt (x : Nat) : Int :=
  (((x + 2 ^ 31) % 2 ^ 32 : Nat) : Int) - 2 ^ 31

/-- Modelled from the spec: the members of the class `panzer::Workset`, declared in a header
that is not among the sources, which the workset builders write ("for each Partition, a
fixed-size cell list, per-cell vertex coordinates in topology-local vertex order, the
element-block/sideset tag"); the integration and basis value arrays, which
`populateValueArrays` fills, are not part of the record.  The members `subcell_dim` and
`subcell_index` are of type `int`, so that `subcell_index` holds a signed value. -/
structure Workset (R : Type) where
  num_cells : Nat
  cell_local_ids : List Nat
  cell_local_ids_k : List Int
  cell_vertex_coordinates : List (List (List R))
  block_id : String
  subcell_dim : Int
  subcell_index : Int

/-- Lines 217-219 of `Panzer_Workset_Builder_impl.hpp`: `element_list`, which maps a local
side id, converted to the key type `unsigned`, to the pairs `(cell, local_cell_ids[cell])` of
the cells with that key. -/
def elementList (local_cell_ids local_side_ids : List Nat) : List (Nat × List (Nat × Nat)) :=
  (List.range local_cell_ids.length).foldl
    (fun element_list (cell : Nat) =>
      mapPushBack element_list (toUnsigned (local_side_ids.getD cell 0))
        (cell, local_cell_ids.getD cell 0)) []

/-- Lines 226-267: the workset made for the entry `side` of `element_list`;
`baseCellDimension` is the value of `needs.cellData.baseCellDimension()`.  Lines 238-249 copy
the rows `vertex_coordinates(dim0, *, *)` of the cells of the entry. -/
def sideWorkset (baseCellDimension : Int) (elementBlock : String)
    (vertex_coordinates : List (List (List R))) (side : Nat × List (Nat × Nat)) : Workset R :=
  { cell_local_ids := side.2.map Prod.snd
    cell_vertex_coordinates := side.2.map fun entry => vertex_coordinates.getD entry.1 []
    cell_local_ids_k := (side.2.map Prod.snd).map sizeToInt
    num_cells := (side.2.map Prod.snd).length
    block_id := elementBlock
    subcell_dim := baseCellDimension - 1
    subcell_index := unsignedToInt side.1 }

/-- The one-sided function `panzer::buildBCWorkset` (lines 189-280 of
`Panzer_Workset_Builder_impl.hpp`): the map returned, or the failure.  The call of
`populateValueArrays` (lines 270-277) fills value arrays that are not part of `Workset`. -/
def buildBCWorkset (baseCellDimension : Int) (elementBlock : String)
    (local_cell_ids local_side_ids : List Nat) (vertex_coordinates : List (List (List R))) :
    Except Failure (List (Nat × Workset R)) :=
  if local_side_ids.length ≠ local_cell_ids.length then .error .sideIdsSize
  else if local_side_ids.length ≠ vertex_coordinates.length then .error .vertexCoordinatesSize
  else
    let element_list := elementList local_cell_ids local_side_ids
    .ok (element_list.foldl
      (fun worksets side =>
        mapAssign worksets side.1
          (sideWorkset baseCellDimension elementBlock vertex_coordinates side)) [])

/-- The function `panzer::impl::associateCellsBySideIds` (lines 298-311 of
`Panzer_Workset_Builder_impl.hpp`); a key `std::pair<std::size_t, std::size_t>` is a pair in
the lexicographic order. -/
def associateCellsBySideIds (sia sib : List Nat) :
    Except Failure (List ((Nat ×ₗ Nat) × List Nat)) :=
  if sia.length ≠ sib.length then .error .sideIdListsSize
  else
    .ok ((List.range sia.length).foldl
      (fun sip2i (i : Nat) => mapPushBack sip2i (toLex (sia.getD i 0, sib.getD i 0)) i) [])

/-- A parent with one owned cell whose two face slots are the two sides of one face, side 0
at slot 0 and side 1 at slot 1. -/
def selfFaceParent : LocalMeshInfoBase Int where
  num_owned_cells := 1
  num_ghstd_cells := 0
  num_virtual_cells := 0
  global_cells := [100]
  local_cells := [0]
  cell_vertices := [[[0], [1]]]
  num_vertices_per_cell := 2
  num_dims := 1
  cell_to_faces := [[0, 0]]
  num_faces_per_cell := 2
  face_to_cells := [(0, 0)]
  face_to_lidx := [(0, 1)]

/-- A partition left in the output sequence by an earlier call: no cells, the element block
name `"old"`, no sideset name, no cell topology and `has_connectivity = false`. -/
def stalePartition : LocalMeshPartition Int :=
  { newPartition emptyMeshInfo with element_block_name := "old" }

/-! ### Worksets of an element block -/

/-- The call `setNumberOfCells(owned_cells, 0, 0)` on a workset, which sets `num_cells` to
the sum of its three arguments. -/
def Workset.setNumberOfCells (workset : Workset R) (owned_cells : Nat) : Workset R :=
  { workset with num_cells := owned_cells }

/-- Lines 137-158 of `Panzer_Workset_Builder_impl.hpp`: the loop over the worksets from the
one at `local_begin` on, with `local_begin` as an offset into `local_cell_ids`; the value is
the worksets and the final `local_begin`.  An iterator moved past the end of
`local_cell_ids` is the failure `outOfBounds`.  `zero` is the value of a `double` of a
freshly built array, `extent1` and `extent2` are `vertex_coordinates.extent(1)` and
`vertex_coordinates.extent(2)`. -/
def assignCellIds (zero : R) (workset_size : Nat) (baseCellDimension : Int)
    (elementBlock : String) (local_cell_ids : List Nat) (extent1 extent2 : Nat) :
    List (Workset R) → Nat → Except Failure (List (Workset R) × Nat)
  | [], local_begin => .ok ([], local_begin)
  | wkst :: worksets, local_begin =>
    let end_iter := local_begin + wkst.num_cells
    if local_cell_ids.length < end_iter then .error .outOfBounds
    else
      let cell_local_ids := (local_cell_ids.drop local_begin).take wkst.num_cells
      match assignCellIds zero workset_size baseCellDimension elementBlock local_cell_ids
          extent1 extent2 worksets end_iter with
      | .error e => .error e
      | .ok (rest, local_end) =>
        .ok ({ wkst with
                cell_local_ids := cell_local_ids
                cell_local_ids_k := cell_local_ids.map sizeToInt
                cell_vertex_coordinates :=
                  List.replicate workset_size (List.replicate extent1 (List.replicate extent2 zero))
                block_id := elementBlock
                subcell_dim := baseCellDimension
                subcell_index := 0 } :: rest, local_end)

/-- Lines 166-172 of `Panzer_Workset_Builder_impl.hpp`: the rows
`cell_vertex_coordinates(cell, *, *) = vertex_coordinates(cell + offset, *, *)` for the cells
`cells`.  A row outside the leading extent of either view is the failure `outOfBounds`. -/
def copyCellVertices (vertex_coordinates : List (List (List R))) (offset : Nat) :
    List Nat → List (List (List R)) → Except Failure (List (List (List R)))
  | [], cell_vertex_coordinates => .ok cell_vertex_coordinates
  | cell :: cells, cell_vertex_coordinates =>
    match vertex_coordinates[cell + offset]? with
    | none => .error .outOfBounds
    | some row =>
      if cell < cell_vertex_coordinates.length then
        copyCellVertices vertex_coordinates offset cells (cell_vertex_coordinates.set cell row)
      else .error .outOfBounds

/-- Lines 162-175 of `Panzer_Workset_Builder_impl.hpp`: the loop over the worksets from the
one at `offset` on; the value is the worksets and the final `offset`. -/
def copyVertexCoordinates (vertex_coordinates : List (List (List R))) :
    List (Workset R) → Nat → Except Failure (List (Workset R) × Nat)
  | [], offset => .ok ([], offset)
  | wkst :: worksets, offset =>
    match copyCellVertices vertex_coordinates offset (List.range wkst.num_cells)
        wkst.cell_vertex_coordinates with
    | .error e => .error e
    | .ok cell_vertex_coordinates =>
      match copyVertexCoordinates vertex_coordinates worksets (offset + wkst.num_cells) with
      | .error e => .error e
      | .ok (rest, offset_end) =>
        .ok ({ wkst with cell_vertex_coordinates := cell_vertex_coordinates } :: rest,
          offset_end)

/-- Lines 118-135 of `Panzer_Workset_Builder_impl.hpp`, for a workset size that is not zero:
the vector `worksets` after `resize` and the calls of `setNumberOfCells`. -/
def sizedWorksets (fresh : Workset R) (total_num_cells workset_size : Nat) : List (Workset R) :=
  let last_workset_size := total_num_cells % workset_size
  let num_worksets :=
    if last_workset_size ≠ 0 then total_num_cells / workset_size + 1
    else total_num_cells / workset_size
  let worksets := List.replicate num_worksets (fresh.setNumberOfCells workset_size)
  if last_workset_size ≠ 0 then
    worksets.set (worksets.length - 1)
      ((worksets.getD (worksets.length - 1) fresh).setNumberOfCells last_workset_size)
  else worksets

/-- The function `panzer::buildWorksets` (lines 63-184 of `Panzer_Workset_Builder_impl.hpp`):
the vector returned, or the failure.  `fresh` is a default-constructed `panzer::Workset`,
`workset_size` the value of `needs.cellData.numCells()` and `baseCellDimension` the value of
`needs.cellData.baseCellDimension()`; the integration rules and bases (lines 86-113 and
179-181) fill members that are not part of `Workset`.  The division and the remainder of
lines 119 and 121 have no defined behaviour when `workset_size` is zero. -/
def buildWorksets (fresh : Workset R) (zero : R) (workset_size : Nat) (baseCellDimension : Int)
    (elementBlock : String) (local_cell_ids : List Nat)
    (vertex_coordinates : List (List (List R))) (extent1 extent2 : Nat) :
    Except Failure (List (Workset R)) :=
  let total_num_cells := local_cell_ids.length
  if total_num_cells = 0 then
    .ok [{ fresh.setNumberOfCells 0 with block_id := elementBlock }]
  else if workset_size = 0 then .error .divisionByZero
  else
    match assignCellIds zero workset_size baseCellDimension elementBlock local_cell_ids
        extent1 extent2 (sizedWorksets fresh total_num_cells workset_size) 0 with
    | .error e => .error e
    | .ok (assigned, local_begin) =>
      if local_begin ≠ local_cell_ids.length then .error .localCellIdsEnd
      else
        match copyVertexCoordinates vertex_coordinates assigned 0 with
        | .error e => .error e
        | .ok (worksets, offset) =>
          if offset ≠ vertex_coordinates.length then .error .vertexCoordinatesEnd
          else .ok worksets

/-! ### `WorksetFactory::generateWorksets` -/

/-- The call `v.resize(n)` on a `std::vector`: the first `n` entries of `v`, followed by
default-constructed entries `fresh` when `v` has fewer. -/
def resize {α : Type} (v : List α) (n : Nat) (fresh : α) : List α :=
  v.take n ++ List.replicate (n - v.length) fresh

/-- Lines 212-223 of `Panzer_STK_WorksetFactory.cpp`: the loop over the local ids still to
be placed, on the state `(worksets, wkset_count, local_count)`.  `num_cells` is assigned
only when `local_count` reaches `wksize` (line 219). -/
def fillCellLocalIds (wksize : Int) :
    List Nat → List (Workset R) × Nat × Nat → Except Failure (List (Workset R) × Nat × Nat)
  | [], state => .ok state
  | localEntityId :: localEntityIds, (worksets, wkset_count, local_count) =>
    match worksets[wkset_count]? with
    | none => .error .outOfBounds
    | some workset =>
      let placed := { workset with cell_local_ids := workset.cell_local_ids ++ [localEntityId] }
      if ((local_count + 1 : Nat) : Int) ≥ wksize then
        fillCellLocalIds wksize localEntityIds
          (worksets.set wkset_count { placed with num_cells := local_count + 1 },
            wkset_count + 1, 0)
      else
        fillCellLocalIds wksize localEntityIds
          (worksets.set wkset_count placed, wkset_count, local_count + 1)

/-- Lines 227-251 of `Panzer_STK_WorksetFactory.cpp`: the body of the second loop on one
workset.  `getElementVertices` is the array that `mesh_->getElementVertices` makes for a list
of local ids, `n_nodes` and `n_dim` are the node count and the dimension of the cell
topology, `zero` is the value of a `double` of a freshly built array.  Reading
`cell_local_ids[j]` past the end of the vector is the failure `outOfBounds`. -/
def finishWorkset (zero : R) (n_nodes n_dim : Nat)
    (getElementVertices : List Nat → List (List (List R))) (baseCellDimension : Int)
    (element_block_name : String) (workset : Workset R) : Except Failure (Workset R) :=
  let n_ele := workset.num_cells
  if workset.cell_local_ids.length < n_ele then .error .outOfBounds
  else
    match copyCellVertices (getElementVertices workset.cell_local_ids) 0
        (List.range workset.num_cells)
        (List.replicate n_ele (List.replicate n_nodes (List.replicate n_dim zero))) with
    | .error e => .error e
    | .ok cell_vertex_coordinates =>
      .ok { workset with
              cell_vertex_coordinates := cell_vertex_coordinates
              block_id := element_block_name
              subcell_dim := baseCellDimension
              subcell_index := 0
              cell_local_ids_k := (workset.cell_local_ids.take n_ele).map sizeToInt }

/-- Lines 225-253 of `Panzer_STK_WorksetFactory.cpp`: the second loop. -/
def finishWorksets (zero : R) (n_nodes n_dim : Nat)
    (getElementVertices : List Nat → List (List (List R))) (baseCellDimension : Int)
    (element_block_name : String) : List (Workset R) → Except Failure (List (Workset R))
  | [] => .ok []
  | workset :: worksets =>
    match finishWorkset zero n_nodes n_dim getElementVertices baseCellDimension
        element_block_name workset with
    | .error e => .error e
    | .ok finished =>
      match finishWorksets zero n_nodes n_dim getElementVertices baseCellDimension
          element_block_name worksets with
      | .error e => .error e
      | .ok rest => .ok (finished :: rest)

/-- Lines 181-186 and 201 of `Panzer_STK_WorksetFactory.cpp`: the value of `wksize` for a
block of `numElements` elements; `n_celldata` is the value of `needs.cellData.numCells()`. -/
def wksize (worksetDesc : WorksetDescriptor) (n_celldata numElements : Int) : Int :=
  let worksetSize :=
    if worksetDesc.getWorksetSize > 0 then
      if n_celldata > 0 ∧ n_celldata < worksetDesc.getWorksetSize then n_celldata
      else worksetDesc.getWorksetSize
    else n_celldata
  if worksetSize ≤ 0 then numElements else min worksetSize numElements

/-- Lines 206-208 of `Panzer_STK_WorksetFactory.cpp`: the value of `numWorksets`; the `int`
division and remainder truncate towards zero. -/
def numWorksets (numElements wksize : Int) : Int :=
  let remain := Int.tmod numElements wksize
  if remain > 0 then Int.tdiv (numElements - remain) wksize + 1
  else Int.tdiv (numElements - remain) wksize

/-- The function `panzer_stk::WorksetFactory::generateWorksets` (lines 160-255 of
`Panzer_STK_WorksetFactory.cpp`): the value left in `worksets`, or the failure.
`n_celldata` is the value of `needs.cellData.numCells()`, `baseCellDimension` the value of
`needs.cellData.baseCellDimension()`; `elementBlockPart` is `none` when
`mesh_->getElementBlockPart` returns a null pointer and holds otherwise the local ids
(`mesh_->elementLocalId`) of the selected elements, in the order of the selection; `fresh`
is a default-constructed `panzer::Workset`.  The division and the remainder of lines
206-207 have no defined behaviour when `wksize` is zero. -/
def generateWorksets (fresh : Workset R) (zero : R) (n_nodes n_dim : Nat)
    (getElementVertices : List Nat → List (List (List R))) (worksetDesc : WorksetDescriptor)
    (n_celldata : Int) (baseCellDimension : Int) (elementBlockPart : Option (List Nat))
    (worksets : List (Workset R)) : Except Failure (List (Workset R)) :=
  if worksetDesc.useSideset = true then .ok worksets
  else
    match elementBlockPart with
    | none => .ok worksets
    | some localEntityIds =>
      let numElements : Int := (localEntityIds.length : Int)
      if wksize worksetDesc n_celldata numElements = 0 then .error .divisionByZero
      else if numWorksets numElements (wksize worksetDesc n_celldata numElements) < 0 then
        .error .lengthError
      else
        match fillCellLocalIds (wksize worksetDesc n_celldata numElements) localEntityIds
            (resize worksets
              (numWorksets numElements (wksize worksetDesc n_celldata numElements)).toNat fresh,
              0, 0) with
        | .error e => .error e
        | .ok (filled, _, _) =>
          finishWorksets zero n_nodes n_dim getElementVertices baseCellDimension
            worksetDesc.getElementBlock filled

/-- A default-constructed workset whose `num_cells` is `num_cells`: no cell ids, no
coordinates, an empty block name. -/
def freshWorkset (num_cells : Nat) : Workset Int :=
  { num_cells := num_cells
    cell_local_ids := []
    cell_local_ids_k := []
    cell_vertex_coordinates := []
    block_id := ""
    subcell_dim := 0
    subcell_index := 0 }

/-- The vertices of a mesh on a line whose cell `i` lies between `i` and `i + 1`. -/
def lineVertices (cell_local_ids : List Nat) : List (List (List Int)) :=
  cell_local_ids.map fun (i : Nat) => [[(i : Int)], [(i : Int) + 1]]

/-! ### Worksets of an interface between two element blocks -/

/-- Modelled from the spec: a `panzer::Workset` of an interface, a class declared in a
header that is not among the sources ("a back-reference connecting a sideset partition's
"side A" cells to matching "side B" cells across an internal interface"): the members of
the workset itself (its `details(0)`, the cells of side a) and the `WorksetDetails` that
line 349 of `Panzer_Workset_Builder_impl.hpp` stores in its member `other` (the cells of
side b). -/
structure InterfaceWorkset (R : Type) where
  details0 : Workset R
  other : Workset R

/-- The function `panzer::impl::subset` (lines 313-320 of `Panzer_Workset_Builder_impl.hpp`):
`s = a(idxs)`.  The function does no error checking; an index outside `a` is the failure
`outOfBounds`. -/
def subset {α : Type} (a : List α) : List Nat → Except Failure (List α)
  | [] => .ok []
  | idx :: idxs =>
    match a[idx]? with
    | none => .error .outOfBounds
    | some x =>
      match subset a idxs with
      | .error e => .error e
      | .ok s => .ok (x :: s)

/-- Lines 343-352 of `Panzer_Workset_Builder_impl.hpp`: the loop over the worksets of side a
and, in step, of side b.  The loop ends with the worksets of side a; an iterator of side b
moved past the end is the failure `outOfBounds`. -/
def pairWorksets (num_cells_a num_cells_b : Nat) :
    List (Nat × Workset R) → List (Nat × Workset R) →
      Except Failure (List (Nat × InterfaceWorkset R))
  | [], _ => .ok []
  | _ :: _, [] => .error .outOfBounds
  | (key, wa) :: mwa, (_, wb) :: mwb =>
    if ¬ (wa.num_cells = num_cells_a ∧ wb.num_cells = num_cells_b) then
      .error .worksetCellCount
    else
      match pairWorksets num_cells_a num_cells_b mwa mwb with
      | .error e => .error e
      | .ok rest => .ok ((key, { details0 := wa, other := wb }) :: rest)

/-- The function `panzer::impl::buildBCWorksetForUniqueSideId` (lines 322-355 of
`Panzer_Workset_Builder_impl.hpp`).  `baseCellDimension_a` and `baseCellDimension_b` are the
values of `baseCellDimension()` of the cell data of `needs_a` and `needs_b2`; the value
arrays that `populateValueArrays` fills are not part of a workset. -/
def buildBCWorksetForUniqueSideId (baseCellDimension_a : Int) (blockid_a : String)
    (local_cell_ids_a local_side_ids_a : List Nat) (vertex_coordinates_a : List (List (List R)))
    (baseCellDimension_b : Int) (blockid_b : String)
    (local_cell_ids_b local_side_ids_b : List Nat) (vertex_coordinates_b : List (List (List R))) :
    Except Failure (List (Nat × InterfaceWorkset R)) :=
  if local_cell_ids_a.length ≠ local_cell_ids_b.length then .error .cellIdListsSize
  else
    match buildBCWorkset baseCellDimension_a blockid_a local_cell_ids_a local_side_ids_a
        vertex_coordinates_a with
    | .error e => .error e
    | .ok mwa =>
      match buildBCWorkset baseCellDimension_b blockid_b local_cell_ids_b local_side_ids_b
          vertex_coordinates_b with
      | .error e => .error e
      | .ok mwb =>
        if ¬ (mwa.length = 1 ∧ mwb.length = 1) then .error .worksetMapSize
        else pairWorksets local_cell_ids_a.length local_cell_ids_b.length mwa mwb

/-- Lines 395-427 of `Panzer_Workset_Builder_impl.hpp`: the body of the loop over
`side_id_associations`, for the entry with the cell indices `idxs`, acting on the map `mwa`.
The key `lsi_a[0] * 1000 + lsi_b[0]` is computed in `std::size_t` (modulo `2^64`) and
converted to the key type `unsigned` of the map.  Lines 408-415 copy the rows `idxs` of both
coordinate arrays with the second and third extent of `vertex_coordinates_a`; the rows of
`vertex_coordinates_b` are taken to have the same extents. -/
def buildInterfacePair (baseCellDimension_a : Int) (blockid_a : String)
    (local_cell_ids_a local_side_ids_a : List Nat) (vertex_coordinates_a : List (List (List R)))
    (baseCellDimension_b : Int) (blockid_b : String)
    (local_cell_ids_b local_side_ids_b : List Nat) (vertex_coordinates_b : List (List (List R)))
    (mwa : List (Nat × InterfaceWorkset R)) (idxs : List Nat) :
    Except Failure (List (Nat × InterfaceWorkset R)) :=
  match subset local_cell_ids_a idxs, subset local_side_ids_a idxs,
        subset local_cell_ids_b idxs, subset local_side_ids_b idxs,
        subset vertex_coordinates_a idxs, subset vertex_coordinates_b idxs with
  | .ok lci_a, .ok lsi_a, .ok lci_b, .ok lsi_b, .ok vc_a, .ok vc_b =>
    match buildBCWorksetForUniqueSideId baseCellDimension_a blockid_a lci_a lsi_a vc_a
        baseCellDimension_b blockid_b lci_b lsi_b vc_b with
    | .error e => .error e
    | .ok mwa_it =>
      if mwa_it.length ≠ 1 then .error .pairWorksetMapSize
      else
        match lsi_a[0]?, lsi_b[0]?, mwa_it.head? with
        | some side_a, some side_b, some first =>
          let key := (side_a * 1000 + side_b) % 2 ^ 64
          .ok (mapAssign mwa (toUnsigned key) first.2)
        | _, _, _ => .error .outOfBounds
  | _, _, _, _, _, _ => .error .outOfBounds

/-- Lines 394-428 of `Panzer_Workset_Builder_impl.hpp`: the loop over the entries of
`side_id_associations` still to be visited. -/
def buildInterfacePairs (baseCellDimension_a : Int) (blockid_a : String)
    (local_cell_ids_a local_side_ids_a : List Nat) (vertex_coordinates_a : List (List (List R)))
    (baseCellDimension_b : Int) (blockid_b : String)
    (local_cell_ids_b local_side_ids_b : List Nat) (vertex_coordinates_b : List (List (List R))) :
    List ((Nat ×ₗ Nat) × List Nat) → List (Nat × InterfaceWorkset R) →
      Except Failure (List (Nat × InterfaceWorkset R))
  | [], mwa => .ok mwa
  | it :: side_id_associations, mwa =>
    match buildInterfacePair baseCellDimension_a blockid_a local_cell_ids_a local_side_ids_a
        vertex_coordinates_a baseCellDimension_b blockid_b local_cell_ids_b local_side_ids_b
        vertex_coordinates_b mwa it.2 with
    | .error e => .error e
    | .ok mwa1 =>
      buildInterfacePairs baseCellDimension_a blockid_a local_cell_ids_a local_side_ids_a
        vertex_coordinates_a baseCellDimension_b blockid_b local_cell_ids_b local_side_ids_b
        vertex_coordinates_b side_id_associations mwa1

/-- The two-sided function `panzer::buildBCWorkset` (lines 363-431 of
`Panzer_Workset_Builder_impl.hpp`), the overload that takes the cells of both sides of an
interface: the map returned, or the failure.  `baseCellDimension_a` and
`baseCellDimension_b` are the values of `baseCellDimension()` of the cell data of `needs_a`
and `needs_b`. -/
def buildBCWorksetInterface (baseCellDimension_a : Int) (blockid_a : String)
    (local_cell_ids_a local_side_ids_a : List Nat) (vertex_coordinates_a : List (List (List R)))
    (baseCellDimension_b : Int) (blockid_b : String)
    (local_cell_ids_b local_side_ids_b : List Nat) (vertex_coordinates_b : List (List (List R))) :
    Except Failure (List (Nat × InterfaceWorkset R)) :=
  match associateCellsBySideIds local_side_ids_a local_side_ids_b with
  | .error e => .error e
  | .ok side_id_associations =>
    if side_id_associations.length = 1 then
      buildBCWorksetForUniqueSideId baseCellDimension_a blockid_a local_cell_ids_a
        local_side_ids_a vertex_coordinates_a baseCellDimension_b blockid_b local_cell_ids_b
        local_side_ids_b vertex_coordinates_b
    else
      buildInterfacePairs baseCellDimension_a blockid_a local_cell_ids_a local_side_ids_a
        vertex_coordinates_a baseCellDimension_b blockid_b local_cell_ids_b local_side_ids_b
        vertex_coordinates_b side_id_associations []

/-- The workset that lines 395-420 of `Panzer_Workset_Builder_impl.hpp` make for the cells
`idxs` of an interface when these have the side id `a` on side a and the side id `b` on side
b: the workset that the one-sided `buildBCWorkset` makes of the entries `idxs` of the lists of
side a, with the one it makes of the entries `idxs` of the lists of side b as `other`. -/
def pairWorkset (baseCellDimension_a : Int) (blockid_a : String) (local_cell_ids_a : List Nat)
    (vertex_coordinates_a : List (List (List R))) (baseCellDimension_b : Int)
    (blockid_b : String) (local_cell_ids_b : List Nat)
    (vertex_coordinates_b : List (List (List R))) (a b : Nat) (idxs : List Nat) :
    InterfaceWorkset R :=
  { details0 :=
      sideWorkset baseCellDimension_a blockid_a (idxs.map fun i => vertex_coordinates_a.getD i [])
        (toUnsigned a,
          (List.range (idxs.map fun i => local_cell_ids_a.getD i 0).length).map fun c =>
            (c, (idxs.map fun i => local_cell_ids_a.getD i 0).getD c 0))
    other :=
      sideWorkset baseCellDimension_b blockid_b (idxs.map fun i => vertex_coordinates_b.getD i [])
        (toUnsigned b,
          (List.range (idxs.map fun i => local_cell_ids_b.getD i 0).length).map fun c =>
            (c, (idxs.map fun i => local_cell_ids_b.getD i 0).getD c 0)) }

/-! ## Theorems -/

/-- Unfolding of a successful call of `setupSubLocalMeshInfo` into its phases. -/
theorem setup_ok_inv {order : IterationOrder} {P : LocalMeshInfoBase R} {owned : List Int}
    {child : LocalMeshInfoBase R} (h : setupSubLocalMeshInfo order P owned = .ok child) :
    ∃ sets global_cells local_cells cell_vertices faces_set cell_to_faces,
      owned ≠ [] ∧ 0 < P.num_owned_cells ∧
      (P.cell_to_faces.length : Int) = P.totalCells ∧
      (P.cell_vertices.length : Int) = P.totalCells ∧
      (P.local_cells.length : Int) = P.totalCells ∧
      (P.global_cells.length : Int) = P.totalCells ∧
      classifyPass P owned = .ok sets ∧
      copyCells P.global_cells (childParents order owned sets) = .ok global_cells ∧
      copyCells P.local_cells (childParents order owned sets) = .ok local_cells ∧
      copyCells P.cell_vertices (childParents order owned sets) = .ok cell_vertices ∧
      createFaces P (sortCells (numberCells 0 (childParents order owned sets))) 0 owned []
        = .ok faces_set ∧
      fillCellToFaces 0 ((order.faces faces_set).map toFace)
        (List.replicate (childParents order owned sets).length
          (List.replicate P.num_faces_per_cell (-1))) = .ok cell_to_faces ∧
      child =
        { num_owned_cells := (owned.length : Int)
          num_ghstd_cells := ((order.cells sets.1).length : Int)
          num_virtual_cells := ((order.cells sets.2).length : Int)
          global_cells := global_cells
          local_cells := local_cells
          cell_vertices := cell_vertices
          num_vertices_per_cell := P.num_vertices_per_cell
          num_dims := P.num_dims
          cell_to_faces := cell_to_faces
          num_faces_per_cell := P.num_faces_per_cell
          face_to_cells := ((order.faces faces_set).map toFace).map fun face =>
            (face.cell_0, face.cell_1)
          face_to_lidx := ((order.faces faces_set).map toFace).map fun face =>
            (face.subcell_index_0, face.subcell_index_1) } := by
  unfold setupSubLocalMeshInfo at h
  split at h
  · cases h
  rename_i h0
  split at h
  · cases h
  rename_i h1
  split at h
  · cases h
  rename_i h2
  split at h
  · cases h
  rename_i gs vs hc
  simp only at h
  split at h
  · cases h
  rename_i h3
  split at h
  · rename_i gc lc cv hgc hlc hcv
    split at h
    · cases h
    rename_i fs hfs
    split at h
    · cases h
    rename_i ctf hctf
    refine ⟨(gs, vs), gc, lc, cv, fs, ctf, ?_, ?_, ?_, ?_, ?_, ?_, hc, hgc, hlc, hcv, hfs,
      hctf, ?_⟩
    · intro hnil; apply h0; simp [hnil]
    · exact not_le.mp h1
    · exact not_not.mp h2
    · by_contra hx; exact h3 (Or.inl hx)
    · by_contra hx; exact h3 (Or.inr (Or.inl hx))
    · by_contra hx; exact h3 (Or.inr (Or.inr hx))
    · cases h; rfl
  · cases h

theorem look_eq_some {α : Type} {v : List α} {i : Int} {a : α} :
    look v i = some a ↔ 0 ≤ i ∧ v[i.toNat]? = some a := by
  unfold look
  split <;> simp_all

theorem look_bounds {α : Type} {v : List α} {i : Int} {a : α} (h : look v i = some a) :
    0 ≤ i ∧ i < (v.length : Int) := by
  rw [look_eq_some] at h
  obtain ⟨h0, h1⟩ := h
  have := (List.getElem?_eq_some_iff.mp h1).1
  exact ⟨h0, by omega⟩

theorem look_of_bounds {α : Type} {v : List α} {i : Int} (h0 : 0 ≤ i)
    (h1 : i < (v.length : Int)) : ∃ a, look v i = some a := by
  have hlt : i.toNat < v.length := by omega
  exact ⟨v[i.toNat], by rw [look_eq_some]; exact ⟨h0, List.getElem?_eq_getElem hlt⟩⟩

theorem look_natCast {α : Type} (v : List α) (i : Nat) : look v (i : Int) = v[i]? := by
  simp [look]

theorem look_mem {α : Type} {v : List α} {i : Int} {a : α} (h : look v i = some a) : a ∈ v := by
  rw [look_eq_some] at h
  exact List.getElem?_mem h.2

theorem look2_eq_some {α : Type} {v : List (List α)} {i j : Int} {a : α} :
    look2 v i j = some a ↔ ∃ row, look v i = some row ∧ look row j = some a := by
  unfold look2
  cases look v i <;> simp

theorem viewAt_eq_ok {α : Type} {v : List α} {i : Int} {a : α} :
    viewAt v i = .ok a ↔ look v i = some a := by
  unfold viewAt
  cases look v i <;> simp

theorem viewAt2_eq_ok {α : Type} {v : List (List α)} {i j : Int} {a : α} :
    viewAt2 v i j = .ok a ↔ look2 v i j = some a := by
  unfold viewAt2
  cases look2 v i j <;> simp

theorem look_set {α : Type} (v : List α) (i : Nat) (a : α) (j : Int) :
    look (v.set i a) j = if (i : Int) = j ∧ i < v.length then some a else look v j := by
  unfold look
  by_cases hj : 0 ≤ j
  · simp only [hj, if_true]
    rw [List.getElem?_set]
    by_cases hij : i = j.toNat
    · subst hij
      have : ((j.toNat : Nat) : Int) = j := Int.toNat_of_nonneg hj
      simp only [this, true_and, if_true]
      by_cases hlt : j.toNat < v.length
      · simp [hlt]
      · simp [hlt, List.getElem?_eq_none (not_lt.mp hlt)]
    · have : ¬ ((i : Int) = j) := by omega
      simp [hij, this]
  · have : ¬ ((i : Int) = j) := by omega
    simp [hj, this]

theorem viewSet2_eq_ok {α : Type} {v w : List (List α)} {i j : Int} {a : α}
    (h : viewSet2 v i j a = .ok w) :
    (∃ b, look2 v i j = some b) ∧ w = v.set i.toNat ((v.getD i.toNat []).set j.toNat a) := by
  unfold viewSet2 at h
  split at h
  · rename_i b hb
    exact ⟨⟨b, hb⟩, by cases h; rfl⟩
  · cases h

theorem viewSet2_ok_of_look2 {α : Type} {v : List (List α)} {i j : Int} {a b : α}
    (h : look2 v i j = some b) : ∃ w, viewSet2 v i j a = .ok w := by
  unfold viewSet2
  rw [h]
  exact ⟨_, rfl⟩

theorem look2_isSome_iff {α : Type} {v : List (List α)} {n m : Nat} (hv : HasShape v n m)
    (i j : Int) : (∃ b, look2 v i j = some b) ↔ (0 ≤ i ∧ i < n) ∧ (0 ≤ j ∧ j < m) := by
  constructor
  · rintro ⟨b, hb⟩
    obtain ⟨row, hr, hb⟩ := look2_eq_some.mp hb
    have h1 := look_bounds hr
    have h2 := look_bounds hb
    rw [hv.1] at h1
    rw [hv.2 row (look_mem hr)] at h2
    exact ⟨h1, h2⟩
  · rintro ⟨⟨h0, h1⟩, h2, h3⟩
    obtain ⟨row, hr⟩ := look_of_bounds (v := v) h0 (by rw [hv.1]; exact h1)
    obtain ⟨b, hb⟩ := look_of_bounds (v := row) h2 (by rw [hv.2 row (look_mem hr)]; exact h3)
    exact ⟨b, look2_eq_some.mpr ⟨row, hr, hb⟩⟩

theorem viewSet2_shape {α : Type} {v w : List (List α)} {i j : Int} {a : α} {n m : Nat}
    (hv : HasShape v n m) (h : viewSet2 v i j a = .ok w) : HasShape w n m := by
  obtain ⟨⟨b, hb⟩, rfl⟩ := viewSet2_eq_ok h
  obtain ⟨row, hr, _⟩ := look2_eq_some.mp hb
  refine ⟨by simp [hv.1], ?_⟩
  intro r hrmem
  rcases List.mem_or_eq_of_mem_set hrmem with h1 | h1
  · exact hv.2 r h1
  · subst h1
    rw [List.length_set]
    have := (look_eq_some.mp hr).2
    have hget : v.getD i.toNat [] = row := by
      rw [List.getD_eq_getElem?_getD, this]; rfl
    rw [hget]
    exact hv.2 row (look_mem hr)

theorem viewSet2_look2 {α : Type} {v w : List (List α)} {i j : Int} {a : α}
    (h : viewSet2 v i j a = .ok w) (i1 j1 : Int) :
    look2 w i1 j1 = if i1 = i ∧ j1 = j then some a else look2 v i1 j1 := by
  obtain ⟨⟨b, hb⟩, rfl⟩ := viewSet2_eq_ok h
  obtain ⟨row, hr, hb⟩ := look2_eq_some.mp hb
  have hi := look_bounds hr
  have hj := look_bounds hb
  have hget : v.getD i.toNat [] = row := by
    rw [List.getD_eq_getElem?_getD, (look_eq_some.mp hr).2]; rfl
  rw [hget]
  unfold look2
  rw [look_set]
  have hcast : ((i.toNat : Nat) : Int) = i := Int.toNat_of_nonneg hi.1
  have hlt : i.toNat < v.length := by omega
  by_cases h1 : i1 = i
  · subst h1
    simp only [hcast, hlt, and_self, if_true, true_and, Option.some_bind]
    rw [look_set]
    have hcast2 : ((j.toNat : Nat) : Int) = j := Int.toNat_of_nonneg hj.1
    have hlt2 : j.toNat < row.length := by omega
    by_cases h2 : j1 = j
    · subst h2; simp [hcast2, hlt2]
    · have : ¬ (j = j1) := fun h => h2 h.symm
      simp [hcast2, h2, this, hr]
  · have : ¬ (i = i1) := fun h => h1 h.symm
    simp [hcast, h1, this]

theorem copyCells_length {α : Type} {v : List α} :
    ∀ {parents : List Int} {out : List α}, copyCells v parents = .ok out →
      out.length = parents.length
  | [], out, h => by cases h; rfl
  | p :: parents, out, h => by
    unfold copyCells at h
    split at h
    · cases h
    split at h
    · cases h
    rename_i rest hrest
    cases h
    simp [copyCells_length hrest]

theorem copyCells_look {α : Type} {v : List α} :
    ∀ {parents : List Int} {out : List α}, copyCells v parents = .ok out →
      ∀ (c : Nat) (p : Int), parents[c]? = some p → out[c]? = look v p
  | [], out, h, c, p, hp => by simp at hp
  | q :: parents, out, h, c, p, hp => by
    unfold copyCells at h
    split at h
    · cases h
    rename_i a ha
    split at h
    · cases h
    rename_i rest hrest
    cases h
    cases c with
    | zero =>
      simp only [List.getElem?_cons_zero, Option.some.injEq] at hp
      subst hp
      simp [viewAt_eq_ok.mp ha]
    | succ c =>
      simp only [List.getElem?_cons_succ] at hp ⊢
      exact copyCells_look hrest c p hp

theorem copyCells_ok {α : Type} {v : List α} :
    ∀ {parents : List Int}, (∀ p ∈ parents, 0 ≤ p ∧ p < (v.length : Int)) →
      ∃ out, copyCells v parents = .ok out
  | [], _ => ⟨[], rfl⟩
  | p :: parents, h => by
    obtain ⟨a, ha⟩ := look_of_bounds (h p (List.mem_cons_self _ _)).1
      (h p (List.mem_cons_self _ _)).2
    obtain ⟨rest, hrest⟩ := @copyCells_ok α v parents
      (fun q hq => h q (List.mem_cons_of_mem _ hq))
    refine ⟨a :: rest, ?_⟩
    unfold copyCells
    rw [viewAt_eq_ok.mpr ha, hrest]

theorem facesAssign_mem {fs : List FaceEntry} {key value : Int × Int} {e : FaceEntry}
    (h : e ∈ facesAssign fs key value) : e = (key, value) ∨ e ∈ fs := by
  induction fs with
  | nil => simp [facesAssign] at h; exact Or.inl h
  | cons hd tl ih =>
    obtain ⟨k1, v1⟩ := hd
    unfold facesAssign at h
    split at h
    · rcases List.mem_cons.mp h with h | h
      · exact Or.inl h
      · exact Or.inr (List.mem_cons_of_mem _ h)
    · rcases List.mem_cons.mp h with h | h
      · exact Or.inr (h ▸ List.mem_cons_self _ _)
      · rcases ih h with h | h
        · exact Or.inl h
        · exact Or.inr (List.mem_cons_of_mem _ h)

theorem facesAssign_keys (fs : List FaceEntry) (key value : Int × Int) :
    (facesAssign fs key value).map Prod.fst
      = if key ∈ fs.map Prod.fst then fs.map Prod.fst else fs.map Prod.fst ++ [key] := by
  induction fs with
  | nil => simp [facesAssign]
  | cons hd tl ih =>
    obtain ⟨k1, v1⟩ := hd
    unfold facesAssign
    by_cases hk : k1 = key
    · subst hk; simp
    · have hk2 : ¬ key = k1 := fun h => hk h.symm
      simp only [hk, if_false, List.map_cons, ih, List.mem_cons, hk2, false_or]
      split <;> simp

theorem facesAssign_nodup {fs : List FaceEntry} (key value : Int × Int)
    (h : (fs.map Prod.fst).Nodup) : ((facesAssign fs key value).map Prod.fst).Nodup := by
  rw [facesAssign_keys]
  split
  · exact h
  · rename_i hk
    exact List.Nodup.append h (List.nodup_singleton _) (by simpa using hk)

theorem createFace_eq_ok {P : LocalMeshInfoBase R} {sorted : List (Int × Int)} {o : Nat} {p : Int}
    {fs fs1 : List FaceEntry} {k : Nat} (h : createFace P sorted o p fs k = .ok fs1) :
    (acrossFace P p k = .ok none ∧ fs1 = fs) ∨
    ∃ e, IsRecord P sorted o p k e ∧ fs1 = facesAssign fs e.1 e.2 := by
  unfold createFace at h
  split at h
  · cases h
  · cases h; exact Or.inl ⟨by assumption, rfl⟩
  · rename_i pf ns n hacross
    split at h
    · cases h
    rename_i lidx hl
    simp only at h
    split at h
    · cases h
    rename_i entry hentry
    right
    split at h
    · rename_i hlt
      cases h
      exact ⟨_, ⟨pf, ns, n, lidx, entry, hacross, viewAt_eq_ok.mp hl, hentry, rfl⟩, by
        simp [hlt]⟩
    · rename_i hlt
      cases h
      exact ⟨_, ⟨pf, ns, n, lidx, entry, hacross, viewAt_eq_ok.mp hl, hentry, rfl⟩, by
        simp [hlt]⟩

/-- Induction over the two loops of lines 277-316. -/
theorem createFaces_invariant {P : LocalMeshInfoBase R} {sorted : List (Int × Int)}
    (I : List FaceEntry → Prop) :
    ∀ (cells : List Int) (start : Nat) (fs out : List FaceEntry),
      createFaces P sorted start cells fs = .ok out → I fs →
      (∀ (i : Nat) (p : Int) (k : Nat) (fs0 fs1 : List FaceEntry), cells[i]? = some p →
        k < P.num_faces_per_cell → createFace P sorted (start + i) p fs0 k = .ok fs1 →
        I fs0 → I fs1) → I out := by
  have inner : ∀ (o : Nat) (p : Int) (slots : List Nat) (fs out : List FaceEntry),
      createCellFaces P sorted o p slots fs = .ok out → I fs →
      (∀ (k : Nat) (fs0 fs1 : List FaceEntry), k ∈ slots →
        createFace P sorted o p fs0 k = .ok fs1 → I fs0 → I fs1) → I out := by
    intro o p slots
    induction slots with
    | nil => intro fs out h hI _; cases h; exact hI
    | cons k slots ih =>
      intro fs out h hI hstep
      unfold createCellFaces at h
      split at h
      · cases h
      rename_i fs1 h1
      exact ih fs1 out h (hstep k fs fs1 (List.mem_cons_self _ _) h1 hI)
        (fun k2 a b hk2 => hstep k2 a b (List.mem_cons_of_mem _ hk2))
  intro cells
  induction cells with
  | nil => intro start fs out h hI _; cases h; exact hI
  | cons p cells ih =>
    intro start fs out h hI hstep
    unfold createFaces at h
    split at h
    · cases h
    rename_i fs1 h1
    have hI1 : I fs1 := inner start p _ fs fs1 h1 hI (fun k a b hk hab hIa =>
      hstep 0 p k a b (by simp) (List.mem_range.mp hk) (by simpa using hab) hIa)
    refine ih (start + 1) fs1 out h hI1 ?_
    intro i q k a b hq hk hab hIa
    refine hstep (i + 1) q k a b (by simpa using hq) hk ?_ hIa
    have : start + (i + 1) = start + 1 + i := by omega
    rw [this]; exact hab

theorem createFaces_mem {P : LocalMeshInfoBase R} {sorted : List (Int × Int)} {cells : List Int}
    {out : List FaceEntry} (h : createFaces P sorted 0 cells [] = .ok out) :
    (out.map Prod.fst).Nodup ∧
    ∀ e ∈ out, ∃ (o : Nat) (p : Int) (k : Nat), cells[o]? = some p ∧
      k < P.num_faces_per_cell ∧ IsRecord P sorted o p k e := by
  refine createFaces_invariant (fun fs => (fs.map Prod.fst).Nodup ∧
    ∀ e ∈ fs, ∃ (o : Nat) (p : Int) (k : Nat), cells[o]? = some p ∧
      k < P.num_faces_per_cell ∧ IsRecord P sorted o p k e) cells 0 [] out h
    ⟨by simp, by simp⟩ ?_
  intro i p k fs0 fs1 hp hk hstep hI
  rw [Nat.zero_add] at hstep
  rcases createFace_eq_ok hstep with ⟨_, rfl⟩ | ⟨e, he, rfl⟩
  · exact hI
  · refine ⟨facesAssign_nodup _ _ hI.1, ?_⟩
    intro e1 he1
    rcases facesAssign_mem he1 with h1 | h1
    · exact ⟨i, p, k, hp, hk, by rw [h1]; exact he⟩
    · exact hI.2 e1 h1

theorem fillCellToFaces_shape {n m : Nat} :
    ∀ (faces : List face_t) (start : Nat) (v w : List (List Int)),
      fillCellToFaces start faces v = .ok w → HasShape v n m → HasShape w n m
  | [], _, v, w, h, hv => by cases h; exact hv
  | face :: faces, start, v, w, h, hv => by
    unfold fillCellToFaces at h
    split at h
    · cases h
    rename_i v1 h1
    split at h
    · cases h
    rename_i v2 h2
    exact fillCellToFaces_shape faces (start + 1) v2 w h
      (viewSet2_shape (viewSet2_shape hv h1) h2)

theorem fillCellToFaces_ok {n m : Nat} :
    ∀ (faces : List face_t) (start : Nat) (v : List (List Int)), HasShape v n m →
      (∀ face ∈ faces, ∀ i j, face.HasSlot i j → (0 ≤ i ∧ i < n) ∧ (0 ≤ j ∧ j < m)) →
      ∃ w, fillCellToFaces start faces v = .ok w
  | [], _, v, _, _ => ⟨v, rfl⟩
  | face :: faces, start, v, hv, hb => by
    obtain ⟨b0, hb0⟩ := (look2_isSome_iff hv face.cell_0 face.subcell_index_0).mpr
      (hb face (List.mem_cons_self _ _) _ _ (Or.inl ⟨rfl, rfl⟩))
    obtain ⟨v1, h1⟩ := viewSet2_ok_of_look2 (a := (start : Int)) hb0
    have hv1 := viewSet2_shape hv h1
    obtain ⟨b1, hb1⟩ := (look2_isSome_iff hv1 face.cell_1 face.subcell_index_1).mpr
      (hb face (List.mem_cons_self _ _) _ _ (Or.inr ⟨rfl, rfl⟩))
    obtain ⟨v2, h2⟩ := viewSet2_ok_of_look2 (a := (start : Int)) hb1
    obtain ⟨w, hw⟩ := fillCellToFaces_ok faces (start + 1) v2 (viewSet2_shape hv1 h2)
      (fun f hf => hb f (List.mem_cons_of_mem _ hf))
    refine ⟨w, ?_⟩
    unfold fillCellToFaces
    rw [h1]; simp only; rw [h2]; exact hw

theorem fillCellToFaces_untouched :
    ∀ (faces : List face_t) (start : Nat) (v w : List (List Int)) (i j : Int),
      fillCellToFaces start faces v = .ok w → (∀ face ∈ faces, ¬ face.HasSlot i j) →
      look2 w i j = look2 v i j
  | [], _, v, w, i, j, h, _ => by cases h; rfl
  | face :: faces, start, v, w, i, j, h, hno => by
    unfold fillCellToFaces at h
    split at h
    · cases h
    rename_i v1 h1
    split at h
    · cases h
    rename_i v2 h2
    rw [fillCellToFaces_untouched faces (start + 1) v2 w i j h
      (fun f hf => hno f (List.mem_cons_of_mem _ hf))]
    have hface := hno face (List.mem_cons_self _ _)
    unfold face_t.HasSlot at hface
    rw [viewSet2_look2 h2, viewSet2_look2 h1]
    have a0 : ¬ (i = face.cell_0 ∧ j = face.subcell_index_0) :=
      fun hx => hface (Or.inl ⟨hx.1.symm, hx.2.symm⟩)
    have a1 : ¬ (i = face.cell_1 ∧ j = face.subcell_index_1) :=
      fun hx => hface (Or.inr ⟨hx.1.symm, hx.2.symm⟩)
    simp [a0, a1]

/-- When a slot belongs to one face of the list only, the filled `cell_to_faces` holds the
index of that face there. -/
theorem fillCellToFaces_look2 :
    ∀ (faces : List face_t) (start : Nat) (v w : List (List Int)) (i j : Int) (t : Nat)
      (face : face_t), fillCellToFaces start faces v = .ok w → faces[t]? = some face →
      face.HasSlot i j →
      (∀ (t1 : Nat) (face1 : face_t), faces[t1]? = some face1 → face1.HasSlot i j → t1 = t) →
      look2 w i j = some ((start + t : Nat) : Int)
  | [], _, _, _, _, _, t, face, _, ht, _, _ => by simp at ht
  | hd :: faces, start, v, w, i, j, t, face, h, ht, hslot, huniq => by
    unfold fillCellToFaces at h
    split at h
    · cases h
    rename_i v1 h1
    split at h
    · cases h
    rename_i v2 h2
    cases t with
    | zero =>
      simp only [List.getElem?_cons_zero, Option.some.injEq] at ht
      subst ht
      have hno : ∀ f ∈ faces, ¬ f.HasSlot i j := by
        intro f hf hfs
        obtain ⟨t1, ht1⟩ := List.mem_iff_getElem?.mp hf
        have := huniq (t1 + 1) f (by simpa using ht1) hfs
        omega
      rw [fillCellToFaces_untouched faces (start + 1) v2 w i j h hno,
        viewSet2_look2 h2, viewSet2_look2 h1]
      unfold face_t.HasSlot at hslot
      by_cases a1 : i = hd.cell_1 ∧ j = hd.subcell_index_1
      · simp [a1]
      · have a0 : i = hd.cell_0 ∧ j = hd.subcell_index_0 := by
          rcases hslot with hs | hs
          · exact ⟨hs.1.symm, hs.2.symm⟩
          · exact absurd ⟨hs.1.symm, hs.2.symm⟩ a1
        simp [a1, a0]
    | succ t =>
      have := fillCellToFaces_look2 faces (start + 1) v2 w i j t face h (by simpa using ht)
        hslot (fun t1 f1 hf1 hs1 => by
          have := huniq (t1 + 1) f1 (by simpa using hf1) hs1
          omega)
      rw [this]
      congr 1
      omega

theorem replicate_shape (n m : Nat) (a : Int) :
    HasShape (List.replicate n (List.replicate m a)) n m := by
  refine ⟨by simp, ?_⟩
  intro row hrow
  rw [List.eq_of_mem_replicate hrow]
  simp

theorem look2_replicate {n m : Nat} {a b : Int} {i j : Int}
    (h : look2 (List.replicate n (List.replicate m a)) i j = some b) : b = a := by
  obtain ⟨row, hr, hb⟩ := look2_eq_some.mp h
  have := List.eq_of_mem_replicate (look_mem hr)
  subst this
  exact List.eq_of_mem_replicate (look_mem hb)

theorem acrossFace_eq_some {P : LocalMeshInfoBase R} {p : Int} {k : Nat} {pf ns n : Int} :
    acrossFace P p k = .ok (some (pf, ns, n)) ↔
      look2 P.cell_to_faces p k = some pf ∧ 0 ≤ pf ∧
      ∃ cells, look P.face_to_cells pf = some cells ∧
        ns = (if cells.1 = p then 1 else 0) ∧ n = side cells ns := by
  unfold acrossFace
  constructor
  · intro h
    split at h
    · cases h
    rename_i f hf
    split at h
    · cases h
    rename_i hneg
    split at h
    · cases h
    rename_i row hrow
    simp only [Except.ok.injEq, Option.some.injEq, Prod.mk.injEq] at h
    obtain ⟨rfl, h2, h3⟩ := h
    refine ⟨viewAt2_eq_ok.mp hf, not_lt.mp hneg, row, viewAt_eq_ok.mp hrow, ?_, ?_⟩
    · rw [← h2]; simp [side]
    · rw [← h3, ← h2]
  · rintro ⟨h1, h2, cells, h3, rfl, rfl⟩
    rw [viewAt2_eq_ok.mpr h1]
    simp only [not_lt.mpr h2, if_false]
    rw [viewAt_eq_ok.mpr h3]
    simp [side]

theorem acrossFace_across {P : LocalMeshInfoBase R} {p : Int} {k : Nat} {n : Int} :
    (∃ pf ns, acrossFace P p k = .ok (some (pf, ns, n))) ↔ Across P p k n := by
  constructor
  · rintro ⟨pf, ns, h⟩
    obtain ⟨h1, h2, cells, h3, rfl, rfl⟩ := acrossFace_eq_some.mp h
    exact ⟨pf, cells, h1, h2, h3, rfl⟩
  · rintro ⟨f, cells, h1, h2, h3, rfl⟩
    exact ⟨f, _, acrossFace_eq_some.mpr ⟨h1, h2, cells, h3, rfl, rfl⟩⟩

theorem setInsert_mem {s : List Int} {x m : Int} : m ∈ setInsert s x ↔ m ∈ s ∨ m = x := by
  unfold setInsert
  split
  · rename_i hx
    constructor
    · exact Or.inl
    · rintro (h | h)
      · exact h
      · exact h ▸ hx
  · simp

theorem setInsert_nodup {s : List Int} (x : Int) (h : s.Nodup) : (setInsert s x).Nodup := by
  unfold setInsert
  split
  · exact h
  · rename_i hx
    exact List.Nodup.append h (List.nodup_singleton _) (by simpa using hx)

theorem classifyNeighbor_spec (P : LocalMeshInfoBase R) (owned : List Int)
    (sets : List Int × List Int) (n : Int) :
    (sets.1.Nodup → (classifyNeighbor P owned sets n).1.Nodup) ∧
    (sets.2.Nodup → (classifyNeighbor P owned sets n).2.Nodup) ∧
    (∀ m, m ∈ (classifyNeighbor P owned sets n).1 ↔ m ∈ sets.1 ∨ (m = n ∧ IsGhostOf P owned n)) ∧
    (∀ m, m ∈ (classifyNeighbor P owned sets n).2 ↔ m ∈ sets.2 ∨ (m = n ∧ IsVirtualOf P n)) := by
  unfold classifyNeighbor IsGhostOf IsVirtualOf
  by_cases h1 : n ≥ P.num_owned_cells + P.num_ghstd_cells
  · simp only [h1, if_true]
    refine ⟨id, setInsert_nodup n, ?_, ?_⟩
    · intro m
      have : ¬ (n < P.num_owned_cells + P.num_ghstd_cells) := by omega
      simp [this]
    · intro m
      rw [setInsert_mem]
      have : P.num_owned_cells + P.num_ghstd_cells ≤ n := h1
      simp [this]
  · have hv : ¬ (P.num_owned_cells + P.num_ghstd_cells ≤ n) := h1
    have hlt : n < P.num_owned_cells + P.num_ghstd_cells := by omega
    simp only [h1, if_false]
    by_cases h2 : n ≥ P.num_owned_cells
    · simp only [h2, if_true]
      refine ⟨setInsert_nodup n, id, ?_, ?_⟩
      · intro m
        rw [setInsert_mem]
        have : P.num_owned_cells ≤ n := h2
        simp [hlt, this]
      · intro m; simp [hv]
    · simp only [h2, if_false]
      have h2b : ¬ (P.num_owned_cells ≤ n) := h2
      by_cases h3 : n ∈ owned
      · simp only [h3, if_true]
        refine ⟨id, id, ?_, ?_⟩
        · intro m; simp [h2b, h3]
        · intro m; simp [hv]
      · simp only [h3, if_false]
        refine ⟨setInsert_nodup n, id, ?_, ?_⟩
        · intro m
          rw [setInsert_mem]
          simp [hlt, h3]
        · intro m; simp [hv]

theorem classifyFace_eq_ok {P : LocalMeshInfoBase R} {owned : List Int} {p : Int}
    {sets out : List Int × List Int} {k : Nat} :
    classifyFace P owned p sets k = .ok out ↔
      (acrossFace P p k = .ok none ∧ out = sets) ∨
      ∃ pf ns n, acrossFace P p k = .ok (some (pf, ns, n)) ∧ 0 ≤ n ∧
        out = classifyNeighbor P owned sets n := by
  unfold classifyFace
  constructor
  · intro h
    split at h
    · cases h
    · cases h; exact Or.inl ⟨by assumption, rfl⟩
    · rename_i pf ns n hacross
      split at h
      · cases h
      rename_i hn
      cases h
      exact Or.inr ⟨pf, ns, n, hacross, not_lt.mp hn, rfl⟩
  · rintro (⟨h, rfl⟩ | ⟨pf, ns, n, h, hn, rfl⟩)
    · rw [h]
    · rw [h]; simp [not_lt.mpr hn]

theorem Classified.refl (P : LocalMeshInfoBase R) (owned : List Int)
    (sets : List Int × List Int) : Classified P owned (fun _ _ => False) sets sets where
  nodup_ghstd := id
  nodup_virtual := id
  mem_ghstd := by simp
  mem_virtual := by simp
  readable := by simp
  nonneg := by simp

theorem Classified.trans {P : LocalMeshInfoBase R} {owned : List Int} {ev1 ev2 ev : Int → Nat → Prop}
    {s0 s1 s2 : List Int × List Int} (h1 : Classified P owned ev1 s0 s1)
    (h2 : Classified P owned ev2 s1 s2) (hev : ∀ p k, ev p k ↔ ev1 p k ∨ ev2 p k) :
    Classified P owned ev s0 s2 where
  nodup_ghstd := fun h => h2.nodup_ghstd (h1.nodup_ghstd h)
  nodup_virtual := fun h => h2.nodup_virtual (h1.nodup_virtual h)
  mem_ghstd := by
    intro m
    rw [h2.mem_ghstd, h1.mem_ghstd]
    constructor
    · rintro ((h | ⟨⟨p, k, he, ha⟩, hg⟩) | ⟨⟨p, k, he, ha⟩, hg⟩)
      · exact Or.inl h
      · exact Or.inr ⟨⟨p, k, (hev p k).mpr (Or.inl he), ha⟩, hg⟩
      · exact Or.inr ⟨⟨p, k, (hev p k).mpr (Or.inr he), ha⟩, hg⟩
    · rintro (h | ⟨⟨p, k, he, ha⟩, hg⟩)
      · exact Or.inl (Or.inl h)
      · rcases (hev p k).mp he with he | he
        · exact Or.inl (Or.inr ⟨⟨p, k, he, ha⟩, hg⟩)
        · exact Or.inr ⟨⟨p, k, he, ha⟩, hg⟩
  mem_virtual := by
    intro m
    rw [h2.mem_virtual, h1.mem_virtual]
    constructor
    · rintro ((h | ⟨⟨p, k, he, ha⟩, hg⟩) | ⟨⟨p, k, he, ha⟩, hg⟩)
      · exact Or.inl h
      · exact Or.inr ⟨⟨p, k, (hev p k).mpr (Or.inl he), ha⟩, hg⟩
      · exact Or.inr ⟨⟨p, k, (hev p k).mpr (Or.inr he), ha⟩, hg⟩
    · rintro (h | ⟨⟨p, k, he, ha⟩, hg⟩)
      · exact Or.inl (Or.inl h)
      · rcases (hev p k).mp he with he | he
        · exact Or.inl (Or.inr ⟨⟨p, k, he, ha⟩, hg⟩)
        · exact Or.inr ⟨⟨p, k, he, ha⟩, hg⟩
  readable := by
    intro p k he
    rcases (hev p k).mp he with he | he
    · exact h1.readable p k he
    · exact h2.readable p k he
  nonneg := by
    intro p k m he
    rcases (hev p k).mp he with he | he
    · exact h1.nonneg p k m he
    · exact h2.nonneg p k m he

theorem across_unique {P : LocalMeshInfoBase R} {p : Int} {k : Nat} {n m : Int}
    (h1 : Across P p k n) (h2 : Across P p k m) : n = m := by
  obtain ⟨f, cells, a1, _, a3, rfl⟩ := h1
  obtain ⟨g, cells2, b1, _, b3, rfl⟩ := h2
  rw [a1] at b1
  cases b1
  rw [a3] at b3
  cases b3
  rfl

theorem classifyFace_classified {P : LocalMeshInfoBase R} {owned : List Int} {p : Int}
    {sets out : List Int × List Int} {k : Nat} (h : classifyFace P owned p sets k = .ok out) :
    Classified P owned (fun q j => q = p ∧ j = k) sets out := by
  rcases classifyFace_eq_ok.mp h with ⟨hnone, rfl⟩ | ⟨pf, ns, n, hsome, hn, rfl⟩
  · have hno : ∀ m, ¬ Across P p k m := by
      intro m hm
      obtain ⟨pf, ns, hx⟩ := acrossFace_across.mpr hm
      rw [hnone] at hx
      cases hx
    refine ⟨id, id, ?_, ?_, ?_, ?_⟩
    · intro m
      constructor
      · exact Or.inl
      · rintro (h | ⟨⟨q, j, ⟨rfl, rfl⟩, ha⟩, _⟩)
        · exact h
        · exact absurd ha (hno m)
    · intro m
      constructor
      · exact Or.inl
      · rintro (h | ⟨⟨q, j, ⟨rfl, rfl⟩, ha⟩, _⟩)
        · exact h
        · exact absurd ha (hno m)
    · rintro q j ⟨rfl, rfl⟩
      exact ⟨_, hnone⟩
    · rintro q j m ⟨rfl, rfl⟩ ha
      exact absurd ha (hno m)
  · have hacr : Across P p k n := acrossFace_across.mp ⟨pf, ns, hsome⟩
    obtain ⟨c1, c2, c3, c4⟩ := classifyNeighbor_spec P owned sets n
    refine ⟨c1, c2, ?_, ?_, ?_, ?_⟩
    · intro m
      rw [c3]
      constructor
      · rintro (h | ⟨rfl, hg⟩)
        · exact Or.inl h
        · exact Or.inr ⟨⟨p, k, ⟨rfl, rfl⟩, hacr⟩, hg⟩
      · rintro (h | ⟨⟨q, j, ⟨rfl, rfl⟩, ha⟩, hg⟩)
        · exact Or.inl h
        · have := across_unique ha hacr
          subst this
          exact Or.inr ⟨rfl, hg⟩
    · intro m
      rw [c4]
      constructor
      · rintro (h | ⟨rfl, hg⟩)
        · exact Or.inl h
        · exact Or.inr ⟨⟨p, k, ⟨rfl, rfl⟩, hacr⟩, hg⟩
      · rintro (h | ⟨⟨q, j, ⟨rfl, rfl⟩, ha⟩, hg⟩)
        · exact Or.inl h
        · have := across_unique ha hacr
          subst this
          exact Or.inr ⟨rfl, hg⟩
    · rintro q j ⟨rfl, rfl⟩
      exact ⟨_, hsome⟩
    · rintro q j m ⟨rfl, rfl⟩ ha
      have := across_unique ha hacr
      subst this
      exact hn

theorem classifyCell_classified {P : LocalMeshInfoBase R} {owned : List Int} {p : Int} :
    ∀ (slots : List Nat) (sets out : List Int × List Int),
      classifyCell P owned p slots sets = .ok out →
      Classified P owned (fun q j => q = p ∧ j ∈ slots) sets out
  | [], sets, out, h => by
    cases h
    have := Classified.refl P owned sets
    refine Classified.trans this this ?_
    simp
  | k :: slots, sets, out, h => by
    unfold classifyCell at h
    split at h
    · cases h
    rename_i s1 h1
    refine Classified.trans (classifyFace_classified h1)
      (classifyCell_classified slots s1 out h) ?_
    intro q j
    simp only [List.mem_cons]
    tauto

theorem classifyCells_classified {P : LocalMeshInfoBase R} {owned : List Int} :
    ∀ (cells : List Int) (sets out : List Int × List Int),
      classifyCells P owned cells sets = .ok out →
      Classified P owned (fun q j => q ∈ cells ∧ j < P.num_faces_per_cell) sets out
  | [], sets, out, h => by
    cases h
    have := Classified.refl P owned sets
    refine Classified.trans this this ?_
    simp
  | p :: cells, sets, out, h => by
    unfold classifyCells at h
    split at h
    · cases h
    rename_i s1 h1
    refine Classified.trans (classifyCell_classified _ sets s1 h1)
      (classifyCells_classified cells s1 out h) ?_
    intro q j
    simp only [List.mem_cons, List.mem_range]
    tauto

theorem classifyPass_classified {P : LocalMeshInfoBase R} {owned : List Int}
    {sets : List Int × List Int} (h : classifyPass P owned = .ok sets) :
    Classified P owned (fun q j => q ∈ owned ∧ j < P.num_faces_per_cell) ([], []) sets :=
  classifyCells_classified owned ([], []) sets h

theorem classifyCell_ok {P : LocalMeshInfoBase R} {owned : List Int} {p : Int} :
    ∀ (slots : List Nat) (sets : List Int × List Int),
      (∀ k ∈ slots, ∃ r, acrossFace P p k = .ok r ∧ ∀ pf ns n, r = some (pf, ns, n) → 0 ≤ n) →
      ∃ out, classifyCell P owned p slots sets = .ok out
  | [], sets, _ => ⟨sets, rfl⟩
  | k :: slots, sets, h => by
    obtain ⟨r, hr, hn⟩ := h k (List.mem_cons_self _ _)
    have hstep : ∃ s1, classifyFace P owned p sets k = .ok s1 := by
      cases r with
      | none => exact ⟨sets, classifyFace_eq_ok.mpr (Or.inl ⟨hr, rfl⟩)⟩
      | some t =>
        obtain ⟨pf, ns, n⟩ := t
        exact ⟨_, classifyFace_eq_ok.mpr (Or.inr ⟨pf, ns, n, hr, hn pf ns n rfl, rfl⟩)⟩
    obtain ⟨s1, h1⟩ := hstep
    obtain ⟨out, hout⟩ := classifyCell_ok slots s1 (fun j hj => h j (List.mem_cons_of_mem _ hj))
    refine ⟨out, ?_⟩
    unfold classifyCell
    rw [h1]; exact hout

theorem classifyCells_ok {P : LocalMeshInfoBase R} {owned : List Int} :
    ∀ (cells : List Int) (sets : List Int × List Int),
      (∀ p ∈ cells, ∀ k < P.num_faces_per_cell,
        ∃ r, acrossFace P p k = .ok r ∧ ∀ pf ns n, r = some (pf, ns, n) → 0 ≤ n) →
      ∃ out, classifyCells P owned cells sets = .ok out
  | [], sets, _ => ⟨sets, rfl⟩
  | p :: cells, sets, h => by
    obtain ⟨s1, h1⟩ := @classifyCell_ok R P owned p
      (List.range P.num_faces_per_cell) sets
      (fun k hk => h p (List.mem_cons_self _ _) k (List.mem_range.mp hk))
    obtain ⟨out, hout⟩ := classifyCells_ok cells s1
      (fun q hq => h q (List.mem_cons_of_mem _ hq))
    refine ⟨out, ?_⟩
    unfold classifyCells
    rw [h1]; exact hout

theorem WellFormed.shape {P : LocalMeshInfoBase R} (h : WellFormed P) :
    HasShape P.cell_to_faces P.cell_to_faces.length P.num_faces_per_cell :=
  ⟨rfl, h.2.2.2.2.2.2.2.1⟩

theorem WellFormed.cell_slot {P : LocalMeshInfoBase R} (h : WellFormed P) {c k f : Int}
    (hf : look2 P.cell_to_faces c k = some f) (h0 : 0 ≤ f) :
    ∃ cells lidx s, look P.face_to_cells f = some cells ∧ look P.face_to_lidx f = some lidx ∧
      (s = 0 ∨ s = 1) ∧ side cells s = c ∧ side lidx s = k := by
  obtain ⟨⟨hc0, hc1⟩, hk0, hk1⟩ := (look2_isSome_iff h.shape c k).mp ⟨f, hf⟩
  have hcell := h.2.2.2.2.2.2.2.2.2.1 c.toNat (by omega) k.toNat (by omega)
  unfold CellSlotOK at hcell
  rw [Int.toNat_of_nonneg hc0, Int.toNat_of_nonneg hk0] at hcell
  have := hcell f (by simp [hf]) h0
  unfold FaceHas at this
  rcases this with ⟨a, b⟩ | ⟨a, b⟩
  · obtain ⟨cells, hcells, ha⟩ := Option.map_eq_some'.mp a
    obtain ⟨lidx, hlidx, hb⟩ := Option.map_eq_some'.mp b
    exact ⟨cells, lidx, 0, hcells, hlidx, Or.inl rfl, ha, hb⟩
  · obtain ⟨cells, hcells, ha⟩ := Option.map_eq_some'.mp a
    obtain ⟨lidx, hlidx, hb⟩ := Option.map_eq_some'.mp b
    exact ⟨cells, lidx, 1, hcells, hlidx, Or.inr rfl, ha, hb⟩

theorem WellFormed.face_side {P : LocalMeshInfoBase R} (h : WellFormed P) {f : Int}
    {cells : Int × Int} (hf : look P.face_to_cells f = some cells) :
    ∃ lidx, look P.face_to_lidx f = some lidx ∧
      ∀ s, (s = 0 ∨ s = 1) → look2 P.cell_to_faces (side cells s) (side lidx s) = some f := by
  obtain ⟨h0, h1⟩ := look_bounds hf
  have hface := h.2.2.2.2.2.2.2.2.2.2 f.toNat (by omega)
  unfold FaceSideOK at hface
  rw [Int.toNat_of_nonneg h0, hf] at hface
  simp only [Option.some_bind] at hface
  cases hl : look P.face_to_lidx f with
  | none => rw [hl] at hface; simp at hface
  | some lidx =>
    rw [hl] at hface
    simp only [Option.some_bind] at hface
    refine ⟨lidx, rfl, ?_⟩
    rintro s (rfl | rfl)
    · exact hface.1
    · exact hface.2

/-- In a well-formed parent every face slot of every cell can be resolved, and the cell found
across a face is a cell of the parent at a valid slot. -/
theorem WellFormed.across {P : LocalMeshInfoBase R} (h : WellFormed P) {p : Int} {k : Nat}
    (hp0 : 0 ≤ p) (hp1 : p < P.totalCells) (hk : k < P.num_faces_per_cell) :
    ∃ r, acrossFace P p k = .ok r ∧ ∀ pf ns n, r = some (pf, ns, n) →
      (0 ≤ n ∧ n < P.totalCells) ∧ ∃ lidx, look P.face_to_lidx pf = some lidx ∧
        0 ≤ side lidx ns ∧ side lidx ns < P.num_faces_per_cell := by
  have htot : (P.cell_to_faces.length : Int) = P.totalCells := h.2.2.2.2.2.2.1
  obtain ⟨f, hf⟩ := (look2_isSome_iff h.shape p k).mpr
    ⟨⟨hp0, by omega⟩, by omega, by exact_mod_cast hk⟩
  by_cases hneg : f < 0
  · refine ⟨none, ?_, by simp⟩
    unfold acrossFace
    rw [viewAt2_eq_ok.mpr hf]
    simp [hneg]
  · obtain ⟨cells, lidx, s, hcells, hlidx, _, _, _⟩ := h.cell_slot hf (not_lt.mp hneg)
    refine ⟨some (f, (if cells.1 = p then 1 else 0), side cells (if cells.1 = p then 1 else 0)),
      acrossFace_eq_some.mpr ⟨hf, not_lt.mp hneg, cells, hcells, rfl, rfl⟩, ?_⟩
    intro pf ns n hr
    simp only [Option.some.injEq, Prod.mk.injEq] at hr
    obtain ⟨rfl, rfl, rfl⟩ := hr
    obtain ⟨lidx2, hl2, hsym⟩ := h.face_side hcells
    rw [hlidx] at hl2
    cases hl2
    have hns : (if cells.1 = p then (1 : Int) else 0) = 0 ∨
        (if cells.1 = p then (1 : Int) else 0) = 1 := by
      split
      · exact Or.inr rfl
      · exact Or.inl rfl
    have hb := (look2_isSome_iff h.shape _ _).mp ⟨_, hsym _ hns⟩
    exact ⟨⟨hb.1.1, by omega⟩, lidx, hlidx, hb.2.1, by exact_mod_cast hb.2.2⟩

theorem numberCells_mem {p c : Int} :
    ∀ {parents : List Int} {start : Nat},
      (p, c) ∈ numberCells start parents ↔ ∃ i : Nat, parents[i]? = some p ∧ c = ((start + i : Nat) : Int)
  | [], start => by simp [numberCells]
  | q :: parents, start => by
    unfold numberCells
    rw [List.mem_cons, @numberCells_mem p c parents]
    constructor
    · rintro (h | ⟨i, hi, hc⟩)
      · simp only [Prod.mk.injEq] at h
        exact ⟨0, by simp [h.1], by simp [h.2]⟩
      · exact ⟨i + 1, by simpa using hi, by rw [hc]; congr 1; omega⟩
    · rintro ⟨i, hi, hc⟩
      cases i with
      | zero =>
        left
        simp only [List.getElem?_cons_zero, Option.some.injEq] at hi
        simp [hi, hc]
      | succ i =>
        right
        exact ⟨i, by simpa using hi, by rw [hc]; congr 1; omega⟩

theorem sortCells_mem {e : Int × Int} {l : List (Int × Int)} : e ∈ sortCells l ↔ e ∈ l :=
  (List.perm_insertionSort pairLE l).mem_iff

theorem sortCells_sorted (l : List (Int × Int)) : (sortCells l).Pairwise pairLE :=
  List.sorted_insertionSort pairLE l

theorem lower_bound_mem {sorted : List (Int × Int)} {v e : Int × Int}
    (h : lower_bound sorted v = some e) : e ∈ sorted ∧ ¬ pairLT e v := by
  unfold lower_bound at h
  exact ⟨List.mem_of_find?_eq_some h, by simpa using List.find?_some h⟩

theorem lower_bound_isSome {sorted : List (Int × Int)} {v e : Int × Int} (he : e ∈ sorted)
    (hv : ¬ pairLT e v) : ∃ e1, lower_bound sorted v = some e1 := by
  unfold lower_bound
  cases hf : List.find? (fun entry => decide (¬ pairLT entry v)) sorted with
  | some e1 => exact ⟨e1, rfl⟩
  | none =>
    rw [List.find?_eq_none] at hf
    have := hf e he
    simp [hv] at this

/-- On a sorted list in which `n` is the parent index of the single entry `(n, c)`, the lookup
of line 294 returns that entry. -/
theorem lower_bound_eq {n c : Int} (hc : 0 ≤ c) :
    ∀ {sorted : List (Int × Int)}, sorted.Pairwise pairLE → (n, c) ∈ sorted →
      (∀ e ∈ sorted, e.1 = n → e = (n, c)) → lower_bound sorted (n, 0) = some (n, c)
  | [], _, hmem, _ => by simp at hmem
  | hd :: tl, hs, hmem, huniq => by
    unfold lower_bound
    by_cases hlt : pairLT hd (n, 0)
    · rw [List.find?_cons_of_neg _ (by simpa using hlt)]
      have hne : (n, c) ≠ hd := by
        rintro rfl
        unfold pairLT at hlt
        simp only [lt_self_iff_false, true_and, false_or] at hlt
        omega
      have hmem2 : (n, c) ∈ tl := by
        rcases List.mem_cons.mp hmem with h | h
        · exact absurd h hne
        · exact h
      exact lower_bound_eq hc (List.Pairwise.of_cons hs) hmem2
        (fun e he => huniq e (List.mem_cons_of_mem _ he))
    · rw [List.find?_cons_of_pos _ (by simpa using hlt)]
      congr 1
      apply huniq hd (List.mem_cons_self _ _)
      rcases List.mem_cons.mp hmem with h | h
      · rw [← h]
      · have hle := List.rel_of_pairwise_cons hs h
        unfold pairLE at hle
        unfold pairLT at hlt
        simp only at hle hlt
        rcases hle with h1 | ⟨h1, _⟩
        · by_contra hx
          apply hlt
          left
          omega
        · exact h1

theorem createFace_ok {P : LocalMeshInfoBase R} {sorted : List (Int × Int)} {o : Nat} {p : Int}
    {k : Nat} (fs : List FaceEntry)
    (h : ∃ r, acrossFace P p k = .ok r ∧ ∀ pf ns n, r = some (pf, ns, n) →
      (∃ lidx, look P.face_to_lidx pf = some lidx) ∧ ∃ e, lower_bound sorted (n, 0) = some e) :
    ∃ fs1, createFace P sorted o p fs k = .ok fs1 := by
  obtain ⟨r, hr, hsome⟩ := h
  unfold createFace
  rw [hr]
  cases r with
  | none => exact ⟨fs, rfl⟩
  | some t =>
    obtain ⟨pf, ns, n⟩ := t
    obtain ⟨⟨lidx, hl⟩, e, he⟩ := hsome pf ns n rfl
    simp only
    rw [viewAt_eq_ok.mpr hl]
    simp only
    rw [he]
    simp only
    split <;> exact ⟨_, rfl⟩

theorem createFaces_ok {P : LocalMeshInfoBase R} {sorted : List (Int × Int)} :
    ∀ (cells : List Int) (start : Nat) (fs : List FaceEntry),
      (∀ p ∈ cells, ∀ k < P.num_faces_per_cell,
        ∃ r, acrossFace P p k = .ok r ∧ ∀ pf ns n, r = some (pf, ns, n) →
          (∃ lidx, look P.face_to_lidx pf = some lidx) ∧
            ∃ e, lower_bound sorted (n, 0) = some e) →
      ∃ out, createFaces P sorted start cells fs = .ok out := by
  have inner : ∀ (o : Nat) (p : Int) (slots : List Nat) (fs : List FaceEntry),
      (∀ k ∈ slots, ∃ r, acrossFace P p k = .ok r ∧ ∀ pf ns n, r = some (pf, ns, n) →
          (∃ lidx, look P.face_to_lidx pf = some lidx) ∧
            ∃ e, lower_bound sorted (n, 0) = some e) →
      ∃ out, createCellFaces P sorted o p slots fs = .ok out := by
    intro o p slots
    induction slots with
    | nil => intro fs _; exact ⟨fs, rfl⟩
    | cons k slots ih =>
      intro fs h
      obtain ⟨fs1, h1⟩ := createFace_ok (o := o) fs (h k (List.mem_cons_self _ _))
      obtain ⟨out, hout⟩ := ih fs1 (fun j hj => h j (List.mem_cons_of_mem _ hj))
      refine ⟨out, ?_⟩
      unfold createCellFaces
      rw [h1]; exact hout
  intro cells
  induction cells with
  | nil => intro start fs _; exact ⟨fs, rfl⟩
  | cons p cells ih =>
    intro start fs h
    obtain ⟨fs1, h1⟩ := inner start p (List.range P.num_faces_per_cell) fs
      (fun k hk => h p (List.mem_cons_self _ _) k (List.mem_range.mp hk))
    obtain ⟨out, hout⟩ := ih (start + 1) fs1 (fun q hq => h q (List.mem_cons_of_mem _ hq))
    refine ⟨out, ?_⟩
    unfold createFaces
    rw [h1]; exact hout

/-- The phases of `setupSubLocalMeshInfo` put together again. -/
theorem setup_ok_of_phases {order : IterationOrder} {P : LocalMeshInfoBase R} {owned : List Int}
    {sets : List Int × List Int} {global_cells : List Int} {local_cells : List Int}
    {cell_vertices : List (List (List R))} {faces_set : List FaceEntry}
    {cell_to_faces : List (List Int)}
    (h0 : owned ≠ []) (h1 : 0 < P.num_owned_cells)
    (h2 : (P.cell_to_faces.length : Int) = P.totalCells)
    (h3 : (P.cell_vertices.length : Int) = P.totalCells)
    (h4 : (P.local_cells.length : Int) = P.totalCells)
    (h5 : (P.global_cells.length : Int) = P.totalCells)
    (hc : classifyPass P owned = .ok sets)
    (hgc : copyCells P.global_cells (childParents order owned sets) = .ok global_cells)
    (hlc : copyCells P.local_cells (childParents order owned sets) = .ok local_cells)
    (hcv : copyCells P.cell_vertices (childParents order owned sets) = .ok cell_vertices)
    (hfs : createFaces P (sortCells (numberCells 0 (childParents order owned sets))) 0 owned []
        = .ok faces_set)
    (hctf : fillCellToFaces 0 ((order.faces faces_set).map toFace)
        (List.replicate (childParents order owned sets).length
          (List.replicate P.num_faces_per_cell (-1))) = .ok cell_to_faces) :
    ∃ child, setupSubLocalMeshInfo order P owned = .ok child := by
  obtain ⟨gs, vs⟩ := sets
  unfold childParents at hgc hlc hcv hfs hctf
  simp only at hgc hlc hcv hfs hctf
  unfold setupSubLocalMeshInfo
  have h0b : ¬ owned.length = 0 := by
    intro h; exact h0 (List.length_eq_zero.mp h)
  simp only [h0b, if_false, not_le.mpr h1, h2, h3, h4, h5, ne_eq, not_true_eq_false, or_self]
  rw [hc]
  simp only
  rw [hgc, hlc, hcv]
  simp only
  rw [hfs]
  simp only
  rw [hctf]
  exact ⟨_, rfl⟩

theorem childParents_mem {order : IterationOrder} {owned : List Int} {sets : List Int × List Int}
    {n : Int} : n ∈ childParents order owned sets ↔ n ∈ owned ∨ n ∈ sets.1 ∨ n ∈ sets.2 := by
  unfold childParents
  rw [List.mem_append, List.mem_append, (order.cells_perm sets.1).mem_iff,
    (order.cells_perm sets.2).mem_iff, or_assoc]

theorem childParents_length (order : IterationOrder) (owned : List Int)
    (sets : List Int × List Int) :
    (childParents order owned sets).length
      = owned.length + (order.cells sets.1).length + (order.cells sets.2).length := by
  unfold childParents
  simp only [List.length_append]

/-- The owned cells are the child cells `0 .. k-1`, in the caller's order. -/
theorem childParents_owned (order : IterationOrder) (owned : List Int) (sets : List Int × List Int)
    {o : Nat} {p : Int} (h : owned[o]? = some p) : (childParents order owned sets)[o]? = some p := by
  have hlt : o < owned.length := (List.getElem?_eq_some_iff.mp h).1
  unfold childParents
  rw [List.append_assoc, List.getElem?_append_left hlt, h]

/-- The ghost cells are the child cells `k .. k+g-1`. -/
theorem childParents_ghstd (order : IterationOrder) (owned : List Int) (sets : List Int × List Int)
    {i : Nat} (h : i < (order.cells sets.1).length) :
    (childParents order owned sets)[owned.length + i]? = (order.cells sets.1)[i]? := by
  unfold childParents
  rw [List.getElem?_append_left (by rw [List.length_append]; omega),
    List.getElem?_append_right (by omega)]
  congr 1
  omega

/-- The virtual cells are the child cells `k+g .. k+g+v-1`. -/
theorem childParents_virtual (order : IterationOrder) (owned : List Int)
    (sets : List Int × List Int) (i : Nat) :
    (childParents order owned sets)[owned.length + (order.cells sets.1).length + i]?
      = (order.cells sets.2)[i]? := by
  unfold childParents
  rw [List.getElem?_append_right (by rw [List.length_append]; omega)]
  congr 1
  rw [List.length_append]
  omega

theorem WellFormed.total_ge {P : LocalMeshInfoBase R} (h : WellFormed P) :
    P.num_owned_cells ≤ P.totalCells := by
  have h1 := h.2.1
  have h2 := h.2.2.1
  unfold LocalMeshInfoBase.totalCells
  omega

theorem WellFormed.across_bounds {P : LocalMeshInfoBase R} (h : WellFormed P) {p : Int} {k : Nat}
    {n : Int} (hp0 : 0 ≤ p) (hp1 : p < P.totalCells) (hk : k < P.num_faces_per_cell)
    (ha : Across P p k n) : 0 ≤ n ∧ n < P.totalCells := by
  obtain ⟨pf, ns, hx⟩ := acrossFace_across.mpr ha
  obtain ⟨r, hr, hfacts⟩ := h.across hp0 hp1 hk
  rw [hx] at hr
  cases hr
  exact (hfacts pf ns n rfl).1

/-- Every cell found across a face of an input cell is one of the child cells (owned, ghost
or virtual). -/
theorem Classified.neighbor_mem {P : LocalMeshInfoBase R} {owned : List Int}
    {sets : List Int × List Int}
    (h : Classified P owned (fun q j => q ∈ owned ∧ j < P.num_faces_per_cell) ([], []) sets)
    (order : IterationOrder) {p : Int} {k : Nat} {n : Int} (hp : p ∈ owned)
    (hk : k < P.num_faces_per_cell) (ha : Across P p k n) :
    n ∈ childParents order owned sets := by
  rw [childParents_mem]
  by_cases hv : P.num_owned_cells + P.num_ghstd_cells ≤ n
  · exact Or.inr (Or.inr ((h.mem_virtual n).mpr (Or.inr ⟨⟨p, k, ⟨hp, hk⟩, ha⟩, hv⟩)))
  · by_cases hg : P.num_owned_cells ≤ n ∨ n ∉ owned
    · exact Or.inr (Or.inl ((h.mem_ghstd n).mpr
        (Or.inr ⟨⟨p, k, ⟨hp, hk⟩, ha⟩, ⟨not_le.mp hv, hg⟩⟩)))
    · left
      by_contra hx
      exact hg (Or.inr hx)

theorem Classified.parents_bounds {P : LocalMeshInfoBase R} {owned : List Int}
    {sets : List Int × List Int}
    (h : Classified P owned (fun q j => q ∈ owned ∧ j < P.num_faces_per_cell) ([], []) sets)
    (hwf : WellFormed P) (hvalid : ∀ p ∈ owned, 0 ≤ p ∧ p < P.num_owned_cells)
    (order : IterationOrder) :
    ∀ n ∈ childParents order owned sets, 0 ≤ n ∧ n < P.totalCells := by
  intro n hn
  have htot := hwf.total_ge
  rcases childParents_mem.mp hn with h1 | h1 | h1
  · have := hvalid n h1
    exact ⟨this.1, by omega⟩
  · rcases (h.mem_ghstd n).mp h1 with h2 | ⟨⟨p, k, ⟨hp, hk⟩, ha⟩, _⟩
    · simp at h2
    · have := hvalid p hp
      exact hwf.across_bounds this.1 (by omega) hk ha
  · rcases (h.mem_virtual n).mp h1 with h2 | ⟨⟨p, k, ⟨hp, hk⟩, ha⟩, _⟩
    · simp at h2
    · have := hvalid p hp
      exact hwf.across_bounds this.1 (by omega) hk ha

/-- The lookup of line 294 succeeds for every cell that is among the child cells. -/
theorem lookup_isSome {parents : List Int} {n : Int} (hn : n ∈ parents) :
    ∃ e, lower_bound (sortCells (numberCells 0 parents)) (n, 0) = some e := by
  obtain ⟨i, hi⟩ := List.mem_iff_getElem?.mp hn
  have hmem : (n, ((0 + i : Nat) : Int)) ∈ sortCells (numberCells 0 parents) :=
    sortCells_mem.mpr (numberCells_mem.mpr ⟨i, hi, rfl⟩)
  refine lower_bound_isSome hmem ?_
  unfold pairLT
  simp only [lt_self_iff_false, true_and, false_or, not_lt]
  omega

/-- An entry returned by the lookup of line 294 carries a valid child cell index. -/
theorem lookup_bounds {parents : List Int} {v e : Int × Int}
    (h : lower_bound (sortCells (numberCells 0 parents)) v = some e) :
    ∃ i : Nat, parents[i]? = some e.1 ∧ e.2 = (i : Int) := by
  have hmem := numberCells_mem.mp (sortCells_mem.mp (lower_bound_mem h).1)
  obtain ⟨i, hi, hc⟩ := hmem
  exact ⟨i, hi, by rw [hc]; congr 1; omega⟩

/-- On a well-formed parent and a non-empty list of owned parent cells,
`setupSubLocalMeshInfo` returns a child. -/
theorem setup_succeeds (order : IterationOrder) {P : LocalMeshInfoBase R} (hwf : WellFormed P)
    {owned : List Int} (hne : owned ≠ [])
    (hvalid : ∀ p ∈ owned, 0 ≤ p ∧ p < P.num_owned_cells) :
    ∃ child, setupSubLocalMeshInfo order P owned = .ok child := by
  have htot := hwf.total_ge
  have hpos : 0 < P.num_owned_cells := by
    obtain ⟨p, hp⟩ := List.exists_mem_of_ne_nil owned hne
    have := hvalid p hp
    omega
  have hev : ∀ p ∈ owned, ∀ k < P.num_faces_per_cell, ∃ r, acrossFace P p k = .ok r ∧
      ∀ pf ns n, r = some (pf, ns, n) → (0 ≤ n ∧ n < P.totalCells) ∧
        ∃ lidx, look P.face_to_lidx pf = some lidx ∧
          0 ≤ side lidx ns ∧ side lidx ns < P.num_faces_per_cell := by
    intro p hp k hk
    have := hvalid p hp
    exact hwf.across this.1 (by omega) hk
  obtain ⟨sets, hc⟩ : ∃ sets, classifyPass P owned = .ok sets := by
    apply classifyCells_ok
    intro p hp k hk
    obtain ⟨r, hr, hf⟩ := hev p hp k hk
    exact ⟨r, hr, fun pf ns n h => (hf pf ns n h).1.1⟩
  have hcl := classifyPass_classified hc
  have hpb := hcl.parents_bounds hwf hvalid order
  obtain ⟨gc, hgc⟩ := @copyCells_ok _ P.global_cells
    (childParents order owned sets) (by rw [hwf.2.2.2.1]; exact hpb)
  obtain ⟨lc, hlc⟩ := @copyCells_ok _ P.local_cells
    (childParents order owned sets) (by rw [hwf.2.2.2.2.1]; exact hpb)
  obtain ⟨cv, hcv⟩ := @copyCells_ok _ P.cell_vertices
    (childParents order owned sets) (by rw [hwf.2.2.2.2.2.1]; exact hpb)
  obtain ⟨fs, hfs⟩ := @createFaces_ok R P
    (sortCells (numberCells 0 (childParents order owned sets))) owned 0 [] (by
      intro p hp k hk
      obtain ⟨r, hr, hf⟩ := hev p hp k hk
      refine ⟨r, hr, ?_⟩
      intro pf ns n hrn
      obtain ⟨_, lidx, hl, _⟩ := hf pf ns n hrn
      refine ⟨⟨lidx, hl⟩, lookup_isSome ?_⟩
      exact hcl.neighbor_mem order hp hk (acrossFace_across.mp ⟨pf, ns, hrn ▸ hr⟩))
  obtain ⟨ctf, hctf⟩ := fillCellToFaces_ok (n := (childParents order owned sets).length)
    (m := P.num_faces_per_cell) ((order.faces fs).map toFace) 0 _
    (replicate_shape _ _ (-1)) (by
      intro face hface i j hslot
      obtain ⟨e, he, rfl⟩ := List.mem_map.mp hface
      have hefs : e ∈ fs := (order.faces_perm fs).mem_iff.mp he
      obtain ⟨o, p, k, hop, hk, pf, ns, n, lidx, entry, hacr, hl, hlb, hrec⟩ :=
        (createFaces_mem hfs).2 e hefs
      have hpm : p ∈ owned := List.getElem?_mem hop
      obtain ⟨r, hr, hf⟩ := hev p hpm k hk
      rw [hacr] at hr
      cases hr
      obtain ⟨_, lidx2, hl2, hs0, hs1⟩ := hf pf ns n rfl
      rw [hl] at hl2
      cases hl2
      obtain ⟨i1, hi1, hi1eq⟩ := lookup_bounds hlb
      have hi1lt : i1 < (childParents order owned sets).length :=
        (List.getElem?_eq_some_iff.mp hi1).1
      have holt : o < owned.length := (List.getElem?_eq_some_iff.mp hop).1
      have hlen := childParents_length order owned sets
      unfold face_t.HasSlot toFace at hslot
      simp only at hslot
      split at hrec
      · subst hrec
        simp only at hslot
        rcases hslot with ⟨rfl, rfl⟩ | ⟨rfl, rfl⟩
        · exact ⟨⟨by omega, by omega⟩, by omega, by exact_mod_cast hk⟩
        · exact ⟨⟨by omega, by omega⟩, hs0, by exact_mod_cast hs1⟩
      · subst hrec
        simp only at hslot
        rcases hslot with ⟨rfl, rfl⟩ | ⟨rfl, rfl⟩
        · exact ⟨⟨by omega, by omega⟩, hs0, by exact_mod_cast hs1⟩
        · exact ⟨⟨by omega, by omega⟩, by omega, by exact_mod_cast hk⟩)
  exact setup_ok_of_phases hne hpos hwf.2.2.2.2.2.2.1 hwf.2.2.2.2.2.1 hwf.2.2.2.2.1 hwf.2.2.2.1
    hc hgc hlc hcv hfs hctf

/-- Every face of the child is an entry of `faces_set` written for some owned child cell. -/
theorem child_face {order : IterationOrder} {P : LocalMeshInfoBase R} {owned : List Int}
    {sets : List Int × List Int} {fs : List FaceEntry}
    (hfs : createFaces P (sortCells (numberCells 0 (childParents order owned sets))) 0 owned []
      = .ok fs) {f : Int} {face : face_t}
    (hf : look ((order.faces fs).map toFace) f = some face) :
    ∃ e, e ∈ fs ∧ face = toFace e ∧ ∃ (o : Nat) (p : Int) (k : Nat), owned[o]? = some p ∧
      k < P.num_faces_per_cell ∧
      IsRecord P (sortCells (numberCells 0 (childParents order owned sets))) o p k e := by
  obtain ⟨e, he, rfl⟩ := List.mem_map.mp (look_mem hf)
  have hefs : e ∈ fs := (order.faces_perm fs).mem_iff.mp he
  exact ⟨e, hefs, rfl, (createFaces_mem hfs).2 e hefs⟩

theorem look_map {α β : Type} (g : α → β) (v : List α) (i : Int) :
    look (v.map g) i = (look v i).map g := by
  unfold look
  split
  · simp
  · rfl

/-- C9: when `setupSubLocalMeshInfo` succeeds, the child has `num_owned_cells` equal to the
length of the owned list, and its views `global_cells`, `local_cells`, `cell_vertices` and
`cell_to_faces` each have leading extent
`num_owned_cells + num_ghstd_cells + num_virtual_cells`. -/
theorem setupSubLocalMeshInfo_extents (order : IterationOrder) (P : LocalMeshInfoBase R)
    (owned : List Int) (child : LocalMeshInfoBase R)
    (h : setupSubLocalMeshInfo order P owned = .ok child) :
    owned ≠ [] ∧ child.num_owned_cells = (owned.length : Int) ∧
    (child.global_cells.length : Int) = child.totalCells ∧
    (child.local_cells.length : Int) = child.totalCells ∧
    (child.cell_vertices.length : Int) = child.totalCells ∧
    (child.cell_to_faces.length : Int) = child.totalCells := by
  obtain ⟨sets, gc, lc, cv, fs, ctf, h0, _, _, _, _, _, _, hgc, hlc, hcv, _, hctf, rfl⟩ :=
    setup_ok_inv h
  have hlen := childParents_length order owned sets
  have hshape := fillCellToFaces_shape _ _ _ _ hctf (replicate_shape _ _ (-1))
  refine ⟨h0, rfl, ?_, ?_, ?_, ?_⟩
  · simp only [LocalMeshInfoBase.totalCells, copyCells_length hgc, hlen]; push_cast; ring
  · simp only [LocalMeshInfoBase.totalCells, copyCells_length hlc, hlen]; push_cast; ring
  · simp only [LocalMeshInfoBase.totalCells, copyCells_length hcv, hlen]; push_cast; ring
  · simp only [LocalMeshInfoBase.totalCells, hshape.1, hlen]; push_cast; ring

/-- C10: in a child built by `setupSubLocalMeshInfo` no face has both of its incident cells in
the virtual index range `[num_owned_cells + num_ghstd_cells, N)`. -/
theorem setupSubLocalMeshInfo_no_virtual_virtual_face (order : IterationOrder)
    (P : LocalMeshInfoBase R) (owned : List Int) (child : LocalMeshInfoBase R)
    (h : setupSubLocalMeshInfo order P owned = .ok child) (f : Int) (cells : Int × Int)
    (hf : look child.face_to_cells f = some cells) :
    ¬ ((child.num_owned_cells + child.num_ghstd_cells ≤ cells.1 ∧ cells.1 < child.totalCells) ∧
       (child.num_owned_cells + child.num_ghstd_cells ≤ cells.2 ∧ cells.2 < child.totalCells)) := by
  obtain ⟨sets, gc, lc, cv, fs, ctf, _, _, _, _, _, _, _, _, _, _, hfs, _, rfl⟩ := setup_ok_inv h
  simp only at hf ⊢
  rw [look_map] at hf
  obtain ⟨face, hface, rfl⟩ := Option.map_eq_some'.mp hf
  obtain ⟨e, _, rfl, o, p, k, hop, _, pf, ns, n, lidx, entry, _, _, _, hrec⟩ :=
    child_face hfs hface
  have holt : o < owned.length := (List.getElem?_eq_some_iff.mp hop).1
  rintro ⟨⟨h1, _⟩, h2, _⟩
  unfold toFace at h1 h2
  simp only at h1 h2
  split at hrec
  · subst hrec
    simp only at h1
    omega
  · subst hrec
    simp only at h2
    omega

theorem Classified.parents_nodup {P : LocalMeshInfoBase R} {owned : List Int}
    {sets : List Int × List Int}
    (h : Classified P owned (fun q j => q ∈ owned ∧ j < P.num_faces_per_cell) ([], []) sets)
    (hwf : WellFormed P) (hvalid : ∀ p ∈ owned, 0 ≤ p ∧ p < P.num_owned_cells)
    (hnd : owned.Nodup) (order : IterationOrder) : (childParents order owned sets).Nodup := by
  have hg : (order.cells sets.1).Nodup :=
    (order.cells_perm sets.1).nodup_iff.mpr (h.nodup_ghstd List.nodup_nil)
  have hv : (order.cells sets.2).Nodup :=
    (order.cells_perm sets.2).nodup_iff.mpr (h.nodup_virtual List.nodup_nil)
  have hgh := hwf.2.1
  unfold childParents
  refine List.Nodup.append (List.Nodup.append hnd hg ?_) hv ?_
  · intro n hn1 hn2
    rw [(order.cells_perm sets.1).mem_iff, h.mem_ghstd] at hn2
    rcases hn2 with hn2 | ⟨_, _, hn2 | hn2⟩
    · simp at hn2
    · have := hvalid n hn1
      omega
    · exact hn2 hn1
  · intro n hn1 hn2
    rw [(order.cells_perm sets.2).mem_iff, h.mem_virtual] at hn2
    rcases hn2 with hn2 | ⟨_, hn2⟩
    · simp at hn2
    unfold IsVirtualOf at hn2
    rcases List.mem_append.mp hn1 with hn1 | hn1
    · have := hvalid n hn1
      omega
    · rw [(order.cells_perm sets.1).mem_iff, h.mem_ghstd] at hn1
      rcases hn1 with hn1 | ⟨_, hn1, _⟩
      · simp at hn1
      · omega

/-- With pairwise distinct parent indices the lookup of line 294 returns the child index of
the cell looked up. -/
theorem lookup_eq {parents : List Int} (hnd : parents.Nodup) {i : Nat} {n : Int}
    (hi : parents[i]? = some n) :
    lower_bound (sortCells (numberCells 0 parents)) (n, 0) = some (n, (i : Int)) := by
  refine lower_bound_eq (by omega) (sortCells_sorted _) ?_ ?_
  · exact sortCells_mem.mpr (numberCells_mem.mpr ⟨i, hi, by simp⟩)
  · intro e he h1
    obtain ⟨j, hj, hc⟩ := numberCells_mem.mp (sortCells_mem.mp he)
    rw [h1, ← hi] at hj
    have hjlt : j < parents.length := by
      rw [hi] at hj
      exact (List.getElem?_eq_some_iff.mp hj).1
    have := List.getElem?_inj hjlt hnd hj
    subst this
    obtain ⟨a, b⟩ := e
    simp only at h1 hc
    rw [h1, hc]
    simp

/-- The two sides of the parent face behind an entry of `faces_set`, in child indices: the key
of the entry is the side with the lower child index, its value is one of the two sides. -/
theorem record_facts {P : LocalMeshInfoBase R} (hwf : WellFormed P) {parents : List Int}
    (hnd : parents.Nodup) {o : Nat} {p : Int} {k : Nat} {e : FaceEntry}
    (hop : parents[o]? = some p) (hn : ∀ n, Across P p k n → n ∈ parents)
    (hrec : IsRecord P (sortCells (numberCells 0 parents)) o p k e) :
    ∃ (pf : Int) (cells lidx : Int × Int) (i0 i1 : Nat),
      (look2 P.cell_to_faces p k = some pf ∧ 0 ≤ pf) ∧
      look P.face_to_cells pf = some cells ∧ look P.face_to_lidx pf = some lidx ∧
      parents[i0]? = some cells.1 ∧ parents[i1]? = some cells.2 ∧
      e.1 = (if i0 < i1 then ((i0 : Int), lidx.1) else ((i1 : Int), lidx.2)) ∧
      (e.2 = ((i0 : Int), lidx.1) ∨ e.2 = ((i1 : Int), lidx.2)) := by
  obtain ⟨pf, ns, n, lidx, entry, hacr, hl, hlb, rfl⟩ := hrec
  have hacross : Across P p k n := acrossFace_across.mp ⟨pf, ns, hacr⟩
  obtain ⟨hpf, hpf0, cells, hcells, rfl, rfl⟩ := acrossFace_eq_some.mp hacr
  obtain ⟨i, hi⟩ := List.mem_iff_getElem?.mp (hn _ hacross)
  rw [lookup_eq hnd hi] at hlb
  cases hlb
  obtain ⟨cells2, lidx2, s, hc2, hl2, hs, hsc, hsl⟩ := hwf.cell_slot hpf hpf0
  rw [hcells] at hc2
  cases hc2
  rw [hl] at hl2
  cases hl2
  by_cases hc1 : cells.1 = p
  · simp only [hc1, if_true, side] at hi ⊢
    simp only [one_ne_zero, if_false] at hi ⊢
    refine ⟨pf, cells, lidx, o, i, ⟨hpf, hpf0⟩, hcells, hl, by rw [hop, hc1], hi, ?_⟩
    rcases hs with rfl | rfl
    · simp only [side, if_true] at hsl
      rw [← hsl]
      by_cases hoi : (o : Int) < (i : Int)
      · have : o < i := by omega
        simp [hoi, this]
      · have : ¬ o < i := by omega
        simp [hoi, this]
    · simp only [side, one_ne_zero, if_false] at hsc hsl
      rw [hsc, ← hop] at hi
      have hilt : i < parents.length := by
        rw [hop] at hi
        exact (List.getElem?_eq_some_iff.mp hi).1
      have := List.getElem?_inj hilt hnd hi
      subst this
      rw [← hsl]
      simp
  · have hs1 : s = 1 := by
      rcases hs with rfl | rfl
      · simp only [side, if_true] at hsc
        exact absurd hsc hc1
      · rfl
    subst hs1
    simp only [side, one_ne_zero, if_false] at hsc hsl
    simp only [hc1, if_false, side, if_true] at hi ⊢
    refine ⟨pf, cells, lidx, i, o, ⟨hpf, hpf0⟩, hcells, hl, hi, by rw [hop, hsc], ?_⟩
    have hne : i ≠ o := by
      rintro rfl
      rw [hop] at hi
      cases hi
      exact hc1 rfl
    rw [← hsl]
    by_cases hoi : (o : Int) < (i : Int)
    · have : ¬ i < o := by omega
      simp [hoi, this]
    · have : i < o := by omega
      simp [hoi, this]

/-- Two entries of `faces_set` that occupy a common slot of a child cell have the same key. -/
theorem records_share_slot {P : LocalMeshInfoBase R} (hwf : WellFormed P) {parents : List Int}
    (hnd : parents.Nodup) {o o1 : Nat} {p p1 : Int} {k k1 : Nat} {e e1 : FaceEntry}
    (hop : parents[o]? = some p) (hn : ∀ n, Across P p k n → n ∈ parents)
    (hrec : IsRecord P (sortCells (numberCells 0 parents)) o p k e)
    (hop1 : parents[o1]? = some p1) (hn1 : ∀ n, Across P p1 k1 n → n ∈ parents)
    (hrec1 : IsRecord P (sortCells (numberCells 0 parents)) o1 p1 k1 e1)
    {i j : Int} (hs : (toFace e).HasSlot i j) (hs1 : (toFace e1).HasSlot i j) : e.1 = e1.1 := by
  obtain ⟨pf, cells, lidx, a0, a1, _, hc, hl, ha0, ha1, hkey, hval⟩ :=
    record_facts hwf hnd hop hn hrec
  obtain ⟨pf1, cells1, lidx1, b0, b1, _, hc1, hl1, hb0, hb1, hkey1, hval1⟩ :=
    record_facts hwf hnd hop1 hn1 hrec1
  have slotA : ∃ s : Int, (s = 0 ∨ s = 1) ∧
      ∃ c : Nat, i = (c : Int) ∧ parents[c]? = some (side cells s) ∧ j = side lidx s := by
    have key2 : e.1 = ((a0 : Int), lidx.1) ∨ e.1 = ((a1 : Int), lidx.2) := by
      rw [hkey]; split
      · exact Or.inl rfl
      · exact Or.inr rfl
    have : (i, j) = ((a0 : Int), lidx.1) ∨ (i, j) = ((a1 : Int), lidx.2) := by
      unfold face_t.HasSlot toFace at hs
      simp only at hs
      rcases hs with ⟨h1, h2⟩ | ⟨h1, h2⟩
      · rcases key2 with h | h
        · left; rw [← h1, ← h2, ← h]
        · right; rw [← h1, ← h2, ← h]
      · rcases hval with h | h
        · left; rw [← h1, ← h2, ← h]
        · right; rw [← h1, ← h2, ← h]
    rcases this with h | h
    · simp only [Prod.mk.injEq] at h
      exact ⟨0, Or.inl rfl, a0, h.1, by simpa [side] using ha0, by simp [side, h.2]⟩
    · simp only [Prod.mk.injEq] at h
      exact ⟨1, Or.inr rfl, a1, h.1, by simpa [side] using ha1, by simp [side, h.2]⟩
  have slotB : ∃ s : Int, (s = 0 ∨ s = 1) ∧
      ∃ c : Nat, i = (c : Int) ∧ parents[c]? = some (side cells1 s) ∧ j = side lidx1 s := by
    have key2 : e1.1 = ((b0 : Int), lidx1.1) ∨ e1.1 = ((b1 : Int), lidx1.2) := by
      rw [hkey1]; split
      · exact Or.inl rfl
      · exact Or.inr rfl
    have : (i, j) = ((b0 : Int), lidx1.1) ∨ (i, j) = ((b1 : Int), lidx1.2) := by
      unfold face_t.HasSlot toFace at hs1
      simp only at hs1
      rcases hs1 with ⟨h1, h2⟩ | ⟨h1, h2⟩
      · rcases key2 with h | h
        · left; rw [← h1, ← h2, ← h]
        · right; rw [← h1, ← h2, ← h]
      · rcases hval1 with h | h
        · left; rw [← h1, ← h2, ← h]
        · right; rw [← h1, ← h2, ← h]
    rcases this with h | h
    · simp only [Prod.mk.injEq] at h
      exact ⟨0, Or.inl rfl, b0, h.1, by simpa [side] using hb0, by simp [side, h.2]⟩
    · simp only [Prod.mk.injEq] at h
      exact ⟨1, Or.inr rfl, b1, h.1, by simpa [side] using hb1, by simp [side, h.2]⟩
  obtain ⟨s, hs0, c, hic, hpc, hj⟩ := slotA
  obtain ⟨s1, hs10, c1, hic1, hpc1, hj1⟩ := slotB
  have hcc : c = c1 := by omega
  subst hcc
  rw [hpc] at hpc1
  have hcell : side cells s = side cells1 s1 := by simpa using hpc1
  have hslot : side lidx s = side lidx1 s1 := by rw [← hj, ← hj1]
  obtain ⟨l2, hl2, hsym⟩ := hwf.face_side hc
  rw [hl] at hl2
  cases hl2
  obtain ⟨l3, hl3, hsym1⟩ := hwf.face_side hc1
  rw [hl1] at hl3
  cases hl3
  have e1 := hsym s hs0
  have e2 := hsym1 s1 hs10
  rw [hcell, hslot, e2] at e1
  have hpf : pf1 = pf := by simpa using e1
  subst hpf
  rw [hc] at hc1
  cases hc1
  rw [hl] at hl1
  cases hl1
  have hlt0 : a0 < parents.length := (List.getElem?_eq_some_iff.mp ha0).1
  have hlt1 : a1 < parents.length := (List.getElem?_eq_some_iff.mp ha1).1
  have h0 : a0 = b0 := List.getElem?_inj hlt0 hnd (by rw [ha0, hb0])
  have h1 : a1 = b1 := List.getElem?_inj hlt1 hnd (by rw [ha1, hb1])
  subst h0 h1
  rw [hkey, hkey1]

/-- C2 (amended): for every parent satisfying the data-model invariants and every non-empty,
duplicate-free list of owned parent indices in `[0, parent.num_owned_cells)`,
`setupSubLocalMeshInfo` builds a child, and in it
`cell_to_faces[face_to_cells[f][s]][face_to_lidx[f][s]] == f` for every face `f` and both
sides `s`. -/
theorem setupSubLocalMeshInfo_face_symmetry (order : IterationOrder) (P : LocalMeshInfoBase R)
    (owned : List Int) (hwf : WellFormed P) (hne : owned ≠ []) (hnd : owned.Nodup)
    (hvalid : ∀ p ∈ owned, 0 ≤ p ∧ p < P.num_owned_cells) :
    ∃ child, setupSubLocalMeshInfo order P owned = .ok child ∧ FaceSymmetric child := by
  obtain ⟨child, h⟩ := setup_succeeds order hwf hne hvalid
  refine ⟨child, h, ?_⟩
  obtain ⟨sets, gc, lc, cv, fs, ctf, _, _, _, _, _, _, hc, _, _, _, hfs, hctf, rfl⟩ :=
    setup_ok_inv h
  have hcl := classifyPass_classified hc
  have hpnd := hcl.parents_nodup hwf hvalid hnd order
  have hkeys : ((order.faces fs).map Prod.fst).Nodup :=
    ((order.faces_perm fs).map Prod.fst).nodup_iff.mpr (createFaces_mem hfs).1
  -- the facts known of the entry at a position of the iterated face map
  have hentry : ∀ (t : Nat) (e : FaceEntry), (order.faces fs)[t]? = some e →
      ∃ (o : Nat) (p : Int) (k : Nat), (childParents order owned sets)[o]? = some p ∧
        (∀ n, Across P p k n → n ∈ childParents order owned sets) ∧
        IsRecord P (sortCells (numberCells 0 (childParents order owned sets))) o p k e := by
    intro t e he
    have hefs : e ∈ fs := (order.faces_perm fs).mem_iff.mp (List.getElem?_mem he)
    obtain ⟨o, p, k, hop, hk, hrec⟩ := (createFaces_mem hfs).2 e hefs
    exact ⟨o, p, k, childParents_owned order owned sets hop,
      fun n hn => hcl.neighbor_mem order (List.getElem?_mem hop) hk hn, hrec⟩
  have hslot : ∀ (t : Nat) (e : FaceEntry), (order.faces fs)[t]? = some e → ∀ i j,
      (toFace e).HasSlot i j → look2 ctf i j = some (t : Int) := by
    intro t e he i j hs
    have := fillCellToFaces_look2 ((order.faces fs).map toFace) 0 _ ctf i j t (toFace e) hctf
      (by rw [List.getElem?_map, he]; rfl) hs (by
        intro t1 face1 hf1 hs1
        rw [List.getElem?_map] at hf1
        obtain ⟨e1, he1, rfl⟩ := Option.map_eq_some'.mp hf1
        obtain ⟨o, p, k, hop, hn, hrec⟩ := hentry t e he
        obtain ⟨o1, p1, k1, hop1, hn1, hrec1⟩ := hentry t1 e1 he1
        have hkey := records_share_slot hwf hpnd hop1 hn1 hrec1 hop hn hrec hs1 hs
        have ht1 : t1 < ((order.faces fs).map Prod.fst).length := by
          rw [List.length_map]
          exact (List.getElem?_eq_some_iff.mp he1).1
        exact List.getElem?_inj ht1 hkeys (by
          rw [List.getElem?_map, List.getElem?_map, he, he1]
          simp [hkey]))
    rw [this]
    simp
  intro f cells lidx hcells hlidx
  simp only at hcells hlidx ⊢
  rw [look_map] at hcells hlidx
  obtain ⟨face, hface, rfl⟩ := Option.map_eq_some'.mp hcells
  obtain ⟨face2, hface2, rfl⟩ := Option.map_eq_some'.mp hlidx
  rw [hface] at hface2
  cases hface2
  obtain ⟨hf0, hft⟩ := look_eq_some.mp hface
  rw [List.getElem?_map] at hft
  obtain ⟨e, he, rfl⟩ := Option.map_eq_some'.mp hft
  have hcast : ((f.toNat : Nat) : Int) = f := Int.toNat_of_nonneg hf0
  have h0 := hslot f.toNat e he (toFace e).cell_0 (toFace e).subcell_index_0 (Or.inl ⟨rfl, rfl⟩)
  have h1 := hslot f.toNat e he (toFace e).cell_1 (toFace e).subcell_index_1 (Or.inr ⟨rfl, rfl⟩)
  rw [hcast] at h0 h1
  exact ⟨h0, h1⟩

theorem perm_pair_cases {a b : Int} (hab : a ≠ b) {l : List Int} (h : l.Perm [a, b]) :
    l = [a, b] ∨ l = [b, a] := by
  have hlen := h.length_eq
  have hnd : l.Nodup := h.nodup_iff.mpr (by simp [hab])
  match l, hlen, hnd with
  | [x, y], _, hnd =>
    have hx : x ∈ [a, b] := h.mem_iff.mp (by simp)
    have hy : y ∈ [a, b] := h.mem_iff.mp (by simp)
    simp only [List.mem_cons, List.mem_singleton, List.not_mem_nil, or_false] at hx hy
    simp only [List.nodup_cons, List.mem_singleton, List.not_mem_nil, not_false_eq_true,
      List.nodup_nil, and_true] at hnd
    rcases hx with rfl | rfl <;> rcases hy with rfl | rfl
    · exact absurd rfl hnd
    · exact Or.inl rfl
    · exact Or.inr rfl
    · exact absurd rfl hnd

/-- A child in which two faces carry the same cell and slot on side 1 is not face
symmetric. -/
theorem not_faceSymmetric_of_shared_side {order : IterationOrder} {P : LocalMeshInfoBase R}
    {owned : List Int} {child : LocalMeshInfoBase R}
    (h : setupSubLocalMeshInfo order P owned = .ok child) (fs : List FaceEntry)
    (hfs : ∀ sets, classifyPass P owned = .ok sets →
      createFaces P (sortCells (numberCells 0 (childParents order owned sets))) 0 owned []
        = .ok fs)
    (ea eb : FaceEntry) (ha : ea ∈ fs) (hb : eb ∈ fs) (hne : ea ≠ eb) (hval : ea.2 = eb.2) :
    ¬ FaceSymmetric child := by
  intro hsym
  obtain ⟨sets, gc, lc, cv, fs1, ctf, _, _, _, _, _, _, hc, _, _, _, hfs1, _, rfl⟩ :=
    setup_ok_inv h
  rw [hfs sets hc] at hfs1
  cases hfs1
  obtain ⟨ta, hta⟩ := List.mem_iff_getElem?.mp ((order.faces_perm fs).mem_iff.mpr ha)
  obtain ⟨tb, htb⟩ := List.mem_iff_getElem?.mp ((order.faces_perm fs).mem_iff.mpr hb)
  have ga := (hsym (ta : Int) ((toFace ea).cell_0, (toFace ea).cell_1)
    ((toFace ea).subcell_index_0, (toFace ea).subcell_index_1)
    (by simp only; rw [look_natCast, List.getElem?_map, List.getElem?_map, hta]; rfl)
    (by simp only; rw [look_natCast, List.getElem?_map, List.getElem?_map, hta]; rfl)).2
  have gb := (hsym (tb : Int) ((toFace eb).cell_0, (toFace eb).cell_1)
    ((toFace eb).subcell_index_0, (toFace eb).subcell_index_1)
    (by simp only; rw [look_natCast, List.getElem?_map, List.getElem?_map, htb]; rfl)
    (by simp only; rw [look_natCast, List.getElem?_map, List.getElem?_map, htb]; rfl)).2
  simp only [toFace] at ga gb
  rw [hval, gb] at ga
  have hab : tb = ta := by simpa using ga
  subst hab
  rw [hta] at htb
  exact hne (by simpa using htb)

/-- C3: for a well-formed parent and a valid owned list, `setupSubLocalMeshInfo` builds a
child whose ghost cells are, one for one and without repetition, the parent cells found
across a face (of index `>= 0`) of some input cell that have parent index
`< parent.num_owned_cells + parent.num_ghstd_cells` and are not in the input list, and whose
virtual cells are, one for one, the parent cells so found with parent index
`>= parent.num_owned_cells + parent.num_ghstd_cells`; `num_ghstd_cells` and
`num_virtual_cells` are the sizes of these two duplicate-free lists.  Here `ghstd` and
`virt` list the parent indices of the child cells `k, k+1, ..` and `k+g, k+g+1, ..`
(`k` the number of owned cells, `g` of ghost cells). -/
theorem setupSubLocalMeshInfo_ghost_virtual_cells (order : IterationOrder)
    (P : LocalMeshInfoBase R) (owned : List Int) (hwf : WellFormed P) (hne : owned ≠ [])
    (hvalid : ∀ p ∈ owned, 0 ≤ p ∧ p < P.num_owned_cells) :
    ∃ (child : LocalMeshInfoBase R) (ghstd virt : List Int),
      setupSubLocalMeshInfo order P owned = .ok child ∧
      ghstd.Nodup ∧ virt.Nodup ∧
      (∀ n, n ∈ ghstd ↔
        (∃ p k, (p ∈ owned ∧ k < P.num_faces_per_cell) ∧ Across P p k n) ∧
          n < P.num_owned_cells + P.num_ghstd_cells ∧ n ∉ owned) ∧
      (∀ n, n ∈ virt ↔
        (∃ p k, (p ∈ owned ∧ k < P.num_faces_per_cell) ∧ Across P p k n) ∧
          P.num_owned_cells + P.num_ghstd_cells ≤ n) ∧
      child.num_ghstd_cells = (ghstd.length : Int) ∧
      child.num_virtual_cells = (virt.length : Int) ∧
      (∀ (i : Nat) (n : Int), ghstd[i]? = some n → CopiedFrom P child (owned.length + i) n) ∧
      (∀ (i : Nat) (n : Int), virt[i]? = some n →
        CopiedFrom P child (owned.length + ghstd.length + i) n) := by
  obtain ⟨child, h⟩ := setup_succeeds order hwf hne hvalid
  obtain ⟨sets, gc, lc, cv, fs, ctf, _, _, _, _, _, _, hc, hgc, hlc, hcv, _, _, rfl⟩ :=
    setup_ok_inv h
  have hcl := classifyPass_classified hc
  refine ⟨_, order.cells sets.1, order.cells sets.2, h,
    (order.cells_perm sets.1).nodup_iff.mpr (hcl.nodup_ghstd List.nodup_nil),
    (order.cells_perm sets.2).nodup_iff.mpr (hcl.nodup_virtual List.nodup_nil),
    ?_, ?_, rfl, rfl, ?_, ?_⟩
  · intro n
    rw [(order.cells_perm sets.1).mem_iff, hcl.mem_ghstd]
    unfold IsGhostOf
    constructor
    · rintro (hx | ⟨hacr, hlt, hg⟩)
      · simp at hx
      · refine ⟨hacr, hlt, ?_⟩
        rcases hg with hg | hg
        · intro hn
          have := hvalid n hn
          omega
        · exact hg
    · rintro ⟨hacr, hlt, hn⟩
      exact Or.inr ⟨hacr, hlt, Or.inr hn⟩
  · intro n
    rw [(order.cells_perm sets.2).mem_iff, hcl.mem_virtual]
    unfold IsVirtualOf
    constructor
    · rintro (hx | hx)
      · simp at hx
      · exact hx
    · exact Or.inr
  · intro i n hi
    have hlt : i < (order.cells sets.1).length := (List.getElem?_eq_some_iff.mp hi).1
    have hp : (childParents order owned sets)[owned.length + i]? = some n := by
      rw [childParents_ghstd order owned sets hlt, hi]
    exact ⟨copyCells_look hgc _ _ hp, copyCells_look hlc _ _ hp, copyCells_look hcv _ _ hp⟩
  · intro i n hi
    have hp : (childParents order owned sets)[owned.length + (order.cells sets.1).length + i]?
        = some n := by
      rw [childParents_virtual order owned sets i, hi]
    exact ⟨copyCells_look hgc _ _ hp, copyCells_look hlc _ _ hp, copyCells_look hcv _ _ hp⟩

theorem setup_ownsCells {order : IterationOrder} {P : LocalMeshInfoBase R} {owned : List Int}
    {child : LocalMeshInfoBase R} (h : setupSubLocalMeshInfo order P owned = .ok child) :
    OwnsCells P child owned := by
  obtain ⟨sets, gc, lc, cv, fs, ctf, _, _, _, _, _, _, _, hgc, hlc, hcv, _, _, rfl⟩ :=
    setup_ok_inv h
  refine ⟨rfl, ?_⟩
  intro i p hi
  have hp := childParents_owned order owned sets hi
  exact ⟨copyCells_look hgc _ _ hp, copyCells_look hlc _ _ hp, copyCells_look hcv _ _ hp⟩

theorem partitionCells_eq (a b : Int) : partitionCells a (b - a) = indexRange a b := rfl

theorem indexRange_length (a b : Int) : (indexRange a b).length = (b - a).toNat := by
  simp [indexRange]

theorem indexRange_mem {a b x : Int} : x ∈ indexRange a b ↔ a ≤ x ∧ x < b := by
  unfold indexRange
  simp only [List.mem_map, List.mem_range]
  constructor
  · rintro ⟨i, hi, rfl⟩
    omega
  · rintro ⟨h1, h2⟩
    exact ⟨(x - a).toNat, by omega, by omega⟩

theorem indexRange_append {a b c : Int} (hab : a ≤ b) (hbc : b ≤ c) :
    indexRange a b ++ indexRange b c = indexRange a c := by
  unfold indexRange
  have h1 : (c - a).toNat = (b - a).toNat + (c - b).toNat := by omega
  rw [h1, List.range_add, List.map_append, List.map_map]
  congr 1
  apply List.map_congr_left
  intro i _
  simp only [Function.comp]
  push_cast
  rw [Int.toNat_of_nonneg (by omega)]
  ring

theorem indexRange_self (a : Int) : indexRange a a = [] := by
  simp [indexRange]

theorem indexRange_nodup (a b : Int) : (indexRange a b).Nodup := by
  unfold indexRange
  refine List.Nodup.map ?_ (List.nodup_range _)
  intro i j h
  simp only at h
  omega

/-- What one iteration of the loop of `splitMeshInfo` does, for a positive base size. -/
theorem splitLoop_step {order : IterationOrder} {P : LocalMeshInfoBase R} {base : Int}
    (hb : 0 < base) {fuel : Nat} {cc : Int} {parts out : List (LocalMeshPartition R)}
    (hlt : cc < P.num_owned_cells)
    (h : splitLoop order P base (fuel + 1) cc parts = .ok out) :
    ∃ sub_info,
      setupSubLocalMeshInfo order P
        (indexRange cc (min (cc + base) P.num_owned_cells)) = .ok sub_info ∧
      splitLoop order P base fuel (min (cc + base) P.num_owned_cells)
        (parts ++ [newPartition sub_info]) = .ok out := by
  unfold splitLoop at h
  simp only [hlt, if_true] at h
  by_cases hover : cc + base > P.num_owned_cells
  · have hmin : min (cc + base) P.num_owned_cells = P.num_owned_cells := by omega
    simp only [hover, if_true] at h
    have h0 : ¬ (P.num_owned_cells - cc = 0) := by omega
    have h1 : ¬ (P.num_owned_cells - cc < 0) := by omega
    simp only [h0, h1, if_false] at h
    split at h
    · cases h
    rename_i sub hsub
    rw [partitionCells_eq] at hsub
    refine ⟨sub, by rw [hmin]; exact hsub, ?_⟩
    rw [hmin]
    have : cc + (P.num_owned_cells - cc) = P.num_owned_cells := by ring
    rw [this] at h
    exact h
  · have hmin : min (cc + base) P.num_owned_cells = cc + base := by omega
    simp only [hover, if_false] at h
    have h0 : ¬ (base = 0) := by omega
    have h1 : ¬ (base < 0) := by omega
    simp only [h0, h1, if_false] at h
    split at h
    · cases h
    rename_i sub hsub
    have hpc : partitionCells cc base = indexRange cc (cc + base) := by
      rw [← partitionCells_eq]
      congr 1
      ring
    rw [hpc] at hsub
    exact ⟨sub, by rw [hmin]; exact hsub, by rw [hmin]; exact h⟩

/-- The loop of `splitMeshInfo` from `cell_count = cc` on: the chunks handed to
`setupSubLocalMeshInfo`, the partitions appended, and their number. -/
theorem splitLoop_spec {order : IterationOrder} {P : LocalMeshInfoBase R} {base : Int}
    (hb : 0 < base) :
    ∀ (fuel : Nat) (cc : Int) (parts out : List (LocalMeshPartition R)), 0 ≤ cc →
      (P.num_owned_cells - cc).toNat ≤ fuel →
      splitLoop order P base fuel cc parts = .ok out →
      ∃ (chunks : List (List Int)) (news : List (LocalMeshPartition R)),
        out = parts ++ news ∧ List.Forall₂ (BuiltFrom order P) chunks news ∧
        (∀ (j : Nat) (c : List Int), chunks[j]? = some c →
          cc + (j : Int) * base < P.num_owned_cells ∧
          c = indexRange (cc + (j : Int) * base)
            (min (cc + ((j : Int) + 1) * base) P.num_owned_cells)) ∧
        chunks.flatten = indexRange cc P.num_owned_cells ∧
        (P.num_owned_cells ≤ cc → chunks = []) ∧
        (cc < P.num_owned_cells →
          ((chunks.length : Int) - 1) * base < P.num_owned_cells - cc ∧
          P.num_owned_cells - cc ≤ (chunks.length : Int) * base) := by
  intro fuel
  induction fuel with
  | zero =>
    intro cc parts out _ hfuel h
    have hge : ¬ cc < P.num_owned_cells := by omega
    unfold splitLoop at h
    simp only [hge, if_false] at h
    cases h
    refine ⟨[], [], by simp, List.Forall₂.nil, by simp, ?_, fun _ => rfl, fun hx => absurd hx hge⟩
    have : (P.num_owned_cells - cc).toNat = 0 := by omega
    simp [indexRange, this]
  | succ fuel ih =>
    intro cc parts out hcc hfuel h
    by_cases hlt : cc < P.num_owned_cells
    · obtain ⟨sub, hsub, hrest⟩ := splitLoop_step hb hlt h
      have hcc1 : 0 ≤ min (cc + base) P.num_owned_cells := by omega
      obtain ⟨chunks, news, hout, hall, hidx, hjoin, hnil, hcount⟩ :=
        ih (min (cc + base) P.num_owned_cells) _ out hcc1 (by omega) hrest
      refine ⟨indexRange cc (min (cc + base) P.num_owned_cells) :: chunks,
        newPartition sub :: news, ?_, ?_, ?_, ?_, ?_, ?_⟩
      · rw [hout]; simp
      · exact List.Forall₂.cons ⟨hsub, rfl, setup_ownsCells hsub⟩ hall
      · intro j c hj
        cases j with
        | zero =>
          simp only [List.getElem?_cons_zero, Option.some.injEq] at hj
          subst hj
          refine ⟨by simpa using hlt, by simp⟩
        | succ j =>
          simp only [List.getElem?_cons_succ] at hj
          by_cases hover : cc + base > P.num_owned_cells
          · have := hnil (by omega)
            subst this
            simp at hj
          · have hmin : min (cc + base) P.num_owned_cells = cc + base := by omega
            rw [hmin] at hidx
            obtain ⟨h1, h2⟩ := hidx j c hj
            have e1 : cc + base + (j : Int) * base = cc + ((j + 1 : Nat) : Int) * base := by
              push_cast; ring
            have e2 : cc + base + ((j : Int) + 1) * base
                = cc + (((j + 1 : Nat) : Int) + 1) * base := by
              push_cast; ring
            rw [e1] at h1
            rw [e1, e2] at h2
            exact ⟨h1, h2⟩
      · rw [List.flatten_cons, hjoin]
        exact indexRange_append (by omega) (by omega)
      · intro hx
        omega
      · intro _
        simp only [List.length_cons, Nat.cast_add, Nat.cast_one, add_sub_cancel_right]
        by_cases hlt1 : min (cc + base) P.num_owned_cells < P.num_owned_cells
        · have hmin : min (cc + base) P.num_owned_cells = cc + base := by omega
          obtain ⟨c1, c2⟩ := hcount hlt1
          rw [hmin] at c1 c2
          constructor
          · linarith
          · linarith
        · have := hnil (by omega)
          subst this
          simp only [List.length_nil, Nat.cast_zero, zero_mul, zero_add, one_mul]
          constructor
          · omega
          · omega
    · unfold splitLoop at h
      simp only [hlt, if_false] at h
      cases h
      refine ⟨[], [], by simp, List.Forall₂.nil, by simp, ?_, fun _ => rfl,
        fun hx => absurd hx hlt⟩
      have : (P.num_owned_cells - cc).toNat = 0 := by omega
      simp [indexRange, this]

/-- The loop of `splitMeshInfo` returns when every call of `setupSubLocalMeshInfo` on a
non-empty range of owned cells does. -/
theorem splitLoop_ok {order : IterationOrder} {P : LocalMeshInfoBase R} {base : Int}
    (hb : 0 < base)
    (hsetup : ∀ a b : Int, 0 ≤ a → a < b → b ≤ P.num_owned_cells →
      ∃ child, setupSubLocalMeshInfo order P (indexRange a b) = .ok child) :
    ∀ (fuel : Nat) (cc : Int) (parts : List (LocalMeshPartition R)), 0 ≤ cc →
      (P.num_owned_cells - cc).toNat ≤ fuel →
      ∃ out, splitLoop order P base fuel cc parts = .ok out := by
  intro fuel
  induction fuel with
  | zero =>
    intro cc parts _ hfuel
    have hge : ¬ cc < P.num_owned_cells := by omega
    exact ⟨parts, by unfold splitLoop; simp only [hge, if_false]⟩
  | succ fuel ih =>
    intro cc parts hcc hfuel
    by_cases hlt : cc < P.num_owned_cells
    · unfold splitLoop
      simp only [hlt, if_true]
      by_cases hover : cc + base > P.num_owned_cells
      · simp only [hover, if_true]
        have h0 : ¬ (P.num_owned_cells - cc = 0) := by omega
        have h1 : ¬ (P.num_owned_cells - cc < 0) := by omega
        simp only [h0, h1, if_false]
        obtain ⟨child, hchild⟩ := hsetup cc P.num_owned_cells hcc hlt le_rfl
        rw [partitionCells_eq, hchild]
        exact ih _ _ (by omega) (by omega)
      · simp only [hover, if_false]
        have h0 : ¬ (base = 0) := by omega
        have h1 : ¬ (base < 0) := by omega
        simp only [h0, h1, if_false]
        obtain ⟨child, hchild⟩ := hsetup cc (cc + base) hcc (by omega) (by omega)
        have hpc : partitionCells cc base = indexRange cc (cc + base) := by
          rw [← partitionCells_eq]
          congr 1
          ring
        rw [hpc, hchild]
        exact ih _ _ (by omega) (by omega)
    · exact ⟨parts, by unfold splitLoop; simp only [hlt, if_false]⟩

/-- On a well-formed mesh info `setupSubLocalMeshInfo` succeeds on every non-empty range of
owned cells. -/
theorem setup_succeeds_range (order : IterationOrder) {P : LocalMeshInfoBase R}
    (hwf : WellFormed P) (a b : Int) (ha : 0 ≤ a) (hab : a < b) (hb : b ≤ P.num_owned_cells) :
    ∃ child, setupSubLocalMeshInfo order P (indexRange a b) = .ok child := by
  refine setup_succeeds order hwf ?_ ?_
  · intro hnil
    have : a ∈ indexRange a b := indexRange_mem.mpr ⟨le_rfl, hab⟩
    rw [hnil] at this
    simp at this
  · intro p hp
    have := indexRange_mem.mp hp
    omega

theorem splitMeshInfo_eq (order : IterationOrder) (P : LocalMeshInfoBase R) (s : Int)
    (parts : List (LocalMeshPartition R)) :
    splitMeshInfo order P s parts =
      if ¬ (s > 0 ∨ s = ALL_ELEMENTS) then .error .badSplittingSize
      else if basePartitionSize P s < 0 then .error .lengthError
      else splitLoop order P (basePartitionSize P s) P.num_owned_cells.toNat 0 parts := rfl

/-- A successful call of `splitMeshInfo`: the chunks handed to `setupSubLocalMeshInfo`, the
partitions appended, and their number. -/
theorem splitMeshInfo_spec {order : IterationOrder} {P : LocalMeshInfoBase R} {s : Int}
    {parts out : List (LocalMeshPartition R)} (h : splitMeshInfo order P s parts = .ok out) :
    (0 < s ∨ s = ALL_ELEMENTS) ∧ 0 ≤ P.num_owned_cells ∧
    ∃ (chunks : List (List Int)) (news : List (LocalMeshPartition R)),
      out = parts ++ news ∧ List.Forall₂ (BuiltFrom order P) chunks news ∧
      (∀ (j : Nat) (c : List Int), chunks[j]? = some c →
        (j : Int) * basePartitionSize P s < P.num_owned_cells ∧
        c = indexRange ((j : Int) * basePartitionSize P s)
          (min (((j : Int) + 1) * basePartitionSize P s) P.num_owned_cells)) ∧
      chunks.flatten = indexRange 0 P.num_owned_cells ∧
      (P.num_owned_cells = 0 → chunks = []) ∧
      (0 < P.num_owned_cells →
        ((chunks.length : Int) - 1) * basePartitionSize P s < P.num_owned_cells ∧
        P.num_owned_cells ≤ (chunks.length : Int) * basePartitionSize P s) := by
  rw [splitMeshInfo_eq] at h
  by_cases hs : 0 < s ∨ s = ALL_ELEMENTS
  swap
  · simp only [gt_iff_lt, hs, not_false_eq_true, if_true] at h
    cases h
  simp only [gt_iff_lt, hs, not_true_eq_false, if_false] at h
  by_cases hbase : basePartitionSize P s < 0
  · simp only [hbase, if_true] at h
    cases h
  simp only [hbase, if_false] at h
  have hN : 0 ≤ P.num_owned_cells := by
    unfold basePartitionSize at hbase
    by_contra hx
    apply hbase
    have := min_le_left P.num_owned_cells (if s > 0 then s else P.num_owned_cells)
    omega
  refine ⟨hs, hN, ?_⟩
  by_cases hzero : P.num_owned_cells = 0
  · rw [hzero] at h
    simp only [Int.toNat_zero] at h
    unfold splitLoop at h
    simp only [hzero, lt_self_iff_false, if_false] at h
    cases h
    refine ⟨[], [], by simp, List.Forall₂.nil, by simp, ?_, fun _ => rfl, ?_⟩
    · simp [hzero, indexRange]
    · intro hx; omega
  · have hpos : 0 < basePartitionSize P s := by
      unfold basePartitionSize
      rcases hs with hs | hs
      · simp only [gt_iff_lt, hs, if_true]
        omega
      · have : ¬ s > 0 := by rw [hs]; decide
        simp only [this, if_false]
        omega
    obtain ⟨chunks, news, h1, h2, h3, h4, h5, h6⟩ :=
      splitLoop_spec hpos _ 0 parts out le_rfl (by simp) h
    refine ⟨chunks, news, h1, h2, ?_, h4, fun hx => absurd hx hzero, ?_⟩
    · intro j c hj
      have := h3 j c hj
      simpa using this
    · intro hx
      have := h6 hx
      simpa using this

/-- On a well-formed mesh info `splitMeshInfo` returns for every splitting size that is
positive or `ALL_ELEMENTS`. -/
theorem splitMeshInfo_ok (order : IterationOrder) {P : LocalMeshInfoBase R} (hwf : WellFormed P)
    {s : Int} (hs : 0 < s ∨ s = ALL_ELEMENTS) (parts : List (LocalMeshPartition R)) :
    ∃ out, splitMeshInfo order P s parts = .ok out := by
  have hN : 0 ≤ P.num_owned_cells := hwf.1
  rw [splitMeshInfo_eq]
  simp only [gt_iff_lt, hs, not_true_eq_false, if_false]
  have hbase : ¬ (basePartitionSize P s < 0) := by
    unfold basePartitionSize
    split <;> omega
  simp only [hbase, if_false]
  by_cases hzero : P.num_owned_cells = 0
  · refine ⟨parts, ?_⟩
    rw [hzero]
    simp only [Int.toNat_zero]
    unfold splitLoop
    simp [hzero]
  · refine splitLoop_ok ?_ (setup_succeeds_range order hwf) _ 0 parts le_rfl (by simp)
    unfold basePartitionSize
    rcases hs with hs | hs
    · simp only [gt_iff_lt, hs, if_true]
      omega
    · have : ¬ s > 0 := by rw [hs]; decide
      simp only [this, if_false]
      omega

theorem forall₂_getElem? {α β : Type} {Q : α → β → Prop} :
    ∀ {l1 : List α} {l2 : List β}, List.Forall₂ Q l1 l2 → ∀ (j : Nat) (b : β),
      l2[j]? = some b → ∃ a, l1[j]? = some a ∧ Q a b
  | _, _, .nil, j, b, h => by simp at h
  | _, _, .cons hq hrest, 0, b, h => by
    simp only [List.getElem?_cons_zero, Option.some.injEq] at h
    subst h
    exact ⟨_, by simp, hq⟩
  | _, _, .cons _ hrest, j + 1, b, h => by
    simp only [List.getElem?_cons_succ] at h ⊢
    exact forall₂_getElem? hrest j b h

/-- C1: for every mesh info with `N` owned cells and every splitting size that is positive or
`ALL_ELEMENTS`, the partitions appended by `splitMeshInfo`, taken in order, are built by
`setupSubLocalMeshInfo` from lists of owned parent indices (which are their owned cells, in
order) that concatenate to exactly `0, 1, ..., N-1`: every owned parent index occurs in
exactly one partition and exactly once.  The call returns whenever the mesh info is
well-formed. -/
theorem splitMeshInfo_coverage (order : IterationOrder) (P : LocalMeshInfoBase R) (s : Int)
    (parts : List (LocalMeshPartition R)) (hs : 0 < s ∨ s = ALL_ELEMENTS) :
    (WellFormed P → ∃ out, splitMeshInfo order P s parts = .ok out) ∧
    ∀ out, splitMeshInfo order P s parts = .ok out →
      ∃ (chunks : List (List Int)) (news : List (LocalMeshPartition R)),
        out = parts ++ news ∧ List.Forall₂ (BuiltFrom order P) chunks news ∧
        chunks.flatten = indexRange 0 P.num_owned_cells ∧
        (∀ x, 0 ≤ x → x < P.num_owned_cells → List.count x chunks.flatten = 1) := by
  refine ⟨fun hwf => splitMeshInfo_ok order hwf hs parts, ?_⟩
  intro out h
  obtain ⟨_, _, chunks, news, h1, h2, _, h4, _, _⟩ := splitMeshInfo_spec h
  refine ⟨chunks, news, h1, h2, h4, ?_⟩
  intro x hx0 hx1
  rw [h4]
  exact List.count_eq_one_of_mem (indexRange_nodup _ _) (indexRange_mem.mpr ⟨hx0, hx1⟩)

/-- C5: for every mesh info with `N` owned cells and every positive splitting size `S`,
`splitMeshInfo` appends exactly `ceil(N/S)` partitions; it returns whenever the mesh info is
well-formed. -/
theorem splitMeshInfo_count (order : IterationOrder) (P : LocalMeshInfoBase R) (s : Int)
    (parts : List (LocalMeshPartition R)) (hs : 0 < s) :
    (WellFormed P → ∃ out, splitMeshInfo order P s parts = .ok out) ∧
    ∀ out, splitMeshInfo order P s parts = .ok out →
      ∃ news : List (LocalMeshPartition R), out = parts ++ news ∧
        (news.length : Int) = ⌈(P.num_owned_cells : ℚ) / (s : ℚ)⌉ := by
  refine ⟨fun hwf => splitMeshInfo_ok order hwf (Or.inl hs) parts, ?_⟩
  intro out h
  obtain ⟨_, hN, chunks, news, h1, h2, _, _, h5, h6⟩ := splitMeshInfo_spec h
  refine ⟨news, h1, ?_⟩
  rw [← h2.length_eq]
  have hsq : (0 : ℚ) < (s : ℚ) := by exact_mod_cast hs
  by_cases hzero : P.num_owned_cells = 0
  · rw [h5 hzero, hzero]
    simp
  · have hpos : 0 < P.num_owned_cells := by omega
    obtain ⟨c1, c2⟩ := h6 hpos
    symm
    rw [Int.ceil_eq_iff]
    by_cases hle : s ≤ P.num_owned_cells
    · have hbase : basePartitionSize P s = s := by
        unfold basePartitionSize
        simp only [gt_iff_lt, hs, if_true]
        omega
      rw [hbase] at c1 c2
      constructor
      · rw [lt_div_iff₀ hsq]
        exact_mod_cast c1
      · rw [div_le_iff₀ hsq]
        exact_mod_cast c2
    · have hbase : basePartitionSize P s = P.num_owned_cells := by
        unfold basePartitionSize
        simp only [gt_iff_lt, hs, if_true]
        omega
      rw [hbase] at c1 c2
      have hlen : (chunks.length : Int) = 1 := by
        have a1 : (chunks.length : Int) - 1 < 1 := by
          by_contra hx
          have : 1 * P.num_owned_cells ≤ ((chunks.length : Int) - 1) * P.num_owned_cells :=
            mul_le_mul_of_nonneg_right (by omega) (by omega)
          omega
        have a2 : 0 < (chunks.length : Int) := by
          by_contra hx
          have : (chunks.length : Int) = 0 := by omega
          rw [this] at c2
          omega
        omega
      rw [hlen]
      constructor
      · simp only [Int.cast_one, sub_self]
        exact div_pos (by exact_mod_cast hpos) hsq
      · rw [div_le_iff₀ hsq]
        simp only [Int.cast_one, one_mul]
        have : P.num_owned_cells ≤ s := by omega
        exact_mod_cast this

/-- The number of partitions appended by a successful call of `splitMeshInfo` with a positive
splitting size `s` to a mesh info with `N` owned cells: `ceil(N/s)`, at least one when
`N >= 1`, and there is a `j`-th partition exactly when `j * min(N, s) < N`. -/
theorem splitMeshInfo_length_of_ok {order : IterationOrder} {P : LocalMeshInfoBase R} {s : Int}
    {parts news : List (LocalMeshPartition R)} (hs : 0 < s)
    (h : splitMeshInfo order P s parts = .ok (parts ++ news)) :
    (news.length : Int) = ⌈(P.num_owned_cells : ℚ) / (s : ℚ)⌉ ∧
    (1 ≤ P.num_owned_cells → news ≠ []) ∧
    ∀ j : Nat, j < news.length ↔ (j : Int) * min P.num_owned_cells s < P.num_owned_cells := by
  obtain ⟨_, hN, chunks, news1, h1, h2, _, _, h5, h6⟩ := splitMeshInfo_spec h
  have hnews : news = news1 := List.append_cancel_left h1
  subst hnews
  have hbase : basePartitionSize P s = min P.num_owned_cells s := by
    unfold basePartitionSize
    simp only [gt_iff_lt, hs, if_true]
  rw [hbase] at h6
  rw [← h2.length_eq]
  have hsq : (0 : ℚ) < (s : ℚ) := by exact_mod_cast hs
  by_cases hzero : P.num_owned_cells = 0
  · rw [h5 hzero, hzero]
    refine ⟨by simp, fun h => by omega, fun j => ?_⟩
    rw [min_eq_left (le_of_lt hs)]
    simp
  · have hpos : 0 < P.num_owned_cells := by omega
    obtain ⟨c1, c2⟩ := h6 hpos
    have hmin : 0 < min P.num_owned_cells s := lt_min hpos hs
    have hlenpos : 0 < (chunks.length : Int) := by
      by_contra hx
      have : (chunks.length : Int) = 0 := by omega
      rw [this] at c2
      omega
    refine ⟨?_, fun _ hnil => ?_, fun j => ?_⟩
    · symm
      rw [Int.ceil_eq_iff]
      by_cases hle : s ≤ P.num_owned_cells
      · rw [min_eq_right hle] at c1 c2
        constructor
        · rw [lt_div_iff₀ hsq]
          exact_mod_cast c1
        · rw [div_le_iff₀ hsq]
          exact_mod_cast c2
      · have hle2 : P.num_owned_cells ≤ s := by omega
        rw [min_eq_left hle2] at c1 c2
        have hlen : (chunks.length : Int) = 1 := by
          have a1 : (chunks.length : Int) - 1 < 1 := by
            by_contra hx
            have : 1 * P.num_owned_cells ≤ ((chunks.length : Int) - 1) * P.num_owned_cells :=
              mul_le_mul_of_nonneg_right (by omega) (by omega)
            omega
          omega
        rw [hlen]
        constructor
        · simp only [Int.cast_one, sub_self]
          exact div_pos (by exact_mod_cast hpos) hsq
        · rw [div_le_iff₀ hsq]
          simp only [Int.cast_one, one_mul]
          exact_mod_cast hle2
    · have hl := h2.length_eq
      rw [hnil] at hl
      simp only [List.length_nil] at hl
      rw [hl] at hlenpos
      simp at hlenpos
    · constructor
      · intro hj
        have : (j : Int) ≤ (chunks.length : Int) - 1 := by omega
        have := mul_le_mul_of_nonneg_right this (le_of_lt hmin)
        omega
      · intro hj
        by_contra hx
        have : (chunks.length : Int) ≤ (j : Int) := by omega
        have := mul_le_mul_of_nonneg_right this (le_of_lt hmin)
        omega


/-- C7: for every mesh info with `N` owned cells (`N >= 1` or not) and every positive
splitting size, with `S = min(N, splitting size)`, `splitMeshInfo` appends `ceil(N/S)`
partitions (at least one when `N >= 1`): there is a `j`-th partition (counting from 0)
exactly when `jS < N`, and the `j`-th partition is a fresh partition that holds the result of
`setupSubLocalMeshInfo` on the parent index list `jS, jS+1, ..., min((j+1)S, N) - 1` in
increasing order, a list that depends on `N`, `S` and `j` only; the call returns whenever the
mesh info is well-formed. -/
theorem splitMeshInfo_chunks (order : IterationOrder) (P : LocalMeshInfoBase R) (s : Int)
    (parts : List (LocalMeshPartition R)) (hs : 0 < s) :
    (WellFormed P → ∃ out, splitMeshInfo order P s parts = .ok out) ∧
    ∀ out, splitMeshInfo order P s parts = .ok out →
      ∃ news : List (LocalMeshPartition R), out = parts ++ news ∧
        (news.length : Int)
          = ⌈(P.num_owned_cells : ℚ) / ((min P.num_owned_cells s : Int) : ℚ)⌉ ∧
        (1 ≤ P.num_owned_cells → news ≠ []) ∧
        (∀ j : Nat, (j : Int) * min P.num_owned_cells s < P.num_owned_cells →
          ∃ q : LocalMeshPartition R, news[j]? = some q ∧
            q = newPartition q.toLocalMeshInfoBase ∧
            setupSubLocalMeshInfo order P
              (indexRange ((j : Int) * min P.num_owned_cells s)
                (min (((j : Int) + 1) * min P.num_owned_cells s) P.num_owned_cells))
              = .ok q.toLocalMeshInfoBase) ∧
        ∀ (j : Nat) (q : LocalMeshPartition R), news[j]? = some q →
          (j : Int) * min P.num_owned_cells s < P.num_owned_cells ∧
          setupSubLocalMeshInfo order P
            (indexRange ((j : Int) * min P.num_owned_cells s)
              (min (((j : Int) + 1) * min P.num_owned_cells s) P.num_owned_cells))
            = .ok q.toLocalMeshInfoBase := by
  refine ⟨fun hwf => splitMeshInfo_ok order hwf (Or.inl hs) parts, ?_⟩
  intro out h
  obtain ⟨_, hN, chunks, news, h1, h2, h3, _, _, _⟩ := splitMeshInfo_spec h
  have hbase : basePartitionSize P s = min P.num_owned_cells s := by
    unfold basePartitionSize
    simp only [gt_iff_lt, hs, if_true]
  rw [hbase] at h3
  subst h1
  obtain ⟨hcount, hne, hidx⟩ := splitMeshInfo_length_of_ok hs h
  have hbuilt : ∀ (j : Nat) (q : LocalMeshPartition R), news[j]? = some q →
      (j : Int) * min P.num_owned_cells s < P.num_owned_cells ∧
      q = newPartition q.toLocalMeshInfoBase ∧
      setupSubLocalMeshInfo order P
        (indexRange ((j : Int) * min P.num_owned_cells s)
          (min (((j : Int) + 1) * min P.num_owned_cells s) P.num_owned_cells))
        = .ok q.toLocalMeshInfoBase := by
    intro j q hq
    obtain ⟨c, hc, hb⟩ := forall₂_getElem? h2 j q hq
    obtain ⟨hlt, rfl⟩ := h3 j c hc
    exact ⟨hlt, hb.2.1, hb.1⟩
  refine ⟨news, rfl, ?_, hne, ?_, fun j q hq => ⟨(hbuilt j q hq).1, (hbuilt j q hq).2.2⟩⟩
  · rw [hcount]
    by_cases hzero : P.num_owned_cells = 0
    · rw [hzero]
      simp
    · by_cases hle : s ≤ P.num_owned_cells
      · rw [min_eq_right hle]
      · have hle2 : P.num_owned_cells ≤ s := by omega
        have hpos : (0 : ℚ) < (P.num_owned_cells : ℚ) := by
          have : 0 < P.num_owned_cells := by omega
          exact_mod_cast this
        have hsq : (0 : ℚ) < (s : ℚ) := by exact_mod_cast hs
        rw [min_eq_left hle2, div_self (ne_of_gt hpos), Int.ceil_one, Int.ceil_eq_iff]
        constructor
        · simp only [Int.cast_one, sub_self]
          exact div_pos hpos hsq
        · rw [div_le_iff₀ hsq]
          simp only [Int.cast_one, one_mul]
          exact_mod_cast hle2
  · intro j hj
    have hjlt : j < news.length := (hidx j).mpr hj
    exact ⟨news[j], List.getElem?_eq_getElem hjlt,
      (hbuilt j _ (List.getElem?_eq_getElem hjlt)).2⟩

/-- The sizes of the partitions appended by a successful call of `splitMeshInfo` with a
positive splitting size. -/
theorem splitMeshInfo_sizes_of_ok {order : IterationOrder} {P : LocalMeshInfoBase R} {s : Int}
    {parts out : List (LocalMeshPartition R)} (hs : 0 < s)
    (h : splitMeshInfo order P s parts = .ok out) :
    ∃ news : List (LocalMeshPartition R), out = parts ++ news ∧
      (P.num_owned_cells = 0 → news = []) ∧
      (∀ (j : Nat) (q : LocalMeshPartition R), news[j]? = some q → j + 1 < news.length →
        q.num_owned_cells = s) ∧
      (∀ q : LocalMeshPartition R, news[news.length - 1]? = some q →
        q.num_owned_cells = (if P.num_owned_cells % s = 0 then s else P.num_owned_cells % s) ∧
        0 < q.num_owned_cells ∧ q.num_owned_cells ≤ s) := by
  obtain ⟨_, hN, chunks, news, h1, h2, h3, _, h5, h6⟩ := splitMeshInfo_spec h
  have hlen := h2.length_eq
  have hbase_le : basePartitionSize P s ≤ s := by
    unfold basePartitionSize
    simp only [gt_iff_lt, hs, if_true]
    omega
  have hbase_le2 : basePartitionSize P s ≤ P.num_owned_cells := by
    unfold basePartitionSize
    simp only [gt_iff_lt, hs, if_true]
    omega
  have hbase_or : basePartitionSize P s = s ∨ basePartitionSize P s = P.num_owned_cells := by
    unfold basePartitionSize
    simp only [gt_iff_lt, hs, if_true]
    omega
  -- the number of owned cells of the `j`-th new partition
  have hsize : ∀ (j : Nat) (q : LocalMeshPartition R), news[j]? = some q →
      (j : Int) * basePartitionSize P s < P.num_owned_cells ∧
      q.num_owned_cells = (((min (((j : Int) + 1) * basePartitionSize P s) P.num_owned_cells
        - (j : Int) * basePartitionSize P s).toNat : Nat) : Int) := by
    intro j q hq
    obtain ⟨c, hc, hbuilt⟩ := forall₂_getElem? h2 j q hq
    obtain ⟨hlt, rfl⟩ := h3 j c hc
    refine ⟨hlt, ?_⟩
    rw [hbuilt.2.2.1, indexRange_length]
  refine ⟨news, h1, ?_, ?_, ?_⟩
  · intro hzero
    have := h5 hzero
    subst this
    cases h2
    rfl
  · intro j q hq hj
    obtain ⟨hlt, hq1⟩ := hsize j q hq
    have hpos : 0 < P.num_owned_cells := by
      have : 0 ≤ (j : Int) * basePartitionSize P s := by
        have : 0 ≤ basePartitionSize P s := by
          by_contra hx
          rcases hbase_or with hb | hb <;> omega
        positivity
      omega
    obtain ⟨c1, c2⟩ := h6 hpos
    have hbpos : 0 ≤ basePartitionSize P s := by
      rcases hbase_or with hb | hb <;> omega
    have hmul : ((j : Int) + 1) * basePartitionSize P s
        ≤ ((chunks.length : Int) - 1) * basePartitionSize P s :=
      mul_le_mul_of_nonneg_right (by omega) hbpos
    have hb : basePartitionSize P s = s := by
      rcases hbase_or with hb | hb
      · exact hb
      · rw [hb] at c1
        have : 1 * P.num_owned_cells ≤ ((chunks.length : Int) - 1) * P.num_owned_cells :=
          mul_le_mul_of_nonneg_right (by omega) (by omega)
        omega
    rw [hq1]
    have hmin : min (((j : Int) + 1) * basePartitionSize P s) P.num_owned_cells
        = ((j : Int) + 1) * basePartitionSize P s := by omega
    rw [hmin]
    have : ((j : Int) + 1) * basePartitionSize P s - (j : Int) * basePartitionSize P s
        = basePartitionSize P s := by ring
    rw [this, hb]
    omega
  · intro q hq
    have hne : news.length ≠ 0 := by
      intro hx
      rw [List.length_eq_zero] at hx
      subst hx
      simp at hq
    obtain ⟨hlt, hq1⟩ := hsize _ q hq
    have hcast : ((news.length - 1 : Nat) : Int) = (chunks.length : Int) - 1 := by omega
    rw [hcast] at hq1 hlt
    have hpos : 0 < P.num_owned_cells := by
      by_contra hx
      have hz : P.num_owned_cells = 0 := by omega
      have := h5 hz
      subst this
      simp at hlen
      omega
    obtain ⟨c1, c2⟩ := h6 hpos
    have hmin : min (((chunks.length : Int) - 1 + 1) * basePartitionSize P s) P.num_owned_cells
        = P.num_owned_cells := by
      have : ((chunks.length : Int) - 1 + 1) = (chunks.length : Int) := by ring
      rw [this]
      omega
    rw [hmin] at hq1
    have hexp : (chunks.length : Int) * basePartitionSize P s
        = ((chunks.length : Int) - 1) * basePartitionSize P s + basePartitionSize P s := by ring
    have hval : q.num_owned_cells
        = P.num_owned_cells - ((chunks.length : Int) - 1) * basePartitionSize P s := by
      rw [hq1]
      omega
    have hq_pos : 0 < q.num_owned_cells := by omega
    have hq_le : q.num_owned_cells ≤ basePartitionSize P s := by omega
    -- `N = m * S + last` for some `m`
    have hdecomp : ∃ m : Int, P.num_owned_cells = q.num_owned_cells + m * s := by
      rcases hbase_or with hb | hb
      · exact ⟨(chunks.length : Int) - 1, by rw [hval, hb]; ring⟩
      · refine ⟨0, ?_⟩
        rw [hb] at hq_le c1
        have : (chunks.length : Int) - 1 < 1 := by
          by_contra hx
          have : 1 * P.num_owned_cells ≤ ((chunks.length : Int) - 1) * P.num_owned_cells :=
            mul_le_mul_of_nonneg_right (by omega) (by omega)
          omega
        have hl : (chunks.length : Int) - 1 = 0 := by omega
        rw [hval, hb, hl]
        ring
    obtain ⟨m, hm⟩ := hdecomp
    have hmod : P.num_owned_cells % s = q.num_owned_cells % s := by
      rw [hm, Int.add_mul_emod_self]
    refine ⟨?_, hq_pos, by omega⟩
    rw [hmod]
    by_cases hfull : q.num_owned_cells = s
    · rw [hfull, Int.emod_self]
      simp
    · have hlt2 : q.num_owned_cells < s := by omega
      rw [Int.emod_eq_of_lt (by omega) hlt2]
      have : ¬ q.num_owned_cells = 0 := by omega
      simp [this]

/-- C6 (amended): for every mesh info with `N` owned cells and every positive splitting size
`S`, `splitMeshInfo` appends `ceil(N/S)` partitions, at least one when `N >= 1`; every
partition appended except the last has exactly `S` owned cells, and the last has `N mod S`
owned cells when `S` does not divide `N` and `S` owned cells when it does: a nonzero number
not larger than `S`.  Nothing is appended when `N = 0`; the call returns whenever the mesh
info is well-formed. -/
theorem splitMeshInfo_sizes (order : IterationOrder) (P : LocalMeshInfoBase R) (s : Int)
    (parts : List (LocalMeshPartition R)) (hs : 0 < s) :
    (WellFormed P → ∃ out, splitMeshInfo order P s parts = .ok out) ∧
    ∀ out, splitMeshInfo order P s parts = .ok out →
      ∃ news : List (LocalMeshPartition R), out = parts ++ news ∧
        (news.length : Int) = ⌈(P.num_owned_cells : ℚ) / (s : ℚ)⌉ ∧
        (1 ≤ P.num_owned_cells → ∃ q : LocalMeshPartition R,
          news[news.length - 1]? = some q ∧
          q.num_owned_cells
            = (if P.num_owned_cells % s = 0 then s else P.num_owned_cells % s)) ∧
        (P.num_owned_cells = 0 → news = []) ∧
        (∀ (j : Nat) (q : LocalMeshPartition R), news[j]? = some q → j + 1 < news.length →
          q.num_owned_cells = s) ∧
        (∀ q : LocalMeshPartition R, news[news.length - 1]? = some q →
          q.num_owned_cells = (if P.num_owned_cells % s = 0 then s else P.num_owned_cells % s) ∧
          0 < q.num_owned_cells ∧ q.num_owned_cells ≤ s) := by
  refine ⟨fun hwf => splitMeshInfo_ok order hwf (Or.inl hs) parts, ?_⟩
  intro out h
  obtain ⟨news, h1, h2, h3, h4⟩ := splitMeshInfo_sizes_of_ok hs h
  subst h1
  obtain ⟨hcount, hne, _⟩ := splitMeshInfo_length_of_ok hs h
  refine ⟨news, rfl, hcount, ?_, h2, h3, h4⟩
  intro hpos
  have hlen : news.length - 1 < news.length :=
    Nat.sub_lt (List.length_pos.mpr (hne hpos)) Nat.one_pos
  exact ⟨news[news.length - 1], List.getElem?_eq_getElem hlen,
    (h4 _ (List.getElem?_eq_getElem hlen)).1⟩

/-- C8 (amended): for every mesh info with at least one owned cell, `splitMeshInfo` with
splitting size `ALL_ELEMENTS` appends exactly one partition, built by `setupSubLocalMeshInfo`
from the parent indices `0..N-1` in order, which are its owned cells; for a mesh info without
owned cells it appends nothing.  The call returns whenever the mesh info is well-formed. -/
theorem splitMeshInfo_all_elements (order : IterationOrder) (P : LocalMeshInfoBase R)
    (parts : List (LocalMeshPartition R)) :
    (WellFormed P → ∃ out, splitMeshInfo order P ALL_ELEMENTS parts = .ok out) ∧
    ∀ out, splitMeshInfo order P ALL_ELEMENTS parts = .ok out →
      (1 ≤ P.num_owned_cells → ∃ q : LocalMeshPartition R, out = parts ++ [q] ∧
        BuiltFrom order P (indexRange 0 P.num_owned_cells) q) ∧
      (P.num_owned_cells = 0 → out = parts) := by
  refine ⟨fun hwf => splitMeshInfo_ok order hwf (Or.inr rfl) parts, ?_⟩
  intro out h
  obtain ⟨_, hN, chunks, news, h1, h2, h3, _, h5, h6⟩ := splitMeshInfo_spec h
  have hbase : basePartitionSize P ALL_ELEMENTS = P.num_owned_cells := by
    unfold basePartitionSize ALL_ELEMENTS
    simp
  rw [hbase] at h3 h6
  constructor
  · intro hpos
    obtain ⟨c1, c2⟩ := h6 (by omega)
    have hlen : chunks.length = 1 := by
      have a1 : (chunks.length : Int) - 1 < 1 := by
        by_contra hx
        have : 1 * P.num_owned_cells ≤ ((chunks.length : Int) - 1) * P.num_owned_cells :=
          mul_le_mul_of_nonneg_right (by omega) (by omega)
        omega
      have a2 : 0 < (chunks.length : Int) := by
        by_contra hx
        have : (chunks.length : Int) = 0 := by omega
        rw [this] at c2
        omega
      omega
    match chunks, news, h2, hlen with
    | [c], [q], .cons hq .nil, _ =>
      refine ⟨q, h1, ?_⟩
      obtain ⟨_, hc⟩ := h3 0 c (by simp)
      simp only [Nat.cast_zero, zero_mul, zero_add, one_mul, min_self] at hc
      rw [← hc]
      exact hq
  · intro hzero
    have := h5 hzero
    subst this
    cases h2
    rw [h1]
    simp

theorem scenarioParent_wellFormed : WellFormed scenarioParent := by decide

theorem scenario_setup :
    setupSubLocalMeshInfo IterationOrder.insertion scenarioParent [1, 2] = .ok scenarioChild := by
  rfl

theorem setupSubLocalMeshInfo_extents_witness :
    ([1, 2] : List Int) ≠ [] ∧ scenarioChild.num_owned_cells = (([1, 2] : List Int).length : Int) ∧
    (scenarioChild.global_cells.length : Int) = scenarioChild.totalCells ∧
    (scenarioChild.local_cells.length : Int) = scenarioChild.totalCells ∧
    (scenarioChild.cell_vertices.length : Int) = scenarioChild.totalCells ∧
    (scenarioChild.cell_to_faces.length : Int) = scenarioChild.totalCells :=
  setupSubLocalMeshInfo_extents IterationOrder.insertion scenarioParent [1, 2] scenarioChild rfl

theorem setupSubLocalMeshInfo_no_virtual_virtual_face_witness :
    ¬ ((scenarioEndsChild.num_owned_cells + scenarioEndsChild.num_ghstd_cells
            ≤ ((0, 4) : Int × Int).1 ∧
          ((0, 4) : Int × Int).1 < scenarioEndsChild.totalCells) ∧
       (scenarioEndsChild.num_owned_cells + scenarioEndsChild.num_ghstd_cells
            ≤ ((0, 4) : Int × Int).2 ∧
          ((0, 4) : Int × Int).2 < scenarioEndsChild.totalCells)) :=
  setupSubLocalMeshInfo_no_virtual_virtual_face IterationOrder.insertion scenarioParent [3, 0]
    scenarioEndsChild rfl 1 (0, 4) rfl

/-- C2 (as stated, refuted): on the well-formed scenario parent, the non-empty owned list
`[1, 1]` lies in `[0, num_owned_cells)`, and for no iteration order of the unordered
containers is the child built for it face symmetric (the two copies of cell 1 both claim
the same slot of each ghost neighbour). -/
theorem setupSubLocalMeshInfo_face_symmetry_fails_with_duplicates :
    WellFormed scenarioParent ∧ ([1, 1] : List Int) ≠ [] ∧
    (∀ p ∈ ([1, 1] : List Int), 0 ≤ p ∧ p < scenarioParent.num_owned_cells) ∧
    (∃ child, setupSubLocalMeshInfo IterationOrder.insertion scenarioParent [1, 1] = .ok child) ∧
    ¬ ∃ order child, setupSubLocalMeshInfo order scenarioParent [1, 1] = .ok child ∧
        FaceSymmetric child := by
  refine ⟨by decide, by decide, by decide, ⟨_, rfl⟩, ?_⟩
  rintro ⟨order, child, h, hsym⟩
  have hnil : order.cells [] = [] := List.Perm.eq_nil (order.cells_perm [])
  rcases perm_pair_cases (by decide) (order.cells_perm [0, 2]) with hg | hg
  · refine not_faceSymmetric_of_shared_side h
      [((0, 0), (2, 1)), ((0, 1), (3, 0)), ((1, 0), (2, 1)), ((1, 1), (3, 0))]
      ?_ ((0, 0), (2, 1)) ((1, 0), (2, 1)) (by decide) (by decide) (by decide)
      rfl hsym
    intro sets hc
    have : classifyPass scenarioParent [1, 1] = .ok ([0, 2], []) := rfl
    rw [this] at hc
    cases hc
    unfold childParents
    simp only [hg, hnil]
    rfl
  · refine not_faceSymmetric_of_shared_side h
      [((0, 0), (3, 1)), ((0, 1), (2, 0)), ((1, 0), (3, 1)), ((1, 1), (2, 0))]
      ?_ ((0, 0), (3, 1)) ((1, 0), (3, 1)) (by decide) (by decide) (by decide)
      rfl hsym
    intro sets hc
    have : classifyPass scenarioParent [1, 1] = .ok ([0, 2], []) := rfl
    rw [this] at hc
    cases hc
    unfold childParents
    simp only [hg, hnil]
    rfl

theorem setupSubLocalMeshInfo_face_symmetry_witness :
    ∃ child, setupSubLocalMeshInfo IterationOrder.insertion scenarioParent [1, 2] = .ok child ∧
      FaceSymmetric child :=
  setupSubLocalMeshInfo_face_symmetry IterationOrder.insertion scenarioParent [1, 2]
    (by decide) (by decide) (by decide) (by decide)

theorem setupSubLocalMeshInfo_ghost_virtual_cells_witness :
    ∃ (child : LocalMeshInfoBase Int) (ghstd virt : List Int),
      setupSubLocalMeshInfo IterationOrder.insertion scenarioParent [0, 1] = .ok child ∧
      ghstd.Nodup ∧ virt.Nodup ∧
      (∀ n, n ∈ ghstd ↔
        (∃ p k, (p ∈ ([0, 1] : List Int) ∧ k < scenarioParent.num_faces_per_cell) ∧
          Across scenarioParent p k n) ∧
          n < scenarioParent.num_owned_cells + scenarioParent.num_ghstd_cells ∧
          n ∉ ([0, 1] : List Int)) ∧
      (∀ n, n ∈ virt ↔
        (∃ p k, (p ∈ ([0, 1] : List Int) ∧ k < scenarioParent.num_faces_per_cell) ∧
          Across scenarioParent p k n) ∧
          scenarioParent.num_owned_cells + scenarioParent.num_ghstd_cells ≤ n) ∧
      child.num_ghstd_cells = (ghstd.length : Int) ∧
      child.num_virtual_cells = (virt.length : Int) ∧
      (∀ (i : Nat) (n : Int), ghstd[i]? = some n →
        CopiedFrom scenarioParent child (([0, 1] : List Int).length + i) n) ∧
      (∀ (i : Nat) (n : Int), virt[i]? = some n →
        CopiedFrom scenarioParent child (([0, 1] : List Int).length + ghstd.length + i) n) :=
  setupSubLocalMeshInfo_ghost_virtual_cells IterationOrder.insertion scenarioParent [0, 1]
    (by decide) (by decide) (by decide)

/-- C4: for the scenario parent (a chain of four owned cells 0..3 with two face slots per
cell, no ghost cell, the virtual cells 4 and 5 closing the two ends) and the owned list
`[1, 2]`, whatever the iteration order of the unordered containers, `setupSubLocalMeshInfo`
yields a child with `num_owned_cells = 2`, `num_ghstd_cells = 2`, `num_virtual_cells = 0`
and exactly 3 faces; its owned cells are the parent cells 1 and 2 and its two ghost cells are
the parent cells 0 and 3 (in the scenario parent `local_cells[i] = i`, so the child's
`local_cells` are parent indices). -/
theorem scenario_child (order : IterationOrder) :
    ∃ child, setupSubLocalMeshInfo order scenarioParent [1, 2] = .ok child ∧
      child.num_owned_cells = 2 ∧ child.num_ghstd_cells = 2 ∧ child.num_virtual_cells = 0 ∧
      child.face_to_cells.length = 3 ∧ child.face_to_lidx.length = 3 ∧
      child.local_cells.take 2 = [1, 2] ∧ (child.local_cells.drop 2).Perm [0, 3] ∧
      child.local_cells.length = 4 := by
  obtain ⟨child, h⟩ := @setup_succeeds Int order scenarioParent scenarioParent_wellFormed
    [1, 2] (by decide) (by decide)
  refine ⟨child, h, ?_⟩
  obtain ⟨sets, gc, lc, cv, fs, ctf, _, _, _, _, _, _, hc, _, hlc, _, hfs, _, rfl⟩ :=
    setup_ok_inv h
  have hsets : classifyPass scenarioParent [1, 2] = .ok ([0, 3], []) := rfl
  rw [hsets] at hc
  cases hc
  have hnil : order.cells [] = [] := List.Perm.eq_nil (order.cells_perm [])
  have hlen : (order.cells [0, 3]).length = 2 := (order.cells_perm [0, 3]).length_eq
  have hflen : (order.faces fs).length = fs.length := (order.faces_perm fs).length_eq
  unfold childParents at hlc hfs
  simp only [hnil, List.append_nil] at hlc hfs
  refine ⟨rfl, by simp only [hlen]; rfl, by simp only [hnil]; rfl, ?_⟩
  simp only [List.length_map, hflen]
  rcases perm_pair_cases (by decide) (order.cells_perm [0, 3]) with hg | hg
  · rw [hg] at hlc hfs
    have h1 : copyCells scenarioParent.local_cells ([1, 2] ++ [0, 3]) = .ok [1, 2, 0, 3] := rfl
    have h2 : createFaces scenarioParent (sortCells (numberCells 0 ([1, 2] ++ [0, 3]))) 0
        [1, 2] [] = .ok [((0, 0), (2, 1)), ((0, 1), (1, 0)), ((1, 1), (3, 0))] := rfl
    rw [h1] at hlc
    rw [h2] at hfs
    cases hlc
    cases hfs
    exact ⟨rfl, rfl, rfl, List.Perm.refl _, rfl⟩
  · rw [hg] at hlc hfs
    have h1 : copyCells scenarioParent.local_cells ([1, 2] ++ [3, 0]) = .ok [1, 2, 3, 0] := rfl
    have h2 : createFaces scenarioParent (sortCells (numberCells 0 ([1, 2] ++ [3, 0]))) 0
        [1, 2] [] = .ok [((0, 0), (3, 1)), ((0, 1), (1, 0)), ((1, 1), (2, 0))] := rfl
    rw [h1] at hlc
    rw [h2] at hfs
    cases hlc
    cases hfs
    exact ⟨rfl, rfl, rfl, List.Perm.swap _ _ _, rfl⟩

theorem chainParent_four : chainParent 4 = scenarioParent := rfl

theorem chainParent_23_wellFormed : WellFormed (chainParent 23) := by decide

theorem splitMeshInfo_coverage_witness :
    ∃ out, splitMeshInfo IterationOrder.insertion (chainParent 23) 8 [] = .ok out ∧
      ∃ (chunks : List (List Int)) (news : List (LocalMeshPartition Int)),
        out = [] ++ news ∧
        List.Forall₂ (BuiltFrom IterationOrder.insertion (chainParent 23)) chunks news ∧
        chunks.flatten = indexRange 0 (chainParent 23).num_owned_cells ∧
        (∀ x, 0 ≤ x → x < (chainParent 23).num_owned_cells → List.count x chunks.flatten = 1) := by
  have key := splitMeshInfo_coverage IterationOrder.insertion (chainParent 23) 8 []
    (Or.inl (by decide))
  obtain ⟨out, h⟩ := key.1 (by decide)
  exact ⟨out, h, key.2 out h⟩

theorem splitMeshInfo_count_witness :
    ∃ out, splitMeshInfo IterationOrder.insertion (chainParent 23) 8 [] = .ok out ∧
      ∃ news : List (LocalMeshPartition Int), out = [] ++ news ∧ news.length = 3 := by
  have key := splitMeshInfo_count IterationOrder.insertion (chainParent 23) 8 [] (by decide)
  obtain ⟨out, h⟩ := key.1 (by decide)
  obtain ⟨news, h1, h2⟩ := key.2 out h
  refine ⟨out, h, news, h1, ?_⟩
  have h3 : ⌈(((chainParent 23).num_owned_cells : Int) : ℚ) / ((8 : Int) : ℚ)⌉ = 3 := by
    rw [Int.ceil_eq_iff]
    simp only [chainParent]
    norm_num
  rw [h3] at h2
  exact_mod_cast h2

theorem splitMeshInfo_chunks_witness :
    ∃ q0 q1 q2 : LocalMeshPartition Int,
      splitMeshInfo IterationOrder.insertion (chainParent 23) 8 [] = .ok [q0, q1, q2] ∧
      setupSubLocalMeshInfo IterationOrder.insertion (chainParent 23)
        [0, 1, 2, 3, 4, 5, 6, 7] = .ok q0.toLocalMeshInfoBase ∧
      setupSubLocalMeshInfo IterationOrder.insertion (chainParent 23)
        [8, 9, 10, 11, 12, 13, 14, 15] = .ok q1.toLocalMeshInfoBase ∧
      setupSubLocalMeshInfo IterationOrder.insertion (chainParent 23)
        [16, 17, 18, 19, 20, 21, 22] = .ok q2.toLocalMeshInfoBase := by
  have key := splitMeshInfo_chunks IterationOrder.insertion (chainParent 23) 8 [] (by decide)
  obtain ⟨out, h⟩ := key.1 (by decide)
  obtain ⟨news, h1, hcount, _, _, hall⟩ := key.2 out h
  rw [List.nil_append] at h1
  subst h1
  have h3 : ⌈(((chainParent 23).num_owned_cells : Int) : ℚ)
      / ((min (chainParent 23).num_owned_cells 8 : Int) : ℚ)⌉ = 3 := by
    rw [show min (chainParent 23).num_owned_cells 8 = 8 from by decide, Int.ceil_eq_iff]
    simp only [chainParent]
    norm_num
  rw [h3] at hcount
  have hlen : out.length = 3 := by exact_mod_cast hcount
  obtain ⟨q0, q1, q2, rfl⟩ := List.length_eq_three.mp hlen
  exact ⟨q0, q1, q2, h, (hall 0 q0 rfl).2, (hall 1 q1 rfl).2, (hall 2 q2 rfl).2⟩

theorem splitMeshInfo_sizes_witness :
    ∃ q0 q1 q2 : LocalMeshPartition Int,
      splitMeshInfo IterationOrder.insertion (chainParent 23) 8 [] = .ok [q0, q1, q2] ∧
      q0.num_owned_cells = 8 ∧ q1.num_owned_cells = 8 ∧ q2.num_owned_cells = 7 := by
  have key := splitMeshInfo_sizes IterationOrder.insertion (chainParent 23) 8 [] (by decide)
  obtain ⟨out, h⟩ := key.1 (by decide)
  obtain ⟨news, h1, hcount, _, _, hfull, hlast⟩ := key.2 out h
  rw [List.nil_append] at h1
  subst h1
  have h3 : ⌈(((chainParent 23).num_owned_cells : Int) : ℚ) / ((8 : Int) : ℚ)⌉ = 3 := by
    rw [Int.ceil_eq_iff]
    simp only [chainParent]
    norm_num
  rw [h3] at hcount
  have hlen : out.length = 3 := by exact_mod_cast hcount
  obtain ⟨q0, q1, q2, rfl⟩ := List.length_eq_three.mp hlen
  exact ⟨q0, q1, q2, h, hfull 0 q0 rfl (by simp), hfull 1 q1 rfl (by simp),
    (hlast q2 rfl).1⟩

/-- C6 (as stated, refuted): the scenario parent has `N = 4` owned cells; with splitting size
`S = 2` the call returns, and whatever the iteration order the last partition appended does
not have `N - S*floor(N/S) = 0` owned cells (it has 2, which is not smaller than `S`). -/
theorem splitMeshInfo_last_size_counterexample :
    WellFormed scenarioParent ∧
    (∃ out, splitMeshInfo IterationOrder.insertion scenarioParent 2 [] = .ok out) ∧
    ¬ ∃ (order : IterationOrder) (out : List (LocalMeshPartition Int))
        (last : LocalMeshPartition Int),
        splitMeshInfo order scenarioParent 2 [] = .ok out ∧ out.getLast? = some last ∧
        last.num_owned_cells
          = scenarioParent.num_owned_cells - 2 * (scenarioParent.num_owned_cells / 2) ∧
        last.num_owned_cells ≠ 0 ∧ last.num_owned_cells < 2 := by
  refine ⟨by decide, splitMeshInfo_ok _ (by decide) (Or.inl (by decide)) [], ?_⟩
  rintro ⟨order, out, last, h, hlast, _, _, hlt⟩
  obtain ⟨news, h1, _, _, h4⟩ := splitMeshInfo_sizes_of_ok (by decide) h
  rw [List.nil_append] at h1
  subst h1
  rw [List.getLast?_eq_getElem?] at hlast
  have := (h4 last hlast).1
  have h5 : (if scenarioParent.num_owned_cells % 2 = 0 then (2 : Int)
      else scenarioParent.num_owned_cells % 2) = 2 := by decide
  rw [h5] at this
  omega

theorem splitMeshInfo_all_elements_witness :
    ∃ out, splitMeshInfo IterationOrder.insertion scenarioParent ALL_ELEMENTS [] = .ok out ∧
      (1 ≤ scenarioParent.num_owned_cells → ∃ q : LocalMeshPartition Int, out = [] ++ [q] ∧
        BuiltFrom IterationOrder.insertion scenarioParent
          (indexRange 0 scenarioParent.num_owned_cells) q) ∧
      (scenarioParent.num_owned_cells = 0 → out = []) := by
  have key := splitMeshInfo_all_elements IterationOrder.insertion scenarioParent []
  obtain ⟨out, h⟩ := key.1 (by decide)
  exact ⟨out, h, key.2 out h⟩

/-- C8 (as stated, refuted): for the well-formed mesh info without cells, `splitMeshInfo` with
splitting size `ALL_ELEMENTS` returns and, whatever the iteration order, does not append
exactly one partition (it appends none). -/
theorem splitMeshInfo_all_elements_counterexample :
    WellFormed emptyMeshInfo ∧
    splitMeshInfo IterationOrder.insertion emptyMeshInfo ALL_ELEMENTS [] = .ok [] ∧
    ¬ ∃ (order : IterationOrder) (out : List (LocalMeshPartition Int)),
        splitMeshInfo order emptyMeshInfo ALL_ELEMENTS [] = .ok out ∧ out.length = 1 := by
  refine ⟨by decide, rfl, ?_⟩
  rintro ⟨order, out, h, hlen⟩
  have : splitMeshInfo order emptyMeshInfo ALL_ELEMENTS [] = .ok [] := rfl
  rw [this] at h
  cases h
  simp at hlen

/-- The value found in a slot of the filled `cell_to_faces` is the initial one or the index of
a face of the list that occupies this slot. -/
theorem fillCellToFaces_value :
    ∀ (faces : List face_t) (start : Nat) (v w : List (List Int)) (i j x : Int),
      fillCellToFaces start faces v = .ok w → look2 w i j = some x →
      look2 v i j = some x ∨
        ∃ (t : Nat) (face : face_t), faces[t]? = some face ∧ face.HasSlot i j ∧
          x = ((start + t : Nat) : Int)
  | [], _, v, w, i, j, x, h, hx => by cases h; exact Or.inl hx
  | face :: faces, start, v, w, i, j, x, h, hx => by
    unfold fillCellToFaces at h
    split at h
    · cases h
    rename_i v1 h1
    split at h
    · cases h
    rename_i v2 h2
    rcases fillCellToFaces_value faces (start + 1) v2 w i j x h hx with h3 | ⟨t, f, hf, hs, rfl⟩
    · rw [viewSet2_look2 h2] at h3
      split at h3
      · rename_i hij
        right
        refine ⟨0, face, by simp, Or.inr ⟨hij.1.symm, hij.2.symm⟩, ?_⟩
        simp only [Option.some.injEq] at h3
        rw [← h3]; simp
      · rw [viewSet2_look2 h1] at h3
        split at h3
        · rename_i hij
          right
          refine ⟨0, face, by simp, Or.inl ⟨hij.1.symm, hij.2.symm⟩, ?_⟩
          simp only [Option.some.injEq] at h3
          rw [← h3]; simp
        · exact Or.inl h3
    · right
      exact ⟨t + 1, f, by simpa using hf, hs, by congr 1; omega⟩

/-- A successful fill wrote inside the extents only. -/
theorem fillCellToFaces_bounds {n m : Nat} :
    ∀ (faces : List face_t) (start : Nat) (v w : List (List Int)),
      fillCellToFaces start faces v = .ok w → HasShape v n m →
      ∀ face ∈ faces, ∀ i j, face.HasSlot i j → (0 ≤ i ∧ i < n) ∧ (0 ≤ j ∧ j < m)
  | [], _, _, _, _, _, face, hf, _, _, _ => by simp at hf
  | hd :: faces, start, v, w, h, hv, face, hf, i, j, hs => by
    unfold fillCellToFaces at h
    split at h
    · cases h
    rename_i v1 h1
    split at h
    · cases h
    rename_i v2 h2
    have hv1 := viewSet2_shape hv h1
    rcases List.mem_cons.mp hf with rfl | hf
    · rcases hs with ⟨rfl, rfl⟩ | ⟨rfl, rfl⟩
      · exact (look2_isSome_iff hv _ _).mp (viewSet2_eq_ok h1).1
      · exact (look2_isSome_iff hv1 _ _).mp (viewSet2_eq_ok h2).1
    · exact fillCellToFaces_bounds faces (start + 1) v2 w h (viewSet2_shape hv1 h2) face hf i j hs

/-- C17: for every parent, `setupSubLocalMeshInfo` called with an empty owned index list
fails with the exception of line 100 instead of returning a child, and with a non-empty list
it fails with the exception of line 103 when the parent has no owned cells
(`num_owned_cells <= 0`). -/
theorem setupSubLocalMeshInfo_fails_without_owned_cells (order : IterationOrder)
    (P : LocalMeshInfoBase R) (owned : List Int) :
    (owned = [] → setupSubLocalMeshInfo order P owned = .error .noOwnedParentCells) ∧
    (owned ≠ [] → P.num_owned_cells ≤ 0 →
      setupSubLocalMeshInfo order P owned = .error .parentWithoutOwnedCells) := by
  constructor
  · rintro rfl
    rfl
  · intro hne hP
    unfold setupSubLocalMeshInfo
    have h0 : ¬ owned.length = 0 := fun h => hne (List.length_eq_zero.mp h)
    simp only [h0, if_false, hP, if_true]

/-- C13: in a child built by `setupSubLocalMeshInfo` the child cells are, in this order, the
owned parent cells in the caller's order, the ghost parent cells and the virtual parent cells
(`ghstd` and `virt` in the iteration order of the two sets); for every child cell `c`,
`global_cells[c]`, `local_cells[c]` and the block `cell_vertices[c]` are the parent's entries
at the parent index assigned to `c`, which for `c` below the length of the owned list is
`owned_parent_cells[c]`. -/
theorem setupSubLocalMeshInfo_copies_cells (order : IterationOrder) (P : LocalMeshInfoBase R)
    (owned : List Int) (child : LocalMeshInfoBase R)
    (h : setupSubLocalMeshInfo order P owned = .ok child) :
    ∃ (sets : List Int × List Int) (ghstd virt : List Int),
      classifyPass P owned = .ok sets ∧ ghstd = order.cells sets.1 ∧ virt = order.cells sets.2 ∧
      child.num_owned_cells = (owned.length : Int) ∧
      child.num_ghstd_cells = (ghstd.length : Int) ∧
      child.num_virtual_cells = (virt.length : Int) ∧
      child.global_cells.length = (owned ++ ghstd ++ virt).length ∧
      child.local_cells.length = (owned ++ ghstd ++ virt).length ∧
      child.cell_vertices.length = (owned ++ ghstd ++ virt).length ∧
      (∀ (c : Nat) (n : Int), (owned ++ ghstd ++ virt)[c]? = some n →
        ∃ (g l : Int) (v : List (List R)),
          look P.global_cells n = some g ∧ child.global_cells[c]? = some g ∧
          look P.local_cells n = some l ∧ child.local_cells[c]? = some l ∧
          look P.cell_vertices n = some v ∧ child.cell_vertices[c]? = some v) ∧
      (∀ (c : Nat) (p : Int), owned[c]? = some p → (owned ++ ghstd ++ virt)[c]? = some p) := by
  obtain ⟨sets, gc, lc, cv, fs, ctf, _, _, _, _, _, _, hc, hgc, hlc, hcv, _, _, rfl⟩ :=
    setup_ok_inv h
  refine ⟨sets, _, _, hc, rfl, rfl, rfl, rfl, rfl, copyCells_length hgc, copyCells_length hlc,
    copyCells_length hcv, ?_, ?_⟩
  · intro c n hcn
    have hlt : c < (childParents order owned sets).length := (List.getElem?_eq_some_iff.mp hcn).1
    have e1 := copyCells_look hgc c n hcn
    have e2 := copyCells_look hlc c n hcn
    have e3 := copyCells_look hcv c n hcn
    have l1 : c < gc.length := by rw [copyCells_length hgc]; exact hlt
    have l2 : c < lc.length := by rw [copyCells_length hlc]; exact hlt
    have l3 : c < cv.length := by rw [copyCells_length hcv]; exact hlt
    refine ⟨gc[c], lc[c], cv[c], ?_, List.getElem?_eq_getElem l1, ?_,
      List.getElem?_eq_getElem l2, ?_, List.getElem?_eq_getElem l3⟩
    · rw [← e1, List.getElem?_eq_getElem l1]
    · rw [← e2, List.getElem?_eq_getElem l2]
    · rw [← e3, List.getElem?_eq_getElem l3]
  · intro c p hp
    exact childParents_owned order owned sets hp

/-- C14: in a child built by `setupSubLocalMeshInfo`, for every cell `c` and face slot `k`,
`cell_to_faces[c][k]` is either `-1` or a face index `f` with `0 <= f < number of faces` such
that, for some side `s`, `face_to_cells[f][s] == c` and `face_to_lidx[f][s] == k`; and for
every face both `face_to_cells` entries are child cell indices in `[0, N)`. -/
theorem setupSubLocalMeshInfo_cell_to_faces (order : IterationOrder) (P : LocalMeshInfoBase R)
    (owned : List Int) (child : LocalMeshInfoBase R)
    (h : setupSubLocalMeshInfo order P owned = .ok child) :
    (∀ (c k f : Int), look2 child.cell_to_faces c k = some f →
      f = -1 ∨ (0 ≤ f ∧ f < (child.face_to_cells.length : Int) ∧
        ∃ (cells lidx : Int × Int) (s : Int), (s = 0 ∨ s = 1) ∧
          look child.face_to_cells f = some cells ∧ look child.face_to_lidx f = some lidx ∧
          side cells s = c ∧ side lidx s = k)) ∧
    (∀ (f : Int) (cells : Int × Int), look child.face_to_cells f = some cells →
      (0 ≤ cells.1 ∧ cells.1 < child.totalCells) ∧ (0 ≤ cells.2 ∧ cells.2 < child.totalCells)) := by
  obtain ⟨sets, gc, lc, cv, fs, ctf, _, _, _, _, _, _, _, _, _, _, _, hctf, rfl⟩ := setup_ok_inv h
  have hlen := childParents_length order owned sets
  constructor
  · intro c k f hf
    rcases fillCellToFaces_value _ 0 _ ctf c k f hctf hf with h1 | ⟨t, face, ht, hs, rfl⟩
    · exact Or.inl (look2_replicate h1)
    · right
      have htlt : t < ((order.faces fs).map toFace).length := (List.getElem?_eq_some_iff.mp ht).1
      simp only [Nat.zero_add, List.length_map] at htlt ⊢
      refine ⟨by omega, by exact_mod_cast htlt, ?_⟩
      rcases hs with ⟨h1, h2⟩ | ⟨h1, h2⟩
      · refine ⟨(face.cell_0, face.cell_1), (face.subcell_index_0, face.subcell_index_1), 0,
          Or.inl rfl, ?_, ?_, h1, h2⟩
        · rw [look_natCast, List.getElem?_map, ht]; rfl
        · rw [look_natCast, List.getElem?_map, ht]; rfl
      · refine ⟨(face.cell_0, face.cell_1), (face.subcell_index_0, face.subcell_index_1), 1,
          Or.inr rfl, ?_, ?_, h1, h2⟩
        · rw [look_natCast, List.getElem?_map, ht]; rfl
        · rw [look_natCast, List.getElem?_map, ht]; rfl
  · intro f cells hf
    simp only at hf
    rw [look_map] at hf
    obtain ⟨face, hface, rfl⟩ := Option.map_eq_some'.mp hf
    have hb := fillCellToFaces_bounds _ 0 _ ctf hctf (replicate_shape _ _ (-1)) face
      (look_mem hface)
    have b0 := (hb face.cell_0 face.subcell_index_0 (Or.inl ⟨rfl, rfl⟩)).1
    have b1 := (hb face.cell_1 face.subcell_index_1 (Or.inr ⟨rfl, rfl⟩)).1
    simp only [LocalMeshInfoBase.totalCells]
    constructor
    · constructor
      · exact b0.1
      · have := b0.2; push_cast [hlen] at this; omega
    · constructor
      · exact b1.1
      · have := b1.2; push_cast [hlen] at this; omega

theorem indexOf_le_of_getElem? {l : List Int} {n : Int} :
    ∀ {j : Nat}, l[j]? = some n → l.indexOf n ≤ j := by
  induction l with
  | nil => intro j h; simp at h
  | cons hd tl ih =>
    intro j h
    by_cases hx : hd = n
    · rw [List.indexOf_cons_eq _ hx]; omega
    · rw [List.indexOf_cons_ne _ hx]
      cases j with
      | zero => simp only [List.getElem?_cons_zero, Option.some.injEq] at h; exact absurd h hx
      | succ j =>
        simp only [List.getElem?_cons_succ] at h
        have := ih h
        omega

/-- On a sorted list the lookup of line 294 returns, among the entries with parent index `n`,
the one with the least child index. -/
theorem lower_bound_min {n c : Int} (hc : 0 ≤ c) :
    ∀ {sorted : List (Int × Int)}, sorted.Pairwise pairLE → (n, c) ∈ sorted →
      (∀ e ∈ sorted, e.1 = n → c ≤ e.2) → lower_bound sorted (n, 0) = some (n, c)
  | [], _, hmem, _ => by simp at hmem
  | hd :: tl, hs, hmem, hmin => by
    unfold lower_bound
    by_cases hlt : pairLT hd (n, 0)
    · rw [List.find?_cons_of_neg _ (by simpa using hlt)]
      have hne : (n, c) ≠ hd := by
        rintro rfl
        unfold pairLT at hlt
        simp only [lt_self_iff_false, true_and, false_or] at hlt
        omega
      have hmem2 : (n, c) ∈ tl := by
        rcases List.mem_cons.mp hmem with h | h
        · exact absurd h hne
        · exact h
      exact lower_bound_min hc (List.Pairwise.of_cons hs) hmem2
        (fun e he => hmin e (List.mem_cons_of_mem _ he))
    · rw [List.find?_cons_of_pos _ (by simpa using hlt)]
      congr 1
      rcases List.mem_cons.mp hmem with h | h
      · exact h.symm
      · have hle := List.rel_of_pairwise_cons hs h
        unfold pairLE at hle
        unfold pairLT at hlt
        simp only at hle hlt
        have h1 : hd.1 = n := by
          rcases hle with h1 | ⟨h1, _⟩
          · by_contra _
            apply hlt
            left
            exact h1
          · exact h1
        have h2 := hmin hd (List.mem_cons_self _ _) h1
        have h3 : hd.2 ≤ c := by
          rcases hle with h4 | ⟨_, h4⟩
          · omega
          · exact h4
        obtain ⟨a, b⟩ := hd
        simp only at h1 h2 h3
        rw [h1]
        congr 1
        omega

/-- The lookup of line 294 of a cell that is among the child cells returns the entry of that
cell with its first position in the list of child cells. -/
theorem lookup_indexOf {parents : List Int} {n : Int} (hn : n ∈ parents) :
    lower_bound (sortCells (numberCells 0 parents)) (n, 0)
      = some (n, ((parents.indexOf n : Nat) : Int)) := by
  refine lower_bound_min (by omega) (sortCells_sorted _) ?_ ?_
  · exact sortCells_mem.mpr (numberCells_mem.mpr ⟨_, List.getElem?_indexOf hn, by simp⟩)
  · intro e he h1
    obtain ⟨j, hj, hc⟩ := numberCells_mem.mp (sortCells_mem.mp he)
    rw [h1] at hj
    have := indexOf_le_of_getElem? hj
    rw [hc]
    omega

/-- Every face of the child, traced back to the owned cell and slot it was written for, the
neighbour found there and the child index given to that neighbour. -/
theorem child_face_lookup {order : IterationOrder} {P : LocalMeshInfoBase R} {owned : List Int}
    {sets : List Int × List Int} {fs : List FaceEntry}
    (hc : classifyPass P owned = .ok sets)
    (hfs : createFaces P (sortCells (numberCells 0 (childParents order owned sets))) 0 owned []
      = .ok fs) {e : FaceEntry} (he : e ∈ fs) :
    ∃ (o : Nat) (p : Int) (k : Nat) (pf ns n : Int) (lidx : Int × Int),
      owned[o]? = some p ∧ k < P.num_faces_per_cell ∧
      acrossFace P p k = .ok (some (pf, ns, n)) ∧ look P.face_to_lidx pf = some lidx ∧
      n ∈ childParents order owned sets ∧
      e = if (o : Int) < ((childParents order owned sets).indexOf n : Nat) then
            (((o : Int), (k : Int)),
              ((((childParents order owned sets).indexOf n : Nat) : Int), side lidx ns))
          else (((((childParents order owned sets).indexOf n : Nat) : Int), side lidx ns),
            ((o : Int), (k : Int))) := by
  obtain ⟨o, p, k, hop, hk, pf, ns, n, lidx, entry, hacr, hl, hlb, hrec⟩ :=
    (createFaces_mem hfs).2 e he
  have hn : n ∈ childParents order owned sets :=
    (classifyPass_classified hc).neighbor_mem order (List.getElem?_mem hop) hk
      (acrossFace_across.mp ⟨pf, ns, hacr⟩)
  rw [lookup_indexOf hn] at hlb
  cases hlb
  exact ⟨o, p, k, pf, ns, n, lidx, hop, hk, hacr, hl, hn, hrec⟩

/-- C12 (amended): for every face `f` of a child built by `setupSubLocalMeshInfo`,
`face_to_cells[f][0] <= face_to_cells[f][1]`; the inequality is strict,
`face_to_cells[f][0] < face_to_cells[f][1]`, when no face of the parent has the same cell on
both of its sides. -/
theorem setupSubLocalMeshInfo_face_sides_ordered (order : IterationOrder)
    (P : LocalMeshInfoBase R) (owned : List Int) (child : LocalMeshInfoBase R)
    (h : setupSubLocalMeshInfo order P owned = .ok child) (f : Int) (cells : Int × Int)
    (hf : look child.face_to_cells f = some cells) :
    cells.1 ≤ cells.2 ∧
    ((∀ (pf : Int) (row : Int × Int), look P.face_to_cells pf = some row → row.1 ≠ row.2) →
      cells.1 < cells.2) := by
  obtain ⟨sets, gc, lc, cv, fs, ctf, _, _, _, _, _, _, hc, _, _, _, hfs, _, rfl⟩ := setup_ok_inv h
  simp only at hf
  rw [look_map] at hf
  obtain ⟨face, hface, rfl⟩ := Option.map_eq_some'.mp hf
  obtain ⟨e, he, rfl⟩ := List.mem_map.mp (look_mem hface)
  have hefs : e ∈ fs := (order.faces_perm fs).mem_iff.mp he
  obtain ⟨o, p, k, pf, ns, n, lidx, hop, hk, hacr, hl, hn, hrec⟩ := child_face_lookup hc hfs hefs
  have hpo := childParents_owned order owned sets hop
  have hidx := List.getElem?_indexOf hn
  unfold toFace
  simp only
  split at hrec
  · rename_i hlt
    subst hrec
    simp only
    exact ⟨by omega, fun _ => hlt⟩
  · rename_i hlt
    subst hrec
    simp only
    refine ⟨by omega, ?_⟩
    intro hdistinct
    by_contra hx
    have heq : (childParents order owned sets).indexOf n = o := by omega
    rw [heq, hpo] at hidx
    have hnp : p = n := by simpa using hidx
    obtain ⟨_, _, row, hrow, hns, hnrow⟩ := acrossFace_eq_some.mp hacr
    have hd := hdistinct pf row hrow
    by_cases h1 : row.1 = p
    · rw [hns] at hnrow
      simp only [h1, if_true, side, one_ne_zero, if_false] at hnrow
      apply hd
      rw [h1, hnp, hnrow]
    · rw [hns] at hnrow
      simp only [h1, if_false, side, if_true] at hnrow
      exact h1 (by rw [hnp, hnrow])

/-- C18: `setupSubLocalMeshInfo` fails whenever, for some owned input cell and face slot with
a non-negative parent face, the parent cell on the other side of that face is not in the
list of owned, ghost and virtual parent indices built for the child; and when it returns a
child, every neighbour looked up at line 294 is in that list and the lookup returned the
entry of this very neighbour (its first position in the list), never that of another cell. -/
theorem setupSubLocalMeshInfo_neighbor_lookup (order : IterationOrder)
    (P : LocalMeshInfoBase R) (owned : List Int) :
    ((∃ (p : Int) (k : Nat) (n : Int), p ∈ owned ∧ k < P.num_faces_per_cell ∧ Across P p k n ∧
        ¬ ∃ sets, classifyPass P owned = .ok sets ∧ n ∈ childParents order owned sets) →
      ∃ e, setupSubLocalMeshInfo order P owned = .error e) ∧
    (∀ child, setupSubLocalMeshInfo order P owned = .ok child →
      ∃ sets, classifyPass P owned = .ok sets ∧
        ∀ (p : Int) (k : Nat) (n : Int), p ∈ owned → k < P.num_faces_per_cell → Across P p k n →
          n ∈ childParents order owned sets ∧
          ∃ c : Nat, (childParents order owned sets)[c]? = some n ∧
            lower_bound (sortCells (numberCells 0 (childParents order owned sets))) (n, 0)
              = some (n, (c : Int))) := by
  have key : ∀ child, setupSubLocalMeshInfo order P owned = .ok child →
      ∃ sets, classifyPass P owned = .ok sets ∧
        ∀ (p : Int) (k : Nat) (n : Int), p ∈ owned → k < P.num_faces_per_cell → Across P p k n →
          n ∈ childParents order owned sets ∧
          ∃ c : Nat, (childParents order owned sets)[c]? = some n ∧
            lower_bound (sortCells (numberCells 0 (childParents order owned sets))) (n, 0)
              = some (n, (c : Int)) := by
    intro child h
    obtain ⟨sets, _, _, _, _, _, _, _, _, _, _, _, hc, _⟩ := setup_ok_inv h
    refine ⟨sets, hc, ?_⟩
    intro p k n hp hk hacr
    have hn := (classifyPass_classified hc).neighbor_mem order hp hk hacr
    exact ⟨hn, _, List.getElem?_indexOf hn, lookup_indexOf hn⟩
  refine ⟨?_, key⟩
  rintro ⟨p, k, n, hp, hk, hacr, hno⟩
  cases hres : setupSubLocalMeshInfo order P owned with
  | error e => exact ⟨e, rfl⟩
  | ok child =>
    obtain ⟨sets, hc, hall⟩ := key child hres
    exact absurd ⟨sets, hc, (hall p k n hp hk hacr).1⟩ hno

theorem periodicParent_wellFormed : WellFormed periodicParent := by decide

theorem setupSubLocalMeshInfo_fails_without_owned_cells_witness :
    setupSubLocalMeshInfo IterationOrder.insertion scenarioParent [] = .error .noOwnedParentCells ∧
    setupSubLocalMeshInfo IterationOrder.insertion emptyMeshInfo [0]
      = .error .parentWithoutOwnedCells :=
  ⟨(setupSubLocalMeshInfo_fails_without_owned_cells IterationOrder.insertion scenarioParent
      []).1 rfl,
    (setupSubLocalMeshInfo_fails_without_owned_cells IterationOrder.insertion emptyMeshInfo
      [0]).2 (by decide) (by decide)⟩

theorem setupSubLocalMeshInfo_copies_cells_witness :
    ∃ (sets : List Int × List Int) (ghstd virt : List Int),
      classifyPass scenarioParent [3, 0] = .ok sets ∧
      ghstd = IterationOrder.insertion.cells sets.1 ∧
      virt = IterationOrder.insertion.cells sets.2 ∧
      scenarioEndsChild.num_owned_cells = (([3, 0] : List Int).length : Int) ∧
      scenarioEndsChild.num_ghstd_cells = (ghstd.length : Int) ∧
      scenarioEndsChild.num_virtual_cells = (virt.length : Int) ∧
      scenarioEndsChild.global_cells.length = ([3, 0] ++ ghstd ++ virt).length ∧
      scenarioEndsChild.local_cells.length = ([3, 0] ++ ghstd ++ virt).length ∧
      scenarioEndsChild.cell_vertices.length = ([3, 0] ++ ghstd ++ virt).length ∧
      (∀ (c : Nat) (n : Int), ([3, 0] ++ ghstd ++ virt)[c]? = some n →
        ∃ (g l : Int) (v : List (List Int)),
          look scenarioParent.global_cells n = some g ∧
          scenarioEndsChild.global_cells[c]? = some g ∧
          look scenarioParent.local_cells n = some l ∧
          scenarioEndsChild.local_cells[c]? = some l ∧
          look scenarioParent.cell_vertices n = some v ∧
          scenarioEndsChild.cell_vertices[c]? = some v) ∧
      (∀ (c : Nat) (p : Int), ([3, 0] : List Int)[c]? = some p →
        ([3, 0] ++ ghstd ++ virt)[c]? = some p) :=
  setupSubLocalMeshInfo_copies_cells IterationOrder.insertion scenarioParent [3, 0]
    scenarioEndsChild rfl

theorem setupSubLocalMeshInfo_cell_to_faces_witness :
    (∀ (c k f : Int), look2 scenarioEndsChild.cell_to_faces c k = some f →
      f = -1 ∨ (0 ≤ f ∧ f < (scenarioEndsChild.face_to_cells.length : Int) ∧
        ∃ (cells lidx : Int × Int) (s : Int), (s = 0 ∨ s = 1) ∧
          look scenarioEndsChild.face_to_cells f = some cells ∧
          look scenarioEndsChild.face_to_lidx f = some lidx ∧
          side cells s = c ∧ side lidx s = k)) ∧
    (∀ (f : Int) (cells : Int × Int), look scenarioEndsChild.face_to_cells f = some cells →
      (0 ≤ cells.1 ∧ cells.1 < scenarioEndsChild.totalCells) ∧
      (0 ≤ cells.2 ∧ cells.2 < scenarioEndsChild.totalCells)) :=
  setupSubLocalMeshInfo_cell_to_faces IterationOrder.insertion scenarioParent [3, 0]
    scenarioEndsChild rfl

theorem setupSubLocalMeshInfo_face_sides_ordered_witness :
    ((0, 4) : Int × Int).1 ≤ ((0, 4) : Int × Int).2 ∧
    ((∀ (pf : Int) (row : Int × Int), look scenarioParent.face_to_cells pf = some row →
        row.1 ≠ row.2) → ((0, 4) : Int × Int).1 < ((0, 4) : Int × Int).2) :=
  setupSubLocalMeshInfo_face_sides_ordered IterationOrder.insertion scenarioParent [3, 0]
    scenarioEndsChild rfl 1 (0, 4) rfl

/-- C12 (as stated, refuted): the periodic one-cell parent is well-formed, `setupSubLocalMeshInfo`
returns a child for the owned list `[0]`, and whatever the iteration order that child has a
face with `face_to_cells[f][0] = face_to_cells[f][1]` (cell 0 on both sides). -/
theorem setupSubLocalMeshInfo_face_sides_counterexample :
    WellFormed periodicParent ∧
    (∃ child, setupSubLocalMeshInfo IterationOrder.insertion periodicParent [0] = .ok child) ∧
    ¬ ∃ (order : IterationOrder) (child : LocalMeshInfoBase Int),
        setupSubLocalMeshInfo order periodicParent [0] = .ok child ∧
        ∀ (f : Int) (cells : Int × Int), look child.face_to_cells f = some cells →
          cells.1 < cells.2 := by
  refine ⟨by decide, ⟨_, rfl⟩, ?_⟩
  rintro ⟨order, child, h, hlt⟩
  obtain ⟨sets, gc, lc, cv, fs, ctf, _, _, _, _, _, _, hc, _, _, _, hfs, _, rfl⟩ := setup_ok_inv h
  have hsets : classifyPass periodicParent [0] = .ok ([], []) := rfl
  rw [hsets] at hc
  cases hc
  have hnil : order.cells [] = [] := List.Perm.eq_nil (order.cells_perm [])
  unfold childParents at hfs
  simp only [hnil, List.append_nil] at hfs
  have h2 : createFaces periodicParent (sortCells (numberCells 0 [0])) 0 [0] []
      = .ok [((0, 0), (0, 1))] := rfl
  rw [h2] at hfs
  cases hfs
  have hone : order.faces [((0, 0), (0, 1))] = [((0, 0), (0, 1))] :=
    List.perm_singleton.mp (order.faces_perm _)
  have := hlt 0 (0, 0) (by simp only [hone]; rfl)
  simp at this

theorem setupSubLocalMeshInfo_neighbor_lookup_witness :
    (∃ e, setupSubLocalMeshInfo IterationOrder.insertion danglingParent [0] = .error e) ∧
    ∃ sets, classifyPass scenarioParent [1, 2] = .ok sets ∧
      ∀ (p : Int) (k : Nat) (n : Int), p ∈ ([1, 2] : List Int) →
        k < scenarioParent.num_faces_per_cell → Across scenarioParent p k n →
        n ∈ childParents IterationOrder.insertion [1, 2] sets ∧
        ∃ c : Nat, (childParents IterationOrder.insertion [1, 2] sets)[c]? = some n ∧
          lower_bound (sortCells (numberCells 0 (childParents IterationOrder.insertion [1, 2] sets)))
            (n, 0) = some (n, (c : Int)) :=
  ⟨(setupSubLocalMeshInfo_neighbor_lookup IterationOrder.insertion danglingParent [0]).1
      ⟨0, 0, -1, by decide, by decide, ⟨0, (0, -1), rfl, by decide, rfl, rfl⟩, by
        rintro ⟨sets, hc, _⟩
        have : classifyPass danglingParent [0] = .error .negativeNeighbor := rfl
        rw [this] at hc
        cases hc⟩,
    (setupSubLocalMeshInfo_neighbor_lookup IterationOrder.insertion scenarioParent [1, 2]).2
      scenarioChild rfl⟩

/-- C16 (amended): for the scenario parent and the owned list `[1, 2]`, whatever the iteration
order of the unordered containers, the child built by `setupSubLocalMeshInfo` has exactly
three faces, which written in parent cell indices are `(1,0)`, `(1,2)` and `(2,3)`; in child
cell indices (owned cells 0 and 1 are the parent cells 1 and 2, ghost cells `g0` and `g3`,
which are 2 and 3 in some order, are the parent cells 0 and 3) they are `(0,g0)`, `(0,1)` and
`(1,g3)`.  In the scenario parent `local_cells[i] = i`, so the child's `local_cells` are
parent indices. -/
theorem scenario_child_faces (order : IterationOrder) :
    ∃ (child : LocalMeshInfoBase Int) (g0 g3 : Int),
      setupSubLocalMeshInfo order scenarioParent [1, 2] = .ok child ∧
      ((g0 = 2 ∧ g3 = 3) ∨ (g0 = 3 ∧ g3 = 2)) ∧
      look child.local_cells 0 = some 1 ∧ look child.local_cells 1 = some 2 ∧
      look child.local_cells g0 = some 0 ∧ look child.local_cells g3 = some 3 ∧
      child.face_to_cells.Perm [(0, g0), (0, 1), (1, g3)] ∧
      (child.face_to_cells.map fun cells =>
        (look child.local_cells cells.1, look child.local_cells cells.2)).Perm
        [(some 1, some 0), (some 1, some 2), (some 2, some 3)] := by
  obtain ⟨child, h⟩ := @setup_succeeds Int order scenarioParent scenarioParent_wellFormed
    [1, 2] (by decide) (by decide)
  obtain ⟨sets, gc, lc, cv, fs, ctf, _, _, _, _, _, _, hc, _, hlc, _, hfs, _, hchild⟩ :=
    setup_ok_inv h
  have hsets : classifyPass scenarioParent [1, 2] = .ok ([0, 3], []) := rfl
  rw [hsets] at hc
  cases hc
  have hnil : order.cells [] = [] := List.Perm.eq_nil (order.cells_perm [])
  unfold childParents at hlc hfs
  simp only [hnil, List.append_nil] at hlc hfs
  rcases perm_pair_cases (by decide) (order.cells_perm [0, 3]) with hg | hg
  · rw [hg] at hlc hfs
    have h1 : copyCells scenarioParent.local_cells ([1, 2] ++ [0, 3]) = .ok [1, 2, 0, 3] := rfl
    have h2 : createFaces scenarioParent (sortCells (numberCells 0 ([1, 2] ++ [0, 3]))) 0
        [1, 2] [] = .ok [((0, 0), (2, 1)), ((0, 1), (1, 0)), ((1, 1), (3, 0))] := rfl
    rw [h1] at hlc
    rw [h2] at hfs
    cases hlc
    cases hfs
    have hperm := (((order.faces_perm
      [((0, 0), (2, 1)), ((0, 1), (1, 0)), ((1, 1), (3, 0))]).map toFace).map
        fun face => (face.cell_0, face.cell_1))
    refine ⟨child, 2, 3, h, Or.inl ⟨rfl, rfl⟩, ?_⟩
    subst hchild
    exact ⟨rfl, rfl, rfl, rfl, hperm, hperm.map _⟩
  · rw [hg] at hlc hfs
    have h1 : copyCells scenarioParent.local_cells ([1, 2] ++ [3, 0]) = .ok [1, 2, 3, 0] := rfl
    have h2 : createFaces scenarioParent (sortCells (numberCells 0 ([1, 2] ++ [3, 0]))) 0
        [1, 2] [] = .ok [((0, 0), (3, 1)), ((0, 1), (1, 0)), ((1, 1), (2, 0))] := rfl
    rw [h1] at hlc
    rw [h2] at hfs
    cases hlc
    cases hfs
    have hperm := (((order.faces_perm
      [((0, 0), (3, 1)), ((0, 1), (1, 0)), ((1, 1), (2, 0))]).map toFace).map
        fun face => (face.cell_0, face.cell_1))
    refine ⟨child, 3, 2, h, Or.inr ⟨rfl, rfl⟩, ?_⟩
    subst hchild
    exact ⟨rfl, rfl, rfl, rfl, hperm, hperm.map _⟩

/-- C16 (as stated, refuted): for the scenario parent and the owned list `[1, 2]` a child is
built, and for no iteration order are its faces, as unordered pairs of child cell indices,
`(1,0)`, `(1,2)` and `(2,3)`: the child cells 2 and 3 are its two ghost cells, and no face
joins them. -/
theorem scenario_child_faces_counterexample :
    (∃ child, setupSubLocalMeshInfo IterationOrder.insertion scenarioParent [1, 2] = .ok child) ∧
    ¬ ∃ (order : IterationOrder) (child : LocalMeshInfoBase Int),
        setupSubLocalMeshInfo order scenarioParent [1, 2] = .ok child ∧
        (child.face_to_cells.map fun cells =>
          (min cells.1 cells.2, max cells.1 cells.2)).Perm [(0, 1), (1, 2), (2, 3)] := by
  refine ⟨⟨_, rfl⟩, ?_⟩
  rintro ⟨order, child, h, hperm⟩
  have hmem : ((2 : Int), (3 : Int)) ∈ child.face_to_cells.map fun cells =>
      (min cells.1 cells.2, max cells.1 cells.2) := hperm.mem_iff.mpr (by simp)
  obtain ⟨cells, hcells, hpair⟩ := List.mem_map.mp hmem
  simp only [Prod.mk.injEq] at hpair
  obtain ⟨sets, gc, lc, cv, fs, ctf, _, _, _, _, _, _, _, _, _, _, hfs, _, rfl⟩ := setup_ok_inv h
  simp only at hcells
  obtain ⟨face, hface, rfl⟩ := List.mem_map.mp hcells
  obtain ⟨t, ht⟩ := List.mem_iff_getElem?.mp hface
  obtain ⟨e, _, rfl, o, p, k, hop, _, pf, ns, n, lidx, entry, _, _, _, hrec⟩ :=
    child_face hfs (f := (t : Int)) (by rw [look_natCast]; exact ht)
  have holt : o < ([1, 2] : List Int).length := (List.getElem?_eq_some_iff.mp hop).1
  simp only [List.length_cons, List.length_nil] at holt
  unfold toFace at hpair
  simp only at hpair
  split at hrec
  · subst hrec
    simp only at hpair
    omega
  · subst hrec
    simp only at hpair
    omega

theorem inputFaces_mem {P : LocalMeshInfoBase R} {owned : List Int} {f : Int} :
    f ∈ inputFaces P owned ↔
      ∃ p ∈ owned, ∃ k : Nat, k < P.num_faces_per_cell ∧ look2 P.cell_to_faces p k = some f ∧
        0 ≤ f := by
  unfold inputFaces
  rw [List.mem_dedup, List.mem_flatMap]
  constructor
  · rintro ⟨p, hp, hf⟩
    obtain ⟨k, hk, hkf⟩ := List.mem_filterMap.mp hf
    refine ⟨p, hp, k, List.mem_range.mp hk, ?_⟩
    cases hl : look2 P.cell_to_faces p k with
    | none => rw [hl] at hkf; simp [Option.filter] at hkf
    | some x =>
      rw [hl, Option.filter_some] at hkf
      split at hkf
      · rename_i hx
        simp only [Option.some.injEq] at hkf
        subst hkf
        exact ⟨rfl, by simpa using hx⟩
      · cases hkf
  · rintro ⟨p, hp, k, hk, hl, h0⟩
    refine ⟨p, hp, List.mem_filterMap.mpr ⟨k, List.mem_range.mpr hk, ?_⟩⟩
    rw [hl, Option.filter_some]
    simp [h0]

theorem isRecord_unique {P : LocalMeshInfoBase R} {sorted : List (Int × Int)} {o : Nat} {p : Int}
    {k : Nat} {e e1 : FaceEntry} (h : IsRecord P sorted o p k e)
    (h1 : IsRecord P sorted o p k e1) : e = e1 := by
  obtain ⟨pf, ns, n, lidx, entry, a1, a2, a3, rfl⟩ := h
  obtain ⟨pf1, ns1, n1, lidx1, entry1, b1, b2, b3, rfl⟩ := h1
  rw [a1] at b1
  simp only [Except.ok.injEq, Option.some.injEq, Prod.mk.injEq] at b1
  obtain ⟨rfl, rfl, rfl⟩ := b1
  rw [a2] at b2
  cases b2
  rw [a3] at b3
  cases b3
  rfl

/-- The key written for an owned cell and slot is still in `faces_set` when the loops of
lines 277-316 end. -/
theorem createFaces_keys_complete {P : LocalMeshInfoBase R} {sorted : List (Int × Int)} :
    ∀ (cells : List Int) (start : Nat) (fs out : List FaceEntry),
      createFaces P sorted start cells fs = .ok out →
      (∀ x ∈ fs.map Prod.fst, x ∈ out.map Prod.fst) ∧
      ∀ (i : Nat) (p : Int) (k : Nat) (e : FaceEntry), cells[i]? = some p →
        k < P.num_faces_per_cell → IsRecord P sorted (start + i) p k e →
        e.1 ∈ out.map Prod.fst := by
  have inner : ∀ (o : Nat) (p : Int) (slots : List Nat) (fs out : List FaceEntry),
      createCellFaces P sorted o p slots fs = .ok out →
      (∀ x ∈ fs.map Prod.fst, x ∈ out.map Prod.fst) ∧
      ∀ k ∈ slots, ∀ e : FaceEntry, IsRecord P sorted o p k e → e.1 ∈ out.map Prod.fst := by
    intro o p slots
    induction slots with
    | nil =>
      intro fs out h
      cases h
      exact ⟨fun x hx => hx, by simp⟩
    | cons k slots ih =>
      intro fs out h
      unfold createCellFaces at h
      split at h
      · cases h
      rename_i fs1 h1
      obtain ⟨hkeep, hslots⟩ := ih fs1 out h
      rcases createFace_eq_ok h1 with ⟨hnone, rfl⟩ | ⟨e0, he0, rfl⟩
      · refine ⟨hkeep, ?_⟩
        intro k1 hk1 e he
        rcases List.mem_cons.mp hk1 with rfl | hk1
        · obtain ⟨pf, ns, n, _, _, hacr, _⟩ := he
          rw [hnone] at hacr
          cases hacr
        · exact hslots k1 hk1 e he
      · have hsub : ∀ x ∈ fs.map Prod.fst, x ∈ (facesAssign fs e0.1 e0.2).map Prod.fst := by
          intro x hx
          rw [facesAssign_keys]
          split
          · exact hx
          · exact List.mem_append_left _ hx
        have hnew : e0.1 ∈ (facesAssign fs e0.1 e0.2).map Prod.fst := by
          rw [facesAssign_keys]
          split
          · assumption
          · simp
        refine ⟨fun x hx => hkeep x (hsub x hx), ?_⟩
        intro k1 hk1 e he
        rcases List.mem_cons.mp hk1 with rfl | hk1
        · rw [isRecord_unique he he0]
          exact hkeep _ hnew
        · exact hslots k1 hk1 e he
  intro cells
  induction cells with
  | nil =>
    intro start fs out h
    cases h
    exact ⟨fun x hx => hx, by simp⟩
  | cons p cells ih =>
    intro start fs out h
    unfold createFaces at h
    split at h
    · cases h
    rename_i fs1 h1
    obtain ⟨hkeep1, hslots1⟩ := inner start p _ fs fs1 h1
    obtain ⟨hkeep, hcells⟩ := ih (start + 1) fs1 out h
    refine ⟨fun x hx => hkeep x (hkeep1 x hx), ?_⟩
    intro i q k e hq hk he
    cases i with
    | zero =>
      simp only [List.getElem?_cons_zero, Option.some.injEq] at hq
      subst hq
      exact hkeep _ (hslots1 k (List.mem_range.mpr hk) e (by simpa using he))
    | succ i =>
      simp only [List.getElem?_cons_succ] at hq
      refine hcells i q k e hq hk ?_
      have : start + 1 + i = start + (i + 1) := by omega
      rw [this]; exact he

/-- The key of an entry of `faces_set` determines the parent face behind the entry, and the
parent face determines the key. -/
theorem record_keyFace {P : LocalMeshInfoBase R} (hwf : WellFormed P) {parents : List Int}
    (hnd : parents.Nodup) {o : Nat} {p : Int} {k : Nat} {e : FaceEntry}
    (hop : parents[o]? = some p) (hn : ∀ n, Across P p k n → n ∈ parents)
    (hrec : IsRecord P (sortCells (numberCells 0 parents)) o p k e) :
    look2 P.cell_to_faces p k = some (keyFace P parents e.1) ∧ 0 ≤ keyFace P parents e.1 ∧
    ∀ {o1 : Nat} {p1 : Int} {k1 : Nat} {e1 : FaceEntry}, parents[o1]? = some p1 →
      (∀ n, Across P p1 k1 n → n ∈ parents) →
      IsRecord P (sortCells (numberCells 0 parents)) o1 p1 k1 e1 →
      keyFace P parents e1.1 = keyFace P parents e.1 → e1.1 = e.1 := by
  have face_of : ∀ {o : Nat} {p : Int} {k : Nat} {e : FaceEntry}, parents[o]? = some p →
      (∀ n, Across P p k n → n ∈ parents) →
      IsRecord P (sortCells (numberCells 0 parents)) o p k e →
      ∃ (pf : Int) (cells lidx : Int × Int) (i0 i1 : Nat),
        (look2 P.cell_to_faces p k = some pf ∧ 0 ≤ pf) ∧
        look P.face_to_cells pf = some cells ∧ look P.face_to_lidx pf = some lidx ∧
        parents[i0]? = some cells.1 ∧ parents[i1]? = some cells.2 ∧
        e.1 = (if i0 < i1 then ((i0 : Int), lidx.1) else ((i1 : Int), lidx.2)) ∧
        keyFace P parents e.1 = pf := by
    intro o p k e hop hn hrec
    obtain ⟨pf, cells, lidx, i0, i1, hface, hc, hl, h0, h1, hkey, _⟩ :=
      record_facts hwf hnd hop hn hrec
    refine ⟨pf, cells, lidx, i0, i1, hface, hc, hl, h0, h1, hkey, ?_⟩
    obtain ⟨l2, hl2, hsym⟩ := hwf.face_side hc
    rw [hl] at hl2
    cases hl2
    have s0 := hsym 0 (Or.inl rfl)
    have s1 := hsym 1 (Or.inr rfl)
    simp only [side, if_true, one_ne_zero, if_false] at s0 s1
    unfold keyFace
    rw [hkey]
    split
    · simp only [look_natCast, h0, Option.some_bind, s0, Option.getD_some]
    · simp only [look_natCast, h1, Option.some_bind, s1, Option.getD_some]
  obtain ⟨pf, cells, lidx, i0, i1, hface, hc, hl, h0, h1, hkey, hkf⟩ := face_of hop hn hrec
  refine ⟨by rw [hkf]; exact hface.1, by rw [hkf]; exact hface.2, ?_⟩
  intro o1 p1 k1 e1 hop1 hn1 hrec1 heq
  obtain ⟨pf1, cells1, lidx1, j0, j1, _, hc1, hl1, g0, g1, hkey1, hkf1⟩ :=
    face_of hop1 hn1 hrec1
  have hpf : pf1 = pf := by rw [← hkf1, ← hkf, heq]
  subst hpf
  rw [hc] at hc1
  cases hc1
  rw [hl] at hl1
  cases hl1
  have hlt0 : i0 < parents.length := (List.getElem?_eq_some_iff.mp h0).1
  have hlt1 : i1 < parents.length := (List.getElem?_eq_some_iff.mp h1).1
  have e0 : i0 = j0 := List.getElem?_inj hlt0 hnd (by rw [h0, g0])
  have e1' : i1 = j1 := List.getElem?_inj hlt1 hnd (by rw [h1, g1])
  subst e0 e1'
  rw [hkey, hkey1]

/-- C11 (amended): for every well-formed parent and every non-empty, duplicate-free list of
owned parent indices in `[0, parent.num_owned_cells)`, the number of faces of the child
built by `setupSubLocalMeshInfo` equals the number of distinct parent faces that occur with
index `>= 0` in the `cell_to_faces` row of some input cell: an interface between two input
cells, found once from each side, yields one face record. -/
theorem setupSubLocalMeshInfo_face_count (order : IterationOrder) (P : LocalMeshInfoBase R)
    (owned : List Int) (hwf : WellFormed P) (hne : owned ≠ []) (hnd : owned.Nodup)
    (hvalid : ∀ p ∈ owned, 0 ≤ p ∧ p < P.num_owned_cells) :
    ∃ child, setupSubLocalMeshInfo order P owned = .ok child ∧
      child.face_to_cells.length = (inputFaces P owned).length ∧
      child.face_to_lidx.length = (inputFaces P owned).length := by
  obtain ⟨child, h⟩ := setup_succeeds order hwf hne hvalid
  refine ⟨child, h, ?_⟩
  obtain ⟨sets, gc, lc, cv, fs, ctf, _, _, _, _, _, _, hc, _, _, _, hfs, _, rfl⟩ := setup_ok_inv h
  have hcl := classifyPass_classified hc
  have hpnd := hcl.parents_nodup hwf hvalid hnd order
  have hkeys := (createFaces_mem hfs).1
  -- every entry of the face map, as the record of an owned cell and slot
  have hentry : ∀ e ∈ fs, ∃ (o : Nat) (p : Int) (k : Nat), owned[o]? = some p ∧
      k < P.num_faces_per_cell ∧ (childParents order owned sets)[o]? = some p ∧
      (∀ n, Across P p k n → n ∈ childParents order owned sets) ∧
      IsRecord P (sortCells (numberCells 0 (childParents order owned sets))) o p k e := by
    intro e he
    obtain ⟨o, p, k, hop, hk, hrec⟩ := (createFaces_mem hfs).2 e he
    exact ⟨o, p, k, hop, hk, childParents_owned order owned sets hop,
      fun n hn => hcl.neighbor_mem order (List.getElem?_mem hop) hk hn, hrec⟩
  have hperm : (fs.map fun e => keyFace P (childParents order owned sets) e.1).Perm
      (inputFaces P owned) := by
    have hnd2 : (inputFaces P owned).Nodup := List.nodup_dedup _
    refine (List.perm_ext_iff_of_nodup ?_ hnd2).mpr ?_
    · refine List.Nodup.map_on ?_ (List.Nodup.of_map Prod.fst hkeys)
      intro x hx y hy hxy
      obtain ⟨o, p, k, _, _, hop, hn, hrec⟩ := hentry x hx
      obtain ⟨o1, p1, k1, _, _, hop1, hn1, hrec1⟩ := hentry y hy
      have hk := (record_keyFace hwf hpnd hop1 hn1 hrec1).2.2 hop hn hrec hxy
      exact List.inj_on_of_nodup_map hkeys hx hy hk
    · intro f
      rw [inputFaces_mem, List.mem_map]
      constructor
      · rintro ⟨e, he, rfl⟩
        obtain ⟨o, p, k, hop0, hk, hop, hn, hrec⟩ := hentry e he
        obtain ⟨h1, h2, _⟩ := record_keyFace hwf hpnd hop hn hrec
        exact ⟨p, List.getElem?_mem hop0, k, hk, h1, h2⟩
      · rintro ⟨p, hp, k, hk, hl, h0⟩
        obtain ⟨o, hop0⟩ := List.mem_iff_getElem?.mp hp
        have hop := childParents_owned order owned sets hop0
        have hpv := hvalid p hp
        -- the record written for this cell and slot
        obtain ⟨cells, lidx, s, hcells, hlidx, _, _, _⟩ := hwf.cell_slot hl h0
        have hacr : acrossFace P p k = .ok (some (f, (if cells.1 = p then 1 else 0),
            side cells (if cells.1 = p then 1 else 0))) :=
          acrossFace_eq_some.mpr ⟨hl, h0, cells, hcells, rfl, rfl⟩
        have hn := hcl.neighbor_mem order hp hk (acrossFace_across.mp ⟨_, _, hacr⟩)
        obtain ⟨entry, hentry1⟩ := lookup_isSome hn
        have hrec : IsRecord P (sortCells (numberCells 0 (childParents order owned sets))) o p k
            (if (o : Int) < entry.2 then
              (((o : Int), (k : Int)), (entry.2, side lidx (if cells.1 = p then 1 else 0)))
            else ((entry.2, side lidx (if cells.1 = p then 1 else 0)), ((o : Int), (k : Int)))) :=
          ⟨f, _, _, lidx, entry, hacr, hlidx, hentry1, rfl⟩
        have hin := (createFaces_keys_complete owned 0 [] fs hfs).2 o p k _ hop0 hk
          (by simpa using hrec)
        obtain ⟨e, he, hkey⟩ := List.mem_map.mp hin
        refine ⟨e, he, ?_⟩
        have hnp : ∀ n, Across P p k n → n ∈ childParents order owned sets :=
          fun n hacross => hcl.neighbor_mem order hp hk hacross
        obtain ⟨h1, _, _⟩ := record_keyFace hwf hpnd hop hnp hrec
        rw [hl] at h1
        rw [hkey]
        exact (Option.some.inj h1).symm
  have hlen := hperm.length_eq
  rw [List.length_map] at hlen
  have hflen : (order.faces fs).length = fs.length := (order.faces_perm fs).length_eq
  simp only [List.length_map, hflen, hlen, and_self]

theorem setupSubLocalMeshInfo_face_count_witness :
    ∃ child, setupSubLocalMeshInfo IterationOrder.insertion scenarioParent [1, 2] = .ok child ∧
      child.face_to_cells.length = (inputFaces scenarioParent [1, 2]).length ∧
      child.face_to_lidx.length = (inputFaces scenarioParent [1, 2]).length :=
  setupSubLocalMeshInfo_face_count IterationOrder.insertion scenarioParent [1, 2]
    (by decide) (by decide) (by decide) (by decide)

/-- C11 (as stated, refuted): on the well-formed scenario parent the non-empty owned list
`[1, 1]` lies in `[0, num_owned_cells)`; two distinct parent faces (0 and 1) occur in the
rows of its cells, and whatever the iteration order the child built for it does not have two
faces (it has four: each copy of cell 1 makes its own pair). -/
theorem setupSubLocalMeshInfo_face_count_counterexample :
    WellFormed scenarioParent ∧ ([1, 1] : List Int) ≠ [] ∧
    (∀ p ∈ ([1, 1] : List Int), 0 ≤ p ∧ p < scenarioParent.num_owned_cells) ∧
    inputFaces scenarioParent [1, 1] = [0, 1] ∧
    (∃ child, setupSubLocalMeshInfo IterationOrder.insertion scenarioParent [1, 1] = .ok child) ∧
    ¬ ∃ (order : IterationOrder) (child : LocalMeshInfoBase Int),
        setupSubLocalMeshInfo order scenarioParent [1, 1] = .ok child ∧
        child.face_to_cells.length = (inputFaces scenarioParent [1, 1]).length := by
  refine ⟨by decide, by decide, by decide, by decide, ⟨_, rfl⟩, ?_⟩
  rintro ⟨order, child, h, hlen⟩
  obtain ⟨sets, gc, lc, cv, fs, ctf, _, _, _, _, _, _, hc, _, _, _, hfs, _, rfl⟩ := setup_ok_inv h
  have hsets : classifyPass scenarioParent [1, 1] = .ok ([0, 2], []) := rfl
  rw [hsets] at hc
  cases hc
  have hnil : order.cells [] = [] := List.Perm.eq_nil (order.cells_perm [])
  have hflen : (order.faces fs).length = fs.length := (order.faces_perm fs).length_eq
  have hin : (inputFaces scenarioParent [1, 1]).length = 2 := by decide
  simp only [List.length_map, hflen, hin] at hlen
  unfold childParents at hfs
  simp only [hnil, List.append_nil] at hfs
  rcases perm_pair_cases (by decide) (order.cells_perm [0, 2]) with hg | hg
  · rw [hg] at hfs
    have h2 : createFaces scenarioParent (sortCells (numberCells 0 ([1, 1] ++ [0, 2]))) 0
        [1, 1] [] = .ok [((0, 0), (2, 1)), ((0, 1), (3, 0)), ((1, 0), (2, 1)), ((1, 1), (3, 0))] :=
      rfl
    rw [h2] at hfs
    cases hfs
    simp at hlen
  · rw [hg] at hfs
    have h2 : createFaces scenarioParent (sortCells (numberCells 0 ([1, 1] ++ [2, 0]))) 0
        [1, 1] [] = .ok [((0, 0), (3, 1)), ((0, 1), (2, 0)), ((1, 0), (3, 1)), ((1, 1), (2, 0))] :=
      rfl
    rw [h2] at hfs
    cases hfs
    simp at hlen

/-- C19: `generateLocalMeshPartitions` fails with the assertion of line 419 or of line 420 for
every descriptor whose workset size is `CLASSIC_MODE` or 0, whatever the mesh info holds (the
named element block or sideset may exist or not), and the argument `partitions` then still
has the value it was given: no partition is appended. -/
theorem generateLocalMeshPartitions_rejects_size (order : IterationOrder)
    (mesh_info : LocalMeshInfo R) (description : WorksetDescriptor)
    (partitions : List (LocalMeshPartition R))
    (h : description.getWorksetSize = CLASSIC_MODE ∨ description.getWorksetSize = 0) :
    generateLocalMeshPartitions order mesh_info description partitions
        = .rejected .classicWorksetSize partitions ∨
      generateLocalMeshPartitions order mesh_info description partitions
        = .rejected .zeroWorksetSize partitions := by
  unfold generateLocalMeshPartitions
  by_cases h1 : description.getWorksetSize = CLASSIC_MODE
  · left
    simp only [h1, if_true]
  · right
    have h2 : description.getWorksetSize = 0 := by
      rcases h with h | h
      · exact absurd h h1
      · exact h
    rw [if_neg h1, if_pos h2]

theorem generateLocalMeshPartitions_rejects_size_witness :
    (generateLocalMeshPartitions IterationOrder.insertion scenarioMesh
        ⟨"block", "", false, CLASSIC_MODE, true⟩ []
        = .rejected .classicWorksetSize [] ∨
      generateLocalMeshPartitions IterationOrder.insertion scenarioMesh
        ⟨"block", "", false, CLASSIC_MODE, true⟩ []
        = .rejected .zeroWorksetSize []) ∧
    (generateLocalMeshPartitions IterationOrder.insertion scenarioMesh
        ⟨"other", "left", true, 0, true⟩ []
        = .rejected .classicWorksetSize [] ∨
      generateLocalMeshPartitions IterationOrder.insertion scenarioMesh
        ⟨"other", "left", true, 0, true⟩ []
        = .rejected .zeroWorksetSize []) :=
  ⟨generateLocalMeshPartitions_rejects_size IterationOrder.insertion scenarioMesh
      ⟨"block", "", false, CLASSIC_MODE, true⟩ [] (Or.inl rfl),
    generateLocalMeshPartitions_rejects_size IterationOrder.insertion scenarioMesh
      ⟨"other", "left", true, 0, true⟩ [] (Or.inr rfl)⟩

/-- C20: for every descriptor with a valid size policy (not `CLASSIC_MODE`, not 0) that
requires partitioning: if it names a sideset and either the element block has no entry in
`mesh_info.sidesets` or the sideset has no entry under that block, or if it names only an
element block that has no entry in `mesh_info.element_blocks`, then
`generateLocalMeshPartitions` returns without failing and leaves `partitions` as it was: the
sequence is empty when it was empty. -/
theorem generateLocalMeshPartitions_region_absent (order : IterationOrder)
    (mesh_info : LocalMeshInfo R) (description : WorksetDescriptor)
    (partitions : List (LocalMeshPartition R))
    (hsize : description.getWorksetSize ≠ CLASSIC_MODE ∧ description.getWorksetSize ≠ 0)
    (hreq : description.requiresPartitioning = true)
    (habsent :
      (description.useSideset = true ∧
        (mesh_info.sidesets.lookup description.getElementBlock = none ∨
          ∃ sideset_map, mesh_info.sidesets.lookup description.getElementBlock = some sideset_map ∧
            sideset_map.lookup description.getSideset = none)) ∨
      (description.useSideset = false ∧
        mesh_info.element_blocks.lookup description.getElementBlock = none)) :
    generateLocalMeshPartitions order mesh_info description partitions = .returned partitions := by
  unfold generateLocalMeshPartitions
  simp only [hsize.1, hsize.2, if_false, hreq, Bool.true_eq_false]
  rcases habsent with ⟨hs, h1 | ⟨m, h1, h2⟩⟩ | ⟨hs, h1⟩
  · simp only [hs, if_true, h1]
  · simp only [hs, if_true, h1, h2]
  · simp only [hs, Bool.false_eq_true, if_false, h1]

theorem generateLocalMeshPartitions_region_absent_witness :
    generateLocalMeshPartitions IterationOrder.insertion scenarioMesh
        ⟨"block", "right", true, 2, true⟩ [] = .returned [] ∧
    generateLocalMeshPartitions IterationOrder.insertion scenarioMesh
        ⟨"other", "left", true, 2, true⟩ [] = .returned [] ∧
    generateLocalMeshPartitions IterationOrder.insertion scenarioMesh
        ⟨"other", "", false, ALL_ELEMENTS, true⟩ [] = .returned [] :=
  ⟨generateLocalMeshPartitions_region_absent IterationOrder.insertion scenarioMesh
      ⟨"block", "right", true, 2, true⟩ [] (by decide) rfl
      (Or.inl ⟨rfl, Or.inr ⟨_, rfl, rfl⟩⟩),
    generateLocalMeshPartitions_region_absent IterationOrder.insertion scenarioMesh
      ⟨"other", "left", true, 2, true⟩ [] (by decide) rfl (Or.inl ⟨rfl, Or.inl rfl⟩),
    generateLocalMeshPartitions_region_absent IterationOrder.insertion scenarioMesh
      ⟨"other", "", false, ALL_ELEMENTS, true⟩ [] (by decide) rfl (Or.inr ⟨rfl, rfl⟩)⟩

theorem positionOf_getElem? {α β : Type} [DecidableEq β] {g : α → β} {l1 : List α}
    {l2 : List β} {d : α} {i : Nat} {a : α} (hi : l1[i]? = some a) (hmem : g a ∈ l2) :
    l2[positionOf g l1 l2 d i]? = some (g a) := by
  unfold positionOf
  rw [List.getD_eq_getElem?_getD, hi]
  exact List.getElem?_indexOf hmem

theorem positionOf_eq {α β : Type} [DecidableEq β] {g : α → β} {l1 : List α}
    {l2 : List β} {d : α} {i j : Nat} {a : α} (hnd : l2.Nodup) (hi : l1[i]? = some a)
    (hj : l2[j]? = some (g a)) : positionOf g l1 l2 d i = j := by
  have h1 := positionOf_getElem? (d := d) hi (List.getElem?_mem hj)
  have hlt : positionOf g l1 l2 d i < l2.length := (List.getElem?_eq_some_iff.mp h1).1
  exact List.getElem?_inj hlt hnd (h1.trans hj.symm)

theorem positionOf_injective {α β : Type} [DecidableEq β] {g : α → β} {l1 : List α}
    {l2 : List β} {d : α} (hnd : (l1.map g).Nodup) (hmem : ∀ a ∈ l1, g a ∈ l2) {i j : Nat}
    (hi : i < l1.length) (hj : j < l1.length)
    (h : positionOf g l1 l2 d i = positionOf g l1 l2 d j) : i = j := by
  have h1 : l2[positionOf g l1 l2 d i]? = some (g l1[i]) :=
    positionOf_getElem? (List.getElem?_eq_getElem hi) (hmem _ (List.getElem_mem hi))
  have h2 : l2[positionOf g l1 l2 d j]? = some (g l1[j]) :=
    positionOf_getElem? (List.getElem?_eq_getElem hj) (hmem _ (List.getElem_mem hj))
  rw [h, h2] at h1
  have hi2 : i < (l1.map g).length := by rw [List.length_map]; exact hi
  refine List.getElem?_inj hi2 hnd ?_
  rw [List.getElem?_map, List.getElem?_map, List.getElem?_eq_getElem hi,
    List.getElem?_eq_getElem hj]
  exact congrArg (Option.map id) h1.symm

theorem renumberCell_natCast (σ : Nat → Nat) (c : Nat) :
    renumberCell σ (c : Int) = ((σ c : Nat) : Int) := by
  unfold renumberCell
  rw [Int.toNat_ofNat]

theorem facesAssign_map (σ : Nat → Nat) (N : Int)
    (hinj : ∀ x y : Int, 0 ≤ x → x < N → 0 ≤ y → y < N →
      renumberCell σ x = renumberCell σ y → x = y) :
    ∀ (fs : List FaceEntry) (key value : Int × Int), (∀ e ∈ fs, 0 ≤ e.1.1 ∧ e.1.1 < N) →
      0 ≤ key.1 → key.1 < N →
      facesAssign (fs.map (renumberEntry σ)) (renumberCell σ key.1, key.2)
          (renumberCell σ value.1, value.2)
        = (facesAssign fs key value).map (renumberEntry σ)
  | [], key, value, _, _, _ => rfl
  | (key1, value1) :: rest, key, value, h, h0, h1 => by
    have ih := facesAssign_map σ N hinj rest key value
      (fun e he => h e (List.mem_cons_of_mem _ he)) h0 h1
    have hk := h (key1, value1) (List.mem_cons_self _ _)
    by_cases hkey : key1 = key
    · subst hkey
      simp [facesAssign, renumberEntry]
    · have hne : ¬ (renumberCell σ key1.1, key1.2) = (renumberCell σ key.1, key.2) := by
        intro hx
        simp only [Prod.mk.injEq] at hx
        exact hkey (Prod.ext (hinj _ _ hk.1 hk.2 h0 h1 hx.1) hx.2)
      simp only [List.map_cons, facesAssign, renumberEntry, hne, hkey, if_false]
      rw [← ih]

/-- The entry written for one owned cell and slot under a second numbering of the child cells
is the renumbered entry, and it is written into the renumbered map. -/
theorem createFace_rename {P : LocalMeshInfoBase R} {sA sB : List (Int × Int)} (σ : Nat → Nat)
    (N : Int)
    (hinj : ∀ x y : Int, 0 ≤ x → x < N → 0 ≤ y → y < N →
      renumberCell σ x = renumberCell σ y → x = y)
    {o : Nat} {p : Int} {k : Nat} {fs out : List FaceEntry}
    (h : createFace P sA o p fs k = .ok out) (ho : (o : Int) < N ∧ σ o = o)
    (hnb : ∀ (n : Int) (entry : Int × Int), Across P p k n →
      lower_bound sA (n, 0) = some entry →
      (0 ≤ entry.2 ∧ entry.2 < N) ∧
      (∃ entry2, lower_bound sB (n, 0) = some entry2 ∧ entry2.2 = renumberCell σ entry.2) ∧
      ((o : Int) < entry.2 ↔ (o : Int) < renumberCell σ entry.2))
    (hfs : ∀ e ∈ fs, 0 ≤ e.1.1 ∧ e.1.1 < N) :
    createFace P sB o p (fs.map (renumberEntry σ)) k = .ok (out.map (renumberEntry σ)) ∧
      ∀ e ∈ out, 0 ≤ e.1.1 ∧ e.1.1 < N := by
  have hoo : renumberCell σ (o : Int) = (o : Int) := by
    rw [renumberCell_natCast, ho.2]
  unfold createFace at h
  split at h
  · cases h
  · cases h
    rename_i hacr
    unfold createFace
    rw [hacr]
    exact ⟨rfl, hfs⟩
  rename_i pf ns n hacr
  split at h
  · cases h
  rename_i lidx hl
  simp only at h
  split at h
  · cases h
  rename_i entry hlb
  obtain ⟨hrange, ⟨entry2, hlb2, he2⟩, hiff⟩ :=
    hnb n entry (acrossFace_across.mp ⟨pf, ns, hacr⟩) hlb
  unfold createFace
  rw [hacr]
  simp only
  rw [hl]
  simp only
  rw [hlb2]
  simp only
  rw [he2]
  by_cases hlt : (o : Int) < entry.2
  · rw [if_pos hlt] at h
    rw [if_pos (hiff.mp hlt)]
    cases h
    have := facesAssign_map σ N hinj fs ((o : Int), (k : Int)) (entry.2, side lidx ns) hfs
      (by simp) ho.1
    simp only [hoo] at this
    refine ⟨by rw [this], ?_⟩
    intro e he
    rcases facesAssign_mem he with h1 | h1
    · rw [h1]; exact ⟨by simp, ho.1⟩
    · exact hfs e h1
  · rw [if_neg hlt] at h
    rw [if_neg (fun hx => hlt (hiff.mpr hx))]
    cases h
    have := facesAssign_map σ N hinj fs (entry.2, side lidx ns) ((o : Int), (k : Int)) hfs
      hrange.1 hrange.2
    simp only [hoo] at this
    refine ⟨by rw [this], ?_⟩
    intro e he
    rcases facesAssign_mem he with h1 | h1
    · rw [h1]; exact hrange
    · exact hfs e h1

theorem createCellFaces_rename {P : LocalMeshInfoBase R} {sA sB : List (Int × Int)}
    (σ : Nat → Nat) (N : Int)
    (hinj : ∀ x y : Int, 0 ≤ x → x < N → 0 ≤ y → y < N →
      renumberCell σ x = renumberCell σ y → x = y)
    {o : Nat} {p : Int} (ho : (o : Int) < N ∧ σ o = o) :
    ∀ (slots : List Nat) (fs out : List FaceEntry),
      createCellFaces P sA o p slots fs = .ok out →
      (∀ k ∈ slots, ∀ (n : Int) (entry : Int × Int), Across P p k n →
        lower_bound sA (n, 0) = some entry →
        (0 ≤ entry.2 ∧ entry.2 < N) ∧
        (∃ entry2, lower_bound sB (n, 0) = some entry2 ∧ entry2.2 = renumberCell σ entry.2) ∧
        ((o : Int) < entry.2 ↔ (o : Int) < renumberCell σ entry.2)) →
      (∀ e ∈ fs, 0 ≤ e.1.1 ∧ e.1.1 < N) →
      createCellFaces P sB o p slots (fs.map (renumberEntry σ))
          = .ok (out.map (renumberEntry σ)) ∧
        ∀ e ∈ out, 0 ≤ e.1.1 ∧ e.1.1 < N
  | [], fs, out, h, _, hfs => by
    cases h
    exact ⟨rfl, hfs⟩
  | k :: slots, fs, out, h, hnb, hfs => by
    unfold createCellFaces at h
    split at h
    · cases h
    rename_i fs1 h1
    obtain ⟨h2, hfs1⟩ := createFace_rename σ N hinj h1 ho (hnb k (List.mem_cons_self _ _)) hfs
    unfold createCellFaces
    rw [h2]
    exact createCellFaces_rename σ N hinj ho slots fs1 out h
      (fun k2 hk2 => hnb k2 (List.mem_cons_of_mem _ hk2)) hfs1

/-- The map `faces_set` built under a second numbering of the child cells is the renumbered
map, entry by entry and in the same insertion order. -/
theorem createFaces_rename {P : LocalMeshInfoBase R} {sA sB : List (Int × Int)}
    (σ : Nat → Nat) (N : Int)
    (hinj : ∀ x y : Int, 0 ≤ x → x < N → 0 ≤ y → y < N →
      renumberCell σ x = renumberCell σ y → x = y) :
    ∀ (cells : List Int) (start : Nat) (fs out : List FaceEntry),
      createFaces P sA start cells fs = .ok out →
      (∀ (i : Nat) (p : Int), cells[i]? = some p →
        (((start + i : Nat) : Int) < N ∧ σ (start + i) = start + i) ∧
        ∀ k < P.num_faces_per_cell, ∀ (n : Int) (entry : Int × Int), Across P p k n →
          lower_bound sA (n, 0) = some entry →
          (0 ≤ entry.2 ∧ entry.2 < N) ∧
          (∃ entry2, lower_bound sB (n, 0) = some entry2 ∧
            entry2.2 = renumberCell σ entry.2) ∧
          (((start + i : Nat) : Int) < entry.2 ↔
            ((start + i : Nat) : Int) < renumberCell σ entry.2)) →
      (∀ e ∈ fs, 0 ≤ e.1.1 ∧ e.1.1 < N) →
      createFaces P sB start cells (fs.map (renumberEntry σ))
          = .ok (out.map (renumberEntry σ)) ∧
        ∀ e ∈ out, 0 ≤ e.1.1 ∧ e.1.1 < N
  | [], start, fs, out, h, _, hfs => by
    cases h
    exact ⟨rfl, hfs⟩
  | p :: cells, start, fs, out, h, hyp, hfs => by
    unfold createFaces at h
    split at h
    · cases h
    rename_i fs1 h1
    have h0 := hyp 0 p (by simp)
    rw [Nat.add_zero] at h0
    obtain ⟨h2, hfs1⟩ := createCellFaces_rename σ N hinj h0.1 _ fs fs1 h1
      (fun k hk => h0.2 k (List.mem_range.mp hk)) hfs
    unfold createFaces
    rw [h2]
    refine createFaces_rename σ N hinj cells (start + 1) fs1 out h ?_ hfs1
    intro i q hq
    have := hyp (i + 1) q (by simpa using hq)
    have e : start + (i + 1) = start + 1 + i := by omega
    rw [e] at this
    exact this

/-- The renumbering induced by two iteration orders of the ghost and virtual sets: child cell
`c` of the first child and child cell `σ c` of the second have the same parent cell; `σ` keeps
the owned cells, sends ghost cells to ghost cells and virtual cells to virtual cells, and is
one-to-one. -/
theorem childParents_renumber (order1 order2 : IterationOrder) (owned : List Int)
    (sets : List Int × List Int) (hnd : (childParents order2 owned sets).Nodup)
    (hnd1 : (childParents order1 owned sets).Nodup) :
    (∀ (c : Nat) (n : Int), (childParents order1 owned sets)[c]? = some n →
      (childParents order2 owned sets)[positionOf id (childParents order1 owned sets)
        (childParents order2 owned sets) 0 c]? = some n) ∧
    (∀ c : Nat, c < owned.length →
      positionOf id (childParents order1 owned sets) (childParents order2 owned sets) 0 c = c) ∧
    (∀ c : Nat, owned.length ≤ c → c < owned.length + (order1.cells sets.1).length →
      owned.length ≤ positionOf id (childParents order1 owned sets)
        (childParents order2 owned sets) 0 c ∧
      positionOf id (childParents order1 owned sets) (childParents order2 owned sets) 0 c
        < owned.length + (order1.cells sets.1).length) ∧
    (∀ c : Nat, owned.length + (order1.cells sets.1).length ≤ c →
      c < (childParents order1 owned sets).length →
      owned.length + (order1.cells sets.1).length ≤ positionOf id
        (childParents order1 owned sets) (childParents order2 owned sets) 0 c ∧
      positionOf id (childParents order1 owned sets) (childParents order2 owned sets) 0 c
        < (childParents order1 owned sets).length) ∧
    (∀ c d : Nat, c < (childParents order1 owned sets).length →
      d < (childParents order1 owned sets).length →
      positionOf id (childParents order1 owned sets) (childParents order2 owned sets) 0 c
        = positionOf id (childParents order1 owned sets) (childParents order2 owned sets) 0 d →
      c = d) := by
  have hg : (order2.cells sets.1).length = (order1.cells sets.1).length :=
    ((order2.cells_perm sets.1).trans (order1.cells_perm sets.1).symm).length_eq
  have hv : (order2.cells sets.2).length = (order1.cells sets.2).length :=
    ((order2.cells_perm sets.2).trans (order1.cells_perm sets.2).symm).length_eq
  have hlen1 := childParents_length order1 owned sets
  have hmem : ∀ n ∈ childParents order1 owned sets, id n ∈ childParents order2 owned sets := by
    intro n hn
    exact childParents_mem.mpr (childParents_mem.mp hn)
  refine ⟨?_, ?_, ?_, ?_, ?_⟩
  · intro c n hc
    exact positionOf_getElem? hc (hmem n (List.getElem?_mem hc))
  · intro c hc
    have h1 := childParents_owned order1 owned sets (List.getElem?_eq_getElem hc)
    have h2 := childParents_owned order2 owned sets (List.getElem?_eq_getElem hc)
    exact positionOf_eq hnd h1 h2
  · intro c hc1 hc2
    obtain ⟨i, rfl⟩ : ∃ i, c = owned.length + i := ⟨c - owned.length, by omega⟩
    have hi : i < (order1.cells sets.1).length := by omega
    have h1 := childParents_ghstd order1 owned sets hi
    rw [List.getElem?_eq_getElem hi] at h1
    have hn2 : (order1.cells sets.1)[i] ∈ order2.cells sets.1 :=
      (order2.cells_perm sets.1).mem_iff.mpr
        ((order1.cells_perm sets.1).mem_iff.mp (List.getElem_mem hi))
    obtain ⟨j, hj⟩ := List.mem_iff_getElem?.mp hn2
    have hjlt : j < (order2.cells sets.1).length := (List.getElem?_eq_some_iff.mp hj).1
    have h2 := childParents_ghstd order2 owned sets hjlt
    rw [hj] at h2
    rw [positionOf_eq hnd h1 h2]
    omega
  · intro c hc1 hc2
    obtain ⟨i, rfl⟩ : ∃ i, c = owned.length + (order1.cells sets.1).length + i :=
      ⟨c - (owned.length + (order1.cells sets.1).length), by omega⟩
    have hi : i < (order1.cells sets.2).length := by omega
    have h1 := childParents_virtual order1 owned sets i
    rw [List.getElem?_eq_getElem hi] at h1
    have hn2 : (order1.cells sets.2)[i] ∈ order2.cells sets.2 :=
      (order2.cells_perm sets.2).mem_iff.mpr
        ((order1.cells_perm sets.2).mem_iff.mp (List.getElem_mem hi))
    obtain ⟨j, hj⟩ := List.mem_iff_getElem?.mp hn2
    have hjlt : j < (order2.cells sets.2).length := (List.getElem?_eq_some_iff.mp hj).1
    have h2 := childParents_virtual order2 owned sets j
    rw [hj] at h2
    rw [positionOf_eq hnd h1 h2]
    omega
  · intro c d hc hd h
    exact positionOf_injective (by rw [List.map_id]; exact hnd1) hmem hc hd h

/-- For a well-formed parent and a duplicate-free list of owned cells, no two entries of
`faces_set` share a slot of a child cell. -/
theorem faces_slot_unique {order : IterationOrder} {P : LocalMeshInfoBase R} {owned : List Int}
    {sets : List Int × List Int} {fs : List FaceEntry} (hwf : WellFormed P)
    (hvalid : ∀ p ∈ owned, 0 ≤ p ∧ p < P.num_owned_cells) (hnd : owned.Nodup)
    (hc : classifyPass P owned = .ok sets)
    (hfs : createFaces P (sortCells (numberCells 0 (childParents order owned sets))) 0 owned []
      = .ok fs) {e e1 : FaceEntry} (he : e ∈ fs) (he1 : e1 ∈ fs) {i j : Int}
    (hs : (toFace e).HasSlot i j) (hs1 : (toFace e1).HasSlot i j) : e = e1 := by
  have hcl := classifyPass_classified hc
  have hpnd := hcl.parents_nodup hwf hvalid hnd order
  obtain ⟨o, p, k, hop, hk, hrec⟩ := (createFaces_mem hfs).2 e he
  obtain ⟨o1, p1, k1, hop1, hk1, hrec1⟩ := (createFaces_mem hfs).2 e1 he1
  have hkey := records_share_slot hwf hpnd (childParents_owned order owned sets hop)
    (fun n hn => hcl.neighbor_mem order (List.getElem?_mem hop) hk hn) hrec
    (childParents_owned order owned sets hop1)
    (fun n hn => hcl.neighbor_mem order (List.getElem?_mem hop1) hk1 hn) hrec1 hs hs1
  exact List.inj_on_of_nodup_map (createFaces_mem hfs).1 he he1 hkey

theorem renumberFace_natCast (τ : Nat → Nat) (t : Nat) :
    renumberFace τ (t : Int) = ((τ t : Nat) : Int) := by
  unfold renumberFace
  rw [if_neg (by omega), Int.toNat_ofNat]

theorem look2_replicate_row {α : Type} (n : Nat) (row : List α) (x : Nat) (hx : x < n)
    (k : Int) : look2 (List.replicate n row) (x : Int) k = look row k := by
  unfold look2
  rw [look_natCast, List.getElem?_replicate, if_pos hx]
  rfl

/-- The rows of `cell_to_faces` filled from a renumbered face list are the renumbered rows. -/
theorem cell_to_faces_rename {L1 L2 : List FaceEntry} {σ τ : Nat → Nat} {n m : Nat}
    {ctf1 ctf2 : List (List Int)}
    (h1 : fillCellToFaces 0 (L1.map toFace) (List.replicate n (List.replicate m (-1)))
      = .ok ctf1)
    (h2 : fillCellToFaces 0 (L2.map toFace) (List.replicate n (List.replicate m (-1)))
      = .ok ctf2)
    (hu1 : ∀ (t t1 : Nat) (e e1 : FaceEntry), L1[t]? = some e → L1[t1]? = some e1 →
      ∀ i j, (toFace e).HasSlot i j → (toFace e1).HasSlot i j → t1 = t)
    (hu2 : ∀ (t t1 : Nat) (e e1 : FaceEntry), L2[t]? = some e → L2[t1]? = some e1 →
      ∀ i j, (toFace e).HasSlot i j → (toFace e1).HasSlot i j → t1 = t)
    (hτ : ∀ (t : Nat) (e : FaceEntry), L1[t]? = some e → L2[τ t]? = some (renumberEntry σ e))
    (hback : ∀ e2 ∈ L2, ∃ e ∈ L1, e2 = renumberEntry σ e)
    (hσlt : ∀ c, c < n → σ c < n)
    (hσinj : ∀ c d, c < n → d < n → σ c = σ d → c = d)
    (c : Nat) (hc : c < n) (k : Int) :
    look2 ctf2 ((σ c : Nat) : Int) k = (look2 ctf1 (c : Int) k).map (renumberFace τ) := by
  have hslot : ∀ (e : FaceEntry) (d : Nat), (toFace e).HasSlot (d : Int) k →
      (toFace (renumberEntry σ e)).HasSlot ((σ d : Nat) : Int) k := by
    intro e d hs
    unfold face_t.HasSlot toFace renumberEntry at *
    simp only at hs ⊢
    rcases hs with ⟨a, b⟩ | ⟨a, b⟩
    · left; rw [a, renumberCell_natCast]; exact ⟨rfl, b⟩
    · right; rw [a, renumberCell_natCast]; exact ⟨rfl, b⟩
  by_cases hex : ∃ (t : Nat) (e : FaceEntry), L1[t]? = some e ∧ (toFace e).HasSlot (c : Int) k
  · obtain ⟨t, e, ht, hs⟩ := hex
    have a1 := fillCellToFaces_look2 (L1.map toFace) 0 _ ctf1 (c : Int) k t (toFace e) h1
      (by rw [List.getElem?_map, ht]; rfl) hs (by
        intro t1 face1 hf1 hs1
        rw [List.getElem?_map] at hf1
        obtain ⟨e1, he1, rfl⟩ := Option.map_eq_some'.mp hf1
        exact hu1 t t1 e e1 ht he1 _ _ hs hs1)
    have a2 := fillCellToFaces_look2 (L2.map toFace) 0 _ ctf2 ((σ c : Nat) : Int) k (τ t)
      (toFace (renumberEntry σ e)) h2
      (by rw [List.getElem?_map, hτ t e ht]; rfl) (hslot e c hs) (by
        intro t1 face1 hf1 hs1
        rw [List.getElem?_map] at hf1
        obtain ⟨e1, he1, rfl⟩ := Option.map_eq_some'.mp hf1
        exact hu2 (τ t) t1 _ e1 (hτ t e ht) he1 _ _ (hslot e c hs) hs1)
    rw [a1, a2, Nat.zero_add, Nat.zero_add, Option.map_some', renumberFace_natCast]
  · have hno1 : ∀ face ∈ L1.map toFace, ¬ face.HasSlot (c : Int) k := by
      intro face hface hs
      obtain ⟨e, he, rfl⟩ := List.mem_map.mp hface
      obtain ⟨t, ht⟩ := List.mem_iff_getElem?.mp he
      exact hex ⟨t, e, ht, hs⟩
    have hb := fillCellToFaces_bounds (L1.map toFace) 0 _ ctf1 h1 (replicate_shape n m (-1))
    have hno2 : ∀ face ∈ L2.map toFace, ¬ face.HasSlot ((σ c : Nat) : Int) k := by
      intro face hface hs
      obtain ⟨e2, he2, rfl⟩ := List.mem_map.mp hface
      obtain ⟨e, he, rfl⟩ := hback e2 he2
      have hin := hb (toFace e) (List.mem_map_of_mem _ he)
      apply hno1 (toFace e) (List.mem_map_of_mem _ he)
      unfold face_t.HasSlot toFace renumberEntry at hs
      simp only at hs
      rcases hs with ⟨a, b⟩ | ⟨a, b⟩
      · have hr := (hin e.1.1 e.1.2 (Or.inl ⟨rfl, rfl⟩)).1
        obtain ⟨d, hd⟩ : ∃ d : Nat, e.1.1 = (d : Int) := ⟨e.1.1.toNat, by omega⟩
        rw [hd, renumberCell_natCast] at a
        have hdn : d < n := by omega
        have := hσinj d c hdn hc (by exact_mod_cast a)
        subst this
        exact Or.inl ⟨hd, b⟩
      · have hr := (hin e.2.1 e.2.2 (Or.inr ⟨rfl, rfl⟩)).1
        obtain ⟨d, hd⟩ : ∃ d : Nat, e.2.1 = (d : Int) := ⟨e.2.1.toNat, by omega⟩
        rw [hd, renumberCell_natCast] at a
        have hdn : d < n := by omega
        have := hσinj d c hdn hc (by exact_mod_cast a)
        subst this
        exact Or.inr ⟨hd, b⟩
    rw [fillCellToFaces_untouched _ 0 _ ctf1 (c : Int) k h1 hno1,
      fillCellToFaces_untouched _ 0 _ ctf2 ((σ c : Nat) : Int) k h2 hno2,
      look2_replicate_row n _ c hc, look2_replicate_row n _ (σ c) (hσlt c hc)]
    cases hrow : look (List.replicate m (-1 : Int)) k with
    | none => rfl
    | some b =>
      have := List.eq_of_mem_replicate (look_mem hrow)
      subst this
      rfl

/-- C15 (amended): for a well-formed parent and a non-empty, duplicate-free list of owned
parent cells, `setupSubLocalMeshInfo` succeeds whatever order the unordered ghost, virtual and
face containers iterate in, and the children built under any two iteration orders are equal up
to a renumbering of the ghost and virtual cells and of the faces: same owned, ghost and
virtual counts, same cell data, same faces, same `cell_to_faces` rows. -/
theorem setupSubLocalMeshInfo_order_independent (order1 order2 : IterationOrder)
    (P : LocalMeshInfoBase R) (owned : List Int) (hwf : WellFormed P) (hne : owned ≠ [])
    (hnd : owned.Nodup) (hvalid : ∀ p ∈ owned, 0 ≤ p ∧ p < P.num_owned_cells) :
    ∃ (child1 child2 : LocalMeshInfoBase R) (σ τ : Nat → Nat),
      setupSubLocalMeshInfo order1 P owned = .ok child1 ∧
      setupSubLocalMeshInfo order2 P owned = .ok child2 ∧
      SameUpToRenumbering σ τ child1 child2 := by
  obtain ⟨child1, h1⟩ := setup_succeeds order1 hwf hne hvalid
  obtain ⟨child2, h2⟩ := setup_succeeds order2 hwf hne hvalid
  obtain ⟨sets, gc1, lc1, cv1, fs1, ctf1, _, _, _, _, _, _, hc, hgc1, hlc1, hcv1, hfs1, hctf1,
    rfl⟩ := setup_ok_inv h1
  obtain ⟨sets2, gc2, lc2, cv2, fs2, ctf2, _, _, _, _, _, _, hc2, hgc2, hlc2, hcv2, hfs2, hctf2,
    rfl⟩ := setup_ok_inv h2
  rw [hc] at hc2
  cases hc2
  have hcl := classifyPass_classified hc
  have hA := hcl.parents_nodup hwf hvalid hnd order1
  have hB := hcl.parents_nodup hwf hvalid hnd order2
  have hlenA := childParents_length order1 owned sets
  have hlenB := childParents_length order2 owned sets
  have hg : (order2.cells sets.1).length = (order1.cells sets.1).length :=
    ((order2.cells_perm sets.1).trans (order1.cells_perm sets.1).symm).length_eq
  have hv : (order2.cells sets.2).length = (order1.cells sets.2).length :=
    ((order2.cells_perm sets.2).trans (order1.cells_perm sets.2).symm).length_eq
  have hBA : (childParents order2 owned sets).length = (childParents order1 owned sets).length := by
    omega
  -- the renumbering of the cells
  obtain ⟨σ, hσget, hσown, hσgh, hσvi, hσinj⟩ : ∃ σ : Nat → Nat,
      (∀ (c : Nat) (n : Int), (childParents order1 owned sets)[c]? = some n →
        (childParents order2 owned sets)[σ c]? = some n) ∧
      (∀ c : Nat, c < owned.length → σ c = c) ∧
      (∀ c : Nat, owned.length ≤ c → c < owned.length + (order1.cells sets.1).length →
        owned.length ≤ σ c ∧ σ c < owned.length + (order1.cells sets.1).length) ∧
      (∀ c : Nat, owned.length + (order1.cells sets.1).length ≤ c →
        c < (childParents order1 owned sets).length →
        owned.length + (order1.cells sets.1).length ≤ σ c ∧
        σ c < (childParents order1 owned sets).length) ∧
      (∀ c d : Nat, c < (childParents order1 owned sets).length →
        d < (childParents order1 owned sets).length → σ c = σ d → c = d) :=
    ⟨_, childParents_renumber order1 order2 owned sets hB hA⟩
  have hσlt : ∀ c, c < (childParents order1 owned sets).length →
      σ c < (childParents order1 owned sets).length := by
    intro c hc
    have := (List.getElem?_eq_some_iff.mp (hσget c _ (List.getElem?_eq_getElem hc))).1
    omega
  have hinj : ∀ x y : Int, 0 ≤ x → x < ((childParents order1 owned sets).length : Int) →
      0 ≤ y → y < ((childParents order1 owned sets).length : Int) →
      renumberCell σ x = renumberCell σ y → x = y := by
    intro x y hx0 hx1 hy0 hy1 hxy
    unfold renumberCell at hxy
    have := hσinj x.toNat y.toNat (by omega) (by omega) (by exact_mod_cast hxy)
    omega
  -- the face map of the second child is the renumbered face map of the first
  have hren : createFaces P (sortCells (numberCells 0 (childParents order2 owned sets))) 0 owned
      (([] : List FaceEntry).map (renumberEntry σ)) = .ok (fs1.map (renumberEntry σ)) ∧
      ∀ e ∈ fs1, 0 ≤ e.1.1 ∧ e.1.1 < ((childParents order1 owned sets).length : Int) := by
    refine createFaces_rename σ _ hinj owned 0 [] fs1 hfs1 ?_ (by simp)
    intro i p hp
    rw [Nat.zero_add]
    have hi : i < owned.length := (List.getElem?_eq_some_iff.mp hp).1
    refine ⟨⟨by omega, hσown i hi⟩, ?_⟩
    intro k hk n entry hacross hlb
    have hnA := hcl.neighbor_mem order1 (List.getElem?_mem hp) hk hacross
    have hnB := hcl.neighbor_mem order2 (List.getElem?_mem hp) hk hacross
    rw [lookup_indexOf hnA] at hlb
    cases hlb
    simp only
    have hidx : (childParents order1 owned sets).indexOf n
        < (childParents order1 owned sets).length := List.indexOf_lt_length.mpr hnA
    have hidxB : (childParents order2 owned sets).indexOf n
        < (childParents order2 owned sets).length := List.indexOf_lt_length.mpr hnB
    have hσidx : σ ((childParents order1 owned sets).indexOf n)
        = (childParents order2 owned sets).indexOf n := by
      have a := hσget _ n (List.getElem?_indexOf hnA)
      have b := List.getElem?_indexOf hnB
      exact List.getElem?_inj (by rw [hBA]; exact hσlt _ hidx) hB (a.trans b.symm)
    rw [renumberCell_natCast, hσidx]
    refine ⟨⟨by omega, by omega⟩, ⟨_, lookup_indexOf hnB, rfl⟩, ?_⟩
    rw [← hσidx]
    by_cases hlt : (childParents order1 owned sets).indexOf n < owned.length
    · rw [hσown _ hlt]
    · by_cases hlt2 : (childParents order1 owned sets).indexOf n
          < owned.length + (order1.cells sets.1).length
      · have := hσgh _ (by omega) hlt2
        constructor <;> intro _ <;> omega
      · have := hσvi _ (by omega) hidx
        constructor <;> intro _ <;> omega
  have hfs2eq : fs2 = fs1.map (renumberEntry σ) := by
    have := hren.1
    rw [List.map_nil, hfs2] at this
    exact Except.ok.inj this
  subst hfs2eq
  -- the renumbering of the faces
  have hk1 := (createFaces_mem hfs1).1
  have hk2 := (createFaces_mem hfs2).1
  have hfs1nd : fs1.Nodup := List.Nodup.of_map _ hk1
  have hfs2nd : (fs1.map (renumberEntry σ)).Nodup := List.Nodup.of_map _ hk2
  have hL1nd : (order1.faces fs1).Nodup := (order1.faces_perm fs1).nodup_iff.mpr hfs1nd
  have hL2nd : (order2.faces (fs1.map (renumberEntry σ))).Nodup :=
    (order2.faces_perm _).nodup_iff.mpr hfs2nd
  have hmemρ : ∀ e ∈ order1.faces fs1,
      renumberEntry σ e ∈ order2.faces (fs1.map (renumberEntry σ)) := by
    intro e he
    exact (order2.faces_perm _).mem_iff.mpr
      (List.mem_map_of_mem _ ((order1.faces_perm fs1).mem_iff.mp he))
  have hmapnd : ((order1.faces fs1).map (renumberEntry σ)).Nodup :=
    ((order1.faces_perm fs1).map (renumberEntry σ)).nodup_iff.mpr hfs2nd
  have hF : (order2.faces (fs1.map (renumberEntry σ))).length = (order1.faces fs1).length := by
    rw [(order2.faces_perm _).length_eq, (order1.faces_perm _).length_eq, List.length_map]
  obtain ⟨τ, hτ, hτinj⟩ : ∃ τ : Nat → Nat,
      (∀ (t : Nat) (e : FaceEntry), (order1.faces fs1)[t]? = some e →
        (order2.faces (fs1.map (renumberEntry σ)))[τ t]? = some (renumberEntry σ e)) ∧
      (∀ f g : Nat, f < (order1.faces fs1).length → g < (order1.faces fs1).length →
        τ f = τ g → f = g) :=
    ⟨positionOf (renumberEntry σ) (order1.faces fs1)
        (order2.faces (fs1.map (renumberEntry σ))) ((0, 0), (0, 0)),
      fun t e ht => positionOf_getElem? ht (hmemρ e (List.getElem?_mem ht)),
      fun f g hf hg h => positionOf_injective hmapnd hmemρ hf hg h⟩
  have hτlt : ∀ f, f < (order1.faces fs1).length → τ f < (order1.faces fs1).length := by
    intro f hf
    have := (List.getElem?_eq_some_iff.mp (hτ f _ (List.getElem?_eq_getElem hf))).1
    omega
  have hback : ∀ e2 ∈ order2.faces (fs1.map (renumberEntry σ)),
      ∃ e ∈ order1.faces fs1, e2 = renumberEntry σ e := by
    intro e2 he2
    obtain ⟨e, he, rfl⟩ := List.mem_map.mp ((order2.faces_perm _).mem_iff.mp he2)
    exact ⟨e, (order1.faces_perm fs1).mem_iff.mpr he, rfl⟩
  have hu1 : ∀ (t t1 : Nat) (e e1 : FaceEntry), (order1.faces fs1)[t]? = some e →
      (order1.faces fs1)[t1]? = some e1 →
      ∀ i j, (toFace e).HasSlot i j → (toFace e1).HasSlot i j → t1 = t := by
    intro t t1 e e1 ht ht1 i j hs hs1
    have := faces_slot_unique hwf hvalid hnd hc hfs1
      ((order1.faces_perm fs1).mem_iff.mp (List.getElem?_mem ht))
      ((order1.faces_perm fs1).mem_iff.mp (List.getElem?_mem ht1)) hs hs1
    subst this
    exact List.getElem?_inj (List.getElem?_eq_some_iff.mp ht1).1 hL1nd (ht1.trans ht.symm)
  have hu2 : ∀ (t t1 : Nat) (e e1 : FaceEntry),
      (order2.faces (fs1.map (renumberEntry σ)))[t]? = some e →
      (order2.faces (fs1.map (renumberEntry σ)))[t1]? = some e1 →
      ∀ i j, (toFace e).HasSlot i j → (toFace e1).HasSlot i j → t1 = t := by
    intro t t1 e e1 ht ht1 i j hs hs1
    have := faces_slot_unique hwf hvalid hnd hc hfs2
      ((order2.faces_perm _).mem_iff.mp (List.getElem?_mem ht))
      ((order2.faces_perm _).mem_iff.mp (List.getElem?_mem ht1)) hs hs1
    subst this
    exact List.getElem?_inj (List.getElem?_eq_some_iff.mp ht1).1 hL2nd (ht1.trans ht.symm)
  rw [hBA] at hctf2
  have hctf := cell_to_faces_rename hctf1 hctf2 hu1 hu2 hτ hback hσlt hσinj
  have hs1 := fillCellToFaces_shape _ 0 _ ctf1 hctf1 (replicate_shape _ _ (-1))
  have hs2 := fillCellToFaces_shape _ 0 _ ctf2 hctf2 (replicate_shape _ _ (-1))
  -- the cell data
  have hdata : ∀ {α : Type} {v out1 out2 : List α},
      copyCells v (childParents order1 owned sets) = .ok out1 →
      copyCells v (childParents order2 owned sets) = .ok out2 →
      ∀ c : Nat, c < (childParents order1 owned sets).length → out2[σ c]? = out1[c]? := by
    intro α v out1 out2 ho1 ho2 c hc
    have ha := List.getElem?_eq_getElem hc
    rw [copyCells_look ho1 c _ ha, copyCells_look ho2 (σ c) _ (hσget c _ ha)]
  refine ⟨_, _, σ, τ, h1, h2, ?_⟩
  refine ⟨rfl, ?_, ?_, rfl, rfl, rfl, ?_, ?_, ?_, ?_, ?_, ?_, ?_, ?_, ?_, ?_, ?_, ?_, ?_, ?_,
    ?_, ?_, ?_, ?_⟩
  · exact congrArg Nat.cast hg
  · exact congrArg Nat.cast hv
  · rw [copyCells_length hgc2, copyCells_length hgc1, hBA]
  · rw [copyCells_length hlc2, copyCells_length hlc1, hBA]
  · rw [copyCells_length hcv2, copyCells_length hcv1, hBA]
  · exact hs2.1.trans hs1.1.symm
  · simp only [List.length_map]
    exact hF
  · simp only [List.length_map]
    exact hF
  · intro c hc
    simp only at hc
    exact hσown c (by omega)
  · intro c hc1 hc2
    simp only at hc1 hc2 ⊢
    have := hσgh c (by omega) (by omega)
    omega
  · intro c hc1 hc2
    unfold LocalMeshInfoBase.totalCells at hc2 ⊢
    simp only at hc1 hc2 ⊢
    have := hσvi c (by omega) (by omega)
    omega
  · intro c d hc hd h
    unfold LocalMeshInfoBase.totalCells at hc hd
    simp only at hc hd
    exact hσinj c d (by omega) (by omega) h
  · intro f hf
    simp only [List.length_map] at hf ⊢
    exact hτlt f hf
  · intro f g hf hg h
    simp only [List.length_map] at hf hg
    exact hτinj f g hf hg h
  · intro c hc
    unfold LocalMeshInfoBase.totalCells at hc
    simp only at hc
    exact hdata hgc1 hgc2 c (by omega)
  · intro c hc
    unfold LocalMeshInfoBase.totalCells at hc
    simp only at hc
    exact hdata hlc1 hlc2 c (by omega)
  · intro c hc
    unfold LocalMeshInfoBase.totalCells at hc
    simp only at hc
    exact hdata hcv1 hcv2 c (by omega)
  · intro f cells hf
    simp only [List.getElem?_map] at hf ⊢
    obtain ⟨face, hface, rfl⟩ := Option.map_eq_some'.mp hf
    obtain ⟨e, he, rfl⟩ := Option.map_eq_some'.mp hface
    rw [hτ f e he]
    rfl
  · intro f hf
    simp only [List.length_map] at hf
    simp only [List.getElem?_map]
    rw [hτ f _ (List.getElem?_eq_getElem hf), List.getElem?_eq_getElem hf]
    rfl
  · intro c hc k
    unfold LocalMeshInfoBase.totalCells at hc
    simp only at hc
    exact hctf c (by omega) k

theorem setupSubLocalMeshInfo_order_independent_witness :
    ∃ (child1 child2 : LocalMeshInfoBase Int) (σ τ : Nat → Nat),
      setupSubLocalMeshInfo IterationOrder.insertion scenarioParent [1, 2] = .ok child1 ∧
      setupSubLocalMeshInfo IterationOrder.reversed scenarioParent [1, 2] = .ok child2 ∧
      SameUpToRenumbering σ τ child1 child2 :=
  setupSubLocalMeshInfo_order_independent IterationOrder.insertion IterationOrder.reversed
    scenarioParent [1, 2] (by decide) (by decide) (by decide) (by decide)

/-- C15 (as stated, refuted): on the well-formed scenario parent the non-empty owned list
`[1, 1]` lies in `[0, num_owned_cells)`, and `setupSubLocalMeshInfo` succeeds for it when the
containers iterate in insertion order and when they iterate in reversed order; the two
children have the same counts, but no renumbering of the ghost cells and of the faces makes
them equal: in the first child slot 1 of the ghost copy of parent cell 0 holds the face shared
with owned cell 1, in the second the face shared with owned cell 0. -/
theorem setupSubLocalMeshInfo_order_independent_counterexample :
    WellFormed scenarioParent ∧ ([1, 1] : List Int) ≠ [] ∧
    (∀ p ∈ ([1, 1] : List Int), 0 ≤ p ∧ p < scenarioParent.num_owned_cells) ∧
    ∃ child1 child2 : LocalMeshInfoBase Int,
      setupSubLocalMeshInfo IterationOrder.insertion scenarioParent [1, 1] = .ok child1 ∧
      setupSubLocalMeshInfo IterationOrder.reversed scenarioParent [1, 1] = .ok child2 ∧
      (child1.num_owned_cells, child1.num_ghstd_cells, child1.num_virtual_cells)
        = (child2.num_owned_cells, child2.num_ghstd_cells, child2.num_virtual_cells) ∧
      ¬ ∃ σ τ : Nat → Nat, SameUpToRenumbering σ τ child1 child2 := by
  refine ⟨by decide, by decide, by decide,
    { num_owned_cells := 2, num_ghstd_cells := 2, num_virtual_cells := 0
      global_cells := [101, 101, 100, 102], local_cells := [1, 1, 0, 2]
      cell_vertices := [[[1], [2]], [[1], [2]], [[0], [1]], [[2], [3]]]
      num_vertices_per_cell := 2, num_dims := 1
      cell_to_faces := [[0, 1], [2, 3], [-1, 2], [3, -1]], num_faces_per_cell := 2
      face_to_cells := [(0, 2), (0, 3), (1, 2), (1, 3)]
      face_to_lidx := [(0, 1), (1, 0), (0, 1), (1, 0)] },
    { num_owned_cells := 2, num_ghstd_cells := 2, num_virtual_cells := 0
      global_cells := [101, 101, 102, 100], local_cells := [1, 1, 2, 0]
      cell_vertices := [[[1], [2]], [[1], [2]], [[2], [3]], [[0], [1]]]
      num_vertices_per_cell := 2, num_dims := 1
      cell_to_faces := [[3, 2], [1, 0], [2, -1], [-1, 3]], num_faces_per_cell := 2
      face_to_cells := [(1, 2), (1, 3), (0, 2), (0, 3)]
      face_to_lidx := [(1, 0), (0, 1), (1, 0), (0, 1)] }, rfl, rfl, rfl, ?_⟩
  rintro ⟨σ, τ, hS⟩
  have hσ1 : σ 1 = 1 := hS.owned_fixed 1 (by decide)
  have hσ2 : σ 2 = 3 := by
    have h := hS.global_cells 2 (by decide)
    simp only at h
    generalize σ 2 = x at h
    rcases x with _ | _ | _ | _ | x <;> simp at h ⊢
  have hτ2 : τ 2 = 1 := by
    have h := hS.face_to_cells 2 (1, 2) rfl
    simp only [renumberCell] at h
    rw [show ((1 : Int).toNat) = 1 from rfl, show ((2 : Int).toNat) = 2 from rfl, hσ1, hσ2] at h
    generalize τ 2 = x at h
    rcases x with _ | _ | _ | _ | x <;> simp at h ⊢
  have h := hS.cell_to_faces 2 (by decide) 1
  rw [hσ2] at h
  have e1 : look2 ([[3, 2], [1, 0], [2, -1], [-1, 3]] : List (List Int)) ((3 : Nat) : Int) 1
      = some 3 := rfl
  have e2 : look2 ([[0, 1], [2, 3], [-1, 2], [3, -1]] : List (List Int)) ((2 : Nat) : Int) 1
      = some 2 := rfl
  simp only at h
  rw [e1, e2, Option.map_some', show (2 : Int) = ((2 : Nat) : Int) from rfl,
    renumberFace_natCast, hτ2] at h
  simp at h

/-- The sideset branch of `generateLocalMeshPartitions` (lines 428-451) when the three
assertions pass and the sideset is present. -/
theorem generateLocalMeshPartitions_sideset (order : IterationOrder)
    (mesh_info : LocalMeshInfo R) (description : WorksetDescriptor)
    (partitions : List (LocalMeshPartition R))
    (hsize : description.getWorksetSize ≠ CLASSIC_MODE ∧ description.getWorksetSize ≠ 0)
    (hreq : description.requiresPartitioning = true)
    {sideset_map : List (String × LocalMeshSidesetInfo R)}
    {sideset_info : LocalMeshSidesetInfo R} (hs : description.useSideset = true)
    (h1 : mesh_info.sidesets.lookup description.getElementBlock = some sideset_map)
    (h2 : sideset_map.lookup description.getSideset = some sideset_info) :
    generateLocalMeshPartitions order mesh_info description partitions =
      match splitMeshInfo order sideset_info.toLocalMeshInfoBase description.getWorksetSize
          partitions with
      | .error e => .failed e
      | .ok split =>
        .returned (split.map (tagSideset description.getSideset description.getElementBlock
          sideset_info.cell_topology)) := by
  unfold generateLocalMeshPartitions
  simp only [hsize.1, hsize.2, if_false, hreq, Bool.true_eq_false, hs, if_true, h1, h2]

/-- The element block branch of `generateLocalMeshPartitions` (lines 453-478) when the three
assertions pass and the element block is present; `ALL_ELEMENTS` is the `-1` of line 464. -/
theorem generateLocalMeshPartitions_block (order : IterationOrder)
    (mesh_info : LocalMeshInfo R) (description : WorksetDescriptor)
    (partitions : List (LocalMeshPartition R))
    (hsize : description.getWorksetSize ≠ CLASSIC_MODE ∧ description.getWorksetSize ≠ 0)
    (hreq : description.requiresPartitioning = true)
    {block_info : LocalMeshBlockInfo R} (hs : description.useSideset = false)
    (h1 : mesh_info.element_blocks.lookup description.getElementBlock = some block_info) :
    generateLocalMeshPartitions order mesh_info description partitions =
      match splitMeshInfo order block_info.toLocalMeshInfoBase description.getWorksetSize
          partitions with
      | .error e => .failed e
      | .ok split =>
        .returned (split.map (tagBlock description.getElementBlock
          block_info.cell_topology)) := by
  have hall : (if description.getWorksetSize = ALL_ELEMENTS then
        splitMeshInfo order block_info.toLocalMeshInfoBase (-1) partitions
      else splitMeshInfo order block_info.toLocalMeshInfoBase description.getWorksetSize
        partitions) = splitMeshInfo order block_info.toLocalMeshInfoBase
          description.getWorksetSize partitions := by
    split
    · rename_i h
      rw [h]
      rfl
    · rfl
  unfold generateLocalMeshPartitions
  simp only [hsize.1, hsize.2, if_false, hreq, Bool.true_eq_false, hs, Bool.false_eq_true, h1]
  rw [hall]

/-- C21: for a descriptor with a valid size policy (not `CLASSIC_MODE`, not 0) whose region is
present, whatever `generateLocalMeshPartitions` returns from an empty sequence is what
`splitMeshInfo` produces from the located sideset-scoped or block-scoped mesh info with
the descriptor's workset size, entry by entry the same mesh info, tagged with the requested
element block name, the requested sideset name when the descriptor names a sideset (the
sideset name is left as `splitMeshInfo` made it otherwise), the cell topology of the located
info and `has_connectivity = true`; and when the descriptor requires partitioning (the
assertion of line 423) the call returns exactly when `splitMeshInfo` does, and fails with
the failure of `splitMeshInfo` otherwise. -/
theorem generateLocalMeshPartitions_refines_splitMeshInfo (order : IterationOrder)
    (mesh_info : LocalMeshInfo R) (description : WorksetDescriptor)
    (hsize : description.getWorksetSize ≠ CLASSIC_MODE ∧ description.getWorksetSize ≠ 0) :
    (∀ (sideset_map : List (String × LocalMeshSidesetInfo R))
        (sideset_info : LocalMeshSidesetInfo R),
      description.useSideset = true →
      mesh_info.sidesets.lookup description.getElementBlock = some sideset_map →
      sideset_map.lookup description.getSideset = some sideset_info →
      (∀ out, generateLocalMeshPartitions order mesh_info description [] = .returned out →
        ∃ split, splitMeshInfo order sideset_info.toLocalMeshInfoBase
            description.getWorksetSize [] = .ok split ∧
          out.length = split.length ∧
          ∀ (i : Nat) (p : LocalMeshPartition R), out[i]? = some p →
            ∃ q, split[i]? = some q ∧ p.toLocalMeshInfoBase = q.toLocalMeshInfoBase ∧
              p.element_block_name = description.getElementBlock ∧
              p.sideset_name = description.getSideset ∧
              p.cell_topology = sideset_info.cell_topology ∧ p.has_connectivity = true) ∧
      (description.requiresPartitioning = true →
        generateLocalMeshPartitions order mesh_info description [] =
          match splitMeshInfo order sideset_info.toLocalMeshInfoBase
              description.getWorksetSize [] with
          | .error e => .failed e
          | .ok split =>
            .returned (split.map (tagSideset description.getSideset
              description.getElementBlock sideset_info.cell_topology)))) ∧
    (∀ (block_info : LocalMeshBlockInfo R),
      description.useSideset = false →
      mesh_info.element_blocks.lookup description.getElementBlock = some block_info →
      (∀ out, generateLocalMeshPartitions order mesh_info description [] = .returned out →
        ∃ split, splitMeshInfo order block_info.toLocalMeshInfoBase
            description.getWorksetSize [] = .ok split ∧
          out.length = split.length ∧
          ∀ (i : Nat) (p : LocalMeshPartition R), out[i]? = some p →
            ∃ q, split[i]? = some q ∧ p.toLocalMeshInfoBase = q.toLocalMeshInfoBase ∧
              p.element_block_name = description.getElementBlock ∧
              p.sideset_name = q.sideset_name ∧
              p.cell_topology = block_info.cell_topology ∧ p.has_connectivity = true) ∧
      (description.requiresPartitioning = true →
        generateLocalMeshPartitions order mesh_info description [] =
          match splitMeshInfo order block_info.toLocalMeshInfoBase
              description.getWorksetSize [] with
          | .error e => .failed e
          | .ok split =>
            .returned (split.map (tagBlock description.getElementBlock
              block_info.cell_topology)))) := by
  have hnot : description.requiresPartitioning = false →
      ∀ out, generateLocalMeshPartitions order mesh_info description [] ≠ .returned out := by
    intro hreq out h
    unfold generateLocalMeshPartitions at h
    rw [if_neg hsize.1, if_neg hsize.2, if_pos hreq] at h
    cases h
  constructor
  · intro sideset_map sideset_info hs h1 h2
    have hgen := generateLocalMeshPartitions_sideset order mesh_info description [] hsize
    refine ⟨?_, fun hreq => hgen hreq hs h1 h2⟩
    intro out hout
    cases hreq : description.requiresPartitioning with
    | false => exact absurd hout (hnot hreq out)
    | true =>
      rw [hgen hreq hs h1 h2] at hout
      split at hout
      · cases hout
      rename_i split hsplit
      cases hout
      refine ⟨split, hsplit, List.length_map _ _, ?_⟩
      intro i p hp
      rw [List.getElem?_map] at hp
      obtain ⟨q, hq, rfl⟩ := Option.map_eq_some'.mp hp
      exact ⟨q, hq, rfl, rfl, rfl, rfl, rfl⟩
  · intro block_info hs h1
    have hgen := generateLocalMeshPartitions_block order mesh_info description [] hsize
    refine ⟨?_, fun hreq => hgen hreq hs h1⟩
    intro out hout
    cases hreq : description.requiresPartitioning with
    | false => exact absurd hout (hnot hreq out)
    | true =>
      rw [hgen hreq hs h1] at hout
      split at hout
      · cases hout
      rename_i split hsplit
      cases hout
      refine ⟨split, hsplit, List.length_map _ _, ?_⟩
      intro i p hp
      rw [List.getElem?_map] at hp
      obtain ⟨q, hq, rfl⟩ := Option.map_eq_some'.mp hp
      exact ⟨q, hq, rfl, rfl, rfl, rfl, rfl⟩

theorem generateLocalMeshPartitions_refines_splitMeshInfo_witness :
    (∀ out, generateLocalMeshPartitions IterationOrder.insertion scenarioMesh
        ⟨"block", "", false, 2, true⟩ [] = .returned out →
      ∃ split, splitMeshInfo IterationOrder.insertion scenarioParent 2 [] = .ok split ∧
        out.length = split.length ∧
        ∀ (i : Nat) (p : LocalMeshPartition Int), out[i]? = some p →
          ∃ q, split[i]? = some q ∧ p.toLocalMeshInfoBase = q.toLocalMeshInfoBase ∧
            p.element_block_name = "block" ∧ p.sideset_name = q.sideset_name ∧
            p.cell_topology = some "Line_2" ∧ p.has_connectivity = true) ∧
    (true = true →
      generateLocalMeshPartitions IterationOrder.insertion scenarioMesh
          ⟨"block", "", false, 2, true⟩ [] =
        match splitMeshInfo IterationOrder.insertion scenarioParent 2 [] with
        | .error e => .failed e
        | .ok split => .returned (split.map (tagBlock "block" (some "Line_2")))) :=
  (generateLocalMeshPartitions_refines_splitMeshInfo IterationOrder.insertion scenarioMesh
    ⟨"block", "", false, 2, true⟩ (by decide)).2
    { scenarioParent with cell_topology := some "Line_2" } rfl rfl

/-- C27: `setupSubLocalMeshInfo` fails whenever the leading extent of the parent's
`cell_to_faces`, `cell_vertices`, `local_cells` or `global_cells` differs from
`num_owned_cells + num_ghstd_cells + num_virtual_cells`; the failure is the assertion of
line 110 when the list of owned cells is not empty, the parent has owned cells and the extent
of `cell_to_faces` differs, and it is one of the assertions of lines 207-209 when the call
gets through the classification pass. -/
theorem setupSubLocalMeshInfo_extent_mismatch (order : IterationOrder)
    (P : LocalMeshInfoBase R) (owned : List Int)
    (h : (P.cell_to_faces.length : Int) ≠ P.totalCells ∨
      (P.cell_vertices.length : Int) ≠ P.totalCells ∨
      (P.local_cells.length : Int) ≠ P.totalCells ∨
      (P.global_cells.length : Int) ≠ P.totalCells) :
    (∃ e, setupSubLocalMeshInfo order P owned = .error e) ∧
    (owned ≠ [] → 0 < P.num_owned_cells → (P.cell_to_faces.length : Int) ≠ P.totalCells →
      setupSubLocalMeshInfo order P owned = .error .parentExtentMismatch) ∧
    (owned ≠ [] → 0 < P.num_owned_cells → (∃ sets, classifyPass P owned = .ok sets) →
      setupSubLocalMeshInfo order P owned = .error .parentExtentMismatch) := by
  have h0 : owned ≠ [] → ¬ owned.length = 0 := fun hne hx => hne (List.length_eq_zero.mp hx)
  refine ⟨?_, ?_, ?_⟩
  · cases hres : setupSubLocalMeshInfo order P owned with
    | error e => exact ⟨e, rfl⟩
    | ok child =>
      obtain ⟨_, _, _, _, _, _, _, _, a1, a2, a3, a4, _⟩ := setup_ok_inv hres
      rcases h with h | h | h | h
      · exact absurd a1 h
      · exact absurd a2 h
      · exact absurd a3 h
      · exact absurd a4 h
  · intro hne hpos hctf
    unfold setupSubLocalMeshInfo
    rw [if_neg (h0 hne), if_neg (by omega), if_pos hctf]
  · rintro hne hpos ⟨sets, hsets⟩
    unfold setupSubLocalMeshInfo
    rw [if_neg (h0 hne), if_neg (by omega)]
    by_cases hctf : (P.cell_to_faces.length : Int) ≠ P.totalCells
    · rw [if_pos hctf]
    · rw [if_neg hctf, hsets]
      have hrest : (P.cell_vertices.length : Int) ≠ P.totalCells ∨
          (P.local_cells.length : Int) ≠ P.totalCells ∨
          (P.global_cells.length : Int) ≠ P.totalCells := by
        rcases h with h | h
        · exact absurd h hctf
        · exact h
      simp only [hrest, if_true]

theorem setupSubLocalMeshInfo_extent_mismatch_witness :
    (∃ e, setupSubLocalMeshInfo IterationOrder.insertion
      { scenarioParent with global_cells := [100, 101, 102] } [1, 2] = .error e) ∧
    (([1, 2] : List Int) ≠ [] → (0 : Int) < 4 → ((6 : Nat) : Int) ≠ 4 + 0 + 2 →
      setupSubLocalMeshInfo IterationOrder.insertion
        { scenarioParent with global_cells := [100, 101, 102] } [1, 2]
        = .error .parentExtentMismatch) ∧
    (([1, 2] : List Int) ≠ [] → (0 : Int) < 4 →
      (∃ sets, classifyPass { scenarioParent with global_cells := [100, 101, 102] } [1, 2]
        = .ok sets) →
      setupSubLocalMeshInfo IterationOrder.insertion
        { scenarioParent with global_cells := [100, 101, 102] } [1, 2]
        = .error .parentExtentMismatch) :=
  setupSubLocalMeshInfo_extent_mismatch IterationOrder.insertion
    { scenarioParent with global_cells := [100, 101, 102] } [1, 2]
    (Or.inr (Or.inr (Or.inr (by decide))))

theorem viewAt_error {α : Type} {v : List α} {i : Int} {e : Failure}
    (h : viewAt v i = .error e) : e = .outOfBounds := by
  unfold viewAt at h
  split at h <;> cases h
  rfl

theorem viewAt2_error {α : Type} {v : List (List α)} {i j : Int} {e : Failure}
    (h : viewAt2 v i j = .error e) : e = .outOfBounds := by
  unfold viewAt2 at h
  split at h <;> cases h
  rfl

theorem viewSet2_error {α : Type} {v : List (List α)} {i j : Int} {a : α} {e : Failure}
    (h : viewSet2 v i j a = .error e) : e = .outOfBounds := by
  unfold viewSet2 at h
  split at h <;> cases h
  rfl

theorem acrossFace_error {P : LocalMeshInfoBase R} {p : Int} {k : Nat} {e : Failure}
    (h : acrossFace P p k = .error e) : e = .outOfBounds := by
  unfold acrossFace at h
  split at h
  · rename_i e1 h1
    cases h
    exact viewAt2_error h1
  · split at h
    · cases h
    · split at h
      · rename_i e1 h1
        cases h
        exact viewAt_error h1
      · cases h

/-- The exceptions of the classification loops: a read outside a view or the negative
neighbour of line 153. -/
theorem classifyCells_error {P : LocalMeshInfoBase R} {owned : List Int} :
    ∀ (cells : List Int) (sets : List Int × List Int) (e : Failure),
      classifyCells P owned cells sets = .error e → e = .outOfBounds ∨ e = .negativeNeighbor := by
  have face : ∀ (p : Int) (sets : List Int × List Int) (k : Nat) (e : Failure),
      classifyFace P owned p sets k = .error e → e = .outOfBounds ∨ e = .negativeNeighbor := by
    intro p sets k e h
    unfold classifyFace at h
    split at h
    · rename_i e1 h1
      cases h
      exact Or.inl (acrossFace_error h1)
    · cases h
    · split at h
      · cases h
        exact Or.inr rfl
      · cases h
  have cell : ∀ (p : Int) (slots : List Nat) (sets : List Int × List Int) (e : Failure),
      classifyCell P owned p slots sets = .error e →
      e = .outOfBounds ∨ e = .negativeNeighbor := by
    intro p slots
    induction slots with
    | nil => intro sets e h; cases h
    | cons k slots ih =>
      intro sets e h
      unfold classifyCell at h
      split at h
      · rename_i e1 h1
        cases h
        exact face p sets k _ h1
      · exact ih _ e h
  intro cells
  induction cells with
  | nil => intro sets e h; cases h
  | cons p cells ih =>
    intro sets e h
    unfold classifyCells at h
    split at h
    · rename_i e1 h1
      cases h
      exact cell p _ sets _ h1
    · exact ih _ e h

theorem copyCells_error {α : Type} {v : List α} :
    ∀ {parents : List Int} {e : Failure}, copyCells v parents = .error e → e = .outOfBounds
  | [], e, h => by cases h
  | p :: parents, e, h => by
    unfold copyCells at h
    split at h
    · rename_i e1 h1
      cases h
      exact viewAt_error h1
    · split at h
      · rename_i e1 h1
        cases h
        exact copyCells_error h1
      · cases h

/-- The exceptions of the face loops: a read outside a view or the missing neighbour of
line 296. -/
theorem createFaces_error {P : LocalMeshInfoBase R} {sorted : List (Int × Int)} :
    ∀ (cells : List Int) (start : Nat) (fs : List FaceEntry) (e : Failure),
      createFaces P sorted start cells fs = .error e →
      e = .outOfBounds ∨ e = .neighborNotFound := by
  have face : ∀ (o : Nat) (p : Int) (fs : List FaceEntry) (k : Nat) (e : Failure),
      createFace P sorted o p fs k = .error e → e = .outOfBounds ∨ e = .neighborNotFound := by
    intro o p fs k e h
    unfold createFace at h
    split at h
    · rename_i e1 h1
      cases h
      exact Or.inl (acrossFace_error h1)
    · cases h
    · split at h
      · rename_i e1 h1
        cases h
        exact Or.inl (viewAt_error h1)
      · simp only at h
        split at h
        · cases h
          exact Or.inr rfl
        · split at h <;> cases h
  have cell : ∀ (o : Nat) (p : Int) (slots : List Nat) (fs : List FaceEntry) (e : Failure),
      createCellFaces P sorted o p slots fs = .error e →
      e = .outOfBounds ∨ e = .neighborNotFound := by
    intro o p slots
    induction slots with
    | nil => intro fs e h; cases h
    | cons k slots ih =>
      intro fs e h
      unfold createCellFaces at h
      split at h
      · rename_i e1 h1
        cases h
        exact face o p fs k _ h1
      · exact ih _ e h
  intro cells
  induction cells with
  | nil => intro start fs e h; cases h
  | cons p cells ih =>
    intro start fs e h
    unfold createFaces at h
    split at h
    · rename_i e1 h1
      cases h
      exact cell start p _ fs _ h1
    · exact ih _ _ e h

theorem fillCellToFaces_error :
    ∀ (faces : List face_t) (start : Nat) (v : List (List Int)) (e : Failure),
      fillCellToFaces start faces v = .error e → e = .outOfBounds
  | [], _, _, e, h => by cases h
  | face :: faces, start, v, e, h => by
    unfold fillCellToFaces at h
    split at h
    · rename_i e1 h1
      cases h
      exact viewSet2_error h1
    · split at h
      · rename_i e1 h1
        cases h
        exact viewSet2_error h1
      · exact fillCellToFaces_error faces _ _ e h

/-- The exceptions of `setupSubLocalMeshInfo`. -/
theorem setup_error {order : IterationOrder} {P : LocalMeshInfoBase R} {owned : List Int}
    {e : Failure} (h : setupSubLocalMeshInfo order P owned = .error e) :
    e = .noOwnedParentCells ∨ e = .parentWithoutOwnedCells ∨ e = .parentExtentMismatch ∨
      e = .negativeNeighbor ∨ e = .neighborNotFound ∨ e = .outOfBounds := by
  unfold setupSubLocalMeshInfo at h
  split at h
  · cases h; exact Or.inl rfl
  split at h
  · cases h; exact Or.inr (Or.inl rfl)
  split at h
  · cases h; exact Or.inr (Or.inr (Or.inl rfl))
  split at h
  · rename_i e1 h1
    cases h
    rcases classifyCells_error _ _ _ h1 with h2 | h2
    · exact Or.inr (Or.inr (Or.inr (Or.inr (Or.inr h2))))
    · exact Or.inr (Or.inr (Or.inr (Or.inl h2)))
  simp only at h
  split at h
  · cases h; exact Or.inr (Or.inr (Or.inl rfl))
  split at h
  · split at h
    · rename_i e1 h1
      cases h
      rcases createFaces_error _ _ _ _ h1 with h2 | h2
      · exact Or.inr (Or.inr (Or.inr (Or.inr (Or.inr h2))))
      · exact Or.inr (Or.inr (Or.inr (Or.inr (Or.inl h2))))
    · split at h
      · rename_i e1 h1
        cases h
        exact Or.inr (Or.inr (Or.inr (Or.inr (Or.inr (fillCellToFaces_error _ _ _ _ h1)))))
      · cases h
  · cases h
    exact Or.inr (Or.inr (Or.inr (Or.inr (Or.inr rfl))))

theorem setup_error_ne_nullPartition {order : IterationOrder} {P : LocalMeshInfoBase R}
    {owned : List Int} {e : Failure} (h : setupSubLocalMeshInfo order P owned = .error e) :
    e ≠ .nullPartition := by
  rcases setup_error h with h | h | h | h | h | h <;> rw [h] <;> decide

theorem splitCalls_spec {order : IterationOrder} {P : LocalMeshInfoBase R} {base : Int}
    (hb : 0 < base) :
    ∀ (fuel : Nat) (cc : Int), 0 ≤ cc →
      (∀ cells ∈ splitCalls order P base fuel cc,
        cells ≠ [] ∧ ∀ c ∈ cells, 0 ≤ c ∧ c < P.num_owned_cells) ∧
      (∀ parts : List (LocalMeshPartition R),
        splitLoop order P base fuel cc parts ≠ .error .nullPartition) ∧
      (∀ parts out : List (LocalMeshPartition R), splitLoop order P base fuel cc parts = .ok out →
        ∃ news, out = parts ++ news ∧
          List.Forall₂ (fun cells (q : LocalMeshPartition R) =>
            setupSubLocalMeshInfo order P cells = .ok q.toLocalMeshInfoBase)
            (splitCalls order P base fuel cc) news) := by
  intro fuel
  induction fuel with
  | zero =>
    intro cc _
    refine ⟨by simp [splitCalls], ?_, ?_⟩
    · intro parts h
      unfold splitLoop at h
      split at h <;> cases h
    · intro parts out h
      unfold splitLoop at h
      split at h
      · cases h
      · cases h
        exact ⟨[], by simp, by simp [splitCalls]⟩
  | succ fuel ih =>
    intro cc hcc
    by_cases hlt : cc < P.num_owned_cells
    swap
    · refine ⟨by simp [splitCalls, hlt], ?_, ?_⟩
      · intro parts h
        unfold splitLoop at h
        rw [if_neg hlt] at h
        cases h
      · intro parts out h
        unfold splitLoop at h
        rw [if_neg hlt] at h
        cases h
        exact ⟨[], by simp, by simp [splitCalls, hlt]⟩
    -- the size of this chunk
    obtain ⟨ps, hps, hps0, hpsN⟩ : ∃ ps : Int,
        (if cc + base > P.num_owned_cells then P.num_owned_cells - cc else base) = ps ∧
        0 < ps ∧ cc + ps ≤ P.num_owned_cells := by
      refine ⟨_, rfl, ?_, ?_⟩ <;> split <;> omega
    have hcalls : splitCalls order P base (fuel + 1) cc =
        partitionCells cc ps ::
          match setupSubLocalMeshInfo order P (partitionCells cc ps) with
          | .error _ => []
          | .ok _ => splitCalls order P base fuel (cc + ps) := by
      rw [splitCalls, if_pos hlt]
      simp only [hps]
      rw [if_neg (by omega), if_neg (by omega)]
    have hloop : ∀ parts : List (LocalMeshPartition R),
        splitLoop order P base (fuel + 1) cc parts =
          match setupSubLocalMeshInfo order P (partitionCells cc ps) with
          | .error e => .error e
          | .ok sub_info =>
            splitLoop order P base fuel (cc + ps) (parts ++ [newPartition sub_info]) := by
      intro parts
      rw [splitLoop, if_pos hlt]
      simp only [hps]
      rw [if_neg (by omega), if_neg (by omega)]
    have hcells : partitionCells cc ps ≠ [] ∧
        ∀ c ∈ partitionCells cc ps, 0 ≤ c ∧ c < P.num_owned_cells := by
      constructor
      · intro hnil
        have := congrArg List.length hnil
        simp only [partitionCells, List.length_map, List.length_range, List.length_nil] at this
        omega
      · intro c hc
        simp only [partitionCells, List.mem_map, List.mem_range] at hc
        obtain ⟨i, hi, rfl⟩ := hc
        omega
    obtain ⟨ih1, ih2, ih3⟩ := ih (cc + ps) (by omega)
    refine ⟨?_, ?_, ?_⟩
    · intro cells hmem
      rw [hcalls] at hmem
      rcases List.mem_cons.mp hmem with h | h
      · rw [h]; exact hcells
      · split at h
        · simp at h
        · exact ih1 cells h
    · intro parts h
      rw [hloop] at h
      split at h
      · rename_i e hsetup
        cases h
        exact setup_error_ne_nullPartition hsetup rfl
      · exact ih2 _ h
    · intro parts out h
      rw [hloop] at h
      split at h
      · cases h
      rename_i sub hsub
      obtain ⟨news, hout, hall⟩ := ih3 _ out h
      refine ⟨newPartition sub :: news, by rw [hout]; simp, ?_⟩
      rw [hcalls, hsub]
      exact List.Forall₂.cons hsub hall

/-- C26: for every mesh info and every splitting size that is positive or `ALL_ELEMENTS`,
`splitMeshInfo` never fails with the assertion `partition_size != 0` of line 389; every call
of `setupSubLocalMeshInfo` it makes has a non-empty list of owned cells with all indices in
`[0, num_owned_cells)`; and these calls are the ones that fill the appended partitions. -/
theorem splitMeshInfo_no_null_partition (order : IterationOrder) (P : LocalMeshInfoBase R)
    (s : Int) (hs : 0 < s ∨ s = ALL_ELEMENTS) :
    (∀ parts : List (LocalMeshPartition R),
      splitMeshInfo order P s parts ≠ .error .nullPartition) ∧
    (∀ cells ∈ splitMeshInfoCalls order P s,
      cells ≠ [] ∧ ∀ c ∈ cells, 0 ≤ c ∧ c < P.num_owned_cells) ∧
    (∀ parts out : List (LocalMeshPartition R), splitMeshInfo order P s parts = .ok out →
      ∃ news, out = parts ++ news ∧
        List.Forall₂ (fun cells (q : LocalMeshPartition R) =>
          setupSubLocalMeshInfo order P cells = .ok q.toLocalMeshInfoBase)
          (splitMeshInfoCalls order P s) news) := by
  have hcalls : splitMeshInfoCalls order P s =
      if basePartitionSize P s < 0 then []
      else splitCalls order P (basePartitionSize P s) P.num_owned_cells.toNat 0 := by
    unfold splitMeshInfoCalls
    rw [if_neg (not_not.mpr hs)]
    rfl
  have hsplit : ∀ parts : List (LocalMeshPartition R), splitMeshInfo order P s parts =
      if basePartitionSize P s < 0 then .error .lengthError
      else splitLoop order P (basePartitionSize P s) P.num_owned_cells.toNat 0 parts := by
    intro parts
    rw [splitMeshInfo_eq, if_neg (not_not.mpr hs)]
  by_cases hneg : basePartitionSize P s < 0
  · refine ⟨?_, ?_, ?_⟩
    · intro parts h
      rw [hsplit, if_pos hneg] at h
      cases h
    · intro cells hc
      rw [hcalls, if_pos hneg] at hc
      simp at hc
    · intro parts out h
      rw [hsplit, if_pos hneg] at h
      cases h
  by_cases hzero : basePartitionSize P s = 0
  · have hN : P.num_owned_cells = 0 := by
      unfold basePartitionSize at hzero
      rcases hs with hs | hs
      · rw [if_pos hs] at hzero
        omega
      · have : ¬ s > 0 := by rw [hs]; decide
        rw [if_neg this] at hzero
        omega
    have hfuel : P.num_owned_cells.toNat = 0 := by rw [hN]; rfl
    refine ⟨?_, ?_, ?_⟩
    · intro parts h
      rw [hsplit, if_neg hneg, hfuel] at h
      unfold splitLoop at h
      split at h <;> cases h
    · intro cells hc
      rw [hcalls, if_neg hneg, hfuel] at hc
      simp [splitCalls] at hc
    · intro parts out h
      rw [hsplit, if_neg hneg, hfuel] at h
      unfold splitLoop at h
      split at h
      · cases h
      · cases h
        refine ⟨[], by simp, ?_⟩
        rw [hcalls, if_neg hneg, hfuel]
        simp [splitCalls]
  · obtain ⟨h1, h2, h3⟩ := @splitCalls_spec R order P (basePartitionSize P s)
      (show 0 < basePartitionSize P s by omega) P.num_owned_cells.toNat 0 le_rfl
    refine ⟨?_, ?_, ?_⟩
    · intro parts
      rw [hsplit, if_neg hneg]
      exact h2 parts
    · rw [hcalls, if_neg hneg]
      exact h1
    · intro parts out h
      rw [hsplit, if_neg hneg] at h
      rw [hcalls, if_neg hneg]
      exact h3 parts out h

theorem splitMeshInfo_no_null_partition_witness :
    ((0 : Int) < 3 ∨ (3 : Int) = ALL_ELEMENTS) ∧
    splitMeshInfoCalls IterationOrder.insertion scenarioParent 3 = [[0, 1, 2], [3]] ∧
    (∀ parts : List (LocalMeshPartition Int),
      splitMeshInfo IterationOrder.insertion scenarioParent 3 parts ≠ .error .nullPartition) ∧
    (∀ cells ∈ splitMeshInfoCalls IterationOrder.insertion scenarioParent 3,
      cells ≠ [] ∧ ∀ c ∈ cells, 0 ≤ c ∧ c < scenarioParent.num_owned_cells) ∧
    (∀ parts out : List (LocalMeshPartition Int),
      splitMeshInfo IterationOrder.insertion scenarioParent 3 parts = .ok out →
      ∃ news, out = parts ++ news ∧
        List.Forall₂ (fun cells (q : LocalMeshPartition Int) =>
          setupSubLocalMeshInfo IterationOrder.insertion scenarioParent cells
            = .ok q.toLocalMeshInfoBase)
          (splitMeshInfoCalls IterationOrder.insertion scenarioParent 3) news) :=
  ⟨Or.inl (by decide), rfl,
    splitMeshInfo_no_null_partition IterationOrder.insertion scenarioParent 3
      (Or.inl (by decide))⟩

theorem sum_range_ite (n i : Nat) (f : Nat → Int) :
    ((List.range n).map fun q => if q = i then f q else 0).sum = if i < n then f i else 0 := by
  induction n with
  | zero => simp
  | succ n ih =>
    rw [List.range_succ, List.map_append, List.sum_append, ih]
    simp only [List.map_cons, List.map_nil, List.sum_cons, List.sum_nil, add_zero]
    by_cases h1 : i < n
    · have h2 : ¬ n = i := by omega
      have h3 : i < n + 1 := by omega
      simp [h1, h2, h3]
    · by_cases h2 : n = i
      · subst h2
        simp
      · have h3 : ¬ i < n + 1 := by omega
        simp [h1, h2, h3]

theorem my_distribution_getD (n q i : Nat) (x : Int) (hi : i < n) :
    (my_distribution n q x).getD i 0 = if q = i then x else 0 := by
  unfold my_distribution
  rw [List.getD_eq_getElem?_getD, List.getElem?_set]
  by_cases h : q = i
  · subst h
    simp [hi]
  · simp [h, hi]

/-- The sum-reduction of the buffers of lines 536-537 gives every rank the list of the counts
of all ranks. -/
theorem reduceAll_my_distribution (n : Nat) (c : Nat → Int) :
    reduceAll n ((List.range n).map fun (q : Nat) => my_distribution n q (c q))
      = (List.range n).map c := by
  unfold reduceAll
  apply List.map_congr_left
  intro i hi
  have hi2 : i < n := List.mem_range.mp hi
  rw [List.map_map]
  have : ((fun buffer : List Int => buffer.getD i 0) ∘ fun (q : Nat) => my_distribution n q (c q))
      = fun q => if q = i then c q else 0 := by
    funext q
    exact my_distribution_getD n q i (c q) hi2
  rw [this, sum_range_ite, if_pos hi2]

theorem foldl_add_getD (l : List Int) :
    ∀ (n : Nat) (a : Int), (List.range n).foldl (fun (acc : Int) (i : Nat) => acc + l.getD i 0) a
      = a + (l.take n).sum := by
  intro n
  induction n with
  | zero => intro a; simp
  | succ n ih =>
    intro a
    rw [List.range_succ, List.foldl_append, ih]
    simp only [List.foldl_cons, List.foldl_nil]
    by_cases h : n < l.length
    · rw [List.take_succ, List.sum_append, List.getD_eq_getElem?_getD,
        List.getElem?_eq_getElem h]
      simp [add_assoc]
    · have h1 : l.take (n + 1) = l := List.take_of_length_le (by omega)
      have h2 : l.take n = l := List.take_of_length_le (by omega)
      rw [h1, h2, List.getD_eq_getElem?_getD, List.getElem?_eq_none (by omega)]
      simp

theorem map_getD_range {α β : Type} (l : List α) (d : α) (f : α → β) :
    (List.range l.length).map (fun (q : Nat) => f (l.getD q d)) = l.map f := by
  apply List.ext_getElem?
  intro i
  rw [List.getElem?_map, List.getElem?_map]
  by_cases hi : i < l.length
  · rw [List.getElem?_range hi, List.getElem?_eq_getElem hi]
    simp [List.getD_eq_getElem?_getD, List.getElem?_eq_getElem hi]
  · rw [List.getElem?_eq_none (by simpa using hi), List.getElem?_eq_none (by omega)]
    rfl

/-- The ids `fillLocalCellIDs` gives the virtual cells of a rank, in closed form. -/
theorem fillLocalCellIDs_eq (world : List RankMesh) (rank : Nat) :
    fillLocalCellIDs world rank =
      { owned_cells := (world.getD rank default).getOwnedGlobalCellID
        ghost_cells := (world.getD rank default).getGhostGlobalCellID
        virtual_cells :=
          (List.range (all_boundary_faces
            (world.getD rank default).getFaceToElementsMap).length).map fun (i : Nat) =>
              (world.map RankMesh.num_owned_cells).sum
                + ((world.take rank).map RankMesh.num_virtual_cells).sum + (i : Int) } := by
  unfold fillLocalCellIDs
  simp only
  rw [reduceAll_my_distribution world.length
      (fun q => (world.getD q default).num_owned_cells),
    reduceAll_my_distribution world.length
      (fun q => (world.getD q default).num_virtual_cells),
    foldl_add_getD, foldl_add_getD, map_getD_range world default RankMesh.num_owned_cells,
    map_getD_range world default RankMesh.num_virtual_cells]
  have hlen : (world.map RankMesh.num_owned_cells).take world.length
      = world.map RankMesh.num_owned_cells :=
    List.take_of_length_le (by rw [List.length_map])
  simp only [zero_add, hlen, List.map_take]

theorem sum_num_virtual_cells (l : List RankMesh) :
    (l.map RankMesh.num_virtual_cells).sum
      = (((l.map fun mesh => (all_boundary_faces mesh.getFaceToElementsMap).length).sum : Nat)
          : Int) := by
  induction l with
  | nil => rfl
  | cons mesh l ih =>
    simp only [List.map_cons, List.sum_cons, ih, Nat.cast_add]
    rfl

/-- C22: with `o[q]` and `v[q]` the owned-cell and virtual-cell counts of rank `q`,
`fillLocalCellIDs` on rank `r` makes `v[r]` virtual cells, and
`virtual_cells[i] = (sum of o[q] over all ranks) + (sum of v[q] over the ranks q < r) + i`
for every `0 <= i < v[r]`: a contiguous range, in the order of the scan of the boundary
faces. -/
theorem fillLocalCellIDs_virtual_cells (world : List RankMesh) (r : Nat) :
    ((fillLocalCellIDs world r).virtual_cells.length : Int)
      = (world.getD r default).num_virtual_cells ∧
    ∀ i : Nat, (i : Int) < (world.getD r default).num_virtual_cells →
      (fillLocalCellIDs world r).virtual_cells[i]? =
        some ((world.map RankMesh.num_owned_cells).sum
          + ((world.take r).map RankMesh.num_virtual_cells).sum + (i : Int)) := by
  rw [fillLocalCellIDs_eq]
  simp only [List.length_map, List.length_range]
  refine ⟨rfl, ?_⟩
  intro i hi
  have hi2 : i < (all_boundary_faces (world.getD r default).getFaceToElementsMap).length := by
    unfold RankMesh.num_virtual_cells at hi
    exact_mod_cast hi
  rw [List.getElem?_map, List.getElem?_range hi2]
  rfl

theorem fillLocalCellIDs_virtual_cells_witness :
    (fillLocalCellIDs chainWorld 2).virtual_cells = [6] ∧
    (chainWorld.map RankMesh.num_owned_cells).sum = 5 ∧
    ((chainWorld.take 2).map RankMesh.num_virtual_cells).sum = 1 ∧
    ((0 : Nat) : Int) < (chainWorld.getD 2 default).num_virtual_cells ∧
    (fillLocalCellIDs chainWorld 2).virtual_cells[0]? =
      some ((chainWorld.map RankMesh.num_owned_cells).sum
        + ((chainWorld.take 2).map RankMesh.num_virtual_cells).sum + ((0 : Nat) : Int)) :=
  ⟨rfl, rfl, rfl, by decide, (fillLocalCellIDs_virtual_cells chainWorld 2).2 0 (by decide)⟩

/-- The virtual ids of the ranks below `k`, one rank after the other. -/
theorem virtual_ids_prefix (world : List RankMesh) :
    ∀ k : Nat, k ≤ world.length →
      (List.range k).flatMap (fun r => (fillLocalCellIDs world r).virtual_cells)
        = (List.range ((world.take k).map fun mesh =>
            (all_boundary_faces mesh.getFaceToElementsMap).length).sum).map
          fun (i : Nat) => (world.map RankMesh.num_owned_cells).sum + (i : Int) := by
  intro k
  induction k with
  | zero => intro _; simp
  | succ k ih =>
    intro hk
    have hk2 : k < world.length := by omega
    rw [List.range_succ, List.flatMap_append, ih (by omega)]
    simp only [List.flatMap_cons, List.flatMap_nil, List.append_nil]
    rw [fillLocalCellIDs_eq]
    simp only
    rw [List.take_succ, List.getElem?_eq_getElem hk2]
    simp only [Option.toList_some, List.map_append, List.map_cons, List.map_nil,
      List.sum_append, List.sum_cons, List.sum_nil, add_zero]
    rw [List.range_add, List.map_append, List.map_map, sum_num_virtual_cells]
    have hget : world.getD k default = world[k] := by
      rw [List.getD_eq_getElem?_getD, List.getElem?_eq_getElem hk2]
      rfl
    rw [hget]
    congr 1
    apply List.map_congr_left
    intro i _
    simp only [Function.comp, Nat.cast_add]
    ring

/-- C23: for every number of ranks and every per-rank counts, the virtual-cell ids that
`fillLocalCellIDs` assigns on the ranks 0, 1, ..., taken one rank after the other, are
`R, R+1, ..., R+V-1` with `R` the total owned count and `V` the total virtual count: the
gap-free range `[R, R + V)`, each id once, so no two virtual cells of the same rank or of
different ranks receive the same id. -/
theorem fillLocalCellIDs_virtual_ids (world : List RankMesh) :
    (List.range world.length).flatMap (fun r => (fillLocalCellIDs world r).virtual_cells)
      = (List.range (world.map fun mesh =>
          (all_boundary_faces mesh.getFaceToElementsMap).length).sum).map
        (fun (i : Nat) => (world.map RankMesh.num_owned_cells).sum + (i : Int)) ∧
    ((List.range world.length).flatMap
      fun r => (fillLocalCellIDs world r).virtual_cells).Nodup := by
  have h := virtual_ids_prefix world world.length le_rfl
  rw [List.take_length] at h
  refine ⟨h, ?_⟩
  rw [h]
  refine List.Nodup.map ?_ (List.nodup_range _)
  intro a b hab
  simp only at hab
  omega

/-- C24 (amended): when every real-cell global id of every rank is smaller than the total
number `R` of owned cells (as when the real cells are numbered `0 .. R-1`), no virtual-cell
global id assigned by `fillLocalCellIDs` on any rank equals the global id of an owned cell on
any rank. -/
theorem fillLocalCellIDs_virtual_not_real (world : List RankMesh)
    (hreal : ∀ mesh ∈ world, ∀ g ∈ mesh.getOwnedGlobalCellID,
      g < (world.map RankMesh.num_owned_cells).sum)
    (r r2 : Nat) (x : Int) (hx : x ∈ (fillLocalCellIDs world r).virtual_cells) :
    x ∉ (fillLocalCellIDs world r2).owned_cells := by
  rw [fillLocalCellIDs_eq] at hx ⊢
  simp only [List.mem_map, List.mem_range] at hx
  obtain ⟨i, _, rfl⟩ := hx
  simp only
  intro hmem
  have hnn : 0 ≤ ((world.take r).map RankMesh.num_virtual_cells).sum := by
    rw [sum_num_virtual_cells]
    exact Int.ofNat_nonneg _
  by_cases hr2 : r2 < world.length
  · have hget : world.getD r2 default = world[r2] := by
      rw [List.getD_eq_getElem?_getD, List.getElem?_eq_getElem hr2]
      rfl
    rw [hget] at hmem
    have := hreal _ (List.getElem_mem hr2) _ hmem
    omega
  · have hget : world.getD r2 default = default := by
      rw [List.getD_eq_getElem?_getD, List.getElem?_eq_none (by omega)]
      rfl
    rw [hget] at hmem
    exact absurd hmem (List.not_mem_nil _)

theorem fillLocalCellIDs_virtual_not_real_witness :
    (∀ mesh ∈ chainWorld, ∀ g ∈ mesh.getOwnedGlobalCellID,
      g < (chainWorld.map RankMesh.num_owned_cells).sum) ∧
    (6 : Int) ∈ (fillLocalCellIDs chainWorld 2).virtual_cells ∧
    (6 : Int) ∉ (fillLocalCellIDs chainWorld 0).owned_cells :=
  ⟨by decide, by decide,
    fillLocalCellIDs_virtual_not_real chainWorld (by decide) 2 0 6 (by decide)⟩

/-- C24 (as stated, refuted): on one rank whose two owned cells have the global ids 1 and 2
and whose chain has a boundary face at each end, `fillLocalCellIDs` gives the two virtual
cells the ids 2 and 3: the id 2 is both a virtual-cell id and the global id of an owned
cell. -/
theorem fillLocalCellIDs_virtual_not_real_counterexample :
    (fillLocalCellIDs oneBasedWorld 0).owned_cells = [1, 2] ∧
    (fillLocalCellIDs oneBasedWorld 0).virtual_cells = [2, 3] ∧
    ¬ ∀ (r r2 : Nat) (x : Int), x ∈ (fillLocalCellIDs oneBasedWorld r).virtual_cells →
      x ∉ (fillLocalCellIDs oneBasedWorld r2).owned_cells := by
  refine ⟨rfl, rfl, ?_⟩
  intro h
  exact h 0 0 2 (by decide) (by decide)

theorem all_boundary_faces_length (elems_by_face : List (Int × Int)) :
    (all_boundary_faces elems_by_face).length
      = elems_by_face.countP fun row => decide (row.1 < 0 ∨ row.2 < 0) := by
  unfold all_boundary_faces
  rw [← List.countP_eq_length_filter]
  have := map_getD_range elems_by_face (0, 0) id
  simp only [id, List.map_id] at this
  conv_rhs => rw [← this]
  rw [List.countP_map]
  rfl

/-- C28: the number of virtual cells `fillLocalCellIDs` creates on a rank is the number of
faces of the face-to-elements map that have a negative cell on side 0 or on side 1; the list
`all_boundary_faces` holds exactly these faces, in increasing face index and each once; and
the virtual cell at position `i` is the one of the face at position `i` of that list. -/
theorem fillLocalCellIDs_virtual_count (world : List RankMesh) (r : Nat) :
    (fillLocalCellIDs world r).virtual_cells.length
      = (world.getD r default).getFaceToElementsMap.countP
          (fun row => decide (row.1 < 0 ∨ row.2 < 0)) ∧
    (fillLocalCellIDs world r).virtual_cells.length
      = (all_boundary_faces (world.getD r default).getFaceToElementsMap).length ∧
    (all_boundary_faces (world.getD r default).getFaceToElementsMap).Pairwise (· < ·) ∧
    (∀ face : Nat, face ∈ all_boundary_faces (world.getD r default).getFaceToElementsMap ↔
      ∃ row, (world.getD r default).getFaceToElementsMap[face]? = some row ∧
        (row.1 < 0 ∨ row.2 < 0)) ∧
    (∀ (i face : Nat),
      (all_boundary_faces (world.getD r default).getFaceToElementsMap)[i]? = some face →
      (fillLocalCellIDs world r).virtual_cells[i]? =
        some ((world.map RankMesh.num_owned_cells).sum
          + ((world.take r).map RankMesh.num_virtual_cells).sum + (i : Int))) := by
  have hlen : (fillLocalCellIDs world r).virtual_cells.length
      = (all_boundary_faces (world.getD r default).getFaceToElementsMap).length := by
    rw [fillLocalCellIDs_eq]
    simp only [List.length_map, List.length_range]
  refine ⟨by rw [hlen, all_boundary_faces_length], hlen, ?_, ?_, ?_⟩
  · unfold all_boundary_faces
    exact List.Pairwise.filter _ (List.pairwise_lt_range _)
  · intro face
    unfold all_boundary_faces
    rw [List.mem_filter, List.mem_range, decide_eq_true_iff]
    constructor
    · rintro ⟨hlt, hneg⟩
      refine ⟨_, List.getElem?_eq_getElem hlt, ?_⟩
      rw [List.getD_eq_getElem?_getD, List.getElem?_eq_getElem hlt] at hneg
      exact hneg
    · rintro ⟨row, hrow, hneg⟩
      refine ⟨(List.getElem?_eq_some_iff.mp hrow).1, ?_⟩
      rw [List.getD_eq_getElem?_getD, hrow]
      exact hneg
  · intro i face hi
    have hi2 := (List.getElem?_eq_some_iff.mp hi).1
    rw [fillLocalCellIDs_eq]
    simp only
    rw [List.getElem?_map, List.getElem?_range hi2]
    rfl

theorem fillLocalCellIDs_virtual_count_witness :
    all_boundary_faces (chainWorld.getD 2 default).getFaceToElementsMap = [2] ∧
    (fillLocalCellIDs chainWorld 2).virtual_cells = [6] ∧
    (all_boundary_faces (chainWorld.getD 2 default).getFaceToElementsMap)[0]? = some 2 ∧
    (fillLocalCellIDs chainWorld 2).virtual_cells[0]? =
      some ((chainWorld.map RankMesh.num_owned_cells).sum
        + ((chainWorld.take 2).map RankMesh.num_virtual_cells).sum + ((0 : Nat) : Int)) :=
  ⟨rfl, rfl, rfl, (fillLocalCellIDs_virtual_count chainWorld 2).2.2.2.2 0 2 rfl⟩

theorem mapPushBack_keys {κ α : Type} [LinearOrder κ] (a : α) (k0 : κ) :
    ∀ (m : List (κ × List α)) (k : κ),
      k ∈ (mapPushBack m k0 a).map Prod.fst ↔ k = k0 ∨ k ∈ m.map Prod.fst
  | [], k => by simp [mapPushBack]
  | (k1, v1) :: rest, k => by
    unfold mapPushBack
    by_cases h1 : k0 < k1
    · simp [h1]
    · by_cases h2 : k0 = k1
      · subst h2
        simp
      · simp only [h1, h2, if_false, List.map_cons, List.mem_cons,
          mapPushBack_keys a k0 rest k]
        tauto

theorem mapPushBack_sorted {κ α : Type} [LinearOrder κ] (a : α) (k0 : κ) :
    ∀ (m : List (κ × List α)), (m.map Prod.fst).Pairwise (· < ·) →
      ((mapPushBack m k0 a).map Prod.fst).Pairwise (· < ·)
  | [], _ => by simp [mapPushBack]
  | (k1, v1) :: rest, hs => by
    have hs2 := hs
    simp only [List.map_cons, List.pairwise_cons] at hs2
    unfold mapPushBack
    by_cases h1 : k0 < k1
    · simp only [h1, if_true, List.map_cons, List.pairwise_cons]
      refine ⟨?_, hs2⟩
      intro k hk
      rcases List.mem_cons.mp hk with h | h
      · rw [h]; exact h1
      · exact lt_trans h1 (hs2.1 k h)
    · by_cases h2 : k0 = k1
      · subst h2
        simp only [lt_self_iff_false, if_false, if_true, List.map_cons]
        exact hs
      · simp only [h1, h2, if_false, List.map_cons, List.pairwise_cons]
        refine ⟨?_, mapPushBack_sorted a k0 rest hs2.2⟩
        intro k hk
        rcases (mapPushBack_keys a k0 rest k).mp hk with h | h
        · rw [h]
          exact lt_of_le_of_ne (not_lt.mp h1) (fun hx => h2 hx.symm)
        · exact hs2.1 k h

/-- The entries of a map after `m[k0].push_back(a)`. -/
theorem mapPushBack_mem {κ α : Type} [LinearOrder κ] (a : α) (k0 : κ) :
    ∀ (m : List (κ × List α)), (m.map Prod.fst).Pairwise (· < ·) → ∀ (k : κ) (v : List α),
      ((k, v) ∈ mapPushBack m k0 a ↔
        (k ≠ k0 ∧ (k, v) ∈ m) ∨
        (k = k0 ∧ ((∃ v0, (k0, v0) ∈ m ∧ v = v0 ++ [a]) ∨
          (k0 ∉ m.map Prod.fst ∧ v = [a]))))
  | [], _, k, v => by
    simp only [mapPushBack, List.mem_singleton, Prod.mk.injEq, List.not_mem_nil, and_false,
      false_and, exists_false, List.map_nil, not_false_eq_true, true_and, false_or, ne_eq]
  | (k1, v1) :: rest, hs, k, v => by
    have hs2 := hs
    simp only [List.map_cons, List.pairwise_cons] at hs2
    have hfresh : ∀ w, (k1, w) ∉ rest := by
      intro w hw
      exact lt_irrefl k1 (hs2.1 k1 (List.mem_map.mpr ⟨(k1, w), hw, rfl⟩))
    have hnot : k0 < k1 → k0 ∉ ((k1, v1) :: rest).map Prod.fst := by
      intro h1 hx
      rcases List.mem_cons.mp hx with h | h
      · exact absurd h (ne_of_lt h1)
      · exact lt_asymm h1 (hs2.1 k0 h)
    unfold mapPushBack
    by_cases h1 : k0 < k1
    · have hnot2 : ∀ w, (k0, w) ∉ (k1, v1) :: rest :=
        fun w hw => hnot h1 (List.mem_map.mpr ⟨(k0, w), hw, rfl⟩)
      rw [if_pos h1, List.mem_cons]
      constructor
      · rintro (h | h)
        · cases h
          exact Or.inr ⟨rfl, Or.inr ⟨hnot h1, rfl⟩⟩
        · by_cases hk : k = k0
          · subst hk
            exact absurd h (hnot2 v)
          · exact Or.inl ⟨hk, h⟩
      · rintro (⟨_, h⟩ | ⟨rfl, ⟨v0, h, _⟩ | ⟨_, rfl⟩⟩)
        · exact Or.inr h
        · exact absurd h (hnot2 v0)
        · exact Or.inl rfl
    · by_cases h2 : k0 = k1
      · rw [if_neg h1, if_pos h2, List.mem_cons]
        constructor
        · rintro (h | h)
          · cases h
            exact Or.inr ⟨h2.symm, Or.inl ⟨v1, by rw [h2]; exact List.mem_cons_self _ _, rfl⟩⟩
          · by_cases hk : k = k0
            · rw [hk, h2] at h
              exact absurd h (hfresh v)
            · exact Or.inl ⟨hk, List.mem_cons_of_mem _ h⟩
        · rintro (⟨hne, h⟩ | ⟨hk, ⟨v0, h, hv⟩ | ⟨h, _⟩⟩)
          · rcases List.mem_cons.mp h with h | h
            · cases h
              exact absurd h2.symm hne
            · exact Or.inr h
          · rcases List.mem_cons.mp h with h | h
            · cases h
              exact Or.inl (by rw [hv, hk])
            · rw [h2] at h
              exact absurd h (hfresh v0)
          · exact absurd (by rw [h2]; exact List.mem_cons_self _ _) h
      · have ih := mapPushBack_mem a k0 rest hs2.2 k v
        rw [if_neg h1, if_neg h2, List.mem_cons, ih]
        constructor
        · rintro (h | ⟨hne, h⟩ | ⟨hk, ⟨v0, h, hv⟩ | ⟨h, hv⟩⟩)
          · cases h
            exact Or.inl ⟨fun hx => h2 hx.symm, List.mem_cons_self _ _⟩
          · exact Or.inl ⟨hne, List.mem_cons_of_mem _ h⟩
          · exact Or.inr ⟨hk, Or.inl ⟨v0, List.mem_cons_of_mem _ h, hv⟩⟩
          · refine Or.inr ⟨hk, Or.inr ⟨?_, hv⟩⟩
            intro hx
            rcases List.mem_cons.mp hx with e | e
            · exact h2 e
            · exact h e
        · rintro (⟨hne, h⟩ | ⟨hk, ⟨v0, h, hv⟩ | ⟨h, hv⟩⟩)
          · rcases List.mem_cons.mp h with h | h
            · exact Or.inl h
            · exact Or.inr (Or.inl ⟨hne, h⟩)
          · rcases List.mem_cons.mp h with h | h
            · cases h
              exact absurd rfl h2
            · exact Or.inr (Or.inr ⟨hk, Or.inl ⟨v0, h, hv⟩⟩)
          · exact Or.inr (Or.inr ⟨hk, Or.inr ⟨fun hx => h (List.mem_cons_of_mem _ hx), hv⟩⟩)

/-- The map built by `m[key x].push_back(val x)` for the items `x` of `xs` in turn: its keys
are the keys of the items, each once and in increasing order, and the vector under a key
holds the values of the items with that key, in the order of `xs`. -/
theorem foldl_mapPushBack {κ ι α : Type} [LinearOrder κ] (key : ι → κ) (val : ι → α)
    (xs : List ι) :
    ((xs.foldl (fun m x => mapPushBack m (key x) (val x)) []).map Prod.fst).Pairwise (· < ·) ∧
    ∀ (k : κ) (v : List α),
      (k, v) ∈ xs.foldl (fun m x => mapPushBack m (key x) (val x)) [] ↔
        k ∈ xs.map key ∧ v = (xs.filter fun x => decide (key x = k)).map val := by
  induction xs using List.reverseRecOn with
  | nil => simp
  | append_singleton xs x ih =>
    rw [List.foldl_append]
    simp only [List.foldl_cons, List.foldl_nil]
    refine ⟨mapPushBack_sorted _ _ _ ih.1, ?_⟩
    intro k v
    rw [mapPushBack_mem _ _ _ ih.1, List.map_append, List.filter_append, List.map_append,
      List.mem_append]
    have hkeys : ∀ k', k' ∈ (xs.foldl (fun m x => mapPushBack m (key x) (val x)) []).map
        Prod.fst ↔ k' ∈ xs.map key := by
      intro k'
      constructor
      · intro hx
        obtain ⟨e, he, hek⟩ := List.mem_map.mp hx
        obtain ⟨a, b⟩ := e
        simp only at hek
        subst hek
        exact ((ih.2 a b).mp he).1
      · intro hx
        exact List.mem_map.mpr ⟨(k', _), (ih.2 k' _).mpr ⟨hx, rfl⟩, rfl⟩
    have hnone : ∀ k', k' ∉ xs.map key → (xs.filter fun y => decide (key y = k')) = [] := by
      intro k' hk'
      rw [List.filter_eq_nil_iff]
      intro y hy hyk
      exact hk' (List.mem_map.mpr ⟨y, hy, of_decide_eq_true hyk⟩)
    by_cases hk : k = key x
    · subst hk
      have hone : ([x].filter fun y => decide (key y = key x)) = [x] := by simp
      rw [hone]
      constructor
      · rintro (⟨hne, _⟩ | ⟨_, ⟨v0, h, hv⟩ | ⟨h, hv⟩⟩)
        · exact absurd rfl hne
        · refine ⟨Or.inr (by simp), ?_⟩
          rw [hv, ((ih.2 _ v0).mp h).2]
          rfl
        · refine ⟨Or.inr (by simp), ?_⟩
          rw [hv, hnone _ (fun hx => h ((hkeys _).mpr hx))]
          rfl
      · rintro ⟨_, hv⟩
        right
        refine ⟨rfl, ?_⟩
        by_cases hin : key x ∈ xs.map key
        · exact Or.inl ⟨_, (ih.2 _ _).mpr ⟨hin, rfl⟩, hv⟩
        · refine Or.inr ⟨fun hx => hin ((hkeys _).mp hx), ?_⟩
          rw [hv, hnone _ hin]
          rfl
    · have hzero : ([x].filter fun y => decide (key y = k)) = [] := by
        have hx : ¬ key x = k := fun e => hk e.symm
        simp [hx]
      rw [hzero]
      simp only [List.map_nil, List.append_nil, List.map_cons, List.mem_singleton]
      constructor
      · rintro (⟨_, h⟩ | ⟨h, _⟩)
        · exact ⟨Or.inl ((ih.2 k v).mp h).1, ((ih.2 k v).mp h).2⟩
        · exact absurd h hk
      · rintro ⟨h | h, hv⟩
        · exact Or.inl ⟨hk, (ih.2 k v).mpr ⟨h, hv⟩⟩
        · exact absurd h hk

/-- After `m[k0].push_back(a)` the vectors of the map hold one entry more, `a`. -/
theorem mapPushBack_perm {κ α : Type} [LinearOrder κ] (a : α) (k0 : κ) :
    ∀ (m : List (κ × List α)),
      ((mapPushBack m k0 a).flatMap Prod.snd).Perm (m.flatMap Prod.snd ++ [a])
  | [] => by simp [mapPushBack]
  | (k1, v1) :: rest => by
    unfold mapPushBack
    by_cases h1 : k0 < k1
    · rw [if_pos h1]
      simp only [List.flatMap_cons]
      exact (@List.perm_append_comm _ [a] _).trans (by simp)
    · by_cases h2 : k0 = k1
      · rw [if_neg h1, if_pos h2]
        simp only [List.flatMap_cons, List.append_assoc]
        exact List.Perm.append_left _ List.perm_append_comm
      · rw [if_neg h1, if_neg h2]
        simp only [List.flatMap_cons, List.append_assoc]
        exact List.Perm.append_left _ (mapPushBack_perm a k0 rest)

theorem foldl_mapPushBack_perm {κ ι α : Type} [LinearOrder κ] (key : ι → κ) (val : ι → α)
    (xs : List ι) :
    ((xs.foldl (fun m x => mapPushBack m (key x) (val x)) []).flatMap Prod.snd).Perm
      (xs.map val) := by
  induction xs using List.reverseRecOn with
  | nil => simp
  | append_singleton xs x ih =>
    rw [List.foldl_append]
    simp only [List.foldl_cons, List.foldl_nil, List.map_append, List.map_cons, List.map_nil]
    exact (mapPushBack_perm _ _ _).trans (List.Perm.append_right _ ih)

theorem mapAssign_append {κ β : Type} [LinearOrder κ] (k : κ) (w : β) :
    ∀ (m : List (κ × β)), (∀ e ∈ m, e.1 < k) → mapAssign m k w = m ++ [(k, w)]
  | [], _ => rfl
  | (k1, v1) :: rest, h => by
    have hlt : k1 < k := h (k1, v1) (List.mem_cons_self _ _)
    unfold mapAssign
    rw [if_neg (lt_asymm hlt), if_neg (ne_of_gt hlt),
      mapAssign_append k w rest (fun e he => h e (List.mem_cons_of_mem _ he))]
    rfl

/-- Assigning the entries of a list with increasing keys, one after the other, to a map
whose keys are all smaller appends them to it. -/
theorem foldl_mapAssign {κ α β : Type} [LinearOrder κ] (g : κ × α → β) :
    ∀ (l : List (κ × α)) (acc : List (κ × β)), (l.map Prod.fst).Pairwise (· < ·) →
      (∀ e ∈ acc, ∀ e1 ∈ l, e.1 < e1.1) →
      l.foldl (fun worksets side => mapAssign worksets side.1 (g side)) acc
        = acc ++ l.map fun side => (side.1, g side)
  | [], acc, _, _ => by simp
  | side :: l, acc, hs, hacc => by
    simp only [List.map_cons, List.pairwise_cons] at hs
    rw [List.foldl_cons, mapAssign_append _ _ _ (fun e he => hacc e he side
      (List.mem_cons_self _ _)), foldl_mapAssign g l _ hs.2]
    · simp
    · intro e he e1 he1
      rcases List.mem_append.mp he with h | h
      · exact hacc e h e1 (List.mem_cons_of_mem _ he1)
      · simp only [List.mem_singleton] at h
        rw [h]
        exact hs.1 _ (List.mem_map_of_mem _ he1)

theorem filter_getD_length (l : List Nat) (s : Nat) :
    ((List.range l.length).filter fun c => decide (l.getD c 0 = s)).length = l.count s := by
  rw [← List.countP_eq_length_filter]
  have h := map_getD_range l 0 id
  simp only [id, List.map_id] at h
  have h2 : l.count s = ((List.range l.length).map fun q => l.getD q 0).count s := by rw [h]
  rw [h2, List.count, List.countP_map]
  apply List.countP_congr
  intro c _
  simp

/-- A key below `2^31` is stored unchanged in the signed member `subcell_index`. -/
theorem unsignedToInt_of_lt {x : Nat} (h : x < 2 ^ 31) : unsignedToInt x = (x : Int) := by
  unfold unsignedToInt
  omega

/-- A key from `2^31` on, below `2^32`, is stored as the negative number `x - 2^32`. -/
theorem unsignedToInt_of_ge {x : Nat} (h1 : 2 ^ 31 ≤ x) (h2 : x < 2 ^ 32) :
    unsignedToInt x = (x : Int) - 2 ^ 32 := by
  unfold unsignedToInt
  omega

theorem mem_iff_getD {l : List Nat} {s : Nat} :
    s ∈ l ↔ ∃ c, c < l.length ∧ l.getD c 0 = s := by
  constructor
  · intro h
    obtain ⟨c, hc, rfl⟩ := List.getElem_of_mem h
    exact ⟨c, hc, by rw [List.getD_eq_getElem?_getD, List.getElem?_eq_getElem hc]; rfl⟩
  · rintro ⟨c, hc, rfl⟩
    rw [List.getD_eq_getElem?_getD, List.getElem?_eq_getElem hc]
    exact List.getElem_mem hc

/-- C29 (amended): the one-sided `buildBCWorkset` fails when `local_side_ids`,
`local_cell_ids` and the rows of `vertex_coordinates` are not of the same number; when they
are, and every local side id is below `2^32`, it returns a map with exactly one workset per
distinct local side id: the workset under key `s` has in `subcell_index` the key converted to
`int`, which is `s` for `s < 2^31` and `s - 2^32` from `2^31` on, it has `num_cells` equal to
the number of input cells with side id `s`, `cell_local_ids` equal to the ids of exactly those
cells in input order, and row `j` of its vertex coordinates is the input row of its `j`-th
cell; every input cell lands in exactly one workset. -/
theorem buildBCWorkset_one_workset_per_side (baseCellDimension : Int) (elementBlock : String)
    (local_cell_ids local_side_ids : List Nat) (vertex_coordinates : List (List (List R))) :
    (local_side_ids.length ≠ local_cell_ids.length ∨
        local_side_ids.length ≠ vertex_coordinates.length →
      ∃ e, buildBCWorkset baseCellDimension elementBlock local_cell_ids local_side_ids
        vertex_coordinates = .error e) ∧
    (local_side_ids.length = local_cell_ids.length →
      local_side_ids.length = vertex_coordinates.length →
      (∀ s ∈ local_side_ids, s < 2 ^ 32) →
      ∃ worksets, buildBCWorkset baseCellDimension elementBlock local_cell_ids local_side_ids
          vertex_coordinates = .ok worksets ∧
        (worksets.map Prod.fst).Pairwise (· < ·) ∧
        (∀ s, s ∈ worksets.map Prod.fst ↔ s ∈ local_side_ids) ∧
        (∀ (s : Nat) (w : Workset R), (s, w) ∈ worksets →
          w.subcell_index = unsignedToInt s ∧
          (s < 2 ^ 31 → w.subcell_index = (s : Int)) ∧
          (2 ^ 31 ≤ s → w.subcell_index = (s : Int) - 2 ^ 32) ∧
          w.num_cells = local_side_ids.count s ∧
          w.cell_local_ids =
            ((List.range local_cell_ids.length).filter fun c =>
              decide (local_side_ids.getD c 0 = s)).map (fun c => local_cell_ids.getD c 0) ∧
          w.cell_vertex_coordinates =
            ((List.range local_cell_ids.length).filter fun c =>
              decide (local_side_ids.getD c 0 = s)).map
                (fun c => vertex_coordinates.getD c [])) ∧
        (worksets.flatMap fun entry => entry.2.cell_local_ids).Perm local_cell_ids) := by
  constructor
  · intro h
    unfold buildBCWorkset
    by_cases h1 : local_side_ids.length ≠ local_cell_ids.length
    · exact ⟨_, if_pos h1⟩
    · have h2 : local_side_ids.length ≠ vertex_coordinates.length := by
        rcases h with h | h
        · exact absurd h h1
        · exact h
      rw [if_neg h1, if_pos h2]
      exact ⟨_, rfl⟩
  · intro hlen1 hlen2 hsmall
    have hfold := foldl_mapPushBack
      (fun (cell : Nat) => toUnsigned (local_side_ids.getD cell 0))
      (fun (cell : Nat) => (cell, local_cell_ids.getD cell 0))
      (List.range local_cell_ids.length)
    have hsorted : ((elementList local_cell_ids local_side_ids).map Prod.fst).Pairwise
        (· < ·) := hfold.1
    have hmem : ∀ (k : Nat) (v : List (Nat × Nat)),
        (k, v) ∈ elementList local_cell_ids local_side_ids ↔
          k ∈ (List.range local_cell_ids.length).map
            (fun (cell : Nat) => toUnsigned (local_side_ids.getD cell 0)) ∧
          v = ((List.range local_cell_ids.length).filter fun x =>
            decide (toUnsigned (local_side_ids.getD x 0) = k)).map
              fun (cell : Nat) => (cell, local_cell_ids.getD cell 0) := hfold.2
    have hres : buildBCWorkset baseCellDimension elementBlock local_cell_ids local_side_ids
        vertex_coordinates = .ok ((elementList local_cell_ids local_side_ids).map fun side =>
          (side.1, sideWorkset baseCellDimension elementBlock vertex_coordinates side)) := by
      unfold buildBCWorkset
      rw [if_neg (not_not.mpr hlen1), if_neg (not_not.mpr hlen2)]
      simp only
      rw [foldl_mapAssign _ _ [] hsorted (by simp)]
      rfl
    have hkey : ∀ c, c < local_cell_ids.length →
        toUnsigned (local_side_ids.getD c 0) = local_side_ids.getD c 0 := by
      intro c hc
      unfold toUnsigned
      exact Nat.mod_eq_of_lt (hsmall _ (mem_iff_getD.mpr ⟨c, by omega, rfl⟩))
    have hfilter : ∀ s, ((List.range local_cell_ids.length).filter fun c =>
          decide (toUnsigned (local_side_ids.getD c 0) = s))
        = (List.range local_cell_ids.length).filter fun c =>
          decide (local_side_ids.getD c 0 = s) := by
      intro s
      apply List.filter_congr
      intro c hc
      rw [hkey c (List.mem_range.mp hc)]
    refine ⟨_, hres, ?_, ?_, ?_, ?_⟩
    · rw [List.map_map]
      exact hsorted
    · intro s
      rw [List.map_map]
      constructor
      · intro hs
        obtain ⟨side, hside, rfl⟩ := List.mem_map.mp hs
        obtain ⟨k, v⟩ := side
        obtain ⟨hk, _⟩ := (hmem k v).mp hside
        obtain ⟨c, hc, rfl⟩ := List.mem_map.mp hk
        have hc2 := List.mem_range.mp hc
        simp only [Function.comp]
        rw [hkey c hc2]
        exact mem_iff_getD.mpr ⟨c, by omega, rfl⟩
      · intro hs
        obtain ⟨c, hc, rfl⟩ := mem_iff_getD.mp hs
        have hc2 : c < local_cell_ids.length := by omega
        refine List.mem_map.mpr ⟨(_, _), (hmem _ _).mpr ⟨List.mem_map.mpr
          ⟨c, List.mem_range.mpr hc2, rfl⟩, rfl⟩, ?_⟩
        simp only [Function.comp]
        exact hkey c hc2
    · intro s w hsw
      obtain ⟨side, hside, hx⟩ := List.mem_map.mp hsw
      obtain ⟨k, v⟩ := side
      simp only [Prod.mk.injEq] at hx
      obtain ⟨rfl, rfl⟩ := hx
      obtain ⟨hk, rfl⟩ := (hmem k v).mp hside
      have hk32 : k < 2 ^ 32 := by
        obtain ⟨c, _, rfl⟩ := List.mem_map.mp hk
        unfold toUnsigned
        exact Nat.mod_lt _ (by norm_num)
      rw [hfilter]
      refine ⟨rfl, fun h31 => unsignedToInt_of_lt h31,
        fun h31 => unsignedToInt_of_ge h31 hk32, ?_, ?_, ?_⟩
      · simp only [sideWorkset, List.length_map]
        rw [← hlen1]
        exact filter_getD_length local_side_ids k
      · simp only [sideWorkset, List.map_map]
        rfl
      · simp only [sideWorkset, List.map_map]
        rfl
    · have hperm : ((elementList local_cell_ids local_side_ids).flatMap Prod.snd).Perm
          ((List.range local_cell_ids.length).map
            fun (cell : Nat) => (cell, local_cell_ids.getD cell 0)) :=
        foldl_mapPushBack_perm
          (fun (cell : Nat) => toUnsigned (local_side_ids.getD cell 0))
          (fun (cell : Nat) => (cell, local_cell_ids.getD cell 0))
          (List.range local_cell_ids.length)
      have h1 := hperm.map Prod.snd
      rw [List.map_map] at h1
      have h2 := map_getD_range local_cell_ids 0 id
      simp only [id, List.map_id] at h2
      have h3 : (Prod.snd ∘ fun (cell : Nat) => (cell, local_cell_ids.getD cell 0))
          = fun (q : Nat) => local_cell_ids.getD q 0 := rfl
      rw [h3, h2] at h1
      refine List.Perm.trans (List.Perm.of_eq ?_) h1
      rw [List.flatMap_map, List.map_flatMap]
      rfl

theorem buildBCWorkset_one_workset_per_side_witness :
    buildBCWorkset 3 "block" [10, 11, 12] [4, 1, 4] ([[[0]], [[1]], [[2]]] : List (List (List Int)))
      = .ok [(1, { num_cells := 1, cell_local_ids := [11], cell_local_ids_k := [11]
                   cell_vertex_coordinates := [[[1]]], block_id := "block", subcell_dim := 2
                   subcell_index := 1 }),
             (4, { num_cells := 2, cell_local_ids := [10, 12], cell_local_ids_k := [10, 12]
                   cell_vertex_coordinates := [[[0]], [[2]]], block_id := "block"
                   subcell_dim := 2, subcell_index := 4 })] ∧
    ∃ worksets, buildBCWorkset 3 "block" [10, 11, 12] [4, 1, 4]
        ([[[0]], [[1]], [[2]]] : List (List (List Int))) = .ok worksets ∧
      (worksets.map Prod.fst).Pairwise (· < ·) ∧
      (∀ s, s ∈ worksets.map Prod.fst ↔ s ∈ ([4, 1, 4] : List Nat)) ∧
      (∀ (s : Nat) (w : Workset Int), (s, w) ∈ worksets →
        w.subcell_index = unsignedToInt s ∧
        (s < 2 ^ 31 → w.subcell_index = (s : Int)) ∧
        (2 ^ 31 ≤ s → w.subcell_index = (s : Int) - 2 ^ 32) ∧
        w.num_cells = ([4, 1, 4] : List Nat).count s ∧
        w.cell_local_ids =
          ((List.range ([10, 11, 12] : List Nat).length).filter fun c =>
            decide (([4, 1, 4] : List Nat).getD c 0 = s)).map
              (fun c => ([10, 11, 12] : List Nat).getD c 0) ∧
        w.cell_vertex_coordinates =
          ((List.range ([10, 11, 12] : List Nat).length).filter fun c =>
            decide (([4, 1, 4] : List Nat).getD c 0 = s)).map
              (fun c => ([[[0]], [[1]], [[2]]] : List (List (List Int))).getD c [])) ∧
      (worksets.flatMap fun entry => entry.2.cell_local_ids).Perm [10, 11, 12] :=
  ⟨rfl, (buildBCWorkset_one_workset_per_side 3 "block" [10, 11, 12] [4, 1, 4]
    ([[[0]], [[1]], [[2]]] : List (List (List Int)))).2 rfl rfl (by decide)⟩

/-- C29 (as stated, refuted): for the local side ids `0` and `2^32` of two cells (lists of
equal length 2, two coordinate rows) the one-sided `buildBCWorkset` returns a map with one
workset only, under the key 0, which holds both cells: the key of the map is an `unsigned`, to
which both side ids convert as 0.  There is no workset for the side id `2^32`, and the
workset under key 0 has `num_cells = 2` although one input cell has the side id 0.  And for
one cell with the local side id `2^31` the workset under the key `2^31` has the
`subcell_index` `-2^31`, not the key: the member is an `int`. -/
theorem buildBCWorkset_one_workset_per_side_counterexample :
    buildBCWorkset 3 "block" [7] [2147483648] ([[[0]]] : List (List (List Int)))
      = .ok [(2147483648, { num_cells := 1, cell_local_ids := [7], cell_local_ids_k := [7],
                            cell_vertex_coordinates := [[[0]]], block_id := "block",
                            subcell_dim := 2, subcell_index := -2147483648 })] ∧
    ([0, 4294967296] : List Nat).length = ([7, 8] : List Nat).length ∧
    ([0, 4294967296] : List Nat).length = ([[[0]], [[1]]] : List (List (List Int))).length ∧
    ([0, 4294967296] : List Nat).Nodup ∧
    ([0, 4294967296] : List Nat).count 0 = 1 ∧
    buildBCWorkset 3 "block" [7, 8] [0, 4294967296] ([[[0]], [[1]]] : List (List (List Int)))
      = .ok [(0, { num_cells := 2, cell_local_ids := [7, 8], cell_local_ids_k := [7, 8]
                   cell_vertex_coordinates := [[[0]], [[1]]], block_id := "block"
                   subcell_dim := 2, subcell_index := 0 })] ∧
    ¬ ∃ worksets, buildBCWorkset 3 "block" [7, 8] [0, 4294967296]
        ([[[0]], [[1]]] : List (List (List Int))) = .ok worksets ∧
      (∀ s, s ∈ worksets.map Prod.fst ↔ s ∈ ([0, 4294967296] : List Nat)) := by
  have hres : buildBCWorkset 3 "block" [7, 8] [0, 4294967296]
      ([[[0]], [[1]]] : List (List (List Int)))
      = .ok [(0, { num_cells := 2, cell_local_ids := [7, 8], cell_local_ids_k := [7, 8]
                   cell_vertex_coordinates := [[[0]], [[1]]], block_id := "block"
                   subcell_dim := 2, subcell_index := 0 })] := by
    rfl
  refine ⟨rfl, rfl, rfl, by decide, by decide, hres, ?_⟩
  rintro ⟨worksets, h, hkeys⟩
  rw [hres] at h
  cases h
  have := (hkeys 4294967296).mpr (by simp)
  simp at this

theorem zip_mem_iff {sia sib : List Nat} (hlen : sia.length = sib.length) (p : Nat × Nat) :
    p ∈ sia.zip sib ↔ ∃ i, i < sia.length ∧ p = (sia.getD i 0, sib.getD i 0) := by
  constructor
  · intro h
    obtain ⟨i, hi, rfl⟩ := List.getElem_of_mem h
    rw [List.length_zip] at hi
    have h1 : i < sia.length := by omega
    have h2 : i < sib.length := by omega
    refine ⟨i, h1, ?_⟩
    rw [List.getElem_zip, List.getD_eq_getElem?_getD, List.getD_eq_getElem?_getD,
      List.getElem?_eq_getElem h1, List.getElem?_eq_getElem h2]
    rfl
  · rintro ⟨i, hi, rfl⟩
    have h2 : i < sib.length := by omega
    have h3 : i < (sia.zip sib).length := by rw [List.length_zip]; omega
    have := List.getElem_mem h3
    rw [List.getElem_zip] at this
    rw [List.getD_eq_getElem?_getD, List.getD_eq_getElem?_getD,
      List.getElem?_eq_getElem hi, List.getElem?_eq_getElem h2]
    exact this

/-- C30: `associateCellsBySideIds` fails when the two lists of side ids differ in length; for
lists `a` and `b` of equal length `n` it returns a map whose value lists partition the indices
`0 .. n-1`: the keys are distinct, the list under the key `(x, y)` holds, in increasing
order, exactly the indices `i` with `a[i] == x` and `b[i] == y` and is not empty, the number
of lists is the number of distinct pairs, and no family of lists that covers the indices and
in which every list has one side id on each side has fewer lists. -/
theorem associateCellsBySideIds_partition (sia sib : List Nat) :
    (sia.length ≠ sib.length → associateCellsBySideIds sia sib = .error .sideIdListsSize) ∧
    (sia.length = sib.length →
      ∃ sip2i, associateCellsBySideIds sia sib = .ok sip2i ∧
        (sip2i.map Prod.fst).Pairwise (· < ·) ∧
        (∀ (x y : Nat) (L : List Nat), (toLex (x, y), L) ∈ sip2i ↔
          L ≠ [] ∧ L = (List.range sia.length).filter fun i =>
            decide (sia.getD i 0 = x ∧ sib.getD i 0 = y)) ∧
        (∀ entry ∈ sip2i, entry.2.Pairwise (· < ·)) ∧
        (sip2i.flatMap Prod.snd).Perm (List.range sia.length) ∧
        sip2i.length = (sia.zip sib).dedup.length ∧
        (∀ lists : List (List Nat), (∀ i, i < sia.length → ∃ L ∈ lists, i ∈ L) →
          (∀ L ∈ lists, ∀ i ∈ L, ∀ j ∈ L,
            sia.getD i 0 = sia.getD j 0 ∧ sib.getD i 0 = sib.getD j 0) →
          sip2i.length ≤ lists.length)) := by
  constructor
  · intro h
    unfold associateCellsBySideIds
    rw [if_pos h]
  intro hlen
  have hfold := foldl_mapPushBack
    (fun (i : Nat) => toLex (sia.getD i 0, sib.getD i 0)) (fun (i : Nat) => i)
    (List.range sia.length)
  have hres : associateCellsBySideIds sia sib = .ok ((List.range sia.length).foldl
      (fun sip2i (i : Nat) => mapPushBack sip2i (toLex (sia.getD i 0, sib.getD i 0)) i) []) := by
    unfold associateCellsBySideIds
    rw [if_neg (not_not.mpr hlen)]
  generalize hm : (List.range sia.length).foldl
      (fun sip2i (i : Nat) => mapPushBack sip2i (toLex (sia.getD i 0, sib.getD i 0)) i) []
    = m at hfold hres
  obtain ⟨hsorted, hmem⟩ := hfold
  have hfilter : ∀ x y : Nat, ((List.range sia.length).filter fun i =>
        decide (toLex (sia.getD i 0, sib.getD i 0) = toLex (x, y)))
      = (List.range sia.length).filter fun i =>
        decide (sia.getD i 0 = x ∧ sib.getD i 0 = y) := by
    intro x y
    apply List.filter_congr
    intro i _
    simp
  have hentry : ∀ (x y : Nat) (L : List Nat), (toLex (x, y), L) ∈ m ↔
      L ≠ [] ∧ L = (List.range sia.length).filter fun i =>
        decide (sia.getD i 0 = x ∧ sib.getD i 0 = y) := by
    intro x y L
    rw [hmem, List.map_id', hfilter]
    constructor
    · rintro ⟨h1, rfl⟩
      refine ⟨?_, rfl⟩
      obtain ⟨i, hi, hk⟩ := List.mem_map.mp h1
      intro hnil
      have : i ∈ (List.range sia.length).filter fun i =>
          decide (sia.getD i 0 = x ∧ sib.getD i 0 = y) := by
        rw [List.mem_filter]
        refine ⟨hi, ?_⟩
        have := toLex_inj.mp hk
        simp only [Prod.mk.injEq] at this
        exact decide_eq_true this
      rw [hnil] at this
      exact absurd this (List.not_mem_nil _)
    · rintro ⟨h1, rfl⟩
      refine ⟨?_, rfl⟩
      obtain ⟨i, hi⟩ := List.exists_mem_of_ne_nil _ h1
      rw [List.mem_filter] at hi
      refine List.mem_map.mpr ⟨i, hi.1, ?_⟩
      have := of_decide_eq_true hi.2
      rw [this.1, this.2]
  have hkeys : ∀ p : Nat × Nat, toLex p ∈ m.map Prod.fst ↔ p ∈ sia.zip sib := by
    intro p
    rw [zip_mem_iff hlen]
    constructor
    · intro h
      obtain ⟨e, he, hek⟩ := List.mem_map.mp h
      obtain ⟨k, v⟩ := e
      simp only at hek
      subst hek
      obtain ⟨i, hi, hk⟩ := List.mem_map.mp ((hmem _ v).mp he).1
      exact ⟨i, List.mem_range.mp hi, (toLex_inj.mp hk).symm⟩
    · rintro ⟨i, hi, rfl⟩
      exact List.mem_map.mpr ⟨(_, _), (hmem _ _).mpr
        ⟨List.mem_map.mpr ⟨i, List.mem_range.mpr hi, rfl⟩, rfl⟩, rfl⟩
  have hnodup : (m.map Prod.fst).Nodup := hsorted.imp (fun h => ne_of_lt h)
  refine ⟨m, hres, hsorted, hentry, ?_, ?_, ?_, ?_⟩
  · rintro ⟨k, v⟩ he
    obtain ⟨_, rfl⟩ := (hmem k v).mp he
    simp only [List.map_id']
    exact List.Pairwise.filter _ (List.pairwise_lt_range _)
  · have := foldl_mapPushBack_perm
      (fun (i : Nat) => toLex (sia.getD i 0, sib.getD i 0)) (fun (i : Nat) => i)
      (List.range sia.length)
    rw [hm, List.map_id'] at this
    exact this
  · have hperm : (m.map fun e => ofLex e.1).Perm (sia.zip sib).dedup := by
      refine (List.perm_ext_iff_of_nodup ?_ (List.nodup_dedup _)).mpr ?_
      · have : (m.map fun e => ofLex e.1) = (m.map Prod.fst).map ofLex := by
          rw [List.map_map]
          rfl
        rw [this]
        exact List.Nodup.map ofLex.injective hnodup
      · intro p
        rw [List.mem_dedup, ← hkeys p]
        constructor
        · intro h
          obtain ⟨e, he, rfl⟩ := List.mem_map.mp h
          exact List.mem_map.mpr ⟨e, he, rfl⟩
        · intro h
          obtain ⟨e, he, hk⟩ := List.mem_map.mp h
          exact List.mem_map.mpr ⟨e, he, by rw [hk]; rfl⟩
    have := hperm.length_eq
    rw [List.length_map] at this
    exact this
  · intro lists hcover hhomog
    -- the pair of side ids of the first index of a list
    have hsub : (m.map Prod.fst).Subperm (lists.filterMap fun L =>
        L.head?.map fun i => toLex (sia.getD i 0, sib.getD i 0)) := by
      refine List.Nodup.subperm hnodup ?_
      intro k hk
      obtain ⟨e, he, rfl⟩ := List.mem_map.mp hk
      obtain ⟨k, v⟩ := e
      obtain ⟨i, hi, hik⟩ := List.mem_map.mp ((hmem k v).mp he).1
      obtain ⟨L, hL, hiL⟩ := hcover i (List.mem_range.mp hi)
      rw [List.mem_filterMap]
      refine ⟨L, hL, ?_⟩
      cases L with
      | nil => exact absurd hiL (List.not_mem_nil _)
      | cons j rest =>
        have := hhomog _ hL j (List.mem_cons_self _ _) i hiL
        simp only [List.head?_cons, Option.map_some', Option.some.injEq]
        rw [this.1, this.2]
        exact hik
    have h1 := hsub.length_le
    rw [List.length_map] at h1
    exact le_trans h1 (List.length_filterMap_le _ _)

theorem associateCellsBySideIds_partition_witness :
    associateCellsBySideIds [4, 1, 4, 4] [2, 2, 2, 0]
      = .ok [(toLex (1, 2), [1]), (toLex (4, 0), [3]), (toLex (4, 2), [0, 2])] ∧
    ∃ sip2i, associateCellsBySideIds [4, 1, 4, 4] [2, 2, 2, 0] = .ok sip2i ∧
      (sip2i.map Prod.fst).Pairwise (· < ·) ∧
      (∀ (x y : Nat) (L : List Nat), (toLex (x, y), L) ∈ sip2i ↔
        L ≠ [] ∧ L = (List.range ([4, 1, 4, 4] : List Nat).length).filter fun i =>
          decide (([4, 1, 4, 4] : List Nat).getD i 0 = x ∧
            ([2, 2, 2, 0] : List Nat).getD i 0 = y)) ∧
      (∀ entry ∈ sip2i, entry.2.Pairwise (· < ·)) ∧
      (sip2i.flatMap Prod.snd).Perm (List.range ([4, 1, 4, 4] : List Nat).length) ∧
      sip2i.length = (([4, 1, 4, 4] : List Nat).zip [2, 2, 2, 0]).dedup.length ∧
      (∀ lists : List (List Nat),
        (∀ i, i < ([4, 1, 4, 4] : List Nat).length → ∃ L ∈ lists, i ∈ L) →
        (∀ L ∈ lists, ∀ i ∈ L, ∀ j ∈ L,
          ([4, 1, 4, 4] : List Nat).getD i 0 = ([4, 1, 4, 4] : List Nat).getD j 0 ∧
          ([2, 2, 2, 0] : List Nat).getD i 0 = ([2, 2, 2, 0] : List Nat).getD j 0) →
        sip2i.length ≤ lists.length) :=
  ⟨rfl, (associateCellsBySideIds_partition [4, 1, 4, 4] [2, 2, 2, 0]).2 rfl⟩

/-- In a parent without a face that has the same cell on both sides, an entry of `faces_set`
is fixed by its parent face: the side with the lower child index is the key, the other side
is the value. -/
theorem record_canonical {P : LocalMeshInfoBase R} (hwf : WellFormed P)
    (hnoself : ∀ (pf : Int) (row : Int × Int), look P.face_to_cells pf = some row →
      row.1 ≠ row.2)
    {parents : List Int} (hnd : parents.Nodup) {o : Nat} {p : Int} {k : Nat} {e : FaceEntry}
    (hop : parents[o]? = some p) (hn : ∀ n, Across P p k n → n ∈ parents)
    (hrec : IsRecord P (sortCells (numberCells 0 parents)) o p k e) :
    ∃ (pf : Int) (cells lidx : Int × Int) (i0 i1 : Nat),
      (look2 P.cell_to_faces p k = some pf ∧ 0 ≤ pf) ∧
      look P.face_to_cells pf = some cells ∧ look P.face_to_lidx pf = some lidx ∧
      parents[i0]? = some cells.1 ∧ parents[i1]? = some cells.2 ∧
      e = if i0 < i1 then (((i0 : Int), lidx.1), ((i1 : Int), lidx.2))
          else (((i1 : Int), lidx.2), ((i0 : Int), lidx.1)) := by
  obtain ⟨pf, ns, n, lidx, entry, hacr, hl, hlb, rfl⟩ := hrec
  have hacross : Across P p k n := acrossFace_across.mp ⟨pf, ns, hacr⟩
  obtain ⟨hpf, hpf0, cells, hcells, rfl, rfl⟩ := acrossFace_eq_some.mp hacr
  obtain ⟨i, hi⟩ := List.mem_iff_getElem?.mp (hn _ hacross)
  rw [lookup_eq hnd hi] at hlb
  cases hlb
  obtain ⟨cells2, lidx2, s, hc2, hl2, hs, hsc, hsl⟩ := hwf.cell_slot hpf hpf0
  rw [hcells] at hc2
  cases hc2
  rw [hl] at hl2
  cases hl2
  have hcne := hnoself pf cells hcells
  by_cases hc1 : cells.1 = p
  · have hs0 : s = 0 := by
      rcases hs with rfl | rfl
      · rfl
      · simp only [side, one_ne_zero, if_false] at hsc
        exact absurd (hc1.trans hsc.symm) hcne
    subst hs0
    simp only [side, if_true] at hsl
    simp only [hc1, if_true, side, one_ne_zero, if_false] at hi ⊢
    refine ⟨pf, cells, lidx, o, i, ⟨hpf, hpf0⟩, hcells, hl, by rw [hop, hc1], hi, ?_⟩
    rw [← hsl]
    by_cases hoi : (o : Int) < (i : Int)
    · have : o < i := by omega
      simp [hoi, this]
    · have : ¬ o < i := by omega
      simp [hoi, this]
  · have hs1 : s = 1 := by
      rcases hs with rfl | rfl
      · simp only [side, if_true] at hsc
        exact absurd hsc hc1
      · rfl
    subst hs1
    simp only [side, one_ne_zero, if_false] at hsc hsl
    simp only [hc1, if_false, side, if_true] at hi ⊢
    refine ⟨pf, cells, lidx, i, o, ⟨hpf, hpf0⟩, hcells, hl, hi, by rw [hop, hsc], ?_⟩
    have hne : i ≠ o := by
      rintro rfl
      rw [hop] at hi
      cases hi
      exact hc1 rfl
    rw [← hsl]
    by_cases hoi : (o : Int) < (i : Int)
    · have : ¬ i < o := by omega
      simp [hoi, this]
    · have : i < o := by omega
      simp [hoi, this]

/-- In a parent without a face that has the same cell on both sides, two entries written
under the same key are the same entry. -/
theorem record_eq_of_key {P : LocalMeshInfoBase R} (hwf : WellFormed P)
    (hnoself : ∀ (pf : Int) (row : Int × Int), look P.face_to_cells pf = some row →
      row.1 ≠ row.2)
    {parents : List Int} (hnd : parents.Nodup) {o o1 : Nat} {p p1 : Int} {k k1 : Nat}
    {e e1 : FaceEntry}
    (hop : parents[o]? = some p) (hn : ∀ n, Across P p k n → n ∈ parents)
    (hrec : IsRecord P (sortCells (numberCells 0 parents)) o p k e)
    (hop1 : parents[o1]? = some p1) (hn1 : ∀ n, Across P p1 k1 n → n ∈ parents)
    (hrec1 : IsRecord P (sortCells (numberCells 0 parents)) o1 p1 k1 e1)
    (hkey : e1.1 = e.1) : e1 = e := by
  obtain ⟨pf, cells, lidx, i0, i1, ⟨hpf, _⟩, hcells, hlidx, hi0, hi1, rfl⟩ :=
    record_canonical hwf hnoself hnd hop hn hrec
  obtain ⟨pf1, cells1, lidx1, j0, j1, ⟨hpf1, _⟩, hcells1, hlidx1, hj0, hj1, rfl⟩ :=
    record_canonical hwf hnoself hnd hop1 hn1 hrec1
  have a := (record_keyFace hwf hnd hop hn hrec).1
  have a1 := (record_keyFace hwf hnd hop1 hn1 hrec1).1
  rw [hkey, ← a, hpf1, hpf] at a1
  cases a1
  rw [hcells] at hcells1
  cases hcells1
  rw [hlidx] at hlidx1
  cases hlidx1
  have e0 : j0 = i0 :=
    List.getElem?_inj (List.getElem?_eq_some_iff.mp hj0).1 hnd (hj0.trans hi0.symm)
  have e1 : j1 = i1 :=
    List.getElem?_inj (List.getElem?_eq_some_iff.mp hj1).1 hnd (hj1.trans hi1.symm)
  rw [e0, e1]

/-- C25 (amended): for every well-formed parent in which no face has the same cell on both
sides, every non-empty duplicate-free list of owned parent cells, every owned child cell `i`
and every face slot `k` of the child built by `setupSubLocalMeshInfo`: if
`parent.cell_to_faces[owned[i]][k]` is negative then `child.cell_to_faces[i][k] == -1`;
otherwise `child.cell_to_faces[i][k]` is a face whose one side is `(cell i, slot k)` and whose
other side is the child cell assigned to the parent cell across that parent face, at the
local face slot that the parent's `face_to_lidx` records for that neighbour. -/
theorem setupSubLocalMeshInfo_owned_cell_faces (order : IterationOrder)
    (P : LocalMeshInfoBase R) (owned : List Int) (hwf : WellFormed P) (hne : owned ≠ [])
    (hnd : owned.Nodup) (hvalid : ∀ p ∈ owned, 0 ≤ p ∧ p < P.num_owned_cells)
    (hnoself : ∀ (pf : Int) (row : Int × Int), look P.face_to_cells pf = some row →
      row.1 ≠ row.2) :
    ∃ (child : LocalMeshInfoBase R) (sets : List Int × List Int),
      setupSubLocalMeshInfo order P owned = .ok child ∧ classifyPass P owned = .ok sets ∧
      ∀ (i : Nat) (p : Int) (k : Nat), owned[i]? = some p → k < P.num_faces_per_cell →
        ∃ pf, look2 P.cell_to_faces p k = some pf ∧
          (pf < 0 → look2 child.cell_to_faces i k = some (-1)) ∧
          (0 ≤ pf →
            ∃ (ns n : Int) (plidx : Int × Int) (c : Nat) (f : Int) (cells lidx : Int × Int)
                (s : Int),
              acrossFace P p k = .ok (some (pf, ns, n)) ∧
              look P.face_to_lidx pf = some plidx ∧
              (childParents order owned sets)[c]? = some n ∧
              look2 child.cell_to_faces i k = some f ∧
              look child.face_to_cells f = some cells ∧
              look child.face_to_lidx f = some lidx ∧
              (s = 0 ∨ s = 1) ∧ side cells s = i ∧ side lidx s = k ∧
              side cells (1 - s) = c ∧ side lidx (1 - s) = side plidx ns) := by
  obtain ⟨child, h⟩ := setup_succeeds order hwf hne hvalid
  obtain ⟨sets, gc, lc, cv, fs, ctf, _, _, hctflen, _, _, _, hc, _, _, _, hfs, hctf, rfl⟩ :=
    setup_ok_inv h
  refine ⟨_, sets, h, hc, ?_⟩
  have hcl := classifyPass_classified hc
  have hpnd := hcl.parents_nodup hwf hvalid hnd order
  have hLnd : (order.faces fs).Nodup :=
    (order.faces_perm fs).nodup_iff.mpr (List.Nodup.of_map _ (createFaces_mem hfs).1)
  have htot := hwf.total_ge
  -- every entry of the face map, as the record of an owned cell and slot
  have hentry : ∀ e ∈ fs, ∃ (o : Nat) (p : Int) (k : Nat),
      (childParents order owned sets)[o]? = some p ∧
      (∀ n, Across P p k n → n ∈ childParents order owned sets) ∧
      IsRecord P (sortCells (numberCells 0 (childParents order owned sets))) o p k e := by
    intro e he
    obtain ⟨o, p, k, hop, hk, hrec⟩ := (createFaces_mem hfs).2 e he
    exact ⟨o, p, k, childParents_owned order owned sets hop,
      fun n hn => hcl.neighbor_mem order (List.getElem?_mem hop) hk hn, hrec⟩
  intro i p k hop hk
  have hpo := childParents_owned order owned sets hop
  have hpv := hvalid p (List.getElem?_mem hop)
  have hilt : i < owned.length := (List.getElem?_eq_some_iff.mp hop).1
  have hnp : ∀ n, Across P p k n → n ∈ childParents order owned sets :=
    fun n hn => hcl.neighbor_mem order (List.getElem?_mem hop) hk hn
  obtain ⟨pf, hpf⟩ : ∃ pf, look2 P.cell_to_faces p k = some pf :=
    (look2_isSome_iff hwf.shape p k).mpr ⟨⟨hpv.1, by omega⟩, by omega, by exact_mod_cast hk⟩
  refine ⟨pf, hpf, ?_, ?_⟩
  · intro hneg
    have hno : ∀ face ∈ (order.faces fs).map toFace, ¬ face.HasSlot (i : Int) (k : Int) := by
      intro face hface hs
      obtain ⟨e, he, rfl⟩ := List.mem_map.mp hface
      obtain ⟨o1, p1, k1, hop1, hn1, hrec1⟩ := hentry e ((order.faces_perm fs).mem_iff.mp he)
      obtain ⟨pf1, cells, lidx, i0, i1, ⟨_, hpf0⟩, hcells, hlidx, hi0, hi1, hkey, hval⟩ :=
        record_facts hwf hpnd hop1 hn1 hrec1
      obtain ⟨lidx2, hl2, hsym⟩ := hwf.face_side hcells
      rw [hlidx] at hl2
      cases hl2
      have hside : (((i : Int), (k : Int)) = ((i0 : Int), lidx.1)) ∨
          (((i : Int), (k : Int)) = ((i1 : Int), lidx.2)) := by
        unfold face_t.HasSlot toFace at hs
        simp only at hs
        rcases hs with ⟨a, b⟩ | ⟨a, b⟩
        · have : e.1 = ((i : Int), (k : Int)) := Prod.ext a b
          rw [← this, hkey]
          split
          · exact Or.inl rfl
          · exact Or.inr rfl
        · have : e.2 = ((i : Int), (k : Int)) := Prod.ext a b
          rw [← this]
          exact hval
      rcases hside with hx | hx
      · simp only [Prod.mk.injEq, Nat.cast_inj] at hx
        obtain ⟨rfl, hk2⟩ := hx
        rw [hpo] at hi0
        cases hi0
        have := hsym 0 (Or.inl rfl)
        simp only [side, if_true] at this
        rw [← hk2, hpf] at this
        cases this
        omega
      · simp only [Prod.mk.injEq, Nat.cast_inj] at hx
        obtain ⟨rfl, hk2⟩ := hx
        rw [hpo] at hi1
        cases hi1
        have := hsym 1 (Or.inr rfl)
        simp only [side, one_ne_zero, if_false] at this
        rw [← hk2, hpf] at this
        cases this
        omega
    rw [fillCellToFaces_untouched _ 0 _ ctf (i : Int) (k : Int) hctf hno,
      look2_replicate_row _ _ i (by rw [childParents_length]; omega) (k : Int), look_natCast,
      List.getElem?_replicate, if_pos hk]
  · intro hnn
    obtain ⟨pcells, plidx, s0, hpcells, hplidx, _, _, _⟩ := hwf.cell_slot hpf hnn
    have hacr : acrossFace P p k = .ok (some (pf, (if pcells.1 = p then 1 else 0),
        side pcells (if pcells.1 = p then 1 else 0))) :=
      acrossFace_eq_some.mpr ⟨hpf, hnn, pcells, hpcells, rfl, rfl⟩
    have hn := hnp _ (acrossFace_across.mp ⟨_, _, hacr⟩)
    have hlb := lookup_indexOf hn
    have hcn := List.getElem?_indexOf hn
    generalize (childParents order owned sets).indexOf
      (side pcells (if pcells.1 = p then 1 else 0)) = c at hlb hcn
    generalize hns : (if pcells.1 = p then (1 : Int) else 0) = ns at hacr hn hlb hcn
    have hrec : IsRecord P (sortCells (numberCells 0 (childParents order owned sets))) i p k
        (if (i : Int) < (c : Int) then
          (((i : Int), (k : Int)), ((c : Int), side plidx ns))
        else (((c : Int), side plidx ns), ((i : Int), (k : Int)))) :=
      ⟨pf, ns, _, plidx, _, hacr, hplidx, hlb, rfl⟩
    have hin := (createFaces_keys_complete owned 0 [] fs hfs).2 i p k _ hop hk
      (show IsRecord P _ (0 + i) p k _ by rw [Nat.zero_add]; exact hrec)
    obtain ⟨e1, he1, hkey⟩ := List.mem_map.mp hin
    obtain ⟨o1, p1, k1, hop1, hn1, hrec1⟩ := hentry e1 he1
    have heq := record_eq_of_key hwf hnoself hpnd hpo hnp hrec hop1 hn1 hrec1 hkey
    subst heq
    obtain ⟨t, ht⟩ := List.mem_iff_getElem?.mp ((order.faces_perm fs).mem_iff.mpr he1)
    have hslot : (toFace (if (i : Int) < (c : Int) then
          (((i : Int), (k : Int)), ((c : Int), side plidx ns))
        else (((c : Int), side plidx ns), ((i : Int), (k : Int))))).HasSlot (i : Int)
        (k : Int) := by
      unfold face_t.HasSlot toFace
      split
      · exact Or.inl ⟨rfl, rfl⟩
      · exact Or.inr ⟨rfl, rfl⟩
    have hlook := fillCellToFaces_look2 ((order.faces fs).map toFace) 0 _ ctf (i : Int) (k : Int)
      t _ hctf (by rw [List.getElem?_map, ht]; rfl) hslot (by
        intro t1 face1 hf1 hs1
        rw [List.getElem?_map] at hf1
        obtain ⟨e2, he2, rfl⟩ := Option.map_eq_some'.mp hf1
        have := faces_slot_unique hwf hvalid hnd hc hfs
          ((order.faces_perm fs).mem_iff.mp (List.getElem?_mem he2)) he1 hs1 hslot
        subst this
        exact List.getElem?_inj (List.getElem?_eq_some_iff.mp he2).1 hLnd (he2.trans ht.symm))
    rw [Nat.zero_add] at hlook
    have hcells : look (((order.faces fs).map toFace).map fun face =>
        (face.cell_0, face.cell_1)) (t : Int) = some
          ((toFace (if (i : Int) < (c : Int) then
            (((i : Int), (k : Int)), ((c : Int), side plidx ns))
          else (((c : Int), side plidx ns), ((i : Int), (k : Int))))).cell_0,
           (toFace (if (i : Int) < (c : Int) then
            (((i : Int), (k : Int)), ((c : Int), side plidx ns))
          else (((c : Int), side plidx ns), ((i : Int), (k : Int))))).cell_1) := by
      rw [look_natCast, List.getElem?_map, List.getElem?_map, ht]
      rfl
    have hlidx : look (((order.faces fs).map toFace).map fun face =>
        (face.subcell_index_0, face.subcell_index_1)) (t : Int) = some
          ((toFace (if (i : Int) < (c : Int) then
            (((i : Int), (k : Int)), ((c : Int), side plidx ns))
          else (((c : Int), side plidx ns), ((i : Int), (k : Int))))).subcell_index_0,
           (toFace (if (i : Int) < (c : Int) then
            (((i : Int), (k : Int)), ((c : Int), side plidx ns))
          else (((c : Int), side plidx ns), ((i : Int), (k : Int))))).subcell_index_1) := by
      rw [look_natCast, List.getElem?_map, List.getElem?_map, ht]
      rfl
    refine ⟨ns, _, plidx, c, (t : Int), _, _, (if (i : Int) < (c : Int) then 0 else 1), hacr,
      hplidx, hcn, hlook, hcells, hlidx, ?_, ?_, ?_, ?_, ?_⟩
    · split
      · exact Or.inl rfl
      · exact Or.inr rfl
    all_goals
      by_cases hic : (i : Int) < (c : Int)
      · simp [hic, toFace, side]
      · simp [hic, toFace, side]

theorem setupSubLocalMeshInfo_owned_cell_faces_witness :
    ∃ (child : LocalMeshInfoBase Int) (sets : List Int × List Int),
      setupSubLocalMeshInfo IterationOrder.insertion scenarioParent [1, 2] = .ok child ∧
      classifyPass scenarioParent [1, 2] = .ok sets ∧
      ∀ (i : Nat) (p : Int) (k : Nat), ([1, 2] : List Int)[i]? = some p →
        k < scenarioParent.num_faces_per_cell →
        ∃ pf, look2 scenarioParent.cell_to_faces p k = some pf ∧
          (pf < 0 → look2 child.cell_to_faces i k = some (-1)) ∧
          (0 ≤ pf →
            ∃ (ns n : Int) (plidx : Int × Int) (c : Nat) (f : Int) (cells lidx : Int × Int)
                (s : Int),
              acrossFace scenarioParent p k = .ok (some (pf, ns, n)) ∧
              look scenarioParent.face_to_lidx pf = some plidx ∧
              (childParents IterationOrder.insertion [1, 2] sets)[c]? = some n ∧
              look2 child.cell_to_faces i k = some f ∧
              look child.face_to_cells f = some cells ∧
              look child.face_to_lidx f = some lidx ∧
              (s = 0 ∨ s = 1) ∧ side cells s = i ∧ side lidx s = k ∧
              side cells (1 - s) = c ∧ side lidx (1 - s) = side plidx ns) :=
  setupSubLocalMeshInfo_owned_cell_faces IterationOrder.insertion scenarioParent [1, 2]
    (by decide) (by decide) (by decide) (by decide)
    (fun _ row h =>
      (by decide : ∀ row ∈ scenarioParent.face_to_cells, row.1 ≠ row.2) row (look_mem h))

/-- C25 (as stated, refuted): the one-cell parent whose two face slots are the two sides of
one face is well-formed, the list `[0]` is a valid duplicate-free owned list, and
`parent.cell_to_faces[0][0]` is the face 0; but whatever the iteration order the child built by
`setupSubLocalMeshInfo` has no face at slot 0 of its owned cell 0: the one face of the child
has been written twice under the key `(0, 1)`, last with slot 1 on both sides. -/
theorem setupSubLocalMeshInfo_owned_cell_faces_counterexample :
    WellFormed selfFaceParent ∧ ([0] : List Int) ≠ [] ∧ ([0] : List Int).Nodup ∧
    (∀ p ∈ ([0] : List Int), 0 ≤ p ∧ p < selfFaceParent.num_owned_cells) ∧
    look2 selfFaceParent.cell_to_faces 0 0 = some 0 ∧
    (∃ child, setupSubLocalMeshInfo IterationOrder.insertion selfFaceParent [0] = .ok child ∧
      child.cell_to_faces = [[-1, 0]] ∧ child.face_to_cells = [(0, 0)] ∧
      child.face_to_lidx = [(1, 1)]) ∧
    ¬ ∃ (order : IterationOrder) (child : LocalMeshInfoBase Int) (f : Int),
        setupSubLocalMeshInfo order selfFaceParent [0] = .ok child ∧
        look2 child.cell_to_faces 0 0 = some f ∧ 0 ≤ f := by
  refine ⟨by decide, by decide, by decide, by decide, rfl, ⟨_, rfl, rfl, rfl, rfl⟩, ?_⟩
  rintro ⟨order, child, f, h, hf, hf0⟩
  obtain ⟨sets, gc, lc, cv, fs, ctf, _, _, _, _, _, _, hc, _, _, _, hfs, hctf, rfl⟩ :=
    setup_ok_inv h
  have hsets : classifyPass selfFaceParent [0] = .ok ([], []) := rfl
  rw [hsets] at hc
  cases hc
  have hnil : order.cells [] = [] := List.Perm.eq_nil (order.cells_perm [])
  unfold childParents at hfs hctf
  simp only [hnil, List.append_nil] at hfs hctf
  have h2 : createFaces selfFaceParent (sortCells (numberCells 0 [0])) 0 [0] []
      = .ok [((0, 1), (0, 1))] := rfl
  rw [h2] at hfs
  cases hfs
  have hone : order.faces [((0, 1), (0, 1))] = [((0, 1), (0, 1))] :=
    List.perm_singleton.mp (order.faces_perm _)
  rw [hone] at hctf
  have h3 : fillCellToFaces 0 ([((0, 1), (0, 1))].map toFace)
      (List.replicate ([0] : List Int).length
        (List.replicate selfFaceParent.num_faces_per_cell (-1))) = .ok [[-1, 0]] := rfl
  rw [h3] at hctf
  cases hctf
  simp only at hf
  have h4 : look2 ([[-1, 0]] : List (List Int)) 0 0 = some (-1) := rfl
  rw [h4] at hf
  cases hf
  omega

/-- A successful call of `splitMeshInfo` whose base partition size is the number `N >= 1` of
owned cells appends one partition, built from the parent indices `0..N-1`. -/
theorem splitMeshInfo_one_chunk {order : IterationOrder} {P : LocalMeshInfoBase R} {s : Int}
    {parts out : List (LocalMeshPartition R)} (hpos : 1 ≤ P.num_owned_cells)
    (hbase : basePartitionSize P s = P.num_owned_cells)
    (h : splitMeshInfo order P s parts = .ok out) :
    ∃ q : LocalMeshPartition R, out = parts ++ [q] ∧
      BuiltFrom order P (indexRange 0 P.num_owned_cells) q := by
  obtain ⟨_, hN, chunks, news, h1, h2, h3, _, h5, h6⟩ := splitMeshInfo_spec h
  rw [hbase] at h3 h6
  obtain ⟨c1, c2⟩ := h6 (by omega)
  have hlen : chunks.length = 1 := by
    have a1 : (chunks.length : Int) - 1 < 1 := by
      by_contra hx
      have : 1 * P.num_owned_cells ≤ ((chunks.length : Int) - 1) * P.num_owned_cells :=
        mul_le_mul_of_nonneg_right (by omega) (by omega)
      omega
    have a2 : 0 < (chunks.length : Int) := by
      by_contra hx
      have : (chunks.length : Int) = 0 := by omega
      rw [this] at c2
      omega
    omega
  match chunks, news, h2, hlen with
  | [c], [q], .cons hq .nil, _ =>
    refine ⟨q, h1, ?_⟩
    obtain ⟨_, hc⟩ := h3 0 c (by simp)
    simp only [Nat.cast_zero, zero_mul, zero_add, one_mul, min_self] at hc
    rw [← hc]
    exact hq

/-- C39: for every mesh info with `N >= 1` owned cells and every splitting size `S >= N`,
`splitMeshInfo` with splitting size `S` ends exactly as `splitMeshInfo` with `ALL_ELEMENTS`
does (the same sequence, or the same failure); it returns whenever the mesh info is
well-formed, and what it returns is the given sequence with one partition appended, the one
built by `setupSubLocalMeshInfo` from the parent indices `0..N-1`. -/
theorem splitMeshInfo_size_at_least_count (order : IterationOrder) (P : LocalMeshInfoBase R)
    (S : Int) (parts : List (LocalMeshPartition R)) (hN : 1 ≤ P.num_owned_cells)
    (hS : P.num_owned_cells ≤ S) :
    splitMeshInfo order P S parts = splitMeshInfo order P ALL_ELEMENTS parts ∧
    (WellFormed P → ∃ out, splitMeshInfo order P S parts = .ok out) ∧
    ∀ out, splitMeshInfo order P S parts = .ok out →
      ∃ q : LocalMeshPartition R, out = parts ++ [q] ∧
        BuiltFrom order P (indexRange 0 P.num_owned_cells) q := by
  have hSpos : 0 < S := by omega
  have hbase : basePartitionSize P S = P.num_owned_cells := by
    unfold basePartitionSize
    simp only [gt_iff_lt, hSpos, if_true]
    omega
  have hall : basePartitionSize P ALL_ELEMENTS = P.num_owned_cells := by
    unfold basePartitionSize ALL_ELEMENTS
    simp
  refine ⟨?_, fun hwf => splitMeshInfo_ok order hwf (Or.inl hSpos) parts,
    fun out h => splitMeshInfo_one_chunk hN hbase h⟩
  rw [splitMeshInfo_eq, splitMeshInfo_eq, hbase, hall]
  have h1 : ¬ ¬ (S > 0 ∨ S = ALL_ELEMENTS) := not_not.mpr (Or.inl hSpos)
  have h2 : ¬ ¬ (ALL_ELEMENTS > 0 ∨ ALL_ELEMENTS = ALL_ELEMENTS) := not_not.mpr (Or.inr rfl)
  rw [if_neg h1, if_neg h2]

theorem splitMeshInfo_size_at_least_count_witness :
    splitMeshInfo IterationOrder.insertion scenarioParent 7 []
      = splitMeshInfo IterationOrder.insertion scenarioParent ALL_ELEMENTS [] ∧
    (WellFormed scenarioParent →
      ∃ out, splitMeshInfo IterationOrder.insertion scenarioParent 7 [] = .ok out) ∧
    ∀ out, splitMeshInfo IterationOrder.insertion scenarioParent 7 [] = .ok out →
      ∃ q : LocalMeshPartition Int, out = [] ++ [q] ∧
        BuiltFrom IterationOrder.insertion scenarioParent
          (indexRange 0 scenarioParent.num_owned_cells) q :=
  splitMeshInfo_size_at_least_count IterationOrder.insertion scenarioParent 7 []
    (by decide) (by decide)

/-- The face loops do not raise the exception of line 296 when every neighbour they look up
has an entry at or after its search point. -/
theorem createFaces_error_of_found {P : LocalMeshInfoBase R} {sorted : List (Int × Int)} :
    ∀ (cells : List Int),
      (∀ p ∈ cells, ∀ k < P.num_faces_per_cell, ∀ (pf ns n : Int),
        acrossFace P p k = .ok (some (pf, ns, n)) →
        ∃ entry, lower_bound sorted (n, 0) = some entry) →
      ∀ (start : Nat) (fs : List FaceEntry) (e : Failure),
        createFaces P sorted start cells fs = .error e → e = .outOfBounds := by
  have face : ∀ (o : Nat) (p : Int) (fs : List FaceEntry) (k : Nat) (e : Failure),
      (∀ (pf ns n : Int), acrossFace P p k = .ok (some (pf, ns, n)) →
        ∃ entry, lower_bound sorted (n, 0) = some entry) →
      createFace P sorted o p fs k = .error e → e = .outOfBounds := by
    intro o p fs k e hfound h
    unfold createFace at h
    split at h
    · rename_i e1 h1
      cases h
      exact acrossFace_error h1
    · cases h
    · rename_i pf ns n h1
      obtain ⟨entry, hentry⟩ := hfound pf ns n h1
      split at h
      · rename_i e1 h2
        cases h
        exact viewAt_error h2
      · simp only [hentry] at h
        split at h <;> cases h
  have cell : ∀ (o : Nat) (p : Int) (slots : List Nat),
      (∀ k ∈ slots, ∀ (pf ns n : Int), acrossFace P p k = .ok (some (pf, ns, n)) →
        ∃ entry, lower_bound sorted (n, 0) = some entry) →
      ∀ (fs : List FaceEntry) (e : Failure),
        createCellFaces P sorted o p slots fs = .error e → e = .outOfBounds := by
    intro o p slots
    induction slots with
    | nil => intro _ fs e h; cases h
    | cons k slots ih =>
      intro hfound fs e h
      unfold createCellFaces at h
      split at h
      · rename_i e1 h1
        cases h
        exact face o p fs k _ (hfound k (List.mem_cons_self _ _)) h1
      · exact ih (fun k1 hk1 => hfound k1 (List.mem_cons_of_mem _ hk1)) _ e h
  intro cells
  induction cells with
  | nil => intro _ start fs e h; cases h
  | cons p cells ih =>
    intro hfound start fs e h
    unfold createFaces at h
    split at h
    · rename_i e1 h1
      cases h
      exact cell start p _
        (fun k hk => hfound p (List.mem_cons_self _ _) k (List.mem_range.mp hk)) fs _ h1
    · exact ih (fun q hq => hfound q (List.mem_cons_of_mem _ hq)) _ _ e h

/-- C34: for every parent and owned list on which the classification pass of
`setupSubLocalMeshInfo` completes, every neighbour that the face reconstruction looks up
(the cell across a non-negative face at a slot of an owned input cell) has an entry in the
sorted list of `(parent index, child index)` pairs, the `lower_bound` of line 294 returns an
entry of that list whose parent index is this neighbour, and the call does not end with the
exception "Neighbor cell was not found" of line 296. -/
theorem setupSubLocalMeshInfo_neighbor_found (order : IterationOrder) (P : LocalMeshInfoBase R)
    (owned : List Int) (sets : List Int × List Int) (hc : classifyPass P owned = .ok sets) :
    (∀ (p : Int) (k : Nat) (pf ns n : Int), p ∈ owned → k < P.num_faces_per_cell →
      acrossFace P p k = .ok (some (pf, ns, n)) →
      ∃ entry, entry ∈ sortCells (numberCells 0 (childParents order owned sets)) ∧
        entry.1 = n ∧
        lower_bound (sortCells (numberCells 0 (childParents order owned sets))) (n, 0)
          = some entry) ∧
    setupSubLocalMeshInfo order P owned ≠ .error .neighborNotFound := by
  have key : ∀ (p : Int) (k : Nat) (pf ns n : Int), p ∈ owned → k < P.num_faces_per_cell →
      acrossFace P p k = .ok (some (pf, ns, n)) →
      ∃ entry, entry ∈ sortCells (numberCells 0 (childParents order owned sets)) ∧
        entry.1 = n ∧
        lower_bound (sortCells (numberCells 0 (childParents order owned sets))) (n, 0)
          = some entry := by
    intro p k pf ns n hp hk hacr
    have hn : n ∈ childParents order owned sets :=
      (classifyPass_classified hc).neighbor_mem order hp hk (acrossFace_across.mp ⟨pf, ns, hacr⟩)
    have hl := lookup_indexOf hn
    exact ⟨_, (lower_bound_mem hl).1, rfl, hl⟩
  refine ⟨key, ?_⟩
  intro h
  unfold setupSubLocalMeshInfo at h
  split at h
  · cases h
  split at h
  · cases h
  split at h
  · cases h
  rw [hc] at h
  simp only at h
  split at h
  · cases h
  split at h
  · split at h
    · rename_i e1 h1
      cases h
      have hx := createFaces_error_of_found owned
        (fun p hp k hk pf ns n hacr =>
          (key p k pf ns n hp hk hacr).imp fun entry he => he.2.2) _ _ _ h1
      cases hx
    · split at h
      · rename_i e1 h1
        cases h
        have hx := fillCellToFaces_error _ _ _ _ h1
        cases hx
      · cases h
  · cases h

theorem setupSubLocalMeshInfo_neighbor_found_witness :
    (∀ (p : Int) (k : Nat) (pf ns n : Int), p ∈ [(1 : Int), 2] →
      k < scenarioParent.num_faces_per_cell →
      acrossFace scenarioParent p k = .ok (some (pf, ns, n)) →
      ∃ entry, entry ∈ sortCells (numberCells 0
          (childParents IterationOrder.insertion [1, 2] ([0, 3], []))) ∧
        entry.1 = n ∧
        lower_bound (sortCells (numberCells 0
          (childParents IterationOrder.insertion [1, 2] ([0, 3], [])))) (n, 0) = some entry) ∧
    setupSubLocalMeshInfo IterationOrder.insertion scenarioParent [1, 2]
      ≠ .error .neighborNotFound :=
  setupSubLocalMeshInfo_neighbor_found IterationOrder.insertion scenarioParent [1, 2]
    ([0, 3], []) rfl

/-- C35: for every face `f` of a child built by `setupSubLocalMeshInfo`,
`0 <= face_to_cells[f][0] < num_owned_cells`: side 0 of every face is an owned cell of the
child, so no face has a ghost or virtual cell on both of its sides. -/
theorem setupSubLocalMeshInfo_side_zero_owned (order : IterationOrder)
    (P : LocalMeshInfoBase R) (owned : List Int) (child : LocalMeshInfoBase R)
    (h : setupSubLocalMeshInfo order P owned = .ok child) (f : Int) (cells : Int × Int)
    (hf : look child.face_to_cells f = some cells) :
    0 ≤ cells.1 ∧ cells.1 < child.num_owned_cells ∧
    ¬ (child.num_owned_cells ≤ cells.1 ∧ child.num_owned_cells ≤ cells.2) := by
  obtain ⟨sets, gc, lc, cv, fs, ctf, _, _, _, _, _, _, hc, _, _, _, hfs, _, rfl⟩ := setup_ok_inv h
  simp only at hf ⊢
  rw [look_map] at hf
  obtain ⟨face, hface, rfl⟩ := Option.map_eq_some'.mp hf
  obtain ⟨e, he, rfl⟩ := List.mem_map.mp (look_mem hface)
  have hefs : e ∈ fs := (order.faces_perm fs).mem_iff.mp he
  obtain ⟨o, p, k, pf, ns, n, lidx, hop, hk, hacr, hl, hn, hrec⟩ := child_face_lookup hc hfs hefs
  have ho : o < owned.length := (List.getElem?_eq_some_iff.mp hop).1
  unfold toFace
  simp only
  split at hrec
  · subst hrec
    simp only
    omega
  · subst hrec
    simp only
    omega

theorem setupSubLocalMeshInfo_side_zero_owned_witness :
    0 ≤ ((0 : Int), (2 : Int)).1 ∧ ((0 : Int), (2 : Int)).1 < scenarioChild.num_owned_cells ∧
    ¬ (scenarioChild.num_owned_cells ≤ ((0 : Int), (2 : Int)).1 ∧
      scenarioChild.num_owned_cells ≤ ((0 : Int), (2 : Int)).2) :=
  setupSubLocalMeshInfo_side_zero_owned IterationOrder.insertion scenarioParent [1, 2]
    scenarioChild rfl 0 (0, 2) rfl

/-- When the three assertions pass and the region of the descriptor is absent, the sequence
is returned as it was given. -/
theorem generateLocalMeshPartitions_region_absent_eq (order : IterationOrder)
    (mesh_info : LocalMeshInfo R) (description : WorksetDescriptor)
    (partitions : List (LocalMeshPartition R))
    (hsize : description.getWorksetSize ≠ CLASSIC_MODE ∧ description.getWorksetSize ≠ 0)
    (hreq : description.requiresPartitioning = true)
    (habsent :
      (description.useSideset = true ∧
        (mesh_info.sidesets.lookup description.getElementBlock = none ∨
          ∃ sideset_map, mesh_info.sidesets.lookup description.getElementBlock = some sideset_map ∧
            sideset_map.lookup description.getSideset = none)) ∨
      (description.useSideset = false ∧
        mesh_info.element_blocks.lookup description.getElementBlock = none)) :
    generateLocalMeshPartitions order mesh_info description partitions = .returned partitions := by
  unfold generateLocalMeshPartitions
  simp only [hsize.1, hsize.2, if_false, hreq, Bool.true_eq_false]
  rcases habsent with ⟨hs, h1 | ⟨m, h1, h2⟩⟩ | ⟨hs, h1⟩
  · simp only [hs, if_true, h1]
  · simp only [hs, if_true, h1, h2]
  · simp only [hs, Bool.false_eq_true, if_false, h1]

/-- C40: `splitMeshInfo` returns the sequence it was given with partitions appended; what
`generateLocalMeshPartitions` returns is at least as long as the sequence it was given, and
the entry at every position of the given sequence has the same mesh-info data as before; but
when the sideset (the element block) of the descriptor is present and the call returns, every
entry of the returned sequence, those present before the call included, carries the element
block name and sideset name of the descriptor (the element block name of the descriptor, the
sideset name being kept), the cell topology of the located info and `has_connectivity = true`;
and when the region is absent the sequence is left as it was given. -/
theorem generateLocalMeshPartitions_frame (order : IterationOrder) (mesh_info : LocalMeshInfo R)
    (description : WorksetDescriptor) (partitions : List (LocalMeshPartition R)) :
    (∀ (P : LocalMeshInfoBase R) (s : Int) (split : List (LocalMeshPartition R)),
      splitMeshInfo order P s partitions = .ok split → ∃ news, split = partitions ++ news) ∧
    (∀ out, generateLocalMeshPartitions order mesh_info description partitions = .returned out →
      partitions.length ≤ out.length ∧
      (∀ (i : Nat) (p : LocalMeshPartition R), partitions[i]? = some p →
        ∃ q, out[i]? = some q ∧ q.toLocalMeshInfoBase = p.toLocalMeshInfoBase) ∧
      (∀ (sideset_map : List (String × LocalMeshSidesetInfo R))
          (sideset_info : LocalMeshSidesetInfo R),
        description.useSideset = true →
        mesh_info.sidesets.lookup description.getElementBlock = some sideset_map →
        sideset_map.lookup description.getSideset = some sideset_info →
        ∀ q ∈ out, q.element_block_name = description.getElementBlock ∧
          q.sideset_name = description.getSideset ∧
          q.cell_topology = sideset_info.cell_topology ∧ q.has_connectivity = true) ∧
      (∀ (block_info : LocalMeshBlockInfo R),
        description.useSideset = false →
        mesh_info.element_blocks.lookup description.getElementBlock = some block_info →
        (∀ q ∈ out, q.element_block_name = description.getElementBlock ∧
          q.cell_topology = block_info.cell_topology ∧ q.has_connectivity = true) ∧
        ∀ (i : Nat) (p : LocalMeshPartition R), partitions[i]? = some p →
          ∃ q, out[i]? = some q ∧ q.sideset_name = p.sideset_name)) ∧
    (((description.useSideset = true ∧
        (mesh_info.sidesets.lookup description.getElementBlock = none ∨
          ∃ sideset_map, mesh_info.sidesets.lookup description.getElementBlock = some sideset_map ∧
            sideset_map.lookup description.getSideset = none)) ∨
      (description.useSideset = false ∧
        mesh_info.element_blocks.lookup description.getElementBlock = none)) →
      generateLocalMeshPartitions order mesh_info description partitions = .returned partitions ∨
      ∃ e, generateLocalMeshPartitions order mesh_info description partitions
        = .rejected e partitions) := by
  have happ : ∀ (P : LocalMeshInfoBase R) (s : Int) (split : List (LocalMeshPartition R)),
      splitMeshInfo order P s partitions = .ok split → ∃ news, split = partitions ++ news := by
    intro P s split h
    obtain ⟨_, _, _, news, h1, _⟩ := splitMeshInfo_spec h
    exact ⟨news, h1⟩
  have hmap : ∀ (g : LocalMeshPartition R → LocalMeshPartition R)
      (split news : List (LocalMeshPartition R)), split = partitions ++ news →
      partitions.length ≤ (split.map g).length ∧
      ∀ (i : Nat) (p : LocalMeshPartition R), partitions[i]? = some p →
        (split.map g)[i]? = some (g p) := by
    intro g split news hs
    subst hs
    refine ⟨by simp, ?_⟩
    intro i p hp
    have hi : i < partitions.length := (List.getElem?_eq_some_iff.mp hp).1
    rw [List.getElem?_map, List.getElem?_append_left hi, hp]
    rfl
  refine ⟨happ, ?_, ?_⟩
  · intro out hout
    by_cases h1 : description.getWorksetSize = CLASSIC_MODE
    · unfold generateLocalMeshPartitions at hout
      rw [if_pos h1] at hout
      cases hout
    by_cases h2 : description.getWorksetSize = 0
    · unfold generateLocalMeshPartitions at hout
      rw [if_neg h1, if_pos h2] at hout
      cases hout
    cases hreq : description.requiresPartitioning with
    | false =>
      unfold generateLocalMeshPartitions at hout
      rw [if_neg h1, if_neg h2, if_pos hreq] at hout
      cases hout
    | true =>
      cases hs : description.useSideset with
      | true =>
        cases hl1 : mesh_info.sidesets.lookup description.getElementBlock with
        | none =>
          rw [generateLocalMeshPartitions_region_absent_eq order mesh_info description partitions
            ⟨h1, h2⟩ hreq (Or.inl ⟨hs, Or.inl hl1⟩)] at hout
          cases hout
          refine ⟨le_rfl, fun i p hp => ⟨p, hp, rfl⟩, ?_, ?_⟩
          · intro sideset_map sideset_info _ hx
            cases hx
          · intro block_info hx
            cases hx
        | some sideset_map =>
          cases hl2 : sideset_map.lookup description.getSideset with
          | none =>
            rw [generateLocalMeshPartitions_region_absent_eq order mesh_info description
              partitions ⟨h1, h2⟩ hreq (Or.inl ⟨hs, Or.inr ⟨_, hl1, hl2⟩⟩)] at hout
            cases hout
            refine ⟨le_rfl, fun i p hp => ⟨p, hp, rfl⟩, ?_, ?_⟩
            · intro sideset_map1 sideset_info _ hx hy
              cases hx
              rw [hl2] at hy
              cases hy
            · intro block_info hx
              cases hx
          | some sideset_info =>
            rw [generateLocalMeshPartitions_sideset order mesh_info description partitions
              ⟨h1, h2⟩ hreq hs hl1 hl2] at hout
            split at hout
            · cases hout
            rename_i split hsplit
            cases hout
            obtain ⟨news, hnews⟩ := happ _ _ _ hsplit
            obtain ⟨hlen, hget⟩ := hmap (tagSideset description.getSideset
              description.getElementBlock sideset_info.cell_topology) split news hnews
            refine ⟨hlen, fun i p hp => ⟨_, hget i p hp, rfl⟩, ?_, ?_⟩
            · intro sideset_map1 sideset_info1 _ hx hy
              cases hx
              rw [hl2] at hy
              cases hy
              intro q hq
              obtain ⟨q0, _, rfl⟩ := List.mem_map.mp hq
              exact ⟨rfl, rfl, rfl, rfl⟩
            · intro block_info hx
              cases hx
      | false =>
        cases hl1 : mesh_info.element_blocks.lookup description.getElementBlock with
        | none =>
          rw [generateLocalMeshPartitions_region_absent_eq order mesh_info description partitions
            ⟨h1, h2⟩ hreq (Or.inr ⟨hs, hl1⟩)] at hout
          cases hout
          refine ⟨le_rfl, fun i p hp => ⟨p, hp, rfl⟩, ?_, ?_⟩
          · intro sideset_map sideset_info hx
            cases hx
          · intro block_info _ hx
            cases hx
        | some block_info =>
          rw [generateLocalMeshPartitions_block order mesh_info description partitions
            ⟨h1, h2⟩ hreq hs hl1] at hout
          split at hout
          · cases hout
          rename_i split hsplit
          cases hout
          obtain ⟨news, hnews⟩ := happ _ _ _ hsplit
          obtain ⟨hlen, hget⟩ := hmap (tagBlock description.getElementBlock
            block_info.cell_topology) split news hnews
          refine ⟨hlen, fun i p hp => ⟨_, hget i p hp, rfl⟩, ?_, ?_⟩
          · intro sideset_map sideset_info hx
            cases hx
          · intro block_info1 _ hx
            cases hx
            refine ⟨?_, fun i p hp => ⟨_, hget i p hp, rfl⟩⟩
            intro q hq
            obtain ⟨q0, _, rfl⟩ := List.mem_map.mp hq
            exact ⟨rfl, rfl, rfl⟩
  · intro habsent
    by_cases h1 : description.getWorksetSize = CLASSIC_MODE
    · right
      exact ⟨_, by unfold generateLocalMeshPartitions; rw [if_pos h1]⟩
    by_cases h2 : description.getWorksetSize = 0
    · right
      exact ⟨_, by unfold generateLocalMeshPartitions; rw [if_neg h1, if_pos h2]⟩
    cases hreq : description.requiresPartitioning with
    | false =>
      right
      exact ⟨_, by unfold generateLocalMeshPartitions; rw [if_neg h1, if_neg h2, if_pos hreq]⟩
    | true =>
      left
      exact generateLocalMeshPartitions_region_absent_eq order mesh_info description partitions
        ⟨h1, h2⟩ hreq habsent


theorem generateLocalMeshPartitions_frame_witness :
    ∃ out, generateLocalMeshPartitions IterationOrder.insertion scenarioMesh
        ⟨"block", "", false, ALL_ELEMENTS, true⟩ [stalePartition] = .returned out ∧
      [stalePartition].length ≤ out.length ∧
      (∃ q, out[0]? = some q ∧ q.toLocalMeshInfoBase = stalePartition.toLocalMeshInfoBase ∧
        q.sideset_name = stalePartition.sideset_name) ∧
      ∀ q ∈ out, q.element_block_name = "block" ∧ q.cell_topology = some "Line_2" ∧
        q.has_connectivity = true := by
  have key := (generateLocalMeshPartitions_frame IterationOrder.insertion scenarioMesh
    ⟨"block", "", false, ALL_ELEMENTS, true⟩ [stalePartition]).2.1
  obtain ⟨out, hout⟩ : ∃ out, generateLocalMeshPartitions IterationOrder.insertion scenarioMesh
      ⟨"block", "", false, ALL_ELEMENTS, true⟩ [stalePartition] = .returned out := ⟨_, rfl⟩
  obtain ⟨h1, h2, _, h4⟩ := key out hout
  obtain ⟨q, hq1, hq2⟩ := h2 0 stalePartition rfl
  obtain ⟨h5, h6⟩ := h4 { scenarioParent with cell_topology := some "Line_2" } rfl rfl
  obtain ⟨q1, hq3, hq4⟩ := h6 0 stalePartition rfl
  rw [hq1] at hq3
  cases hq3
  exact ⟨out, hout, h1, ⟨q, hq1, hq2, hq4⟩, h5⟩

theorem replicate_set_last {α : Type} (x y : α) :
    ∀ q : Nat, (List.replicate (q + 1) x).set q y = List.replicate q x ++ [y]
  | 0 => rfl
  | q + 1 => by
    rw [List.replicate_succ, List.set_cons_succ, replicate_set_last x y q]
    rfl

/-- A successful run of the loop of lines 137-158: it ends `sum of num_cells` after its
start, keeps the number of cells of every workset, gives every workset as many cell ids as it
has cells, and hands out the slice of `local_cell_ids` that starts at `local_begin`. -/
theorem assignCellIds_ok_inv {zero : R} {workset_size : Nat} {baseCellDimension : Int}
    {elementBlock : String} {local_cell_ids : List Nat} {extent1 extent2 : Nat} :
    ∀ (worksets : List (Workset R)) (local_begin : Nat) (out : List (Workset R))
      (local_end : Nat),
      assignCellIds zero workset_size baseCellDimension elementBlock local_cell_ids extent1
        extent2 worksets local_begin = .ok (out, local_end) →
      local_end = local_begin + (worksets.map fun w => w.num_cells).sum ∧
      (out.map fun w => w.num_cells) = (worksets.map fun w => w.num_cells) ∧
      (out.map fun w => w.cell_local_ids).flatten
        = (local_cell_ids.drop local_begin).take (worksets.map fun w => w.num_cells).sum ∧
      (∀ w ∈ out, w.cell_local_ids.length = w.num_cells ∧
        w.cell_local_ids_k = w.cell_local_ids.map sizeToInt ∧
        w.cell_vertex_coordinates.length = workset_size ∧ w.block_id = elementBlock ∧
        w.subcell_dim = baseCellDimension ∧ w.subcell_index = 0)
  | [], b, out, e, h => by
    unfold assignCellIds at h
    cases h
    simp
  | wkst :: worksets, b, out, e, h => by
    unfold assignCellIds at h
    simp only at h
    split at h
    · cases h
    rename_i hlen
    split at h
    · cases h
    rename_i rest local_end1 hrest
    cases h
    obtain ⟨h1, h2, h3, h4⟩ := assignCellIds_ok_inv worksets _ rest _ hrest
    refine ⟨?_, ?_, ?_, ?_⟩
    · rw [h1]
      simp only [List.map_cons, List.sum_cons]
      omega
    · simp only [List.map_cons, h2]
    · simp only [List.map_cons, List.flatten_cons, List.sum_cons, h3]
      rw [List.take_add, List.drop_drop]
    · intro w hw
      rcases List.mem_cons.mp hw with hw | hw
      · subst hw
        refine ⟨?_, rfl, by simp, rfl, rfl, rfl⟩
        simp only [List.length_take, List.length_drop]
        omega
      · exact h4 w hw

/-- The loop of lines 137-158 runs to its end when the cells of the worksets fit into
`local_cell_ids` from `local_begin` on. -/
theorem assignCellIds_ok (zero : R) (workset_size : Nat) (baseCellDimension : Int)
    (elementBlock : String) (local_cell_ids : List Nat) (extent1 extent2 : Nat) :
    ∀ (worksets : List (Workset R)) (local_begin : Nat),
      local_begin + (worksets.map fun w => w.num_cells).sum ≤ local_cell_ids.length →
      ∃ out local_end, assignCellIds zero workset_size baseCellDimension elementBlock
        local_cell_ids extent1 extent2 worksets local_begin = .ok (out, local_end)
  | [], b, _ => ⟨[], b, rfl⟩
  | wkst :: worksets, b, h => by
    simp only [List.map_cons, List.sum_cons] at h
    obtain ⟨rest, e, hrest⟩ := assignCellIds_ok zero workset_size baseCellDimension
      elementBlock local_cell_ids extent1 extent2 worksets (b + wkst.num_cells) (by omega)
    unfold assignCellIds
    simp only
    rw [if_neg (by omega), hrest]
    exact ⟨_, _, rfl⟩

/-- A successful run of the loop of lines 166-172: the rows of the cells `cells` are the
rows `cell + offset` of `vertex_coordinates`, the other rows are as before. -/
theorem copyCellVertices_ok_inv {vertex_coordinates : List (List (List R))} {offset : Nat} :
    ∀ (cells : List Nat) (cvc out : List (List (List R))),
      copyCellVertices vertex_coordinates offset cells cvc = .ok out →
      out.length = cvc.length ∧
      ∀ c : Nat, (c ∈ cells → out[c]? = vertex_coordinates[c + offset]? ∧ c < out.length) ∧
        (c ∉ cells → out[c]? = cvc[c]?)
  | [], cvc, out, h => by
    unfold copyCellVertices at h
    cases h
    simp
  | cell :: cells, cvc, out, h => by
    unfold copyCellVertices at h
    split at h
    · cases h
    rename_i row hrow
    split at h
    swap
    · cases h
    rename_i hcell
    obtain ⟨h1, h2⟩ := copyCellVertices_ok_inv cells _ out h
    rw [List.length_set] at h1
    refine ⟨h1, ?_⟩
    intro c
    constructor
    · intro hc
      by_cases hcc : c ∈ cells
      · exact (h2 c).1 hcc
      · have hceq : c = cell := by
          rcases List.mem_cons.mp hc with h | h
          · exact h
          · exact absurd h hcc
        subst hceq
        rw [(h2 c).2 hcc, List.getElem?_set_self hcell, hrow]
        exact ⟨rfl, by omega⟩
    · intro hc
      have hne : cell ≠ c := fun hx => hc (hx ▸ List.mem_cons_self _ _)
      have hcc : c ∉ cells := fun hx => hc (List.mem_cons_of_mem _ hx)
      rw [(h2 c).2 hcc, List.getElem?_set_ne hne]

/-- The loop of lines 166-172 runs to its end when every row it reads and writes exists. -/
theorem copyCellVertices_ok (vertex_coordinates : List (List (List R))) (offset : Nat) :
    ∀ (cells : List Nat) (cvc : List (List (List R))),
      (∀ c ∈ cells, c + offset < vertex_coordinates.length ∧ c < cvc.length) →
      ∃ out, copyCellVertices vertex_coordinates offset cells cvc = .ok out
  | [], cvc, _ => ⟨cvc, rfl⟩
  | cell :: cells, cvc, h => by
    obtain ⟨h1, h2⟩ := h cell (List.mem_cons_self _ _)
    unfold copyCellVertices
    rw [List.getElem?_eq_getElem h1]
    simp only
    rw [if_pos h2]
    apply copyCellVertices_ok vertex_coordinates offset cells
    intro c hc
    rw [List.length_set]
    exact h c (List.mem_cons_of_mem _ hc)

/-- A successful run of the loop of lines 162-175: it ends `sum of num_cells` after its
start, changes nothing but the vertex coordinates, and row `c` of workset `j` is the row of
`vertex_coordinates` at `offset`, plus the cells of the worksets before `j`, plus `c`. -/
theorem copyVertexCoordinates_ok_inv {vertex_coordinates : List (List (List R))} :
    ∀ (worksets : List (Workset R)) (offset : Nat) (out : List (Workset R)) (offset_end : Nat),
      copyVertexCoordinates vertex_coordinates worksets offset = .ok (out, offset_end) →
      offset_end = offset + (worksets.map fun w => w.num_cells).sum ∧
      (out.map fun w => w.num_cells) = (worksets.map fun w => w.num_cells) ∧
      (out.map fun w => w.cell_local_ids) = (worksets.map fun w => w.cell_local_ids) ∧
      (∀ w ∈ out, ∃ w0 ∈ worksets,
        w = { w0 with cell_vertex_coordinates := w.cell_vertex_coordinates }) ∧
      (worksets ≠ [] → offset_end ≤ vertex_coordinates.length ∨
        ∀ w ∈ worksets, w.num_cells = 0) ∧
      ∀ (j : Nat) (w : Workset R), out[j]? = some w → ∀ c < w.num_cells,
        w.cell_vertex_coordinates[c]?
          = vertex_coordinates[offset + ((worksets.take j).map fun w => w.num_cells).sum + c]? ∧
        offset + ((worksets.take j).map fun w => w.num_cells).sum + c
          < vertex_coordinates.length
  | [], offset, out, e, h => by
    unfold copyVertexCoordinates at h
    cases h
    simp
  | wkst :: worksets, offset, out, e, h => by
    unfold copyVertexCoordinates at h
    split at h
    · cases h
    rename_i cvc hcvc
    split at h
    · cases h
    rename_i rest e1 hrest
    cases h
    obtain ⟨h1, h2, h2b, h3, h4, h5⟩ := copyVertexCoordinates_ok_inv worksets _ rest _ hrest
    obtain ⟨g1, g2⟩ := copyCellVertices_ok_inv _ _ _ hcvc
    have hrow : ∀ c < wkst.num_cells,
        cvc[c]? = vertex_coordinates[offset + c]? ∧ offset + c < vertex_coordinates.length := by
      intro c hc
      have := (g2 c).1 (List.mem_range.mpr hc)
      rw [this.1, Nat.add_comm]
      refine ⟨rfl, ?_⟩
      by_contra hx
      have hnone : vertex_coordinates[c + offset]? = none :=
        List.getElem?_eq_none (by omega)
      have hlt : ¬ c < cvc.length := by
        have h0 := this.1
        rw [hnone, List.getElem?_eq_none_iff] at h0
        omega
      exact hlt this.2
    refine ⟨?_, ?_, ?_, ?_, ?_, ?_⟩
    · rw [h1]
      simp only [List.map_cons, List.sum_cons]
      omega
    · simp only [List.map_cons, h2]
    · simp only [List.map_cons, h2b]
    · intro w hw
      rcases List.mem_cons.mp hw with hw | hw
      · exact ⟨wkst, List.mem_cons_self _ _, by rw [hw]⟩
      · obtain ⟨w0, hw0, hw1⟩ := h3 w hw
        exact ⟨w0, List.mem_cons_of_mem _ hw0, hw1⟩
    · intro _
      by_cases hz : wkst.num_cells = 0
      · by_cases hnil : worksets = []
        · right
          intro w hw
          subst hnil
          simp only [List.mem_singleton] at hw
          rw [hw]
          exact hz
        · rcases h4 hnil with h | h
          · left
            exact h
          · right
            intro w hw
            rcases List.mem_cons.mp hw with hw | hw
            · rw [hw]
              exact hz
            · exact h w hw
      · left
        by_cases hnil : worksets = []
        · subst hnil
          unfold copyVertexCoordinates at hrest
          cases hrest
          have := (hrow (wkst.num_cells - 1) (by omega)).2
          omega
        · rcases h4 hnil with h | h
          · exact h
          · have hsum : (worksets.map fun w => w.num_cells).sum = 0 := by
              apply List.sum_eq_zero
              intro x hx
              obtain ⟨w, hw, rfl⟩ := List.mem_map.mp hx
              exact h w hw
            rw [h1, hsum]
            have := (hrow (wkst.num_cells - 1) (by omega)).2
            omega
    · intro j w hj c hc
      cases j with
      | zero =>
        simp only [List.getElem?_cons_zero, Option.some.injEq] at hj
        subst hj
        simp only [List.take_zero, List.map_nil, List.sum_nil, Nat.add_zero]
        exact hrow c hc
      | succ j =>
        simp only [List.getElem?_cons_succ] at hj
        have := h5 j w hj c hc
        simp only [List.take_succ_cons, List.map_cons, List.sum_cons]
        rw [show offset + (wkst.num_cells + ((worksets.take j).map fun w => w.num_cells).sum) + c
          = offset + wkst.num_cells + ((worksets.take j).map fun w => w.num_cells).sum + c
          by omega]
        exact this

/-- The loop of lines 162-175 runs to its end when the cells of the worksets fit into
`vertex_coordinates` from `offset` on and every workset has a row for each of its cells. -/
theorem copyVertexCoordinates_ok (vertex_coordinates : List (List (List R))) :
    ∀ (worksets : List (Workset R)) (offset : Nat),
      offset + (worksets.map fun w => w.num_cells).sum ≤ vertex_coordinates.length →
      (∀ w ∈ worksets, w.num_cells ≤ w.cell_vertex_coordinates.length) →
      ∃ out offset_end,
        copyVertexCoordinates vertex_coordinates worksets offset = .ok (out, offset_end)
  | [], offset, _, _ => ⟨[], offset, rfl⟩
  | wkst :: worksets, offset, h, hrows => by
    simp only [List.map_cons, List.sum_cons] at h
    obtain ⟨cvc, hcvc⟩ := copyCellVertices_ok vertex_coordinates offset
      (List.range wkst.num_cells) wkst.cell_vertex_coordinates (by
        intro c hc
        have hc1 := List.mem_range.mp hc
        have := hrows wkst (List.mem_cons_self _ _)
        omega)
    obtain ⟨rest, e, hrest⟩ := copyVertexCoordinates_ok vertex_coordinates worksets
      (offset + wkst.num_cells) (by omega) (fun w hw => hrows w (List.mem_cons_of_mem _ hw))
    unfold copyVertexCoordinates
    rw [hcvc]
    simp only
    rw [hrest]
    exact ⟨_, _, rfl⟩


/-- Lines 118-135: the numbers of cells of the worksets are `workset_size`, `total / size`
times, followed by the remainder `total % size` when it is not zero. -/
theorem sizedWorksets_num_cells (fresh : Workset R) (total_num_cells workset_size : Nat) :
    ((sizedWorksets fresh total_num_cells workset_size).map fun w => w.num_cells)
      = List.replicate (total_num_cells / workset_size) workset_size
        ++ (if total_num_cells % workset_size ≠ 0 then [total_num_cells % workset_size]
            else []) := by
  unfold sizedWorksets
  simp only
  by_cases hr : total_num_cells % workset_size ≠ 0
  · simp only [if_pos hr, List.length_replicate, Nat.add_sub_cancel]
    rw [replicate_set_last, List.map_append, List.map_replicate]
    rfl
  · simp only [if_neg hr, List.map_replicate, List.append_nil]
    rfl

theorem sizedWorksets_sum (fresh : Workset R) (total_num_cells workset_size : Nat) :
    ((sizedWorksets fresh total_num_cells workset_size).map fun w => w.num_cells).sum
      = total_num_cells := by
  rw [sizedWorksets_num_cells]
  by_cases hr : total_num_cells % workset_size ≠ 0
  · simp only [if_pos hr, List.sum_append, List.sum_replicate, List.sum_cons, List.sum_nil,
      smul_eq_mul, Nat.add_zero]
    have := Nat.div_add_mod total_num_cells workset_size
    rw [Nat.mul_comm] at this
    exact this
  · simp only [if_neg hr, List.append_nil, List.sum_replicate, smul_eq_mul]
    have := Nat.div_add_mod total_num_cells workset_size
    rw [Nat.mul_comm] at this
    have h0 : total_num_cells % workset_size = 0 := by
      by_contra hx
      exact hr hx
    omega

theorem assignCellIds_error {zero : R} {workset_size : Nat} {baseCellDimension : Int}
    {elementBlock : String} {local_cell_ids : List Nat} {extent1 extent2 : Nat} :
    ∀ (worksets : List (Workset R)) (local_begin : Nat) (e : Failure),
      assignCellIds zero workset_size baseCellDimension elementBlock local_cell_ids extent1
        extent2 worksets local_begin = .error e → e = .outOfBounds
  | [], _, e, h => by
    unfold assignCellIds at h
    cases h
  | wkst :: worksets, b, e, h => by
    unfold assignCellIds at h
    simp only at h
    split at h
    · cases h
      rfl
    split at h
    · rename_i e1 h1
      cases h
      exact assignCellIds_error worksets _ _ h1
    · cases h

theorem copyCellVertices_error {vertex_coordinates : List (List (List R))} {offset : Nat} :
    ∀ (cells : List Nat) (cvc : List (List (List R))) (e : Failure),
      copyCellVertices vertex_coordinates offset cells cvc = .error e → e = .outOfBounds
  | [], _, e, h => by
    unfold copyCellVertices at h
    cases h
  | cell :: cells, cvc, e, h => by
    unfold copyCellVertices at h
    split at h
    · cases h
      rfl
    split at h
    · exact copyCellVertices_error cells _ _ h
    · cases h
      rfl

theorem copyVertexCoordinates_error {vertex_coordinates : List (List (List R))} :
    ∀ (worksets : List (Workset R)) (offset : Nat) (e : Failure),
      copyVertexCoordinates vertex_coordinates worksets offset = .error e → e = .outOfBounds
  | [], _, e, h => by
    unfold copyVertexCoordinates at h
    cases h
  | wkst :: worksets, offset, e, h => by
    unfold copyVertexCoordinates at h
    split at h
    · rename_i e1 h1
      cases h
      exact copyCellVertices_error _ _ _ h1
    split at h
    · rename_i e1 h1
      cases h
      exact copyVertexCoordinates_error worksets _ _ h1
    · cases h

/-- What a successful call of `buildWorksets` on a non-empty list of cells returns. -/
theorem buildWorksets_ok_inv {fresh : Workset R} {zero : R} {workset_size : Nat}
    {baseCellDimension : Int} {elementBlock : String} {local_cell_ids : List Nat}
    {vertex_coordinates : List (List (List R))} {extent1 extent2 : Nat}
    {result : List (Workset R)} (hn : 0 < local_cell_ids.length)
    (h : buildWorksets fresh zero workset_size baseCellDimension elementBlock local_cell_ids
      vertex_coordinates extent1 extent2 = .ok result) :
    0 < workset_size ∧ vertex_coordinates.length = local_cell_ids.length ∧
    (result.map fun w => w.num_cells)
      = List.replicate (local_cell_ids.length / workset_size) workset_size
        ++ (if local_cell_ids.length % workset_size ≠ 0
            then [local_cell_ids.length % workset_size] else []) ∧
    (result.map fun w => w.cell_local_ids).flatten = local_cell_ids ∧
    (∀ w ∈ result, w.cell_local_ids.length = w.num_cells ∧
      w.cell_local_ids_k = w.cell_local_ids.map sizeToInt ∧ w.block_id = elementBlock ∧
      w.subcell_dim = baseCellDimension ∧ w.subcell_index = 0) ∧
    ∀ (j : Nat) (w : Workset R), result[j]? = some w → ∀ c < w.num_cells,
      w.cell_vertex_coordinates[c]?
        = vertex_coordinates[((result.take j).map fun w => w.num_cells).sum + c]? ∧
      ((result.take j).map fun w => w.num_cells).sum + c < vertex_coordinates.length := by
  unfold buildWorksets at h
  simp only at h
  rw [if_neg (by omega)] at h
  split at h
  · cases h
  rename_i hw
  split at h
  · cases h
  rename_i assigned local_begin hassign
  split at h
  · cases h
  rename_i hbegin
  split at h
  · cases h
  rename_i worksets offset hcopy
  split at h
  · cases h
  rename_i hoffset
  cases h
  obtain ⟨a1, a2, a3, a4⟩ := assignCellIds_ok_inv _ _ _ _ hassign
  obtain ⟨c1, c2, hids, c3, _, c5⟩ := copyVertexCoordinates_ok_inv _ _ _ _ hcopy
  rw [sizedWorksets_sum] at a1 a3
  rw [sizedWorksets_num_cells] at a2
  have hoff : vertex_coordinates.length = local_cell_ids.length := by
    have h1 : offset = vertex_coordinates.length := by
      by_contra hx
      exact hoffset hx
    have hsum : (assigned.map fun w => w.num_cells).sum = local_cell_ids.length := by
      rw [a2, ← sizedWorksets_num_cells fresh, sizedWorksets_sum]
    omega
  have hfields : ∀ w ∈ result, ∃ w0 ∈ assigned, w.num_cells = w0.num_cells ∧
      w.cell_local_ids = w0.cell_local_ids ∧ w.cell_local_ids_k = w0.cell_local_ids_k ∧
      w.block_id = w0.block_id ∧ w.subcell_dim = w0.subcell_dim ∧
      w.subcell_index = w0.subcell_index := by
    intro w hw
    obtain ⟨w0, hw0, hw1⟩ := c3 w hw
    refine ⟨w0, hw0, ?_⟩
    rw [hw1]
    exact ⟨rfl, rfl, rfl, rfl, rfl, rfl⟩
  refine ⟨Nat.pos_of_ne_zero hw, hoff, c2.trans a2, ?_, ?_, ?_⟩
  · rw [hids, a3, List.drop_zero, List.take_length]
  · intro w hw
    obtain ⟨w0, hw0, e1, e2, e3, e4, e5, e6⟩ := hfields w hw
    obtain ⟨b1, b2, _, b4, b5, b6⟩ := a4 w0 hw0
    rw [e1, e2, e3, e4, e5, e6]
    exact ⟨b1, b2, b4, b5, b6⟩
  · intro j w hj c hc
    have := c5 j w hj c hc
    rw [Nat.zero_add] at this
    rw [List.map_take, c2, ← List.map_take]
    exact this

/-- With a workset size that is not zero, `buildWorksets` returns on a non-empty list of cells
when `vertex_coordinates` has one row per cell. -/
theorem buildWorksets_ok (fresh : Workset R) (zero : R) {workset_size : Nat}
    (baseCellDimension : Int) (elementBlock : String) {local_cell_ids : List Nat}
    {vertex_coordinates : List (List (List R))} (extent1 extent2 : Nat)
    (hw : 0 < workset_size) (hn : 0 < local_cell_ids.length)
    (hvc : vertex_coordinates.length = local_cell_ids.length) :
    ∃ result, buildWorksets fresh zero workset_size baseCellDimension elementBlock
      local_cell_ids vertex_coordinates extent1 extent2 = .ok result := by
  obtain ⟨assigned, local_end, hassign⟩ := assignCellIds_ok zero workset_size baseCellDimension
    elementBlock local_cell_ids extent1 extent2
    (sizedWorksets fresh local_cell_ids.length workset_size) 0
    (by rw [sizedWorksets_sum]; omega)
  obtain ⟨a1, a2, _, a4⟩ := assignCellIds_ok_inv _ _ _ _ hassign
  rw [sizedWorksets_sum] at a1
  have hsum : (assigned.map fun w => w.num_cells).sum = local_cell_ids.length := by
    rw [a2, sizedWorksets_sum]
  have hle : ∀ w ∈ assigned, w.num_cells ≤ w.cell_vertex_coordinates.length := by
    intro w hw1
    rw [(a4 w hw1).2.2.1]
    have hmem : w.num_cells ∈ assigned.map fun w => w.num_cells := List.mem_map_of_mem _ hw1
    rw [a2, sizedWorksets_num_cells, List.mem_append] at hmem
    rcases hmem with h | h
    · rw [(List.mem_replicate.mp h).2]
    · split at h
      · simp only [List.mem_singleton] at h
        rw [h]
        exact (Nat.mod_lt _ hw).le
      · simp at h
  obtain ⟨worksets, offset, hcopy⟩ := copyVertexCoordinates_ok vertex_coordinates assigned 0
    (by rw [hsum]; omega) hle
  obtain ⟨c1, _⟩ := copyVertexCoordinates_ok_inv _ _ _ _ hcopy
  refine ⟨worksets, ?_⟩
  unfold buildWorksets
  simp only
  rw [if_neg (by omega), if_neg (by omega), hassign]
  simp only
  rw [if_neg (by omega), hcopy]
  simp only
  rw [if_neg (by omega)]

/-- C32: for a workset size `w > 0` and `n` local cell ids, `buildWorksets` returns exactly
one workset, with zero cells, when `n = 0`; when `n > 0` it returns if `vertex_coordinates`
has `n` rows, and whatever it returns has `ceil(n / w)` worksets, every one with
`num_cells = w` except that the last has `n mod w` cells when `n mod w` is not zero. -/
theorem buildWorksets_number_of_worksets (fresh : Workset R) (zero : R) (workset_size : Nat)
    (baseCellDimension : Int) (elementBlock : String) (local_cell_ids : List Nat)
    (vertex_coordinates : List (List (List R))) (extent1 extent2 : Nat)
    (hw : 0 < workset_size) :
    (local_cell_ids.length = 0 →
      ∃ workset, buildWorksets fresh zero workset_size baseCellDimension elementBlock
          local_cell_ids vertex_coordinates extent1 extent2 = .ok [workset] ∧
        workset.num_cells = 0) ∧
    (0 < local_cell_ids.length →
      (vertex_coordinates.length = local_cell_ids.length →
        ∃ result, buildWorksets fresh zero workset_size baseCellDimension elementBlock
          local_cell_ids vertex_coordinates extent1 extent2 = .ok result) ∧
      ∀ result, buildWorksets fresh zero workset_size baseCellDimension elementBlock
          local_cell_ids vertex_coordinates extent1 extent2 = .ok result →
        result.length = (local_cell_ids.length + workset_size - 1) / workset_size ∧
        ∀ (j : Nat) (workset : Workset R), result[j]? = some workset →
          workset.num_cells =
            if j + 1 = result.length ∧ local_cell_ids.length % workset_size ≠ 0 then
              local_cell_ids.length % workset_size
            else workset_size) := by
  constructor
  · intro h0
    refine ⟨{ fresh.setNumberOfCells 0 with block_id := elementBlock }, ?_, rfl⟩
    unfold buildWorksets
    simp only
    rw [if_pos h0]
  intro hn
  refine ⟨fun hvc => buildWorksets_ok fresh zero baseCellDimension elementBlock extent1 extent2
    hw hn hvc, ?_⟩
  intro result h
  obtain ⟨_, _, hcounts, _⟩ := buildWorksets_ok_inv hn h
  have hlen : result.length = local_cell_ids.length / workset_size
      + (if local_cell_ids.length % workset_size ≠ 0 then 1 else 0) := by
    have := congrArg List.length hcounts
    rw [List.length_map, List.length_append, List.length_replicate] at this
    rw [this]
    split <;> rfl
  have hceil : (local_cell_ids.length + workset_size - 1) / workset_size
      = local_cell_ids.length / workset_size
        + (if local_cell_ids.length % workset_size ≠ 0 then 1 else 0) := by
    have hdm := Nat.div_add_mod local_cell_ids.length workset_size
    have hmod := Nat.mod_lt local_cell_ids.length hw
    generalize local_cell_ids.length / workset_size = q at hdm ⊢
    generalize local_cell_ids.length % workset_size = r at hdm hmod ⊢
    rw [← hdm]
    split
    · rename_i hr
      rw [show workset_size * q + r + workset_size - 1 = (r - 1) + workset_size * (q + 1) by
        rw [Nat.mul_add]; omega]
      rw [Nat.add_mul_div_left _ _ hw, Nat.div_eq_of_lt (by omega)]
      omega
    · rename_i hr
      have hr0 : r = 0 := by
        by_contra hx
        exact hr hx
      subst hr0
      rw [show workset_size * q + 0 + workset_size - 1 = (workset_size - 1) + workset_size * q by
        omega]
      rw [Nat.add_mul_div_left _ _ hw, Nat.div_eq_of_lt (by omega)]
      omega
  refine ⟨hlen.trans hceil.symm, ?_⟩
  intro j workset hj
  have hjn : (result.map fun w => w.num_cells)[j]? = some workset.num_cells := by
    rw [List.getElem?_map, hj]
    rfl
  rw [hcounts] at hjn
  have hjlt : j < result.length := (List.getElem?_eq_some_iff.mp hj).1
  by_cases hr : local_cell_ids.length % workset_size ≠ 0
  · rw [if_pos hr] at hjn hlen
    by_cases hlast : j + 1 = result.length
    · rw [if_pos ⟨hlast, hr⟩]
      rw [List.getElem?_append_right (by rw [List.length_replicate]; omega),
        List.length_replicate, show j - local_cell_ids.length / workset_size = 0 by omega] at hjn
      simpa using hjn.symm
    · rw [if_neg (fun hx => hlast hx.1)]
      rw [List.getElem?_append_left (by rw [List.length_replicate]; omega),
        List.getElem?_replicate, if_pos (by omega)] at hjn
      simpa using hjn.symm
  · rw [if_neg hr] at hjn hlen
    rw [if_neg (fun hx => hr hx.2)]
    rw [List.append_nil, List.getElem?_replicate, if_pos (by omega)] at hjn
    simpa using hjn.symm

theorem buildWorksets_number_of_worksets_witness :
    (0 < [10, 11, 12, 13, 14].length →
      ([[[(0 : Int)]], [[1]], [[2]], [[3]], [[4]]].length = [10, 11, 12, 13, 14].length →
        ∃ result, buildWorksets ⟨7, [], [], [], "", 0, 0⟩ 0 2 1 "block" [10, 11, 12, 13, 14]
          [[[(0 : Int)]], [[1]], [[2]], [[3]], [[4]]] 1 1 = .ok result) ∧
      ∀ result, buildWorksets ⟨7, [], [], [], "", 0, 0⟩ 0 2 1 "block" [10, 11, 12, 13, 14]
          [[[(0 : Int)]], [[1]], [[2]], [[3]], [[4]]] 1 1 = .ok result →
        result.length = ([10, 11, 12, 13, 14].length + 2 - 1) / 2 ∧
        ∀ (j : Nat) (workset : Workset Int), result[j]? = some workset →
          workset.num_cells =
            if j + 1 = result.length ∧ [10, 11, 12, 13, 14].length % 2 ≠ 0 then
              [10, 11, 12, 13, 14].length % 2
            else 2) ∧
    ∃ workset, buildWorksets ⟨7, [], [], [], "", 0, 0⟩ (0 : Int) 2 1 "block" [] [] 1 1
        = .ok [workset] ∧ workset.num_cells = 0 :=
  ⟨(buildWorksets_number_of_worksets ⟨7, [], [], [], "", 0, 0⟩ 0 2 1 "block"
      [10, 11, 12, 13, 14] [[[(0 : Int)]], [[1]], [[2]], [[3]], [[4]]] 1 1 (by decide)).2,
    (buildWorksets_number_of_worksets ⟨7, [], [], [], "", 0, 0⟩ (0 : Int) 2 1 "block" [] [] 1 1
      (by decide)).1 rfl⟩

/-- C33: for a workset size `w > 0` and `n > 0` local cell ids with `n` rows of vertex
coordinates, `buildWorksets` returns (the assertions of lines 160 and 177 hold); the
`cell_local_ids` of the worksets returned, concatenated in workset order, are the input list;
every workset has as many `cell_local_ids` as `num_cells`; and row `c` of the vertex
coordinates of a workset, for `c < num_cells`, is the input row whose index is the number of
cells of the earlier worksets plus `c`. -/
theorem buildWorksets_cells_in_order (fresh : Workset R) (zero : R) (workset_size : Nat)
    (baseCellDimension : Int) (elementBlock : String) (local_cell_ids : List Nat)
    (vertex_coordinates : List (List (List R))) (extent1 extent2 : Nat)
    (hw : 0 < workset_size) (hn : 0 < local_cell_ids.length)
    (hvc : vertex_coordinates.length = local_cell_ids.length) :
    ∃ result, buildWorksets fresh zero workset_size baseCellDimension elementBlock
        local_cell_ids vertex_coordinates extent1 extent2 = .ok result ∧
      (result.map fun w => w.cell_local_ids).flatten = local_cell_ids ∧
      (∀ w ∈ result, w.cell_local_ids.length = w.num_cells) ∧
      ∀ (j : Nat) (w : Workset R), result[j]? = some w → ∀ (c : Nat), c < w.num_cells →
        ((result.take j).map fun w => w.num_cells).sum + c < vertex_coordinates.length ∧
        w.cell_vertex_coordinates[c]?
          = vertex_coordinates[((result.take j).map fun w => w.num_cells).sum + c]? := by
  obtain ⟨result, h⟩ := buildWorksets_ok fresh zero baseCellDimension elementBlock extent1
    extent2 hw hn hvc
  obtain ⟨_, _, _, hflat, hfields, hrows⟩ := buildWorksets_ok_inv hn h
  exact ⟨result, h, hflat, fun w hw1 => (hfields w hw1).1,
    fun j w hj c hc => ((hrows j w hj c hc).symm)⟩

theorem buildWorksets_cells_in_order_witness :
    ∃ result, buildWorksets ⟨7, [], [], [], "", 0, 0⟩ 0 2 1 "block" [10, 11, 12, 13, 14]
        [[[(0 : Int)]], [[1]], [[2]], [[3]], [[4]]] 1 1 = .ok result ∧
      (result.map fun w => w.cell_local_ids).flatten = [10, 11, 12, 13, 14] ∧
      (∀ w ∈ result, w.cell_local_ids.length = w.num_cells) ∧
      ∀ (j : Nat) (w : Workset Int), result[j]? = some w → ∀ (c : Nat), c < w.num_cells →
        ((result.take j).map fun w => w.num_cells).sum + c
          < [[[(0 : Int)]], [[1]], [[2]], [[3]], [[4]]].length ∧
        w.cell_vertex_coordinates[c]?
          = [[[(0 : Int)]], [[1]], [[2]], [[3]], [[4]]][
              ((result.take j).map fun w => w.num_cells).sum + c]? :=
  buildWorksets_cells_in_order ⟨7, [], [], [], "", 0, 0⟩ 0 2 1 "block" [10, 11, 12, 13, 14]
    [[[(0 : Int)]], [[1]], [[2]], [[3]], [[4]]] 1 1 (by decide) (by decide) rfl

theorem fillCellLocalIds_error {wksize : Int} :
    ∀ (ids : List Nat) (state : List (Workset R) × Nat × Nat) (e : Failure),
      fillCellLocalIds wksize ids state = .error e → e = .outOfBounds
  | [], _, e, h => by
    unfold fillCellLocalIds at h
    cases h
  | id :: ids, (worksets, k, lc), e, h => by
    unfold fillCellLocalIds at h
    split at h
    · cases h
      rfl
    simp only at h
    split at h
    · exact fillCellLocalIds_error ids _ _ h
    · exact fillCellLocalIds_error ids _ _ h

theorem finishWorksets_error {zero : R} {n_nodes n_dim : Nat}
    {getElementVertices : List Nat → List (List (List R))} {baseCellDimension : Int}
    {element_block_name : String} :
    ∀ (worksets : List (Workset R)) (e : Failure),
      finishWorksets zero n_nodes n_dim getElementVertices baseCellDimension element_block_name
        worksets = .error e → e = .outOfBounds
  | [], e, h => by
    unfold finishWorksets at h
    cases h
  | workset :: worksets, e, h => by
    unfold finishWorksets at h
    split at h
    · rename_i e1 h1
      cases h
      unfold finishWorkset at h1
      simp only at h1
      split at h1
      · cases h1
        rfl
      split at h1
      · rename_i e2 h2
        cases h1
        exact copyCellVertices_error _ _ _ h2
      · cases h1
    split at h
    · rename_i e1 h1
      cases h
      exact finishWorksets_error worksets _ h1
    · cases h

/-- The value of `wksize` for a block of `n` elements is `n` when the effective workset size
is not positive and the smaller of the two otherwise: it is between 1 and `n` when `n >= 1`,
and 0 when `n = 0`. -/
theorem wksize_bounds (worksetDesc : WorksetDescriptor) (n_celldata : Int) (n : Nat) :
    (n = 0 → wksize worksetDesc n_celldata (n : Int) = 0) ∧
    (0 < n → 0 < wksize worksetDesc n_celldata (n : Int) ∧
      wksize worksetDesc n_celldata (n : Int) ≤ (n : Int)) := by
  unfold wksize
  simp only
  generalize (if worksetDesc.getWorksetSize > 0 then
      if n_celldata > 0 ∧ n_celldata < worksetDesc.getWorksetSize then n_celldata
      else worksetDesc.getWorksetSize
    else n_celldata) = worksetSize
  constructor
  · intro h0
    subst h0
    by_cases h : worksetSize ≤ 0
    · rw [if_pos h]
      rfl
    · rw [if_neg h, min_def, if_neg (by push_cast; omega)]
      rfl
  · intro hn
    by_cases h : worksetSize ≤ 0
    · rw [if_pos h]
      omega
    · rw [if_neg h, min_def]
      split <;> omega

/-- C37 (as stated, refuted; the cases in which the divisions are safe): the call of
`generateWorksets` evaluates `numElements % wksize` and `(numElements - remain) / wksize` with
`wksize == 0` exactly when the descriptor names no sideset, the element block part exists and
the element block has no element on this rank, whatever the workset size of the descriptor
and the size of the cell data; and `buildWorksets` divides by a workset size of zero exactly
when it is given at least one cell and `needs.cellData.numCells()` is zero. -/
theorem generateWorksets_division_by_zero (fresh : Workset R) (zero : R) (n_nodes n_dim : Nat)
    (getElementVertices : List Nat → List (List (List R))) (worksetDesc : WorksetDescriptor)
    (n_celldata : Int) (baseCellDimension : Int) (elementBlockPart : Option (List Nat))
    (worksets : List (Workset R)) (workset_size : Nat) (elementBlock : String)
    (local_cell_ids : List Nat) (vertex_coordinates : List (List (List R)))
    (extent1 extent2 : Nat) :
    (generateWorksets fresh zero n_nodes n_dim getElementVertices worksetDesc n_celldata
        baseCellDimension elementBlockPart worksets = .error .divisionByZero ↔
      worksetDesc.useSideset = false ∧ elementBlockPart = some []) ∧
    (buildWorksets fresh zero workset_size baseCellDimension elementBlock local_cell_ids
        vertex_coordinates extent1 extent2 = .error .divisionByZero ↔
      0 < local_cell_ids.length ∧ workset_size = 0) := by
  constructor
  · constructor
    · intro h
      unfold generateWorksets at h
      split at h
      · cases h
      rename_i hs
      split at h
      · cases h
      rename_i ids
      refine ⟨by simpa using hs, ?_⟩
      simp only at h
      split at h
      · rename_i hz
        congr 1
        apply List.length_eq_zero.mp
        by_contra hx
        have := ((wksize_bounds worksetDesc n_celldata ids.length).2
          (Nat.pos_of_ne_zero hx)).1
        omega
      · split at h
        · cases h
        split at h
        · rename_i e1 h1
          cases h
          have := fillCellLocalIds_error _ _ _ h1
          cases this
        · have := finishWorksets_error _ _ h
          cases this
    · rintro ⟨hs, rfl⟩
      unfold generateWorksets
      rw [if_neg (by rw [hs]; decide)]
      simp only [List.length_nil]
      rw [if_pos ((wksize_bounds worksetDesc n_celldata 0).1 rfl)]
  · constructor
    · intro h
      unfold buildWorksets at h
      simp only at h
      split at h
      · cases h
      rename_i hn
      split at h
      · rename_i hw
        exact ⟨Nat.pos_of_ne_zero hn, hw⟩
      split at h
      · rename_i e1 h1
        cases h
        have := assignCellIds_error _ _ _ h1
        cases this
      split at h
      · cases h
      split at h
      · rename_i e1 h1
        cases h
        have := copyVertexCoordinates_error _ _ _ h1
        cases this
      split at h <;> cases h
    · rintro ⟨hn, hw⟩
      unfold buildWorksets
      simp only
      rw [if_neg (by omega), if_pos hw]

theorem generateWorksets_division_by_zero_counterexample :
    generateWorksets (freshWorkset 0) 0 2 1 lineVertices ⟨"block", "", false, 2, false⟩ 0 1
      (some []) [] = .error .divisionByZero ∧
    generateWorksets (freshWorkset 0) 0 2 1 lineVertices
      ⟨"block", "", false, ALL_ELEMENTS, false⟩ 0 1 (some []) [] = .error .divisionByZero ∧
    buildWorksets (freshWorkset 0) 0 0 1 "block" [7] [[[0], [1]]] 2 1
      = .error .divisionByZero :=
  ⟨rfl, rfl, rfl⟩

theorem set_append_length {α : Type} (x y : α) (rest : List α) :
    ∀ pre : List α, (pre ++ x :: rest).set pre.length y = pre ++ y :: rest
  | [] => rfl
  | a :: pre => by
    simp only [List.cons_append, List.length_cons, List.set_cons_succ,
      set_append_length x y rest pre]

theorem getElem?_append_length {α : Type} (x : α) (rest pre : List α) :
    (pre ++ x :: rest)[pre.length]? = some x := by
  rw [List.getElem?_append_right (le_refl _), Nat.sub_self, List.getElem?_cons_zero]

/-- Lines 214-223 while the workset at `wkset_count` does not become full: the ids are
appended to it and `num_cells` is not assigned. -/
theorem fillCellLocalIds_not_full {s : Nat} :
    ∀ (ids : List Nat) (id : Nat) (worksets : List (Workset R)) (k lc : Nat) (cur : Workset R),
      worksets[k]? = some cur → lc + 1 + ids.length < s →
      fillCellLocalIds (s : Int) (id :: ids) (worksets, k, lc)
        = .ok (worksets.set k { cur with cell_local_ids := cur.cell_local_ids ++ id :: ids },
            k, lc + 1 + ids.length)
  | [], id, worksets, k, lc, cur, hk, hlt => by
    unfold fillCellLocalIds
    rw [hk]
    simp only
    rw [if_neg (by push_cast; simp only [List.length_nil] at hlt; omega)]
    unfold fillCellLocalIds
    rfl
  | id1 :: ids, id, worksets, k, lc, cur, hk, hlt => by
    simp only [List.length_cons] at hlt
    unfold fillCellLocalIds
    rw [hk]
    simp only
    rw [if_neg (by push_cast; omega)]
    have hk1 : (worksets.set k
        { cur with cell_local_ids := cur.cell_local_ids ++ [id] })[k]?
        = some { cur with cell_local_ids := cur.cell_local_ids ++ [id] } := by
      have hlt1 : k < worksets.length := (List.getElem?_eq_some_iff.mp hk).1
      rw [List.getElem?_set_self hlt1]
    rw [fillCellLocalIds_not_full ids id1 _ k (lc + 1) _ hk1 (by omega), List.set_set]
    simp only [List.append_assoc, List.singleton_append, List.length_cons]
    congr 3
    omega

/-- Lines 214-223 up to the id that makes the workset at `wkset_count` full: the ids are
appended to it, `num_cells` is set to `wksize` and the loop goes on with the next workset. -/
theorem fillCellLocalIds_full {s : Nat} (ids2 : List Nat) :
    ∀ (ids1 : List Nat) (id : Nat) (worksets : List (Workset R)) (k lc : Nat)
      (cur : Workset R),
      worksets[k]? = some cur → lc + 1 + ids1.length = s →
      fillCellLocalIds (s : Int) (id :: ids1 ++ ids2) (worksets, k, lc)
        = fillCellLocalIds (s : Int) ids2
            (worksets.set k
              { cur with cell_local_ids := cur.cell_local_ids ++ id :: ids1, num_cells := s },
              k + 1, 0)
  | [], id, worksets, k, lc, cur, hk, hlt => by
    simp only [List.length_nil, Nat.add_zero] at hlt
    rw [List.cons_append, List.nil_append]
    conv_lhs => unfold fillCellLocalIds
    rw [hk]
    simp only
    rw [if_pos (by push_cast; omega), hlt]
  | id1 :: ids1, id, worksets, k, lc, cur, hk, hlt => by
    simp only [List.length_cons] at hlt
    rw [List.cons_append]
    conv_lhs => unfold fillCellLocalIds
    rw [hk]
    simp only
    rw [if_neg (by push_cast; omega)]
    have hk1 : (worksets.set k
        { cur with cell_local_ids := cur.cell_local_ids ++ [id] })[k]?
        = some { cur with cell_local_ids := cur.cell_local_ids ++ [id] } := by
      have hlt1 : k < worksets.length := (List.getElem?_eq_some_iff.mp hk).1
      rw [List.getElem?_set_self hlt1]
    rw [fillCellLocalIds_full ids2 ids1 id1 _ k (lc + 1) _ hk1 (by omega), List.set_set]
    simp only [List.append_assoc, List.singleton_append]

/-- Lines 212-223 on `q * s + r` ids (`r < s`) and `q` fresh worksets, one more when
`r > 0`, after the worksets `pre`: the loop ends; the first `q` new worksets hold `s` ids
each and have `num_cells = s`; a last one, when `r > 0`, holds the `r` ids left and keeps
the `num_cells` of a fresh workset; the ids of the new worksets, in order, are the ids
given. -/
theorem fillCellLocalIds_chunks {s : Nat} (hs : 0 < s) {fresh : Workset R}
    (hfresh : fresh.cell_local_ids = []) {r : Nat} (hr : r < s) :
    ∀ (q : Nat) (ids : List Nat) (pre : List (Workset R)), ids.length = q * s + r →
      ∃ (news : List (Workset R)) (k lc : Nat),
        fillCellLocalIds (s : Int) ids
          (pre ++ List.replicate (q + if r > 0 then 1 else 0) fresh, pre.length, 0)
          = .ok (pre ++ news, k, lc) ∧
        news.length = q + (if r > 0 then 1 else 0) ∧
        (news.map fun w => w.cell_local_ids).flatten = ids ∧
        ∀ (j : Nat) (w : Workset R), news[j]? = some w →
          (j < q → w.cell_local_ids.length = s ∧ w.num_cells = s) ∧
          (q ≤ j → w.cell_local_ids.length = r ∧ w.num_cells = fresh.num_cells)
  | 0, ids, pre, hlen => by
    simp only [Nat.zero_mul, Nat.zero_add] at hlen ⊢
    by_cases hr0 : r > 0
    · rw [if_pos hr0]
      match ids, hlen with
      | [], hlen =>
        simp only [List.length_nil] at hlen
        omega
      | id :: ids, hlen =>
        simp only [List.length_cons] at hlen
        have hk : (pre ++ List.replicate 1 fresh)[pre.length]? = some fresh :=
          getElem?_append_length fresh [] pre
        rw [fillCellLocalIds_not_full ids id _ pre.length 0 fresh hk (by omega)]
        refine ⟨[{ fresh with cell_local_ids := fresh.cell_local_ids ++ id :: ids }],
          pre.length, 0 + 1 + ids.length, ?_, rfl, ?_, ?_⟩
        · congr 2
          exact set_append_length fresh _ [] pre
        · simp [hfresh]
        · intro j w hj
          have hj0 : j = 0 := by
            have := (List.getElem?_eq_some_iff.mp hj).1
            simp only [List.length_singleton] at this
            omega
          subst hj0
          simp only [List.getElem?_cons_zero, Option.some.injEq] at hj
          subst hj
          refine ⟨fun hx => absurd hx (by omega), fun _ => ⟨?_, rfl⟩⟩
          simp only [hfresh, List.nil_append, List.length_cons]
          omega
    · rw [if_neg hr0]
      have hnil : ids = [] := List.length_eq_zero.mp (by omega)
      subst hnil
      refine ⟨[], pre.length, 0, ?_, rfl, rfl, ?_⟩
      · unfold fillCellLocalIds
        simp
      · intro j w hj
        simp at hj
  | q + 1, ids, pre, hlen => by
    have hsplit : ids = ids.take s ++ ids.drop s := (List.take_append_drop s ids).symm
    have hq : (q + 1) * s = q * s + s := Nat.succ_mul q s
    have htake : (ids.take s).length = s := by
      rw [List.length_take]
      omega
    have hdrop : (ids.drop s).length = q * s + r := by
      rw [List.length_drop]
      omega
    match hids1 : ids.take s, htake with
    | [], htake =>
      simp only [List.length_nil] at htake
      omega
    | id :: ids1, htake =>
      simp only [List.length_cons] at htake
      rw [hids1] at hsplit
      have hws : pre ++ List.replicate (q + 1 + if r > 0 then 1 else 0) fresh
          = pre ++ fresh :: List.replicate (q + if r > 0 then 1 else 0) fresh := by
        rw [show q + 1 + (if r > 0 then 1 else 0) = (q + if r > 0 then 1 else 0) + 1 by omega,
          List.replicate_succ]
      have hk : (pre ++ fresh :: List.replicate (q + if r > 0 then 1 else 0) fresh)[pre.length]?
          = some fresh := getElem?_append_length fresh _ pre
      obtain ⟨news, k, lc, hrun, hnl, hflat, hfacts⟩ := fillCellLocalIds_chunks hs hfresh hr q
        (ids.drop s)
        (pre ++ [{ fresh with cell_local_ids := fresh.cell_local_ids ++ id :: ids1,
                              num_cells := s }]) hdrop
      refine ⟨{ fresh with cell_local_ids := fresh.cell_local_ids ++ id :: ids1,
                           num_cells := s } :: news, k, lc, ?_, ?_, ?_, ?_⟩
      · rw [hws]
        conv_lhs => rw [hsplit]
        rw [fillCellLocalIds_full (ids.drop s) ids1 id _ pre.length 0 fresh hk (by omega),
          set_append_length]
        have e1 : pre ++ { fresh with cell_local_ids := fresh.cell_local_ids ++ id :: ids1,
                                      num_cells := s }
              :: List.replicate (q + if r > 0 then 1 else 0) fresh
            = (pre ++ [{ fresh with cell_local_ids := fresh.cell_local_ids ++ id :: ids1,
                                    num_cells := s }])
              ++ List.replicate (q + if r > 0 then 1 else 0) fresh := by
          simp
        have e2 : pre.length + 1
            = (pre ++ [{ fresh with cell_local_ids := fresh.cell_local_ids ++ id :: ids1,
                                    num_cells := s }]).length := by
          simp
        rw [e1, e2, hrun]
        simp
      · simp only [List.length_cons, hnl]
        omega
      · simp only [List.map_cons, List.flatten_cons, hflat, hfresh, List.nil_append]
        exact hsplit.symm
      · intro j w hj
        cases j with
        | zero =>
          simp only [List.getElem?_cons_zero, Option.some.injEq] at hj
          subst hj
          refine ⟨fun _ => ⟨?_, rfl⟩, fun hx => absurd hx (by omega)⟩
          simp only [hfresh, List.nil_append, List.length_cons]
          omega
        | succ j =>
          simp only [List.getElem?_cons_succ] at hj
          obtain ⟨f1, f2⟩ := hfacts j w hj
          exact ⟨fun hx => f1 (by omega), fun hx => f2 (by omega)⟩

/-- What a successful run of the second loop (lines 225-253) leaves: the worksets keep
their `num_cells` and `cell_local_ids`, and none has more cells than ids. -/
theorem finishWorksets_ok_inv {zero : R} {n_nodes n_dim : Nat}
    {getElementVertices : List Nat → List (List (List R))} {baseCellDimension : Int}
    {element_block_name : String} :
    ∀ (worksets out : List (Workset R)),
      finishWorksets zero n_nodes n_dim getElementVertices baseCellDimension element_block_name
        worksets = .ok out →
      out.length = worksets.length ∧
      (out.map fun w => w.cell_local_ids) = (worksets.map fun w => w.cell_local_ids) ∧
      (out.map fun w => w.num_cells) = (worksets.map fun w => w.num_cells) ∧
      ∀ w ∈ worksets, w.num_cells ≤ w.cell_local_ids.length
  | [], out, h => by
    unfold finishWorksets at h
    cases h
    simp
  | workset :: worksets, out, h => by
    unfold finishWorksets at h
    split at h
    · cases h
    rename_i finished hfin
    split at h
    · cases h
    rename_i rest hrest
    cases h
    obtain ⟨h1, h2, h3, h4⟩ := finishWorksets_ok_inv worksets rest hrest
    unfold finishWorkset at hfin
    simp only at hfin
    split at hfin
    · cases hfin
    rename_i hle
    split at hfin
    · cases hfin
    cases hfin
    refine ⟨by simp only [List.length_cons, h1], by simp only [List.map_cons, h2],
      by simp only [List.map_cons, h3], ?_⟩
    intro w hw
    rcases List.mem_cons.mp hw with hw | hw
    · rw [hw]
      omega
    · exact h4 w hw

/-- The second loop (lines 225-253) runs to its end when no workset has more cells than
ids and `getElementVertices` returns a row for each id. -/
theorem finishWorksets_ok (zero : R) (n_nodes n_dim : Nat)
    (getElementVertices : List Nat → List (List (List R))) (baseCellDimension : Int)
    (element_block_name : String)
    (hrows : ∀ ids, (getElementVertices ids).length = ids.length) :
    ∀ (worksets : List (Workset R)), (∀ w ∈ worksets, w.num_cells ≤ w.cell_local_ids.length) →
      ∃ out, finishWorksets zero n_nodes n_dim getElementVertices baseCellDimension
        element_block_name worksets = .ok out
  | [], _ => ⟨[], rfl⟩
  | workset :: worksets, h => by
    have hle := h workset (List.mem_cons_self _ _)
    obtain ⟨rest, hrest⟩ := finishWorksets_ok zero n_nodes n_dim getElementVertices
      baseCellDimension element_block_name hrows worksets
      (fun w hw => h w (List.mem_cons_of_mem _ hw))
    obtain ⟨cvc, hcvc⟩ := copyCellVertices_ok (getElementVertices workset.cell_local_ids) 0
      (List.range workset.num_cells)
      (List.replicate workset.num_cells (List.replicate n_nodes (List.replicate n_dim zero)))
      (by
        intro c hc
        have := List.mem_range.mp hc
        rw [hrows, List.length_replicate]
        omega)
    unfold finishWorksets finishWorkset
    simp only
    rw [if_neg (by omega), hcvc]
    simp only
    rw [hrest]
    exact ⟨_, rfl⟩

theorem numWorksets_natCast (n s : Nat) (hs : 0 < s) :
    numWorksets (n : Int) (s : Int) = ((n / s + (if n % s > 0 then 1 else 0) : Nat) : Int) := by
  unfold numWorksets
  simp only
  have hmod : Int.tmod (n : Int) (s : Int) = ((n % s : Nat) : Int) := rfl
  have hsub : (n : Int) - ((n % s : Nat) : Int) = ((n - n % s : Nat) : Int) := by
    rw [Nat.cast_sub (Nat.mod_le n s)]
  have hdiv : Int.tdiv ((n - n % s : Nat) : Int) (s : Int) = (((n - n % s) / s : Nat) : Int) := rfl
  have hq : (n - n % s) / s = n / s := by
    have h1 := Nat.div_add_mod n s
    have h2 : n - n % s = s * (n / s) := by omega
    rw [h2, Nat.mul_div_cancel_left _ hs]
  rw [hmod, hsub, hdiv, hq]
  by_cases hr : n % s > 0
  · rw [if_pos (by exact_mod_cast hr), if_pos hr]
    push_cast
    rfl
  · rw [if_neg (by exact_mod_cast hr), if_neg hr]
    simp

/-- The call of `generateWorksets` for a descriptor without sideset, an element block with
at least one element and an empty vector `worksets`, for a workset size `s` that is the
value of `wksize`: the loops of lines 212-253 applied to fresh worksets. -/
theorem generateWorksets_eq (fresh : Workset R) (zero : R) (n_nodes n_dim : Nat)
    (getElementVertices : List Nat → List (List (List R))) (worksetDesc : WorksetDescriptor)
    (n_celldata baseCellDimension : Int) (localEntityIds : List Nat)
    (hside : worksetDesc.useSideset = false) {s : Nat} (hs : 0 < s)
    (hwk : (s : Int) = wksize worksetDesc n_celldata (localEntityIds.length : Int)) :
    generateWorksets fresh zero n_nodes n_dim getElementVertices worksetDesc n_celldata
        baseCellDimension (some localEntityIds) [] =
      match fillCellLocalIds (s : Int) localEntityIds
          (List.replicate (localEntityIds.length / s
            + (if localEntityIds.length % s > 0 then 1 else 0)) fresh, 0, 0) with
      | .error e => .error e
      | .ok (filled, _, _) =>
        finishWorksets zero n_nodes n_dim getElementVertices baseCellDimension
          worksetDesc.getElementBlock filled := by
  unfold generateWorksets
  rw [if_neg (by rw [hside]; decide)]
  simp only
  rw [← hwk, if_neg (by omega), numWorksets_natCast _ _ hs,
    if_neg (not_lt.mpr (Nat.cast_nonneg _)), Int.toNat_ofNat]
  unfold resize
  simp only [List.take_nil, List.nil_append, List.length_nil, Nat.sub_zero]

/-- C36 (as stated, refuted; what holds instead): for a descriptor without sideset, an
element block with at least one local element, an empty vector `worksets` and a
default-constructed workset without cell ids, with `s` the effective workset size `wksize`
and `n` the number of elements: what `generateWorksets` returns has `n / s` worksets with
`s` cell ids and `num_cells = s`, followed when `n % s > 0` by one workset with the `n % s`
ids left whose `num_cells` is the one of a default-constructed workset (line 219 is not
reached for it); the `cell_local_ids` of the worksets, concatenated in order, are the local
ids of the block; and the call returns when `getElementVertices` gives one row per id and
`n % s` is zero or not below the `num_cells` of a default-constructed workset. -/
theorem generateWorksets_last_num_cells (fresh : Workset R) (zero : R) (n_nodes n_dim : Nat)
    (getElementVertices : List Nat → List (List (List R))) (worksetDesc : WorksetDescriptor)
    (n_celldata baseCellDimension : Int) (localEntityIds : List Nat)
    (hside : worksetDesc.useSideset = false) (hfresh : fresh.cell_local_ids = [])
    (hne : localEntityIds ≠ []) :
    ∃ s : Nat, (s : Int) = wksize worksetDesc n_celldata (localEntityIds.length : Int) ∧ 0 < s ∧
      ((∀ ids, (getElementVertices ids).length = ids.length) →
        (localEntityIds.length % s = 0 ∨ fresh.num_cells ≤ localEntityIds.length % s) →
        ∃ result, generateWorksets fresh zero n_nodes n_dim getElementVertices worksetDesc
          n_celldata baseCellDimension (some localEntityIds) [] = .ok result) ∧
      ∀ result, generateWorksets fresh zero n_nodes n_dim getElementVertices worksetDesc
          n_celldata baseCellDimension (some localEntityIds) [] = .ok result →
        result.length = localEntityIds.length / s
          + (if localEntityIds.length % s > 0 then 1 else 0) ∧
        (result.map fun w => w.cell_local_ids).flatten = localEntityIds ∧
        ∀ (j : Nat) (w : Workset R), result[j]? = some w →
          (j < localEntityIds.length / s → w.cell_local_ids.length = s ∧ w.num_cells = s) ∧
          (localEntityIds.length / s ≤ j →
            w.cell_local_ids.length = localEntityIds.length % s ∧
            w.num_cells = fresh.num_cells) := by
  have hn : 0 < localEntityIds.length := List.length_pos.mpr hne
  obtain ⟨hpos, hle⟩ := (wksize_bounds worksetDesc n_celldata localEntityIds.length).2 hn
  obtain ⟨s, hwk⟩ : ∃ s : Nat, (s : Int)
      = wksize worksetDesc n_celldata (localEntityIds.length : Int) :=
    ⟨(wksize worksetDesc n_celldata (localEntityIds.length : Int)).toNat,
      Int.toNat_of_nonneg hpos.le⟩
  have hs : 0 < s := by omega
  refine ⟨s, hwk, hs, ?_⟩
  have heq := generateWorksets_eq fresh zero n_nodes n_dim getElementVertices worksetDesc
    n_celldata baseCellDimension localEntityIds hside hs hwk
  have hlen : localEntityIds.length
      = localEntityIds.length / s * s + localEntityIds.length % s := by
    have := Nat.div_add_mod localEntityIds.length s
    rw [Nat.mul_comm] at this
    exact this.symm
  obtain ⟨news, k, lc, hrun, hnl, hflat, hfacts⟩ := fillCellLocalIds_chunks hs hfresh
    (Nat.mod_lt localEntityIds.length hs) (localEntityIds.length / s) localEntityIds [] hlen
  simp only [List.nil_append, List.length_nil] at hrun
  rw [hrun] at heq
  simp only at heq
  constructor
  · intro hrows hd
    rw [heq]
    apply finishWorksets_ok zero n_nodes n_dim getElementVertices baseCellDimension _ hrows
    intro w hw
    obtain ⟨j, hj⟩ := List.mem_iff_getElem?.mp hw
    obtain ⟨f1, f2⟩ := hfacts j w hj
    by_cases hjq : j < localEntityIds.length / s
    · obtain ⟨g1, g2⟩ := f1 hjq
      omega
    · obtain ⟨g1, g2⟩ := f2 (by omega)
      have hjlt : j < news.length := (List.getElem?_eq_some_iff.mp hj).1
      rw [hnl] at hjlt
      have hrpos : localEntityIds.length % s > 0 := by
        by_contra hx
        rw [if_neg hx] at hjlt
        omega
      rcases hd with hd | hd
      · omega
      · omega
  · intro result hres
    rw [heq] at hres
    obtain ⟨h1, h2, h3, _⟩ := finishWorksets_ok_inv _ _ hres
    refine ⟨by rw [h1, hnl], by rw [h2, hflat], ?_⟩
    intro j w hj
    have hjlt : j < news.length := by
      rw [← h1]
      exact (List.getElem?_eq_some_iff.mp hj).1
    obtain ⟨f1, f2⟩ := hfacts j (news.get ⟨j, hjlt⟩) (List.getElem?_eq_getElem hjlt)
    have e1 : w.cell_local_ids = (news.get ⟨j, hjlt⟩).cell_local_ids := by
      have := congrArg (fun l => l[j]?) h2
      simp only [List.getElem?_map, hj, List.getElem?_eq_getElem hjlt, Option.map_some',
        Option.some.injEq] at this
      exact this
    have e2 : w.num_cells = (news.get ⟨j, hjlt⟩).num_cells := by
      have := congrArg (fun l => l[j]?) h3
      simp only [List.getElem?_map, hj, List.getElem?_eq_getElem hjlt, Option.map_some',
        Option.some.injEq] at this
      exact this
    rw [e1, e2]
    exact ⟨f1, f2⟩

theorem generateWorksets_last_num_cells_witness :
    ∃ s : Nat, (s : Int) = wksize ⟨"block", "", false, 2, false⟩ 0
        (([10, 11, 12] : List Nat).length : Int) ∧ 0 < s ∧
      ((∀ ids, (lineVertices ids).length = ids.length) →
        ([10, 11, 12].length % s = 0 ∨ (freshWorkset 0).num_cells ≤ [10, 11, 12].length % s) →
        ∃ result, generateWorksets (freshWorkset 0) 0 2 1 lineVertices
          ⟨"block", "", false, 2, false⟩ 0 1 (some [10, 11, 12]) [] = .ok result) ∧
      ∀ result, generateWorksets (freshWorkset 0) 0 2 1 lineVertices
          ⟨"block", "", false, 2, false⟩ 0 1 (some [10, 11, 12]) [] = .ok result →
        result.length = [10, 11, 12].length / s + (if [10, 11, 12].length % s > 0 then 1 else 0) ∧
        (result.map fun w => w.cell_local_ids).flatten = [10, 11, 12] ∧
        ∀ (j : Nat) (w : Workset Int), result[j]? = some w →
          (j < [10, 11, 12].length / s → w.cell_local_ids.length = s ∧ w.num_cells = s) ∧
          ([10, 11, 12].length / s ≤ j →
            w.cell_local_ids.length = [10, 11, 12].length % s ∧
            w.num_cells = (freshWorkset 0).num_cells) :=
  generateWorksets_last_num_cells (freshWorkset 0) 0 2 1 lineVertices
    ⟨"block", "", false, 2, false⟩ 0 1 [10, 11, 12] rfl rfl (by decide)

/-- C36 (as stated, refuted): for an element block with the three elements 10, 11, 12 and a
workset size of 2, `generateWorksets` leaves two worksets; the second holds the one cell id
12 but its `num_cells` is the 0 of the default-constructed workset, and it gets no
coordinates and no entry of `cell_local_ids_k`. -/
theorem generateWorksets_last_num_cells_counterexample :
    generateWorksets (freshWorkset 0) 0 2 1 lineVertices ⟨"block", "", false, 2, false⟩ 0 1
        (some [10, 11, 12]) []
      = .ok [⟨2, [10, 11], [10, 11], [[[10], [11]], [[11], [12]]], "block", 1, 0⟩,
             ⟨0, [12], [], [], "block", 1, 0⟩] ∧
    ¬ ∀ result, generateWorksets (freshWorkset 0) 0 2 1 lineVertices
        ⟨"block", "", false, 2, false⟩ 0 1 (some [10, 11, 12]) [] = .ok result →
      ∀ w ∈ result, w.num_cells = w.cell_local_ids.length := by
  refine ⟨rfl, ?_⟩
  intro h
  have := h [⟨2, [10, 11], [10, 11], [[[10], [11]], [[11], [12]]], "block", 1, 0⟩,
    ⟨0, [12], [], [], "block", 1, 0⟩] rfl ⟨0, [12], [], [], "block", 1, 0⟩
    (List.mem_cons_of_mem _ (List.mem_cons_self _ _))
  exact absurd this (by decide)

/-- The function `subset` returns the entries at the indices given when all of them are inside
the vector. -/
theorem subset_ok {α : Type} (a : List α) (d : α) :
    ∀ (idxs : List Nat), (∀ i ∈ idxs, i < a.length) →
      subset a idxs = .ok (idxs.map fun i => a.getD i d)
  | [], _ => rfl
  | idx :: idxs, h => by
    have h1 : idx < a.length := h idx (List.mem_cons_self _ _)
    unfold subset
    rw [List.getElem?_eq_getElem h1, subset_ok a d idxs (fun i hi => h i (List.mem_cons_of_mem _ hi))]
    simp only [List.map_cons, List.getD_eq_getElem?_getD, List.getElem?_eq_getElem h1,
      Option.getD_some]

theorem subset_ok_inv {α : Type} (a : List α) (d : α) :
    ∀ (idxs : List Nat) (s : List α), subset a idxs = .ok s →
      (∀ i ∈ idxs, i < a.length) ∧ s = idxs.map fun i => a.getD i d
  | [], s, h => by
    unfold subset at h
    cases h
    simp
  | idx :: idxs, s, h => by
    unfold subset at h
    split at h
    · cases h
    rename_i x hx
    split at h
    · cases h
    rename_i s1 hs1
    cases h
    obtain ⟨h1, h2⟩ := subset_ok_inv a d idxs s1 hs1
    have hlt : idx < a.length := (List.getElem?_eq_some_iff.mp hx).1
    refine ⟨?_, ?_⟩
    · intro i hi
      rcases List.mem_cons.mp hi with hi | hi
      · rw [hi]
        exact hlt
      · exact h1 i hi
    · simp only [List.map_cons, List.getD_eq_getElem?_getD, hx, Option.getD_some, h2]

theorem subset_error {α : Type} (a : List α) :
    ∀ (idxs : List Nat) (e : Failure), subset a idxs = .error e → e = .outOfBounds
  | [], e, h => by
    unfold subset at h
    cases h
  | idx :: idxs, e, h => by
    unfold subset at h
    split at h
    · cases h
      rfl
    split at h
    · rename_i e1 h1
      cases h
      exact subset_error a idxs _ h1
    · cases h

/-- A list in strictly increasing order whose entries all have the same key has one entry. -/
theorem sorted_same_key_singleton {κ β : Type} [LinearOrder κ] (k : κ) :
    ∀ (m : List (κ × β)), (m.map Prod.fst).Pairwise (· < ·) → (∀ e ∈ m, e.1 = k) → m ≠ [] →
      ∃ v, m = [(k, v)]
  | [], _, _, hne => absurd rfl hne
  | [(k1, v1)], _, hk, _ => by
    have := hk (k1, v1) (List.mem_cons_self _ _)
    simp only at this
    subst this
    exact ⟨v1, rfl⟩
  | (k1, v1) :: (k2, v2) :: rest, hs, hk, _ => by
    have h1 := hk (k1, v1) (List.mem_cons_self _ _)
    have h2 := hk (k2, v2) (List.mem_cons_of_mem _ (List.mem_cons_self _ _))
    simp only at h1 h2
    simp only [List.map_cons, List.pairwise_cons, List.mem_cons, forall_eq_or_imp] at hs
    have := hs.1.1
    rw [h1, h2] at this
    exact absurd this (lt_irrefl _)

/-- Lines 217-219 when all the cells have the side id `a`: `element_list` has the one key
`a`, converted to `unsigned`, with all the cells in order. -/
theorem elementList_single {local_cell_ids local_side_ids : List Nat} {a : Nat}
    (hlen : local_side_ids.length = local_cell_ids.length) (hne : local_cell_ids ≠ [])
    (hside : ∀ s ∈ local_side_ids, s = a) :
    elementList local_cell_ids local_side_ids
      = [(toUnsigned a,
          (List.range local_cell_ids.length).map fun c => (c, local_cell_ids.getD c 0))] := by
  have hfold := foldl_mapPushBack
    (fun (cell : Nat) => toUnsigned (local_side_ids.getD cell 0))
    (fun (cell : Nat) => (cell, local_cell_ids.getD cell 0))
    (List.range local_cell_ids.length)
  have hkey : ∀ c, c < local_cell_ids.length → toUnsigned (local_side_ids.getD c 0)
      = toUnsigned a := by
    intro c hc
    congr 1
    apply hside
    rw [List.getD_eq_getElem?_getD, List.getElem?_eq_getElem (by omega)]
    exact List.getElem_mem _
  have hn : 0 < local_cell_ids.length := List.length_pos.mpr hne
  unfold elementList
  generalize (List.range local_cell_ids.length).foldl
    (fun element_list (cell : Nat) =>
      mapPushBack element_list (toUnsigned (local_side_ids.getD cell 0))
        (cell, local_cell_ids.getD cell 0)) [] = m at hfold ⊢
  obtain ⟨hsorted, hmem⟩ := hfold
  have hall : ∀ e ∈ m, e.1 = toUnsigned a := by
    intro e he
    obtain ⟨h1, _⟩ := (hmem e.1 e.2).mp he
    obtain ⟨c, hc, hce⟩ := List.mem_map.mp h1
    rw [← hce]
    exact hkey c (List.mem_range.mp hc)
  have hin : (toUnsigned a, ((List.range local_cell_ids.length).filter fun x =>
      decide (toUnsigned (local_side_ids.getD x 0) = toUnsigned a)).map
        fun (cell : Nat) => (cell, local_cell_ids.getD cell 0)) ∈ m :=
    (hmem _ _).mpr ⟨List.mem_map.mpr ⟨0, List.mem_range.mpr hn, hkey 0 hn⟩, rfl⟩
  obtain ⟨v, hv⟩ := sorted_same_key_singleton (toUnsigned a) m hsorted hall
    (List.ne_nil_of_mem hin)
  rw [hv] at hin ⊢
  simp only [List.mem_singleton, Prod.mk.injEq, true_and] at hin
  rw [← hin]
  congr 3
  apply List.filter_eq_self.mpr
  intro c hc
  simp only [decide_eq_true_eq]
  exact hkey c (List.mem_range.mp hc)

/-- The one-sided `buildBCWorkset` on cells that all have the side id `a`: a successful call
returns one workset, under the key `a` converted to `unsigned`, with all the cells. -/
theorem buildBCWorkset_single {baseCellDimension : Int} {elementBlock : String}
    {local_cell_ids local_side_ids : List Nat} {vertex_coordinates : List (List (List R))}
    {a : Nat} {worksets : List (Nat × Workset R)} (hne : local_side_ids ≠ [])
    (hside : ∀ s ∈ local_side_ids, s = a)
    (h : buildBCWorkset baseCellDimension elementBlock local_cell_ids local_side_ids
      vertex_coordinates = .ok worksets) :
    local_side_ids.length = local_cell_ids.length ∧
    local_side_ids.length = vertex_coordinates.length ∧
    worksets = [(toUnsigned a, sideWorkset baseCellDimension elementBlock vertex_coordinates
      (toUnsigned a,
        (List.range local_cell_ids.length).map fun c => (c, local_cell_ids.getD c 0)))] := by
  unfold buildBCWorkset at h
  split at h
  · cases h
  rename_i h1
  split at h
  · cases h
  rename_i h2
  have h1 : local_side_ids.length = local_cell_ids.length := not_not.mp h1
  have h2 : local_side_ids.length = vertex_coordinates.length := not_not.mp h2
  have hne1 : local_cell_ids ≠ [] := by
    intro hx
    rw [hx] at h1
    exact hne (List.length_eq_zero.mp h1)
  simp only [elementList_single h1 hne1 hside] at h
  cases h
  exact ⟨h1, h2, rfl⟩

/-- The one-sided `buildBCWorkset` returns when the three lists have the same length. -/
theorem buildBCWorkset_ok (baseCellDimension : Int) (elementBlock : String)
    {local_cell_ids local_side_ids : List Nat} {vertex_coordinates : List (List (List R))}
    (h1 : local_side_ids.length = local_cell_ids.length)
    (h2 : local_side_ids.length = vertex_coordinates.length) :
    ∃ worksets, buildBCWorkset baseCellDimension elementBlock local_cell_ids local_side_ids
      vertex_coordinates = .ok worksets := by
  unfold buildBCWorkset
  rw [if_neg (not_not.mpr h1), if_neg (not_not.mpr h2)]
  exact ⟨_, rfl⟩

theorem buildBCWorkset_error {baseCellDimension : Int} {elementBlock : String}
    {local_cell_ids local_side_ids : List Nat} {vertex_coordinates : List (List (List R))}
    {e : Failure}
    (h : buildBCWorkset baseCellDimension elementBlock local_cell_ids local_side_ids
      vertex_coordinates = .error e) : e = .sideIdsSize ∨ e = .vertexCoordinatesSize := by
  unfold buildBCWorkset at h
  split at h
  · cases h
    exact Or.inl rfl
  split at h
  · cases h
    exact Or.inr rfl
  · cases h

theorem sideWorkset_num_cells (baseCellDimension : Int) (elementBlock : String)
    (vertex_coordinates : List (List (List R))) (key : Nat) (local_cell_ids : List Nat) :
    (sideWorkset baseCellDimension elementBlock vertex_coordinates
      (key, (List.range local_cell_ids.length).map fun c => (c, local_cell_ids.getD c 0))
      ).num_cells = local_cell_ids.length := by
  unfold sideWorkset
  simp

/-- The function `buildBCWorksetForUniqueSideId` on cells that all have the side id `a` on
side a and the side id `b` on side b: the assertions of lines 342 and 345 hold, and a call
that gets through the assertions on the sizes of its arguments returns one workset, under
the key `a` converted to `unsigned`, made of the workset of side a and that of side b. -/
theorem buildBCWorksetForUniqueSideId_single (baseCellDimension_a : Int) (blockid_a : String)
    (local_cell_ids_a local_side_ids_a : List Nat) (vertex_coordinates_a : List (List (List R)))
    (baseCellDimension_b : Int) (blockid_b : String)
    (local_cell_ids_b local_side_ids_b : List Nat) (vertex_coordinates_b : List (List (List R)))
    {a b : Nat} (hne_a : local_side_ids_a ≠ []) (hne_b : local_side_ids_b ≠ [])
    (hside_a : ∀ s ∈ local_side_ids_a, s = a) (hside_b : ∀ s ∈ local_side_ids_b, s = b) :
    buildBCWorksetForUniqueSideId baseCellDimension_a blockid_a local_cell_ids_a
        local_side_ids_a vertex_coordinates_a baseCellDimension_b blockid_b local_cell_ids_b
        local_side_ids_b vertex_coordinates_b ≠ .error .worksetMapSize ∧
    buildBCWorksetForUniqueSideId baseCellDimension_a blockid_a local_cell_ids_a
        local_side_ids_a vertex_coordinates_a baseCellDimension_b blockid_b local_cell_ids_b
        local_side_ids_b vertex_coordinates_b ≠ .error .worksetCellCount ∧
    (local_cell_ids_a.length = local_cell_ids_b.length →
      local_side_ids_a.length = local_cell_ids_a.length →
      local_side_ids_a.length = vertex_coordinates_a.length →
      local_side_ids_b.length = local_cell_ids_b.length →
      local_side_ids_b.length = vertex_coordinates_b.length →
      buildBCWorksetForUniqueSideId baseCellDimension_a blockid_a local_cell_ids_a
          local_side_ids_a vertex_coordinates_a baseCellDimension_b blockid_b local_cell_ids_b
          local_side_ids_b vertex_coordinates_b
        = .ok [(toUnsigned a,
            { details0 := sideWorkset baseCellDimension_a blockid_a vertex_coordinates_a
                (toUnsigned a, (List.range local_cell_ids_a.length).map
                  fun c => (c, local_cell_ids_a.getD c 0))
              other := sideWorkset baseCellDimension_b blockid_b vertex_coordinates_b
                (toUnsigned b, (List.range local_cell_ids_b.length).map
                  fun c => (c, local_cell_ids_b.getD c 0)) })]) := by
  have key : ∀ r, buildBCWorksetForUniqueSideId baseCellDimension_a blockid_a local_cell_ids_a
        local_side_ids_a vertex_coordinates_a baseCellDimension_b blockid_b local_cell_ids_b
        local_side_ids_b vertex_coordinates_b = r →
      (∃ e, r = .error e ∧ e ≠ .worksetMapSize ∧ e ≠ .worksetCellCount ∧
        ¬ (local_cell_ids_a.length = local_cell_ids_b.length ∧
          local_side_ids_a.length = local_cell_ids_a.length ∧
          local_side_ids_a.length = vertex_coordinates_a.length ∧
          local_side_ids_b.length = local_cell_ids_b.length ∧
          local_side_ids_b.length = vertex_coordinates_b.length)) ∨
      r = .ok [(toUnsigned a,
            { details0 := sideWorkset baseCellDimension_a blockid_a vertex_coordinates_a
                (toUnsigned a, (List.range local_cell_ids_a.length).map
                  fun c => (c, local_cell_ids_a.getD c 0))
              other := sideWorkset baseCellDimension_b blockid_b vertex_coordinates_b
                (toUnsigned b, (List.range local_cell_ids_b.length).map
                  fun c => (c, local_cell_ids_b.getD c 0)) })] := by
    intro r hr
    unfold buildBCWorksetForUniqueSideId at hr
    split at hr
    · rename_i hx
      left
      exact ⟨_, hr.symm, by decide, by decide, fun hy => hx hy.1⟩
    split at hr
    · rename_i e1 h1
      left
      refine ⟨_, hr.symm, ?_, ?_, ?_⟩
      · rcases buildBCWorkset_error h1 with h | h <;> rw [h] <;> decide
      · rcases buildBCWorkset_error h1 with h | h <;> rw [h] <;> decide
      · intro hy
        obtain ⟨w, hw⟩ := buildBCWorkset_ok baseCellDimension_a blockid_a hy.2.1 hy.2.2.1
        rw [hw] at h1
        cases h1
    rename_i mwa hmwa
    split at hr
    · rename_i e1 h1
      left
      refine ⟨_, hr.symm, ?_, ?_, ?_⟩
      · rcases buildBCWorkset_error h1 with h | h <;> rw [h] <;> decide
      · rcases buildBCWorkset_error h1 with h | h <;> rw [h] <;> decide
      · intro hy
        obtain ⟨w, hw⟩ := buildBCWorkset_ok baseCellDimension_b blockid_b hy.2.2.2.1
          hy.2.2.2.2
        rw [hw] at h1
        cases h1
    rename_i mwb hmwb
    obtain ⟨_, _, ha⟩ := buildBCWorkset_single hne_a hside_a hmwa
    obtain ⟨_, _, hb⟩ := buildBCWorkset_single hne_b hside_b hmwb
    right
    rw [← hr, ha, hb]
    simp only [List.length_singleton, and_self, not_true_eq_false, if_false]
    unfold pairWorksets
    rw [if_neg (by
      rw [sideWorkset_num_cells, sideWorkset_num_cells]
      simp)]
    unfold pairWorksets
    rfl
  refine ⟨?_, ?_, ?_⟩
  · intro hx
    rcases key _ hx with ⟨e, he, h1, _⟩ | h
    · cases he
      exact h1 rfl
    · cases h
  · intro hx
    rcases key _ hx with ⟨e, he, _, h1, _⟩ | h
    · cases he
      exact h1 rfl
    · cases h
  · intro h1 h2 h3 h4 h5
    rcases key _ rfl with ⟨e, _, _, _, hno⟩ | h
    · exact absurd ⟨h1, h2, h3, h4, h5⟩ hno
    · exact h

/-- What `associateCellsBySideIds` returns: its keys are in increasing order, and the list
under a key holds, in order, the indices of the cells with these two side ids, of which
there is one at least. -/
theorem associateCellsBySideIds_ok_inv {sia sib : List Nat}
    {sip2i : List ((Nat ×ₗ Nat) × List Nat)}
    (h : associateCellsBySideIds sia sib = .ok sip2i) :
    sia.length = sib.length ∧ (sip2i.map Prod.fst).Pairwise (· < ·) ∧
    ∀ (k : Nat ×ₗ Nat) (L : List Nat), (k, L) ∈ sip2i ↔
      (∃ i, i < sia.length ∧ toLex (sia.getD i 0, sib.getD i 0) = k) ∧
      L = (List.range sia.length).filter fun i =>
        decide (toLex (sia.getD i 0, sib.getD i 0) = k) := by
  unfold associateCellsBySideIds at h
  split at h
  · cases h
  rename_i hlen
  cases h
  have hfold := foldl_mapPushBack
    (fun (i : Nat) => toLex (sia.getD i 0, sib.getD i 0)) (fun (i : Nat) => i)
    (List.range sia.length)
  refine ⟨not_not.mp hlen, hfold.1, ?_⟩
  intro k L
  rw [hfold.2, List.map_id']
  constructor
  · rintro ⟨h1, h2⟩
    obtain ⟨i, hi, hik⟩ := List.mem_map.mp h1
    exact ⟨⟨i, List.mem_range.mp hi, hik⟩, h2⟩
  · rintro ⟨⟨i, hi, hik⟩, h2⟩
    exact ⟨List.mem_map.mpr ⟨i, List.mem_range.mpr hi, hik⟩, h2⟩

/-- The cells listed under a key of `side_id_associations` are cells of the interface that
have the two side ids of the key; there is one at least. -/
theorem association_group {sia sib : List Nat} {sip2i : List ((Nat ×ₗ Nat) × List Nat)}
    (h : associateCellsBySideIds sia sib = .ok sip2i) {it : (Nat ×ₗ Nat) × List Nat}
    (hit : it ∈ sip2i) :
    it.2 ≠ [] ∧ ∀ i ∈ it.2, i < sia.length ∧ i < sib.length ∧
      sia.getD i 0 = (ofLex it.1).1 ∧ sib.getD i 0 = (ofLex it.1).2 := by
  obtain ⟨hlen, _, hmem⟩ := associateCellsBySideIds_ok_inv h
  obtain ⟨⟨i0, hi0, hk0⟩, hL⟩ := (hmem it.1 it.2).mp hit
  constructor
  · intro hnil
    have : i0 ∈ (List.range sia.length).filter fun i =>
        decide (toLex (sia.getD i 0, sib.getD i 0) = it.1) :=
      List.mem_filter.mpr ⟨List.mem_range.mpr hi0, by simpa using hk0⟩
    rw [← hL, hnil] at this
    simp at this
  · intro i hi
    rw [hL] at hi
    obtain ⟨hi1, hi2⟩ := List.mem_filter.mp hi
    have hlt := List.mem_range.mp hi1
    simp only [decide_eq_true_eq] at hi2
    refine ⟨hlt, by omega, ?_, ?_⟩
    · rw [← hi2]
      rfl
    · rw [← hi2]
      rfl

/-- The body of the loop of lines 394-428 for a list of cells that all have the side id `a`
on side a and the side id `b` on side b: it does not fail at the assertion of line 342. -/
theorem buildInterfacePair_error (baseCellDimension_a : Int) (blockid_a : String)
    (local_cell_ids_a local_side_ids_a : List Nat) (vertex_coordinates_a : List (List (List R)))
    (baseCellDimension_b : Int) (blockid_b : String)
    (local_cell_ids_b local_side_ids_b : List Nat) (vertex_coordinates_b : List (List (List R)))
    (mwa : List (Nat × InterfaceWorkset R)) {idxs : List Nat} {a b : Nat} (hne : idxs ≠ [])
    (hside_a : ∀ i ∈ idxs, local_side_ids_a.getD i 0 = a)
    (hside_b : ∀ i ∈ idxs, local_side_ids_b.getD i 0 = b) :
    buildInterfacePair baseCellDimension_a blockid_a local_cell_ids_a local_side_ids_a
      vertex_coordinates_a baseCellDimension_b blockid_b local_cell_ids_b local_side_ids_b
      vertex_coordinates_b mwa idxs ≠ .error .worksetMapSize := by
  intro h
  unfold buildInterfacePair at h
  split at h
  · rename_i lci_a lsi_a lci_b lsi_b vc_a vc_b h1 h2 h3 h4 h5 h6
    obtain ⟨_, e2⟩ := subset_ok_inv local_side_ids_a 0 idxs lsi_a h2
    obtain ⟨_, e4⟩ := subset_ok_inv local_side_ids_b 0 idxs lsi_b h4
    have hne_a : lsi_a ≠ [] := by
      rw [e2]
      intro hx
      exact hne (List.map_eq_nil_iff.mp hx)
    have hne_b : lsi_b ≠ [] := by
      rw [e4]
      intro hx
      exact hne (List.map_eq_nil_iff.mp hx)
    have hs_a : ∀ s ∈ lsi_a, s = a := by
      intro s hs
      rw [e2] at hs
      obtain ⟨i, hi, rfl⟩ := List.mem_map.mp hs
      exact hside_a i hi
    have hs_b : ∀ s ∈ lsi_b, s = b := by
      intro s hs
      rw [e4] at hs
      obtain ⟨i, hi, rfl⟩ := List.mem_map.mp hs
      exact hside_b i hi
    split at h
    · rename_i e1 he1
      cases h
      exact (buildBCWorksetForUniqueSideId_single baseCellDimension_a blockid_a lci_a lsi_a vc_a
        baseCellDimension_b blockid_b lci_b lsi_b vc_b hne_a hne_b hs_a hs_b).1 he1
    split at h
    · cases h
    split at h <;> cases h
  · cases h

/-- The loop of lines 394-428 over entries whose cells have one side id on each side does not
fail at the assertion of line 342. -/
theorem buildInterfacePairs_error (baseCellDimension_a : Int) (blockid_a : String)
    (local_cell_ids_a local_side_ids_a : List Nat) (vertex_coordinates_a : List (List (List R)))
    (baseCellDimension_b : Int) (blockid_b : String)
    (local_cell_ids_b local_side_ids_b : List Nat) (vertex_coordinates_b : List (List (List R))) :
    ∀ (side_id_associations : List ((Nat ×ₗ Nat) × List Nat))
      (mwa : List (Nat × InterfaceWorkset R)),
      (∀ it ∈ side_id_associations, it.2 ≠ [] ∧ ∀ i ∈ it.2,
        local_side_ids_a.getD i 0 = (ofLex it.1).1 ∧
        local_side_ids_b.getD i 0 = (ofLex it.1).2) →
      buildInterfacePairs baseCellDimension_a blockid_a local_cell_ids_a local_side_ids_a
        vertex_coordinates_a baseCellDimension_b blockid_b local_cell_ids_b local_side_ids_b
        vertex_coordinates_b side_id_associations mwa ≠ .error .worksetMapSize
  | [], mwa, _ => by
    unfold buildInterfacePairs
    intro h
    cases h
  | it :: rest, mwa, hg => by
    intro h
    unfold buildInterfacePairs at h
    obtain ⟨hne, hside⟩ := hg it (List.mem_cons_self _ _)
    split at h
    · rename_i e1 he1
      cases h
      exact buildInterfacePair_error baseCellDimension_a blockid_a local_cell_ids_a
        local_side_ids_a vertex_coordinates_a baseCellDimension_b blockid_b local_cell_ids_b
        local_side_ids_b vertex_coordinates_b mwa hne (fun i hi => (hside i hi).1)
        (fun i hi => (hside i hi).2) he1
    · exact buildInterfacePairs_error baseCellDimension_a blockid_a local_cell_ids_a
        local_side_ids_a vertex_coordinates_a baseCellDimension_b blockid_b local_cell_ids_b
        local_side_ids_b vertex_coordinates_b rest _
        (fun it1 hit1 => hg it1 (List.mem_cons_of_mem _ hit1)) h

theorem getD_mem_of_lt {l : List Nat} {i : Nat} (h : i < l.length) : l.getD i 0 ∈ l := by
  rw [List.getD_eq_getElem?_getD, List.getElem?_eq_getElem h]
  exact List.getElem_mem _

/-- C38: for every input of the two-sided `buildBCWorkset` whose four lists of cell ids and
side ids have the same length, the call does not fail at the assertion
`mwa->size() == 1 && mwb->size() == 1` of `buildBCWorksetForUniqueSideId`:
`associateCellsBySideIds` returns; when its map has one entry, every cell has the same side
id on side a and the same side id on side b (the lists handed over at line 383); the list
of cells of every entry of the map is not empty and `subset` takes from it one side id on
side a and one on side b (the lists handed over at line 418); and for an empty interface the
call returns an empty map. -/
theorem buildBCWorksetInterface_unique_side_ids (baseCellDimension_a : Int)
    (blockid_a : String) (local_cell_ids_a local_side_ids_a : List Nat)
    (vertex_coordinates_a : List (List (List R))) (baseCellDimension_b : Int)
    (blockid_b : String) (local_cell_ids_b local_side_ids_b : List Nat)
    (vertex_coordinates_b : List (List (List R)))
    (h1 : local_side_ids_a.length = local_cell_ids_a.length)
    (h2 : local_cell_ids_b.length = local_cell_ids_a.length)
    (h3 : local_side_ids_b.length = local_cell_ids_a.length) :
    buildBCWorksetInterface baseCellDimension_a blockid_a local_cell_ids_a local_side_ids_a
      vertex_coordinates_a baseCellDimension_b blockid_b local_cell_ids_b local_side_ids_b
      vertex_coordinates_b ≠ .error .worksetMapSize ∧
    (∃ sip2i, associateCellsBySideIds local_side_ids_a local_side_ids_b = .ok sip2i ∧
      (sip2i.length = 1 → local_side_ids_a ≠ [] ∧ local_side_ids_b ≠ [] ∧
        ∃ a b, (∀ s ∈ local_side_ids_a, s = a) ∧ (∀ s ∈ local_side_ids_b, s = b)) ∧
      ∀ it ∈ sip2i, it.2 ≠ [] ∧
        subset local_side_ids_a it.2 = .ok (List.replicate it.2.length (ofLex it.1).1) ∧
        subset local_side_ids_b it.2 = .ok (List.replicate it.2.length (ofLex it.1).2)) ∧
    (local_cell_ids_a = [] →
      buildBCWorksetInterface baseCellDimension_a blockid_a local_cell_ids_a local_side_ids_a
        vertex_coordinates_a baseCellDimension_b blockid_b local_cell_ids_b local_side_ids_b
        vertex_coordinates_b = .ok []) := by
  have hlen : local_side_ids_a.length = local_side_ids_b.length := by omega
  have hassoc : ∃ sip2i, associateCellsBySideIds local_side_ids_a local_side_ids_b
      = .ok sip2i := by
    unfold associateCellsBySideIds
    rw [if_neg (not_not.mpr hlen)]
    exact ⟨_, rfl⟩
  obtain ⟨sip2i, hsip⟩ := hassoc
  obtain ⟨_, hsorted, hmem⟩ := associateCellsBySideIds_ok_inv hsip
  have hgroup : ∀ it ∈ sip2i, it.2 ≠ [] ∧ ∀ i ∈ it.2, i < local_side_ids_a.length ∧
      i < local_side_ids_b.length ∧ local_side_ids_a.getD i 0 = (ofLex it.1).1 ∧
      local_side_ids_b.getD i 0 = (ofLex it.1).2 :=
    fun _ hit => association_group hsip hit
  have hone : sip2i.length = 1 → local_side_ids_a ≠ [] ∧ local_side_ids_b ≠ [] ∧
      ∃ a b, (∀ s ∈ local_side_ids_a, s = a) ∧ (∀ s ∈ local_side_ids_b, s = b) := by
    intro hl
    match sip2i, hl with
    | [it], _ =>
      obtain ⟨hne, hall⟩ := hgroup it (List.mem_singleton.mpr rfl)
      obtain ⟨i0, hi0⟩ := List.exists_mem_of_ne_nil _ hne
      have hi0lt := (hall i0 hi0).1
      have hkey : ∀ i, i < local_side_ids_a.length →
          toLex (local_side_ids_a.getD i 0, local_side_ids_b.getD i 0) = it.1 := by
        intro i hi
        have hin : (toLex (local_side_ids_a.getD i 0, local_side_ids_b.getD i 0),
            (List.range local_side_ids_a.length).filter fun j =>
              decide (toLex (local_side_ids_a.getD j 0, local_side_ids_b.getD j 0)
                = toLex (local_side_ids_a.getD i 0, local_side_ids_b.getD i 0))) ∈ [it] :=
          (hmem _ _).mpr ⟨⟨i, hi, rfl⟩, rfl⟩
        rw [List.mem_singleton] at hin
        rw [← hin]
      refine ⟨List.ne_nil_of_length_pos (by omega), List.ne_nil_of_length_pos (by omega),
        (ofLex it.1).1, (ofLex it.1).2, ?_, ?_⟩
      · intro s hs
        obtain ⟨i, hi, rfl⟩ := List.getElem_of_mem hs
        have := hkey i hi
        rw [← this]
        simp only [List.getD_eq_getElem?_getD, List.getElem?_eq_getElem hi, Option.getD_some]
        rfl
      · intro s hs
        obtain ⟨i, hi, rfl⟩ := List.getElem_of_mem hs
        have := hkey i (by omega)
        rw [← this]
        simp only [List.getD_eq_getElem?_getD, List.getElem?_eq_getElem hi, Option.getD_some]
        rfl
  refine ⟨?_, ⟨sip2i, hsip, hone, ?_⟩, ?_⟩
  · intro h
    unfold buildBCWorksetInterface at h
    rw [hsip] at h
    simp only at h
    split at h
    · rename_i hl
      obtain ⟨hne_a, hne_b, a, b, ha, hb⟩ := hone hl
      exact (buildBCWorksetForUniqueSideId_single baseCellDimension_a blockid_a
        local_cell_ids_a local_side_ids_a vertex_coordinates_a baseCellDimension_b blockid_b
        local_cell_ids_b local_side_ids_b vertex_coordinates_b hne_a hne_b ha hb).1 h
    · exact buildInterfacePairs_error baseCellDimension_a blockid_a local_cell_ids_a
        local_side_ids_a vertex_coordinates_a baseCellDimension_b blockid_b local_cell_ids_b
        local_side_ids_b vertex_coordinates_b sip2i []
        (fun it hit => ⟨(hgroup it hit).1,
          fun i hi => ⟨((hgroup it hit).2 i hi).2.2.1, ((hgroup it hit).2 i hi).2.2.2⟩⟩) h
  · intro it hit
    obtain ⟨hne, hall⟩ := hgroup it hit
    refine ⟨hne, ?_, ?_⟩
    · rw [subset_ok local_side_ids_a 0 it.2 (fun i hi => (hall i hi).1)]
      congr 1
      apply List.eq_replicate_iff.mpr
      refine ⟨by simp, ?_⟩
      intro s hs
      obtain ⟨i, hi, rfl⟩ := List.mem_map.mp hs
      exact (hall i hi).2.2.1
    · rw [subset_ok local_side_ids_b 0 it.2 (fun i hi => (hall i hi).2.1)]
      congr 1
      apply List.eq_replicate_iff.mpr
      refine ⟨by simp, ?_⟩
      intro s hs
      obtain ⟨i, hi, rfl⟩ := List.mem_map.mp hs
      exact (hall i hi).2.2.2
  · intro hnil
    have ha : local_side_ids_a = [] := List.length_eq_zero.mp (by rw [h1, hnil]; rfl)
    have hb : local_side_ids_b = [] := List.length_eq_zero.mp (by rw [h3, hnil]; rfl)
    subst ha hb
    rfl

theorem buildBCWorksetInterface_unique_side_ids_witness :
    buildBCWorksetInterface 3 "a" [10, 11, 12] [4, 1, 4] [[[(0 : Int)]], [[1]], [[2]]]
      3 "b" [20, 21, 22] [2, 2, 5] [[[5]], [[6]], [[7]]] ≠ .error .worksetMapSize ∧
    (∃ sip2i, associateCellsBySideIds [4, 1, 4] [2, 2, 5] = .ok sip2i ∧
      (sip2i.length = 1 → ([4, 1, 4] : List Nat) ≠ [] ∧ ([2, 2, 5] : List Nat) ≠ [] ∧
        ∃ a b, (∀ s ∈ ([4, 1, 4] : List Nat), s = a) ∧ (∀ s ∈ ([2, 2, 5] : List Nat), s = b)) ∧
      ∀ it ∈ sip2i, it.2 ≠ [] ∧
        subset [4, 1, 4] it.2 = .ok (List.replicate it.2.length (ofLex it.1).1) ∧
        subset [2, 2, 5] it.2 = .ok (List.replicate it.2.length (ofLex it.1).2)) ∧
    (([10, 11, 12] : List Nat) = [] →
      buildBCWorksetInterface 3 "a" [10, 11, 12] [4, 1, 4] [[[(0 : Int)]], [[1]], [[2]]]
        3 "b" [20, 21, 22] [2, 2, 5] [[[5]], [[6]], [[7]]] = .ok []) :=
  buildBCWorksetInterface_unique_side_ids 3 "a" [10, 11, 12] [4, 1, 4]
    [[[(0 : Int)]], [[1]], [[2]]] 3 "b" [20, 21, 22] [2, 2, 5] [[[5]], [[6]], [[7]]]
    rfl rfl rfl

/-- The body of the loop of lines 394-428 for the cells `idxs`, which have the side id `a` on
side a and the side id `b` on side b, when the key `a * 1000 + b` fits the key type and is
above the keys already in the map: the workset of the pair is appended under this key. -/
theorem buildInterfacePair_ok (baseCellDimension_a : Int) (blockid_a : String)
    (local_cell_ids_a local_side_ids_a : List Nat) (vertex_coordinates_a : List (List (List R)))
    (baseCellDimension_b : Int) (blockid_b : String)
    (local_cell_ids_b local_side_ids_b : List Nat) (vertex_coordinates_b : List (List (List R)))
    (mwa : List (Nat × InterfaceWorkset R)) {idxs : List Nat} {a b : Nat}
    (hca : local_cell_ids_a.length = local_side_ids_a.length)
    (hva : vertex_coordinates_a.length = local_side_ids_a.length)
    (hsb : local_side_ids_b.length = local_side_ids_a.length)
    (hcb : local_cell_ids_b.length = local_side_ids_a.length)
    (hvb : vertex_coordinates_b.length = local_side_ids_a.length)
    (hne : idxs ≠ [])
    (hidx : ∀ i ∈ idxs, i < local_side_ids_a.length ∧ local_side_ids_a.getD i 0 = a ∧
      local_side_ids_b.getD i 0 = b)
    (hkey : a * 1000 + b < 2 ^ 32) (hmwa : ∀ e ∈ mwa, e.1 < a * 1000 + b) :
    buildInterfacePair baseCellDimension_a blockid_a local_cell_ids_a local_side_ids_a
        vertex_coordinates_a baseCellDimension_b blockid_b local_cell_ids_b local_side_ids_b
        vertex_coordinates_b mwa idxs
      = .ok (mwa ++ [(a * 1000 + b,
          pairWorkset baseCellDimension_a blockid_a local_cell_ids_a vertex_coordinates_a
            baseCellDimension_b blockid_b local_cell_ids_b vertex_coordinates_b a b idxs)]) := by
  have hside_a : ∀ s ∈ idxs.map (fun i => local_side_ids_a.getD i 0), s = a := by
    intro s hs
    obtain ⟨i, hi, rfl⟩ := List.mem_map.mp hs
    exact (hidx i hi).2.1
  have hside_b : ∀ s ∈ idxs.map (fun i => local_side_ids_b.getD i 0), s = b := by
    intro s hs
    obtain ⟨i, hi, rfl⟩ := List.mem_map.mp hs
    exact (hidx i hi).2.2
  have hne_a : idxs.map (fun i => local_side_ids_a.getD i 0) ≠ [] :=
    fun hx => hne (List.map_eq_nil_iff.mp hx)
  have hne_b : idxs.map (fun i => local_side_ids_b.getD i 0) ≠ [] :=
    fun hx => hne (List.map_eq_nil_iff.mp hx)
  have hunique := (buildBCWorksetForUniqueSideId_single baseCellDimension_a blockid_a
    (idxs.map fun i => local_cell_ids_a.getD i 0) (idxs.map fun i => local_side_ids_a.getD i 0)
    (idxs.map fun i => vertex_coordinates_a.getD i []) baseCellDimension_b blockid_b
    (idxs.map fun i => local_cell_ids_b.getD i 0) (idxs.map fun i => local_side_ids_b.getD i 0)
    (idxs.map fun i => vertex_coordinates_b.getD i []) hne_a hne_b hside_a hside_b).2.2
    (by simp) (by simp) (by simp) (by simp) (by simp)
  unfold buildInterfacePair
  rw [subset_ok local_cell_ids_a 0 idxs (fun i hi => by have := (hidx i hi).1; omega),
    subset_ok local_side_ids_a 0 idxs (fun i hi => (hidx i hi).1),
    subset_ok local_cell_ids_b 0 idxs (fun i hi => by have := (hidx i hi).1; omega),
    subset_ok local_side_ids_b 0 idxs (fun i hi => by have := (hidx i hi).1; omega),
    subset_ok vertex_coordinates_a [] idxs (fun i hi => by have := (hidx i hi).1; omega),
    subset_ok vertex_coordinates_b [] idxs (fun i hi => by have := (hidx i hi).1; omega)]
  simp only
  rw [hunique]
  simp only [List.length_singleton, ne_eq, not_true_eq_false, if_false, List.head?_cons]
  match idxs, hne, hidx with
  | i0 :: rest, _, hidx =>
    have h0 := hidx i0 (List.mem_cons_self _ _)
    simp only [List.map_cons, List.getElem?_cons_zero, h0.2.1, h0.2.2]
    have hk : toUnsigned ((a * 1000 + b) % 2 ^ 64) = a * 1000 + b := by
      unfold toUnsigned
      rw [Nat.mod_eq_of_lt (by omega : a * 1000 + b < 2 ^ 64), Nat.mod_eq_of_lt hkey]
    rw [hk, mapAssign_append _ _ _ hmwa]
    rfl

/-- The order of the pairs of side ids is the order of their keys `a * 1000 + b` when the side
ids of side b are below 1000. -/
theorem pair_key_lt {p q : Nat ×ₗ Nat} (hp : (ofLex p).2 < 1000) (hq : (ofLex q).2 < 1000)
    (h : p < q) :
    (ofLex p).1 * 1000 + (ofLex p).2 < (ofLex q).1 * 1000 + (ofLex q).2 := by
  have := (Prod.Lex.lt_iff (ofLex p) (ofLex q)).mp h
  omega

/-- The loop of lines 394-428 over entries in increasing order of their pairs of side ids,
when the side ids of side b are below 1000 and the keys fit the key type: the worksets of
the pairs are appended in order, each under its key `a * 1000 + b`. -/
theorem buildInterfacePairs_ok (baseCellDimension_a : Int) (blockid_a : String)
    (local_cell_ids_a local_side_ids_a : List Nat) (vertex_coordinates_a : List (List (List R)))
    (baseCellDimension_b : Int) (blockid_b : String)
    (local_cell_ids_b local_side_ids_b : List Nat) (vertex_coordinates_b : List (List (List R)))
    (hca : local_cell_ids_a.length = local_side_ids_a.length)
    (hva : vertex_coordinates_a.length = local_side_ids_a.length)
    (hsb : local_side_ids_b.length = local_side_ids_a.length)
    (hcb : local_cell_ids_b.length = local_side_ids_a.length)
    (hvb : vertex_coordinates_b.length = local_side_ids_a.length) :
    ∀ (side_id_associations : List ((Nat ×ₗ Nat) × List Nat))
      (mwa : List (Nat × InterfaceWorkset R)),
      (side_id_associations.map Prod.fst).Pairwise (· < ·) →
      (∀ it ∈ side_id_associations, it.2 ≠ [] ∧ (ofLex it.1).2 < 1000 ∧
        (ofLex it.1).1 * 1000 + (ofLex it.1).2 < 2 ^ 32 ∧
        ∀ i ∈ it.2, i < local_side_ids_a.length ∧
          local_side_ids_a.getD i 0 = (ofLex it.1).1 ∧
          local_side_ids_b.getD i 0 = (ofLex it.1).2) →
      (∀ e ∈ mwa, ∀ it ∈ side_id_associations,
        e.1 < (ofLex it.1).1 * 1000 + (ofLex it.1).2) →
      buildInterfacePairs baseCellDimension_a blockid_a local_cell_ids_a local_side_ids_a
          vertex_coordinates_a baseCellDimension_b blockid_b local_cell_ids_b local_side_ids_b
          vertex_coordinates_b side_id_associations mwa
        = .ok (mwa ++ side_id_associations.map fun it =>
            ((ofLex it.1).1 * 1000 + (ofLex it.1).2,
              pairWorkset baseCellDimension_a blockid_a local_cell_ids_a vertex_coordinates_a
                baseCellDimension_b blockid_b local_cell_ids_b vertex_coordinates_b
                (ofLex it.1).1 (ofLex it.1).2 it.2))
  | [], mwa, _, _, _ => by
    unfold buildInterfacePairs
    simp
  | it :: rest, mwa, hs, hg, hmwa => by
    obtain ⟨hne, hb, hk, hidx⟩ := hg it (List.mem_cons_self _ _)
    simp only [List.map_cons, List.pairwise_cons] at hs
    unfold buildInterfacePairs
    rw [buildInterfacePair_ok baseCellDimension_a blockid_a local_cell_ids_a local_side_ids_a
      vertex_coordinates_a baseCellDimension_b blockid_b local_cell_ids_b local_side_ids_b
      vertex_coordinates_b mwa hca hva hsb hcb hvb hne hidx hk
      (fun e he => hmwa e he it (List.mem_cons_self _ _))]
    simp only
    rw [buildInterfacePairs_ok baseCellDimension_a blockid_a local_cell_ids_a local_side_ids_a
      vertex_coordinates_a baseCellDimension_b blockid_b local_cell_ids_b local_side_ids_b
      vertex_coordinates_b hca hva hsb hcb hvb rest _ hs.2
      (fun it1 hit1 => hg it1 (List.mem_cons_of_mem _ hit1))]
    · simp
    · intro e he it1 hit1
      rcases List.mem_append.mp he with he | he
      · exact hmwa e he it1 (List.mem_cons_of_mem _ hit1)
      · simp only [List.mem_singleton] at he
        rw [he]
        exact pair_key_lt hb (hg it1 (List.mem_cons_of_mem _ hit1)).2.1
          (hs.1 it1.1 (List.mem_map_of_mem _ hit1))

/-- The cells, the number of cells and the side ids of the workset of a pair. -/
theorem pairWorkset_cells (baseCellDimension_a : Int) (blockid_a : String)
    (local_cell_ids_a : List Nat) (vertex_coordinates_a : List (List (List R)))
    (baseCellDimension_b : Int) (blockid_b : String) (local_cell_ids_b : List Nat)
    (vertex_coordinates_b : List (List (List R))) (a b : Nat) (idxs : List Nat) :
    (pairWorkset baseCellDimension_a blockid_a local_cell_ids_a vertex_coordinates_a
      baseCellDimension_b blockid_b local_cell_ids_b vertex_coordinates_b a b idxs
      ).details0.cell_local_ids = idxs.map (fun i => local_cell_ids_a.getD i 0) ∧
    (pairWorkset baseCellDimension_a blockid_a local_cell_ids_a vertex_coordinates_a
      baseCellDimension_b blockid_b local_cell_ids_b vertex_coordinates_b a b idxs
      ).other.cell_local_ids = idxs.map (fun i => local_cell_ids_b.getD i 0) ∧
    (pairWorkset baseCellDimension_a blockid_a local_cell_ids_a vertex_coordinates_a
      baseCellDimension_b blockid_b local_cell_ids_b vertex_coordinates_b a b idxs
      ).details0.num_cells = idxs.length ∧
    (pairWorkset baseCellDimension_a blockid_a local_cell_ids_a vertex_coordinates_a
      baseCellDimension_b blockid_b local_cell_ids_b vertex_coordinates_b a b idxs
      ).other.num_cells = idxs.length ∧
    (pairWorkset baseCellDimension_a blockid_a local_cell_ids_a vertex_coordinates_a
      baseCellDimension_b blockid_b local_cell_ids_b vertex_coordinates_b a b idxs
      ).details0.subcell_index = unsignedToInt (toUnsigned a) ∧
    (pairWorkset baseCellDimension_a blockid_a local_cell_ids_a vertex_coordinates_a
      baseCellDimension_b blockid_b local_cell_ids_b vertex_coordinates_b a b idxs
      ).other.subcell_index = unsignedToInt (toUnsigned b) := by
  have hmap : ∀ l : List Nat,
      ((List.range l.length).map fun c => (c, l.getD c 0)).map Prod.snd = l := by
    intro l
    rw [List.map_map]
    have := map_getD_range l 0 id
    simp only [id, List.map_id] at this
    exact this
  unfold pairWorkset sideWorkset
  refine ⟨hmap _, hmap _, ?_, ?_, rfl, rfl⟩
  · simp only [hmap, List.length_map, List.length_range]
  · simp only [hmap, List.length_map, List.length_range]

/-- C31 (amended): in the two-sided `buildBCWorkset`, for lists of cell ids, side ids and
coordinate rows that all have the same length, with every side id of side b below 1000 and
every key `a * 1000 + b` of a cell below `2^32`, when the cells do not all have the same
pair of side ids: distinct pairs `(a, b)` have distinct keys `a * 1000 + b`, and the call
returns a map with exactly one workset per pair, in the order of the pairs and of their keys;
the workset of a pair is stored under the key of the pair and holds the cells with this pair
of side ids, those of side a in the workset itself and those of side b in its `other`. -/
theorem buildBCWorksetInterface_pair_keys (baseCellDimension_a : Int) (blockid_a : String)
    (local_cell_ids_a local_side_ids_a : List Nat) (vertex_coordinates_a : List (List (List R)))
    (baseCellDimension_b : Int) (blockid_b : String)
    (local_cell_ids_b local_side_ids_b : List Nat) (vertex_coordinates_b : List (List (List R)))
    (sip2i : List ((Nat ×ₗ Nat) × List Nat))
    (hca : local_cell_ids_a.length = local_side_ids_a.length)
    (hva : vertex_coordinates_a.length = local_side_ids_a.length)
    (hsb : local_side_ids_b.length = local_side_ids_a.length)
    (hcb : local_cell_ids_b.length = local_side_ids_a.length)
    (hvb : vertex_coordinates_b.length = local_side_ids_a.length)
    (hsmall : ∀ s ∈ local_side_ids_b, s < 1000)
    (hfit : ∀ i, i < local_side_ids_a.length →
      local_side_ids_a.getD i 0 * 1000 + local_side_ids_b.getD i 0 < 2 ^ 32)
    (hsip : associateCellsBySideIds local_side_ids_a local_side_ids_b = .ok sip2i)
    (hmany : sip2i.length ≠ 1) :
    (∀ it1 ∈ sip2i, ∀ it2 ∈ sip2i,
      (ofLex it1.1).1 * 1000 + (ofLex it1.1).2 = (ofLex it2.1).1 * 1000 + (ofLex it2.1).2 →
      it1.1 = it2.1) ∧
    ∃ mwa, buildBCWorksetInterface baseCellDimension_a blockid_a local_cell_ids_a
        local_side_ids_a vertex_coordinates_a baseCellDimension_b blockid_b local_cell_ids_b
        local_side_ids_b vertex_coordinates_b = .ok mwa ∧
      mwa.length = sip2i.length ∧
      (mwa.map Prod.fst).Pairwise (· < ·) ∧
      ∀ (j : Nat) (it : (Nat ×ₗ Nat) × List Nat), sip2i[j]? = some it →
        ∃ w, mwa[j]? = some ((ofLex it.1).1 * 1000 + (ofLex it.1).2, w) ∧
          w.details0.cell_local_ids = it.2.map (fun i => local_cell_ids_a.getD i 0) ∧
          w.other.cell_local_ids = it.2.map (fun i => local_cell_ids_b.getD i 0) ∧
          w.details0.num_cells = it.2.length ∧ w.other.num_cells = it.2.length ∧
          w.details0.subcell_index = (ofLex it.1).1 ∧
          w.other.subcell_index = (ofLex it.1).2 := by
  obtain ⟨_, hsorted, _⟩ := associateCellsBySideIds_ok_inv hsip
  have hgroup : ∀ it ∈ sip2i, it.2 ≠ [] ∧ (ofLex it.1).2 < 1000 ∧
      (ofLex it.1).1 * 1000 + (ofLex it.1).2 < 2 ^ 32 ∧
      ∀ i ∈ it.2, i < local_side_ids_a.length ∧
        local_side_ids_a.getD i 0 = (ofLex it.1).1 ∧
        local_side_ids_b.getD i 0 = (ofLex it.1).2 := by
    intro it hit
    obtain ⟨hne, hall⟩ := association_group hsip hit
    obtain ⟨i0, hi0⟩ := List.exists_mem_of_ne_nil _ hne
    obtain ⟨g1, g2, g3, g4⟩ := hall i0 hi0
    refine ⟨hne, ?_, ?_, fun i hi => ⟨(hall i hi).1, (hall i hi).2.2.1, (hall i hi).2.2.2⟩⟩
    · rw [← g4]
      exact hsmall _ (getD_mem_of_lt g2)
    · rw [← g3, ← g4]
      exact hfit i0 g1
  constructor
  · intro it1 h1 it2 h2 heq
    have b1 := (hgroup it1 h1).2.1
    have b2 := (hgroup it2 h2).2.1
    have e1 : (ofLex it1.1).1 = (ofLex it2.1).1 := by omega
    have e2 : (ofLex it1.1).2 = (ofLex it2.1).2 := by omega
    have : ofLex it1.1 = ofLex it2.1 := Prod.ext e1 e2
    exact ofLex_inj.mp this
  have hres := buildInterfacePairs_ok baseCellDimension_a blockid_a local_cell_ids_a
    local_side_ids_a vertex_coordinates_a baseCellDimension_b blockid_b local_cell_ids_b
    local_side_ids_b vertex_coordinates_b hca hva hsb hcb hvb sip2i [] hsorted hgroup
    (fun e he => by simp at he)
  rw [List.nil_append] at hres
  refine ⟨sip2i.map fun it =>
    ((ofLex it.1).1 * 1000 + (ofLex it.1).2,
      pairWorkset baseCellDimension_a blockid_a local_cell_ids_a vertex_coordinates_a
        baseCellDimension_b blockid_b local_cell_ids_b vertex_coordinates_b
        (ofLex it.1).1 (ofLex it.1).2 it.2), ?_, ?_, ?_, ?_⟩
  · unfold buildBCWorksetInterface
    rw [hsip]
    simp only
    rw [if_neg hmany]
    exact hres
  · rw [List.length_map]
  · rw [List.map_map]
    have hmono : ∀ l : List ((Nat ×ₗ Nat) × List Nat), (∀ it ∈ l, (ofLex it.1).2 < 1000) →
        (l.map Prod.fst).Pairwise (· < ·) →
        (l.map (Prod.fst ∘ fun it => ((ofLex it.1).1 * 1000 + (ofLex it.1).2,
          pairWorkset baseCellDimension_a blockid_a local_cell_ids_a vertex_coordinates_a
            baseCellDimension_b blockid_b local_cell_ids_b vertex_coordinates_b
            (ofLex it.1).1 (ofLex it.1).2 it.2))).Pairwise (· < ·) := by
      intro l
      induction l with
      | nil => intro _ _; simp
      | cons it rest ih =>
        intro hb hs
        simp only [List.map_cons, List.pairwise_cons] at hs ⊢
        refine ⟨?_, ih (fun it1 h1 => hb it1 (List.mem_cons_of_mem _ h1)) hs.2⟩
        intro k hk
        obtain ⟨it1, hit1, rfl⟩ := List.mem_map.mp hk
        exact pair_key_lt (hb it (List.mem_cons_self _ _))
          (hb it1 (List.mem_cons_of_mem _ hit1)) (hs.1 it1.1 (List.mem_map_of_mem _ hit1))
    exact hmono sip2i (fun it hit => (hgroup it hit).2.1) hsorted
  · intro j it hj
    obtain ⟨c1, c2, c3, c4, c5, c6⟩ := pairWorkset_cells baseCellDimension_a blockid_a
      local_cell_ids_a vertex_coordinates_a baseCellDimension_b blockid_b local_cell_ids_b
      vertex_coordinates_b (ofLex it.1).1 (ofLex it.1).2 it.2
    have hit : it ∈ sip2i := List.getElem?_mem hj
    obtain ⟨_, hb, hk, _⟩ := hgroup it hit
    refine ⟨_, by rw [List.getElem?_map, hj]; rfl, c1, c2, c3, c4, ?_, ?_⟩
    · rw [c5]
      unfold toUnsigned
      rw [Nat.mod_eq_of_lt (by omega)]
      exact unsignedToInt_of_lt (by omega)
    · rw [c6]
      unfold toUnsigned
      rw [Nat.mod_eq_of_lt (by omega)]
      exact unsignedToInt_of_lt (by omega)

theorem buildBCWorksetInterface_pair_keys_witness :
    (∀ it1 ∈ [(toLex (1, 2), [1]), (toLex (4, 2), [0]), (toLex (4, 5), [2])],
      ∀ it2 ∈ [(toLex (1, 2), [1]), (toLex (4, 2), [0]), (toLex (4, 5), [2])],
      (ofLex it1.1).1 * 1000 + (ofLex it1.1).2 = (ofLex it2.1).1 * 1000 + (ofLex it2.1).2 →
      it1.1 = it2.1) ∧
    ∃ mwa, buildBCWorksetInterface 3 "a" [10, 11, 12] [4, 1, 4] [[[(0 : Int)]], [[1]], [[2]]]
        3 "b" [20, 21, 22] [2, 2, 5] [[[5]], [[6]], [[7]]] = .ok mwa ∧
      mwa.length = [(toLex (1, 2), [1]), (toLex (4, 2), [0]), (toLex (4, 5), [2])].length ∧
      (mwa.map Prod.fst).Pairwise (· < ·) ∧
      ∀ (j : Nat) (it : (Nat ×ₗ Nat) × List Nat),
        [(toLex (1, 2), [1]), (toLex (4, 2), [0]), (toLex (4, 5), [2])][j]? = some it →
        ∃ w, mwa[j]? = some ((ofLex it.1).1 * 1000 + (ofLex it.1).2, w) ∧
          w.details0.cell_local_ids = it.2.map (fun i => [10, 11, 12].getD i 0) ∧
          w.other.cell_local_ids = it.2.map (fun i => [20, 21, 22].getD i 0) ∧
          w.details0.num_cells = it.2.length ∧ w.other.num_cells = it.2.length ∧
          w.details0.subcell_index = (ofLex it.1).1 ∧
          w.other.subcell_index = (ofLex it.1).2 :=
  buildBCWorksetInterface_pair_keys 3 "a" [10, 11, 12] [4, 1, 4] [[[(0 : Int)]], [[1]], [[2]]]
    3 "b" [20, 21, 22] [2, 2, 5] [[[5]], [[6]], [[7]]]
    [(toLex (1, 2), [1]), (toLex (4, 2), [0]), (toLex (4, 5), [2])]
    rfl rfl rfl rfl rfl (by decide) (by decide) rfl (by decide)

/-- C31 (as stated, refuted): for two interface cells with the pairs of side ids `(0, 1000)`
and `(1, 0)`, both pairs have the key `0 * 1000 + 1000 = 1 * 1000 + 0 = 1000`, and the
two-sided `buildBCWorkset` returns a map with one workset only: the workset of the pair
`(0, 1000)`, stored first, is overwritten by that of the pair `(1, 0)`. -/
theorem buildBCWorksetInterface_pair_keys_counterexample :
    associateCellsBySideIds [0, 1] [1000, 0]
      = .ok [(toLex (0, 1000), [0]), (toLex (1, 0), [1])] ∧
    buildBCWorksetInterface 3 "a" [10, 11] [0, 1] [[[(0 : Int)]], [[1]]]
        3 "b" [20, 21] [1000, 0] [[[5]], [[6]]]
      = .ok [(1000,
          { details0 := ⟨1, [11], [11], [[[1]]], "a", 2, 1⟩
            other := ⟨1, [21], [21], [[[6]]], "b", 2, 0⟩ })] ∧
    ¬ ∃ mwa, buildBCWorksetInterface 3 "a" [10, 11] [0, 1] [[[(0 : Int)]], [[1]]]
        3 "b" [20, 21] [1000, 0] [[[5]], [[6]]] = .ok mwa ∧ mwa.length = 2 := by
  refine ⟨rfl, rfl, ?_⟩
  rintro ⟨mwa, h, hlen⟩
  have h2 : buildBCWorksetInterface 3 "a" [10, 11] [0, 1] [[[(0 : Int)]], [[1]]]
        3 "b" [20, 21] [1000, 0] [[[5]], [[6]]]
      = .ok [(1000,
          { details0 := ⟨1, [11], [11], [[[1]]], "a", 2, 1⟩
            other := ⟨1, [21], [21], [[[6]]], "b", 2, 0⟩ })] := rfl
  rw [h2] at h
  cases h
  simp at hlen

end setup

end Panzer
